import Mathlib

/-!
# Maya pipeline tools: `AnimExporter`

A shallow embedding of the export orchestration code of `src/src/AnimExporter.cpp`.

* `std::string` is a Lean `String`, read through its character list; a byte of the
  C++ string is one `Char`.
* C++ `int` / `int64_t` values are `Int`; the frame arithmetic of the sources is far
  from the 32-bit limits, where signed overflow is undefined behaviour.
* Every interaction with the host (MEL commands, `MObject` handles, the file system)
  goes through a `Facade`, a state machine that answers requests.
-/

namespace AnimExporter

set_option linter.unusedTactic false
set_option linter.unreachableTactic false
set_option linter.unusedVariables false

/-! ## String helpers of the C++ standard library -/

/-- Index of the last occurrence of `c` at or after position `i`, scanning `cs` whose first
character has index `i`; `acc` is the last occurrence seen so far. -/
def rfindAux (c : Char) : List Char → Nat → Option Nat → Option Nat
  | [], _, acc => acc
  | x :: xs, i, acc => rfindAux c xs (i + 1) (if x = c then some i else acc)

/-- The member `std::string::rfind(char)`: index of the last occurrence, `none` for `npos`. -/
def rfind (s : String) (c : Char) : Option Nat :=
  rfindAux c s.data 0 none

/-- The member `std::string::substr(pos)`. -/
def substr (s : String) (pos : Nat) : String :=
  ⟨s.data.drop pos⟩

/-- The member `std::string::substr(pos, n)`. -/
def substrN (s : String) (pos n : Nat) : String :=
  ⟨(s.data.drop pos).take n⟩

/-- Source: `s.find(c) != std::string::npos`. -/
def hasChar (s : String) (c : Char) : Bool :=
  s.data.contains c

/-- The C function `tolower` in the "C" locale, applied to one byte. -/
def tolower (c : Char) : Char :=
  if 'A' ≤ c ∧ c ≤ 'Z' then Char.ofNat (c.toNat + 32) else c

/-! ## Name helpers (`AnimExporter.cpp`, lines 554-579) -/

/-- Source: `dagLeafName`: the part of a DAG path after its last `|`. -/
def dagLeafName (fullPath : String) : String :=
  match rfind fullPath '|' with
  | some pos => substr fullPath (pos + 1)
  | none => fullPath

/-- Source: `stripAllNamespaces`: removes all namespace segments, `A:B:Node -> Node`. -/
def stripAllNamespaces (name : String) : String :=
  match rfind name ':' with
  | some pos => substr name (pos + 1)
  | none => name

/-- Source: `dagDepth`: the number of `|` in the full path. -/
def dagDepth (fullPath : String) : Int :=
  (fullPath.data.count '|' : Nat)

/-- Source: `normalizeRootBoneName`: keep `Root`/`root`/`ROOT` (any case), else `Root`;
the empty name is returned as it is. -/
def normalizeRootBoneName (bareName : String) : String :=
  if bareName.data = [] then bareName
  else
    let lower : String := ⟨bareName.data.map tolower⟩
    if lower = "root" then bareName
    else "Root"

/-! ## Records of `AnimExporter.h` -/

/-- Source: `struct ExportResult`; `duration` is the difference of two clock readings. -/
structure ExportResult where
  success : Bool
  filePath : String
  fileSize : Int
  duration : Int
  warnings : List String
  errors : List String
  deriving DecidableEq, Repr

/-- Source: `struct FbxExportOptions` with the defaults of the header. -/
structure FbxExportOptions where
  skelAnimationOnly : Bool := false
  skelBakeComplex : Bool := true
  skelSkeletonDefs : Bool := true
  skelConstraints : Bool := false
  skelInputConns : Bool := false
  skelBlendShape : Bool := true
  bsShapes : Bool := true
  bsSmoothMesh : Bool := false
  bsIncludeSkeleton : Bool := true
  fileVersion : String := "FBX202000"
  upAxis : String := "y"
  deriving DecidableEq, Repr

/-- Source: `struct FbxContentStats`. -/
structure FbxContentStats where
  limbNodes : Int := 0
  meshes : Int := 0
  animCurves : Int := 0
  skins : Int := 0
  deformers : Int := 0
  skeletons : Int := 0
  nodeAttributes : Int := 0
  nulls : Int := 0
  blendShapes : Int := 0
  deriving DecidableEq, Repr

/-- Source: `makeResult`, with the default arguments written out at each call. -/
def makeResult (success : Bool) (filePath : String) (fileSize : Int) (duration : Int)
    (warnings : List String) (errors : List String) : ExportResult :=
  { success := success, filePath := filePath, fileSize := fileSize, duration := duration,
    warnings := warnings, errors := errors }

/-! ## The host facade

Maya and the file system are external. Every request the C++ code sends to them is a `Cmd`,
and the facade answers it with a `Resp` and moves to its next state. A MEL command line is kept
as its command name and its blank-separated words (`Cmd.text` gives the line back). -/

/-- An `MObject` handle; `none` is the null object. -/
abbrev MObject := Option Nat

/-- Requests to the host. -/
inductive Cmd where
  /-- Source: `MGlobal::executeCommand` of the line `verb args...` -/
  | mel (verb : String) (args : List String)
  /-- Source: `MSelectionList::add(name)` followed by `getDependNode` of the added item -/
  | selAdd (name : String)
  /-- Source: `MFnDagNode(obj).fullPathName()` -/
  | fullPathName (obj : MObject)
  /-- Source: `MFnDependencyNode(obj).name()` -/
  | nodeName (obj : MObject)
  /-- Source: `MFnDependencyNode(obj).setName(n)` -/
  | setName (obj : MObject) (n : String)
  /-- Source: `MFnDependencyNode(obj).isFromReferencedFile()` -/
  | isFromReferencedFile (obj : MObject)
  /-- Source: `MGlobal::setActiveSelectionList(sel, kReplaceList)` -/
  | setActiveSelectionList (sel : List MObject)
  /-- Source: `findPlug(attr)` and `setLocked(false)` on it -/
  | unlockPlug (obj : MObject) (attr : String)
  /-- Source: `MPlug::setKeyable(true)` -/
  | setKeyable (obj : MObject) (attr : String)
  /-- Source: `stat(path)` -/
  | stat (path : String)
  /-- Source: `mkdir(path)` -/
  | mkdir (path : String)
  /-- open `path` as a binary `ifstream` and read all of it -/
  | readFile (path : String)
  /-- Source: `std::time(nullptr)` -/
  | time
  deriving DecidableEq, Repr

/-- The text of a MEL command line. -/
def Cmd.text : Cmd → String
  | .mel verb args => args.foldl (fun acc a => acc ++ " " ++ a) verb
  | _ => ""

/-- Answer of the host to one request. Each call site reads the fields its C++ counterpart
reads: `ok` is `MStatus == kSuccess` (for `stat`: the call returned 0, for `readFile`: the
stream is open), `fault` says that the call throws, `reg` is the `S_IFREG` bit of `stat`;
a `double` is carried as the text `operator<<` prints for it. -/
structure Resp where
  ok : Bool := true
  fault : Bool := false
  int : Int := 0
  str : String := ""
  arr : List String := []
  obj : MObject := none
  reg : Bool := false
  deriving DecidableEq, Repr

/-- The scene facade and file system as a state machine over states `σ`. -/
abbrev Facade (σ : Type) := σ → Cmd → Resp × σ

/-- The host without a state that answers a request by the table `answer` and throws on no
request. -/
def statelessHost (answer : Cmd → Resp) : Facade Unit := fun _ c =>
  ({ answer c with fault := false }, ())

/-- State of a running call: the host state, the requests sent so far with their answers,
and the local variables of the function that its cleanup paths read. -/
structure Run (σ L : Type) where
  scene : σ
  trace : List (Cmd × Resp)
  loc : L

/-- How a block of code ends: it falls through with a value, executes `return r`,
or an exception leaves it. -/
inductive Out (ρ α : Type) where
  | val (a : α)
  | ret (r : ρ)
  | exc

/-- Code of a function with return type `ρ` and locals `L`, running against a facade. -/
structure M (σ L ρ α : Type) where
  /-- Run one block of code from a state. -/
  run : Facade σ → Run σ L → Out ρ α × Run σ L

namespace M

variable {σ L L' ρ ρ' α β : Type}

/-- Fall through with a value. -/
@[irreducible] def pure (a : α) : M σ L ρ α := ⟨fun _ s => (.val a, s)⟩

/-- Sequencing: a `return` or an exception of the first part skips the second. -/
@[irreducible] def bind (m : M σ L ρ α) (f : α → M σ L ρ β) : M σ L ρ β := ⟨fun F s =>
  match m.run F s with
  | (.val a, s1) => (f a).run F s1
  | (.ret r, s1) => (.ret r, s1)
  | (.exc, s1) => (.exc, s1)⟩

instance : Monad (M σ L ρ) where
  pure := M.pure
  bind := M.bind

/-- Send one request to the host; a faulting request raises an exception. -/
@[irreducible] def call (c : Cmd) : M σ L ρ Resp := ⟨fun F s =>
  let a := F s.scene c
  let s1 : Run σ L := { scene := a.2, trace := s.trace ++ [(c, a.1)], loc := s.loc }
  if a.1.fault then (.exc, s1) else (.val a.1, s1)⟩

/-- The statement `return r;`. -/
@[irreducible] def ret (r : ρ) : M σ L ρ α := ⟨fun _ s => (.ret r, s)⟩

/-- Read the locals. -/
@[irreducible] def getL : M σ L ρ L := ⟨fun _ s => (.val s.loc, s)⟩

/-- Assign to the locals. -/
@[irreducible] def modifyL (f : L → L) : M σ L ρ Unit :=
  ⟨fun _ s => (.val (), { s with loc := f s.loc })⟩

/-- The statement `try { body } catch (...) { handler }`. -/
@[irreducible] def tryCatch (body handler : M σ L ρ α) : M σ L ρ α := ⟨fun F s =>
  match body.run F s with
  | (.exc, s1) => handler.run F s1
  | r => r⟩

/-- Call of a lambda that captures the locals by reference: its `return` ends the lambda. -/
@[irreducible] def callSub (m : M σ L ρ' ρ') : M σ L ρ ρ' := ⟨fun F s =>
  match m.run F s with
  | (.val a, s1) => (.val a, s1)
  | (.ret r, s1) => (.val r, s1)
  | (.exc, s1) => (.exc, s1)⟩

/-- Call of a function with locals of its own, started at `l0`; a function leaves only by
`return` or by an exception. -/
@[irreducible] def callFn (m : M σ L' ρ' Empty) (l0 : L') : M σ L ρ ρ' := ⟨fun F s =>
  match m.run F { scene := s.scene, trace := s.trace, loc := l0 } with
  | (.val a, _) => nomatch a
  | (.ret r, s1) => (.val r, { scene := s1.scene, trace := s1.trace, loc := s.loc })
  | (.exc, s1) => (.exc, { scene := s1.scene, trace := s1.trace, loc := s.loc })⟩

/-- A scope that owns an object with a destructor: `release` runs when the scope is left,
whether by falling through, by `return` or by an exception. -/
@[irreducible] def withGuard (body : M σ L ρ α) (release : M σ L ρ Unit) : M σ L ρ α :=
  ⟨fun F s =>
  match body.run F s with
  | (o, s1) =>
    match release.run F s1 with
    | (.val _, s2) => (o, s2)
    | (.ret r, s2) => (.ret r, s2)
    | (.exc, s2) => (.exc, s2)⟩

/-- A range-based `for` loop over a list; `continue` is the end of the body. -/
def forEach : List α → (α → M σ L ρ Unit) → M σ L ρ Unit
  | [], _ => M.pure ()
  | x :: xs, f => M.bind (f x) fun _ => forEach xs f

/-- A `for` loop that updates variables `b` declared before it. -/
def foldM (f : β → α → M σ L ρ β) : β → List α → M σ L ρ β
  | b, [] => M.pure b
  | b, x :: xs => M.bind (f b x) fun b1 => foldM f b1 xs

/-- The statement `if (c) { body }` with code after it. -/
def when (c : Bool) (body : M σ L ρ Unit) : M σ L ρ Unit :=
  if c then body else M.pure ()

end M

/-- What a call of a function against facade `F` from host state `sc` gives: the returned
value (`none` when an exception leaves the function), the final host state and the trace. -/
structure Final (σ ρ : Type) where
  result : Option ρ
  scene : σ
  trace : List (Cmd × Resp)

/-- Run a function to its end. -/
def runFn {σ L ρ : Type} (m : M σ L ρ Empty) (l0 : L) (F : Facade σ) (sc : σ) : Final σ ρ :=
  match m.run F { scene := sc, trace := [], loc := l0 } with
  | (.val a, _) => nomatch a
  | (.ret r, s) => { result := some r, scene := s.scene, trace := s.trace }
  | (.exc, s) => { result := none, scene := s.scene, trace := s.trace }

/-! ## Helpers of `AnimExporter.cpp` that talk to the host

The logging sinks (`debugInfo`, `debugWarn`, `PluginLog`) only write log lines and are left
out; the debug helpers that query the scene are kept, since they send commands. -/

section Helpers

variable {σ L ρ : Type}

/-- A MEL string argument between double quotes. -/
def q (s : String) : String := "\"" ++ s ++ "\""

/-- The words `true` and `false` as the sources print them. -/
def boolStr (b : Bool) : String := if b then "true" else "false"

/-- The helper `melExec`: run a command, report whether it succeeded. -/
def melExec (verb : String) (args : List String) : M σ L ρ Bool := do
  let r ← M.call (.mel verb args)
  pure r.ok

/-- The helper `melQueryString`: the string result, whatever the status. -/
def melQueryString (verb : String) (args : List String) : M σ L ρ String := do
  let r ← M.call (.mel verb args)
  pure r.str

/-- The helper `melQueryStringArray`: the array result, whatever the status. -/
def melQueryStringArray (verb : String) (args : List String) : M σ L ρ (List String) := do
  let r ← M.call (.mel verb args)
  pure r.arr

/-- The helper `melQueryStringArrayChecked`: the status and the array result. -/
def melQueryStringArrayChecked (verb : String) (args : List String) :
    M σ L ρ (Bool × List String) := do
  let r ← M.call (.mel verb args)
  pure (r.ok, r.arr)

/-- The call `MGlobal::executeCommand(cmd, intResult)` with its status ignored. -/
def melQueryInt (verb : String) (args : List String) : M σ L ρ Int := do
  let r ← M.call (.mel verb args)
  pure r.int

/-- The helper `nodeExists`. -/
def nodeExists (node : String) : M σ L ρ Bool := do
  let result ← melQueryInt "objExists" [q node]
  pure (result != 0)

/-- The helper `attributeExists`. -/
def attributeExists (node attr : String) : M σ L ρ Bool := do
  let r ← M.call (.mel "attributeQuery" ["-exists", q attr, "-node", q node])
  pure (r.ok && r.int != 0)

/-- The helper `queryAttrAtTime`: only the status is used by the callers. -/
def queryAttrAtTime (node attr : String) (frame : Int) : M σ L ρ Bool := do
  let r ← M.call (.mel "getAttr" ["-time", toString frame, q (node ++ "." ++ attr)])
  pure r.ok

/-- The helper `debugJointMotionSample`: two queries per attribute, the second one only
when the first succeeded. -/
def debugJointMotionSample (joint : String) (startFrame endFrame : Int) : M σ L ρ Unit :=
  M.forEach ["tx", "ty", "tz", "rx", "ry", "rz"] fun attr => do
    let ok0 ← queryAttrAtTime joint attr startFrame
    M.when ok0 (do
      let _ ← queryAttrAtTime joint attr endFrame
      pure ())

/-- The loop of `debugWorldSpacePosition`: it stops at the first failing query. -/
def debugWorldSpacePositionLoop (joint : String) (startFrame : Int) :
    List String → M σ L ρ Unit
  | [] => pure ()
  | attr :: rest => do
    let ok ← queryAttrAtTime joint attr startFrame
    if ok then debugWorldSpacePositionLoop joint startFrame rest else pure ()

/-- The helper `debugWorldSpacePosition`. -/
def debugWorldSpacePosition (joint : String) (startFrame : Int) : M σ L ρ Unit :=
  debugWorldSpacePositionLoop joint startFrame ["tx", "ty", "tz"]

/-- The helper `debugSelectionSnapshot`. -/
def debugSelectionSnapshot : M σ L ρ Unit := do
  let _ ← melQueryStringArray "ls" ["-sl", "-long"]
  let _ ← melQueryStringArray "ls" ["-sl", "-type", "\"joint\"", "-long"]
  let _ ← melQueryStringArray "ls" ["-sl", "-type", "\"mesh\"", "-long"]
  pure ()

/-- The helper `getFileSize`. -/
def getFileSize (path : String) : M σ L ρ Int := do
  let st ← M.call (.stat path)
  pure (if st.ok then st.int else 0)

/-- The helper `fileExistsOnDisk`. -/
def fileExistsOnDisk (path : String) : M σ L ρ Bool := do
  let st ← M.call (.stat path)
  pure (st.ok && st.reg)

/-- The expression `fileExistsOnDisk(p) ? getFileSize(p) : 0`. -/
def fileSizeOrZero (path : String) : M σ L ρ Int := do
  let e ← fileExistsOnDisk path
  if e then getFileSize path else pure 0

/-- The helper `ensureDir`. -/
def ensureDir (path : String) : M σ L ρ Unit := do
  if path.data = [] then pure ()
  else
    let st ← M.call (.stat path)
    if st.ok then pure ()
    else
      let _ ← M.call (.mkdir path)
      pure ()

/-- The helper `melPath`: backslashes become forward slashes. -/
def melPath (path : String) : String :=
  ⟨path.data.map fun c => if c = '\\' then '/' else c⟩

/-- The helper `getDirname`. -/
def getDirname (path : String) : String :=
  let p := melPath path
  match rfind p '/' with
  | none => "."
  | some pos => substrN p 0 pos

/-- The first statements of each entry point: `getDirname` and `ensureDir`. -/
def ensureOutDir (outputPath : String) : M σ L ρ Unit := do
  let outDir := getDirname outputPath
  if outDir.data ≠ [] then ensureDir outDir else pure ()

/-- A reading of the clock, `std::time(nullptr)`. -/
def now : M σ L ρ Int := do
  let r ← M.call .time
  pure r.int

/-- The function `ensureFbxPlugin`. -/
def ensureFbxPlugin : M σ L ρ Bool := do
  let loaded ← melQueryInt "pluginInfo" ["-q", "-loaded", "\"fbxmaya\""]
  if loaded = 0 then
    let r ← M.call (.mel "loadPlugin" ["\"fbxmaya\""])
    if !r.ok then pure false else pure true
  else pure true

/-- The function `setFbxExportDefaults`. -/
def setFbxExportDefaults : M σ L ρ Unit := do
  let _ ← melExec "FBXExportSmoothingGroups" ["-v", "true"]
  let _ ← melExec "FBXExportSmoothMesh" ["-v", "false"]
  let _ ← melExec "FBXExportReferencedAssetsContent" ["-v", "false"]
  let _ ← melExec "FBXExportSkins" ["-v", "true"]
  let _ ← melExec "FBXExportShapes" ["-v", "true"]
  let _ ← melExec "FBXExportAnimationOnly" ["-v", "false"]
  let _ ← melExec "FBXExportBakeComplexAnimation" ["-v", "true"]
  let _ ← melExec "FBXExportConstraints" ["-v", "false"]
  let _ ← melExec "FBXExportInputConnections" ["-v", "false"]
  let _ ← melExec "FBXExportCameras" ["-v", "true"]
  let _ ← melExec "FBXExportLights" ["-v", "false"]
  let _ ← melExec "FBXExportEmbeddedTextures" ["-v", "false"]
  let _ ← melExec "FBXExportFileVersion" ["-v", "FBX201800"]
  let _ ← melExec "FBXExportUpAxis" ["y"]
  pure ()

/-- The function `setFbxBakeRange`. -/
def setFbxBakeRange (start stop : Int) : M σ L ρ Unit := do
  let _ ← melExec "FBXExportBakeComplexStart" ["-v", toString start]
  let _ ← melExec "FBXExportBakeComplexEnd" ["-v", toString stop]
  let _ ← melExec "FBXExportBakeComplexStep" ["-v", "1"]
  let _ ← melExec "FBXExportBakeResampleAnimation" ["-v", "true"]
  pure ()

/-- The export command itself, `FBXExport -f "<path>" -s`. -/
def fbxExport (outputPath : String) : M σ L ρ Bool :=
  melExec "FBXExport" ["-f", q (melPath outputPath), "-s"]

end Helpers

/-! ## Content validation (`countTokenOccurrences`, `scanFbxContent`) -/

/-- First index `≥ i` at which `needle` occurs in a text whose remaining part, from index
`i` on, is the given list. -/
def findAux (needle : List Char) : List Char → Nat → Option Nat
  | [], i => if needle = [] then some i else none
  | c :: cs, i => if needle.isPrefixOf (c :: cs) then some i else findAux needle cs (i + 1)

/-- The member `std::string::find(needle, pos)`; `none` is `npos`. -/
def find (data needle : List Char) (pos : Nat) : Option Nat :=
  if data.length < pos then none else findAux needle (data.drop pos) pos

/-- The `while` loop of `countTokenOccurrences`, run for at most `fuel` rounds;
`none` when the rounds do not suffice. -/
def countLoop (data needle : List Char) : Nat → Nat → Nat → Option Nat
  | 0, _, _ => none
  | fuel + 1, pos, count =>
    match find data needle pos with
    | none => some count
    | some p => countLoop data needle fuel (p + needle.length) (count + 1)

/-- The function `countTokenOccurrences`; `none` when the loop does not end (an empty token). -/
def countTokenOccurrences (data token : String) : Option Nat :=
  countLoop data.data token.data (data.data.length + 1) 0 0

/-- The counts of `scanFbxContent` on the bytes of an opened file. -/
def scanData (data : String) : FbxContentStats :=
  let n (token : String) : Int := ((countTokenOccurrences data token).getD 0 : Nat)
  { limbNodes := n "LimbNode", meshes := n "Mesh", animCurves := n "AnimationCurve",
    skins := n "Skin", deformers := n "Deformer", skeletons := n "Skeleton",
    nodeAttributes := n "NodeAttribute", nulls := n "Null", blendShapes := n "BlendShape" }

/-- The function `scanFbxContent`: all counts are zero when the file cannot be opened. -/
def scanFbxContent {σ L ρ : Type} (fbxPath : String) : M σ L ρ FbxContentStats := do
  let f ← M.call (.readFile fbxPath)
  if !f.ok then pure {} else pure (scanData f.str)

/-! ## Handles and selection lists -/

section Handles

variable {σ L ρ : Type}

/-- The pattern `MSelectionList sel; sel.add(name); sel.getDependNode(0, obj)`: the handle of
a named node, null when the name cannot be added. -/
def getDependNode (name : String) : M σ L ρ MObject := do
  let r ← M.call (.selAdd name)
  pure (if r.ok then r.obj else none)

/-- A selection list built by `sel.add` of each name in turn: the handles of the names that
could be added, in order. -/
def buildSelection : List String → M σ L ρ (List MObject)
  | [] => pure []
  | n :: rest => do
    let r ← M.call (.selAdd n)
    let tail ← buildSelection rest
    pure (if r.ok then r.obj :: tail else tail)

/-- The call `MFnDagNode(obj).fullPathName()`. -/
def fullPathName (obj : MObject) : M σ L ρ String := do
  let r ← M.call (.fullPathName obj)
  pure r.str

/-- The helper `isReferencedNode`. -/
def isReferencedNode (obj : MObject) : M σ L ρ Bool :=
  match obj with
  | none => pure false
  | some h => do
    let r ← M.call (.isFromReferencedFile (some h))
    pure (r.int != 0)

/-- The attribute names of `unlockTransformChannels`. -/
def kAttrs : List String :=
  ["translateX", "translateY", "translateZ", "rotateX", "rotateY", "rotateZ",
   "scaleX", "scaleY", "scaleZ"]

/-- The helper `unlockTransformChannels`: `unlockPlug` stands for `findPlug` followed by
`setLocked(false)`, and a plug that could be unlocked is made keyable. -/
def unlockTransformChannels (nodes : List String) : M σ L ρ Unit := do
  if nodes.isEmpty then pure ()
  else
    let sel ← buildSelection nodes
    M.forEach sel fun obj =>
      M.forEach kAttrs fun attr => do
        let r ← M.call (.unlockPlug obj attr)
        M.when r.ok (do
          let _ ← M.call (.setKeyable obj attr)
          pure ())

end Handles

/-! ## Rename work lists -/

/-- The local `struct WorkItem` of the rename blocks. -/
structure WorkItem where
  fullPath : String
  depth : Int
  isRoot : Bool
  leaf : String
  desiredBare : String
  needsRename : Bool
  deriving DecidableEq, Repr

/-- The call `std::sort(work.begin(), work.end(), depth-descending)`: the result is the work
list ordered by non-increasing depth. `std::sort` is not stable: the order among items of equal
depth is left open, and the library may give any of the orders that `DepthSorted` describes.
This function computes one of them, the one that keeps the first-come order among equal depths;
statements about the order of the renames are made for every order that `DepthSorted` admits,
not for this one alone. -/
def sortDeepestFirst (work : List WorkItem) : List WorkItem :=
  work.insertionSort (fun a b => a.depth ≥ b.depth)

/-- The safety check on one joint path: after dropping a leading `:` the leaf still contains
a namespace separator. -/
def leafHasNamespace (j : String) : Bool :=
  let leaf := dagLeafName j
  let leaf := if leaf.data.head? = some ':' then substr leaf 1 else leaf
  hasChar leaf ':'

/-- The count `namespacedCount` of the safety check. -/
def namespacedCount (allJoints : List String) : Nat :=
  (allJoints.filter leafHasNamespace).length

/-- Ordered insertion into a `std::set<std::string>` kept as a sorted list without
duplicates. -/
def setInsert (x : String) : List String → List String
  | [] => [x]
  | y :: ys =>
    if x = y then y :: ys
    else if x.data < y.data then x :: y :: ys
    else y :: setInsert x ys

/-! ## Source function `exportSkeletonFbxViaDuplicate` (lines 1017-1424) -/

/-- The variables of `exportSkeletonFbxViaDuplicate` that `cleanupDup` and the `catch` block
read. -/
structure DupLocals where
  warnings : List String := []
  dupRootObj : MObject := none
  dupRoot : String := ""

section ViaDuplicate

variable {σ ρ : Type}

/-- The lambda `cleanupDup`: delete the duplicate root, through its handle when there is one,
else by its recorded name; an exception inside is swallowed. -/
def cleanupDup : M σ DupLocals ρ Unit :=
  M.tryCatch
    (do
      let l ← M.getL
      if l.dupRootObj.isSome then
        let p ← fullPathName l.dupRootObj
        if p.data ≠ [] then
          let _ ← melExec "delete" [q p]
          pure ()
        else pure ()
      else if l.dupRoot.data ≠ [] then
        let _ ← melExec "delete" [q l.dupRoot]
        pure ()
      else pure ())
    (pure ())

/-- Append to the local `warnings`. -/
def dupWarn (w : String) : M σ DupLocals ρ Unit :=
  M.modifyL fun l => { l with warnings := l.warnings ++ [w] }

/-- Step 2b, only for `AnimationOnly`: delete the mesh shapes that sit directly under a joint,
collect the other mesh parents in a `std::set` and delete them. -/
def removeDupMeshes (dupRoot : String) : M σ DupLocals ρ Unit := do
  let meshShapes ← melQueryStringArray "listRelatives"
    ["-allDescendents", "-type", "\"mesh\"", "-fullPath", q dupRoot]
  let meshParentTransforms ← M.foldM (fun (acc : List String) shape => do
      let parents ← melQueryStringArray "listRelatives" ["-parent", "-fullPath", q shape]
      match parents with
      | [] => pure acc
      | parent :: _ =>
        let parentType ← melQueryString "nodeType" [q parent]
        if parentType = "joint" then
          let _ ← melExec "delete" [q shape]
          pure acc
        else pure (setInsert parent acc)) [] meshShapes
  M.forEach meshParentTransforms fun t => do
    let _ ← melExec "delete" [q t]
    pure ()

/-- The counters and the list that the constraint loop updates. -/
structure ConstraintTally where
  constraints : List String := []
  created : Int := 0
  returnedZero : Int := 0
  failed : Int := 0
  failedSamples : Int := 0

/-- The failure branch of the constraint loop: count the failure, and for the first five
failures check that both nodes exist (for the log). -/
def constraintFailed (t : ConstraintTally) (pair : String × String) :
    M σ DupLocals ρ ConstraintTally := do
  M.when (decide (t.failedSamples < 5)) (do
    let _ ← nodeExists pair.1
    let _ ← nodeExists pair.2
    pure ())
  pure { t with
    failed := t.failed + 1
    failedSamples := if t.failedSamples < 5 then t.failedSamples + 1 else t.failedSamples }

/-- One round of the constraint loop (step 4): a `parentConstraint` first, an
`orientConstraint` when that fails or returns nothing. -/
def constrainPair (t : ConstraintTally) (pair : String × String) :
    M σ DupLocals ρ ConstraintTally := do
  let first ← melQueryStringArrayChecked "parentConstraint" [q pair.1, q pair.2]
  let res ← (if !first.1 || first.2.isEmpty then
      melQueryStringArrayChecked "orientConstraint" [q pair.1, q pair.2]
    else pure first)
  if !res.1 || res.2.isEmpty then constraintFailed t pair
  else if res.2.headD "" = "0" then pure { t with returnedZero := t.returnedZero + 1 }
  else pure { t with
    constraints := t.constraints ++ [res.2.headD ""]
    created := t.created + 1 }

/-- The work list of step 6: the desired bare name comes from the original joint, the
duplicate joint is the one renamed; `isRoot` marks the last entry. -/
def dupWorkList (origJoints dupJoints : List String) : List WorkItem :=
  (List.zip dupJoints origJoints).enum.map fun (i, d, o) =>
    let isRoot := (i + 1 = dupJoints.length)
    let desired0 := stripAllNamespaces (dagLeafName o)
    let desired := if isRoot then normalizeRootBoneName desired0 else desired0
    let dupLeaf := dagLeafName d
    { fullPath := d, depth := dagDepth d, isRoot := isRoot, leaf := dupLeaf,
      desiredBare := desired,
      needsRename := (stripAllNamespaces dupLeaf != desired) || hasChar dupLeaf ':' }

/-- The rename loop of both strategies: every work item that needs it is renamed to
`:<desiredBare>`, in the order of the list. -/
def renameWork {L : Type} (work : List WorkItem) : M σ L ρ Unit :=
  M.forEach work fun wi =>
    M.when wi.needsRename (do
      let _ ← melQueryString "rename" [q wi.fullPath, q (":" ++ wi.desiredBare)]
      pure ())

/-- Delete every constraint that the loop created. -/
def deleteConstraints (constraints : List String) : M σ DupLocals ρ Unit :=
  M.forEach constraints fun c => do
    let _ ← melExec "delete" [q c]
    pure ()

/-- Steps 6 to 8 of `exportSkeletonFbxViaDuplicate` (lines 1212-1416), reached when at least
one constraint was created: rename the duplicate joints, select, export, validate, and clean
up. -/
def exportConstrained (outputPath : String) (startFrame endFrame : Int)
    (opts : FbxExportOptions) (startTime : Int) (obj : MObject)
    (origJoints dupJoints : List String) (t : ConstraintTally) :
    M σ DupLocals ExportResult Empty := do
  M.when (decide (t.failed > 0) || decide (t.returnedZero > 0))
    (dupWarn ("Duplicate constraint creation partial: created=" ++ toString t.created
      ++ ", failed=" ++ toString t.failed ++ ", returnedZero=" ++ toString t.returnedZero))
  -- 6) strip namespaces on the duplicate joints, normalize the root name
  renameWork (sortDeepestFirst (dupWorkList origJoints dupJoints))
  M.when obj.isSome (do
    let p ← fullPathName obj
    M.modifyL fun l => { l with dupRoot := p })
  let dupRoot := (← M.getL).dupRoot
  let allDesc ← melQueryStringArray "listRelatives"
    ["-allDescendents", "-type", "\"joint\"", "-fullPath", q dupRoot]
  let allJoints := allDesc ++ [dupRoot]
  M.when (decide (namespacedCount allJoints > 0)) (do
    cleanupDup
    let l ← M.getL
    M.ret (makeResult false outputPath 0 0 l.warnings
      ["Duplicate skeleton joints still contain namespaces"]))
  let sel ← buildSelection allJoints
  let _ ← M.call (.setActiveSelectionList sel)
  let _ ← melQueryStringArray "ls" ["-sl", "-type", "\"joint\""]
  debugSelectionSnapshot
  debugJointMotionSample dupRoot startFrame endFrame
  debugWorldSpacePosition dupRoot startFrame
  -- 7) export
  setFbxExportDefaults
  let _ ← melExec "FBXExportSkeletonDefinitions" ["-v", boolStr opts.skelSkeletonDefs]
  let _ ← melExec "FBXExportAnimationOnly" ["-v", "false"]
  M.when (!opts.skelSkeletonDefs) (dupWarn
    "SkeletonDefs(UI)=false: FBX skeleton hierarchy metadata may be incomplete in some DCC/engines")
  M.when opts.skelAnimationOnly (dupWarn
    "AnimationOnly(UI)=true: force FBXExportAnimationOnly=false to keep skeleton hierarchy")
  M.when (!opts.skelBakeComplex) (dupWarn
    "Duplicate skeleton export forces BakeComplex=true to sample constraints")
  let _ ← melExec "FBXExportBakeComplexAnimation" ["-v", "true"]
  let _ ← melExec "FBXExportConstraints" ["-v", boolStr opts.skelConstraints]
  let effectiveInputConns := (!opts.skelAnimationOnly) && opts.skelInputConns
  let _ ← melExec "FBXExportInputConnections" ["-v", boolStr effectiveInputConns]
  let _ ← melExec "FBXExportSkins" ["-v", boolStr (!opts.skelAnimationOnly)]
  let _ ← melExec "FBXExportShapes" ["-v", boolStr (!opts.skelAnimationOnly)]
  setFbxBakeRange startFrame endFrame
  let _ ← melExec "FBXExportFileVersion" ["-v", opts.fileVersion]
  let _ ← melExec "FBXExportUpAxis" [opts.upAxis]
  let fbxExportOk ← fbxExport outputPath
  M.when (!fbxExportOk) (do
    deleteConstraints t.constraints
    cleanupDup
    let duration := (← now) - startTime
    let fileSize ← fileSizeOrZero outputPath
    let l ← M.getL
    M.ret (makeResult false outputPath fileSize duration l.warnings
      ["FBXExport command failed in duplicate skeleton export"]))
  let fbxStats ← scanFbxContent outputPath
  let expectedSkeletons : Int := (dupJoints.length : Nat)
  M.when (decide (expectedSkeletons > 0) && decide (fbxStats.skeletons > 0) &&
      fbxStats.skeletons != expectedSkeletons &&
      fbxStats.skeletons != expectedSkeletons + 1)
    (dupWarn ("exportSkeletonFbxViaDuplicate: exported skeleton-count mismatch, expected="
      ++ toString expectedSkeletons ++ "~" ++ toString (expectedSkeletons + 1)
      ++ ", actual=" ++ toString fbxStats.skeletons))
  M.when (decide (fbxStats.skeletons ≤ 0))
    (dupWarn "Duplicate skeleton export contains no 'Skeleton' node attributes")
  deleteConstraints t.constraints
  let duration := (← now) - startTime
  let fileSize ← fileSizeOrZero outputPath
  -- 8) clean up the duplicate skeleton
  cleanupDup
  M.when (decide (fileSize ≤ 0)) (do
    let l ← M.getL
    M.ret (makeResult false outputPath fileSize duration l.warnings
      ["Skeleton export produced empty file"]))
  M.when (decide (fbxStats.limbNodes ≤ 0)) (do
    let l ← M.getL
    M.ret (makeResult false outputPath fileSize duration l.warnings
      ["Skeleton export did not contain LimbNode bones"]))
  dupWarn "Skeleton was referenced/read-only; exported via temporary duplicate skeleton"
  dupWarn "Namespaces stripped on duplicate skeleton during export"
  let l ← M.getL
  M.ret (makeResult true outputPath fileSize duration l.warnings [])

/-- Steps 2 to 4 of `exportSkeletonFbxViaDuplicate` (lines 1063-1211), reached when the
duplicate root `d0` was created: make it top-level, collect the joint lists, constrain the
duplicate joints to the originals, and abort when no constraint could be created. -/
def constrainDuplicate (srcRootJoint outputPath : String) (startFrame endFrame : Int)
    (opts : FbxExportOptions) (startTime : Int) (d0 : String) :
    M σ DupLocals ExportResult Empty := do
  M.modifyL fun l => { l with dupRoot := d0 }
  let obj ← getDependNode d0
  M.modifyL fun l => { l with dupRootObj := obj }
  -- 2) make the duplicate root top-level
  let _ ← melExec "parent" ["-world", q d0]
  M.when obj.isSome (do
    let p ← fullPathName obj
    M.modifyL fun l => { l with dupRoot := p })
  let dupRoot := (← M.getL).dupRoot
  M.when opts.skelAnimationOnly (removeDupMeshes dupRoot)
  -- 3) collect original and duplicate joint lists
  let origDesc ← melQueryStringArray "listRelatives"
    ["-allDescendents", "-type", "\"joint\"", "-fullPath", q srcRootJoint]
  let origJoints := origDesc ++ [srcRootJoint]
  let dupDesc ← melQueryStringArray "listRelatives"
    ["-allDescendents", "-type", "\"joint\"", "-fullPath", q dupRoot]
  let dupJoints := dupDesc ++ [dupRoot]
  debugJointMotionSample srcRootJoint startFrame endFrame
  debugWorldSpacePosition srcRootJoint startFrame
  M.when (origJoints.length != dupJoints.length || dupJoints.isEmpty) (do
    cleanupDup
    let l ← M.getL
    M.ret (makeResult false outputPath 0 0 l.warnings
      ["Duplicate skeleton joint count mismatch"]))
  -- 4) constrain duplicates to originals
  unlockTransformChannels dupJoints
  let t ← M.foldM constrainPair {} (List.zip origJoints dupJoints)
  M.when (decide (t.created ≤ 0)) (do
    cleanupDup
    let l ← M.getL
    M.ret (makeResult false outputPath 0 0 l.warnings
      ["Failed to create constraints for duplicate skeleton (animation would be static)"]))
  exportConstrained outputPath startFrame endFrame opts startTime obj origJoints dupJoints t

/-- The body of the `try` block of `exportSkeletonFbxViaDuplicate`. -/
def exportSkeletonFbxViaDuplicateBody (srcRootJoint outputPath : String)
    (startFrame endFrame : Int) (opts : FbxExportOptions) (startTime : Int) :
    M σ DupLocals ExportResult Empty := do
  ensureOutDir outputPath
  -- 1) duplicate the joint hierarchy
  let first ← melQueryStringArrayChecked "duplicate" ["-rc", q srcRootJoint]
  let dupRoots ← (if !first.1 || first.2.isEmpty then do
      let second ← melQueryStringArrayChecked "duplicate" [q srcRootJoint]
      pure second.2
    else pure first.2)
  match dupRoots with
  | [] =>
    let l ← M.getL
    M.ret (makeResult false outputPath 0 0 l.warnings
      ["Failed to duplicate skeleton root: " ++ srcRootJoint])
  | d0 :: _ =>
    constrainDuplicate srcRootJoint outputPath startFrame endFrame opts startTime d0

/-- The function `exportSkeletonFbxViaDuplicate`: the body inside `try`, and the `catch (...)`
block that cleans up and reports an unknown exception. -/
def exportSkeletonFbxViaDuplicate (srcRootJoint outputPath : String)
    (startFrame endFrame : Int) (opts : FbxExportOptions) :
    M σ DupLocals ExportResult Empty := do
  let startTime ← now
  M.tryCatch
    (exportSkeletonFbxViaDuplicateBody srcRootJoint outputPath startFrame endFrame opts startTime)
    (do
      cleanupDup
      let duration := (← now) - startTime
      let l ← M.getL
      M.ret (makeResult false outputPath 0 duration l.warnings
        ["Skeleton export failed (duplicate path): unknown exception"]))

end ViaDuplicate

/-! ## Source function `exportCameraFbx` (lines 1426-1838) -/

/-- The helper `basenameNoExt`: the file name without directories and without its extension. -/
def basenameNoExt (path : String) : String :=
  let p := melPath path
  let name := match rfind p '/' with
    | some slash => substr p (slash + 1)
    | none => p
  match rfind name '.' with
  | some dot => substrN name 0 dot
  | none => name

/-- The helper `sanitizeMayaName`: every byte that is not a letter, a digit or `_` becomes `_`,
a leading digit gets the prefix `n_`, the empty name becomes `exported_camera`. -/
def sanitizeMayaName (name : String) : String :=
  if name.data = [] then "exported_camera"
  else
    let ok (c : Char) : Bool :=
      ('a' ≤ c && c ≤ 'z') || ('A' ≤ c && c ≤ 'Z') || ('0' ≤ c && c ≤ '9') || c = '_'
    let out := name.data.map fun c => if ok c then c else '_'
    match out with
    | c :: _ => if '0' ≤ c && c ≤ '9' then ⟨"n_".data ++ out⟩ else ⟨out⟩
    | [] => ⟨out⟩

/-- The variables of `exportCameraFbx` that `cleanupTmp` and the `catch` block read. -/
structure CamLocals where
  warnings : List String := []
  tmpNodesToDelete : List String := []

/-- The integer frames `startFrame, startFrame + 1, ..., endFrame` of a `for` loop
`for (int f = startFrame; f <= endFrame; ++f)`. -/
def frameList (startFrame endFrame : Int) : List Int :=
  (List.range (endFrame - startFrame + 1).toNat).map fun i => startFrame + (i : Nat)

/-- The attribute names `kShapeAttrs`. -/
def kShapeAttrs : List String :=
  ["focalLength", "horizontalFilmAperture", "verticalFilmAperture",
   "horizontalFilmOffset", "verticalFilmOffset", "lensSqueezeRatio",
   "filmFit", "filmFitOffset", "nearClipPlane", "farClipPlane",
   "fStop", "focusDistance", "shutterAngle", "orthographicWidth",
   "panZoomEnabled", "horizontalPan", "verticalPan", "zoom"]

/-- The words of the command of `keyTransformAtFrame`. -/
def keyTransformArgs (node : String) (frame : Int) : List String :=
  ["-t", toString frame, "-at", "\"tx\"", "-at", "\"ty\"", "-at", "\"tz\"",
   "-at", "\"rx\"", "-at", "\"ry\"", "-at", "\"rz\"",
   "-at", "\"sx\"", "-at", "\"sy\"", "-at", "\"sz\"", q node]

/-- The words of a `cutKey -clear -time "<range>" "<node>"` command. -/
def cutKeyArgs (range node : String) : List String :=
  ["-clear", "-time", q range, q node]

section Camera

variable {σ ρ : Type}

/-- The lambda `cleanupTmp`: delete every recorded temporary node that still exists. -/
def cleanupTmp : M σ CamLocals ρ Unit := do
  let l ← M.getL
  M.forEach l.tmpNodesToDelete (fun n =>
    if n.data ≠ [] then do
      let e ← nodeExists n
      M.when e (do
        let _ ← melExec "delete" [q n]
        pure ())
    else pure ())
  M.modifyL fun l => { l with tmpNodesToDelete := [] }

/-- Append to the local `warnings`. -/
def camWarn (w : String) : M σ CamLocals ρ Unit :=
  M.modifyL fun l => { l with warnings := l.warnings ++ [w] }

/-- The helper `queryWorldMatrix`: the sixteen entries, `none` on failure. -/
def queryWorldMatrix (node : String) : M σ CamLocals ρ (Option (List String)) := do
  let r ← M.call (.mel "xform" ["-q", "-ws", "-matrix", q node])
  pure (if !r.ok || r.arr.length != 16 then none else some r.arr)

/-- The helper `setWorldMatrix`. -/
def setWorldMatrix (node : String) (m : List String) : M σ CamLocals ρ Bool :=
  melExec "xform" (["-ws", "-matrix"] ++ m ++ [q node])

/-- The helper `keyTransformAtFrame`. -/
def keyTransformAtFrame (node : String) (frame : Int) : M σ CamLocals ρ Bool :=
  melExec "setKeyframe" (keyTransformArgs node frame)

/-- The helper `copyScalarAttr`: connect the attribute, or copy its value. -/
def copyScalarAttrBody (srcNode dstNode attr : String) : M σ CamLocals Bool Bool := do
  let e1 ← attributeExists srcNode attr
  M.when (!e1) (M.ret false)
  let e2 ← attributeExists dstNode attr
  M.when (!e2) (M.ret false)
  let src := srcNode ++ "." ++ attr
  let dst := dstNode ++ "." ++ attr
  let conn ← melExec "connectAttr" ["-f", q src, q dst]
  M.when conn (M.ret true)
  let type ← melQueryString "getAttr" ["-type", q src]
  if type = "bool" || type = "byte" || type = "short" || type = "long" || type = "enum" then do
    let v ← M.call (.mel "getAttr" [q src])
    if v.ok then melExec "setAttr" [q dst, toString v.int] else pure false
  else do
    let dv ← M.call (.mel "getAttr" [q src])
    if dv.ok then melExec "setAttr" [q dst, dv.str] else pure false

/-- A call of `copyScalarAttr`. -/
def copyScalarAttr (srcNode dstNode attr : String) : M σ CamLocals ρ Bool :=
  M.callSub (copyScalarAttrBody srcNode dstNode attr)

/-- The loop over `kShapeAttrs`: the plugs that could be copied or connected. -/
def copyShapeAttrs (srcShape tmpCamShape : String) : M σ CamLocals ρ (List String) :=
  M.foldM (fun (driven : List String) a => do
      let ok ← copyScalarAttr srcShape tmpCamShape a
      if ok then do
        let _ ← melQueryInt "connectionInfo" ["-isDestination", q (tmpCamShape ++ "." ++ a)]
        pure (driven ++ [tmpCamShape ++ "." ++ a])
      else pure driven) [] kShapeAttrs

/-- The stale temporary camera of a crashed run is deleted when it carries the marker. -/
def deleteStaleTempCamera (desired : String) : M σ CamLocals ρ Unit := do
  let e ← nodeExists desired
  let marked ← (if e then attributeExists desired "ptTempExportCam" else pure false)
  M.when marked (do
    let v ← M.call (.mel "getAttr" [q (desired ++ ".ptTempExportCam")])
    M.when (v.ok && v.int != 0) (do
      let _ ← melExec "delete" [q desired]
      pure ()))

/-- Disconnect a driven `focalLength` of the temporary shape before the per-frame keying. -/
def disconnectFocalLength (tmpCamShape : String) : M σ CamLocals ρ Unit :=
  M.when (decide (tmpCamShape.data ≠ [])) (do
    let isConn ← melQueryInt "connectionInfo"
      ["-isDestination", q (tmpCamShape ++ ".focalLength")]
    M.when (isConn != 0) (do
      let srcPlug ← melQueryString "connectionInfo"
        ["-sourceFromDestination", q (tmpCamShape ++ ".focalLength")]
      M.when (decide (srcPlug.data ≠ [])) (do
        let _ ← melExec "disconnectAttr" [q srcPlug, q (tmpCamShape ++ ".focalLength")]
        pure ())))

/-- A failing `return` of the per-frame loop: clean up, read the clock, report. -/
def camFrameFail (outputPath : String) (startTime : Int) (msg : String) :
    M σ CamLocals ExportResult Unit := do
  cleanupTmp
  let duration := (← now) - startTime
  let l ← M.getL
  M.ret (makeResult false outputPath 0 duration l.warnings [msg])

/-- The body of the per-frame loop for frame `f`. -/
def keyFrame (cameraTransform outputPath srcShape tmpCamXform tmpCamShape : String)
    (startTime : Int) (f : Int) : M σ CamLocals ExportResult Unit := do
  let _ ← melExec "currentTime" ["-e", toString f]
  let m ← queryWorldMatrix cameraTransform
  M.when m.isNone (camFrameFail outputPath startTime
    ("Failed to query source camera world matrix at frame " ++ toString f))
  let okSet ← setWorldMatrix tmpCamXform (m.getD [])
  M.when (!okSet) (camFrameFail outputPath startTime
    ("Failed to set temp camera world matrix at frame " ++ toString f))
  let okKey ← keyTransformAtFrame tmpCamXform f
  M.when (!okKey) (camFrameFail outputPath startTime
    ("Failed to key temp camera at frame " ++ toString f))
  M.when (decide (srcShape.data ≠ []) && decide (tmpCamShape.data ≠ [])) (do
    let fl ← melQueryString "getAttr" [q (srcShape ++ ".focalLength")]
    let _ ← melExec "setAttr" [q (tmpCamShape ++ ".focalLength"), fl]
    let _ ← melExec "setKeyframe"
      ["-attribute", "\"focalLength\"", "-time", toString f, "-value", fl, q tmpCamShape]
    pure ())

/-- The defensive clip: clear the keys before the first and after the last frame, on the
transform and on the shape. -/
def clipOutsideRange (startFrame endFrame : Int) (tmpCamXform tmpCamShape : String) :
    M σ CamLocals ρ Unit := do
  let cutBefore := startFrame - 1
  let cutAfter := endFrame + 1
  let _ ← melExec "cutKey" (cutKeyArgs (":" ++ toString cutBefore) tmpCamXform)
  let _ ← melExec "cutKey" (cutKeyArgs (toString cutAfter ++ ":") tmpCamXform)
  let _ ← melExec "cutKey" (cutKeyArgs (":" ++ toString cutBefore) tmpCamShape)
  let _ ← melExec "cutKey" (cutKeyArgs (toString cutAfter ++ ":") tmpCamShape)
  pure ()

/-- The part of the temporary-camera branch that runs while the `RefreshSuspendGuard` is
alive: disconnect, key every frame, restore the time, bake, clip, select. -/
def keyTempCamera (cameraTransform outputPath srcShape tmpCamXform tmpCamShape : String)
    (startFrame endFrame startTime : Int) (prevTime : String) (drivenShapePlugs0 : List String) :
    M σ CamLocals ExportResult Unit := do
  disconnectFocalLength tmpCamShape
  let drivenShapePlugs := drivenShapePlugs0.filter (· != tmpCamShape ++ ".focalLength")
  M.forEach (frameList startFrame endFrame)
    (keyFrame cameraTransform outputPath srcShape tmpCamXform tmpCamShape startTime)
  let _ ← melExec "currentTime" ["-e", prevTime]
  M.when (decide (tmpCamShape.data ≠ [])) (do
    let _ ← melQueryInt "keyframe" ["-q", "-keyframeCount", q (tmpCamShape ++ ".focalLength")]
    pure ())
  M.when (!drivenShapePlugs.isEmpty) (do
    let ok ← melExec "bakeResults"
      (["-simulation", "true", "-time", q (toString startFrame ++ ":" ++ toString endFrame),
        "-sampleBy", "1", "-oversamplingRate", "1", "-disableImplicitControl", "true",
        "-preserveOutsideKeys", "false", "-sparseAnimCurveBake", "false"]
        ++ drivenShapePlugs.map q)
    M.when (!ok) (camWarn "Failed to bake temp camera shape attributes"))
  clipOutsideRange startFrame endFrame tmpCamXform tmpCamShape
  let _ ← melExec "select" ["-replace", q tmpCamXform]
  pure ()

/-- The `else` branch of `exportCameraFbx`: the temporary camera exists. -/
def useTempCamera (cameraTransform outputPath srcShape tmpCamXform0 tmpCamShape0 : String)
    (startFrame endFrame startTime : Int) : M σ CamLocals ExportResult Unit := do
  let full ← melQueryStringArray "ls" ["-l", q tmpCamXform0]
  let tmpCamXform := full.headD tmpCamXform0
  let shapes ← melQueryStringArray "listRelatives"
    ["-shapes", "-type", "\"camera\"", "-fullPath", q tmpCamXform]
  let tmpCamShape := shapes.headD tmpCamShape0
  M.modifyL fun l => { l with tmpNodesToDelete := l.tmpNodesToDelete ++ [tmpCamXform] }
  let marked ← attributeExists tmpCamXform "ptTempExportCam"
  M.when (!marked) (do
    let _ ← melExec "addAttr" ["-ln", "\"ptTempExportCam\"", "-at", "bool", q tmpCamXform]
    let _ ← melExec "setAttr" [q (tmpCamXform ++ ".ptTempExportCam"), "1"]
    pure ())
  let drivenShapePlugs ←
    (if srcShape.data ≠ [] ∧ tmpCamShape.data ≠ [] then copyShapeAttrs srcShape tmpCamShape
     else pure [])
  M.when (decide (srcShape.data ≠ [])) (do
    let _ ← melQueryString "getAttr" [q (srcShape ++ ".focalLength")]
    let _ ← melQueryInt "keyframe" ["-q", "-keyframeCount", q (srcShape ++ ".focalLength")]
    let _ ← melQueryInt "connectionInfo" ["-isDestination", q (srcShape ++ ".focalLength")]
    pure ())
  let prevTime ← melQueryString "currentTime" ["-q"]
  -- RefreshSuspendGuard: constructor here, destructor when the block is left
  let prevSuspend ← melQueryInt "refresh" ["-q", "-suspend"]
  let active ← melExec "refresh" ["-suspend", "true"]
  M.withGuard
    (keyTempCamera cameraTransform outputPath srcShape tmpCamXform tmpCamShape
      startFrame endFrame startTime prevTime drivenShapePlugs)
    (M.when active (do
      let _ ← melExec "refresh" ["-suspend", boolStr (prevSuspend != 0)]
      pure ()))

/-- The body of the `try` block of `exportCameraFbx`. -/
def exportCameraFbxBody (cameraTransform outputPath : String) (startFrame0 endFrame0 : Int)
    (opts : FbxExportOptions) (startTime : Int) : M σ CamLocals ExportResult Empty := do
  ensureOutDir outputPath
  let startFrame := if endFrame0 < startFrame0 then endFrame0 else startFrame0
  let endFrame := if endFrame0 < startFrame0 then startFrame0 else endFrame0
  let srcShapes ← melQueryStringArray "listRelatives"
    ["-shapes", "-type", "\"camera\"", "-fullPath", q cameraTransform]
  let srcShape := srcShapes.headD ""
  let desired := sanitizeMayaName (basenameNoExt outputPath)
  deleteStaleTempCamera desired
  let created ← melQueryStringArray "camera" ["-name", "\"__PT_ExportCamTmp\""]
  let tmpCamXform0 := if created.length ≥ 2 then created.headD "" else ""
  let tmpCamShape := if created.length ≥ 2 then created.tail.headD "" else ""
  let tmpCamXform ← (if tmpCamXform0.data ≠ [] then do
      let renamed ← melQueryString "rename" [q tmpCamXform0, q desired]
      let got := dagLeafName renamed
      M.when (decide (renamed.data ≠ []) && got != desired)
        (camWarn ("Temp camera rename mismatch: wanted '" ++ desired ++ "', got '" ++ got ++ "'"))
      pure (if renamed.data ≠ [] then renamed else tmpCamXform0)
    else pure tmpCamXform0)
  (if tmpCamXform.data = [] ∨ tmpCamShape.data = [] then do
      camWarn "Failed to create temp camera; exporting original camera (may include out-of-range keys)"
      let _ ← melExec "select" ["-replace", q cameraTransform]
      pure ()
    else
      useTempCamera cameraTransform outputPath srcShape tmpCamXform tmpCamShape
        startFrame endFrame startTime)
  setFbxExportDefaults
  let _ ← melExec "FBXExportCameras" ["-v", "true"]
  setFbxBakeRange startFrame endFrame
  let _ ← melExec "FBXExportFileVersion" ["-v", opts.fileVersion]
  let _ ← melExec "FBXExportUpAxis" [opts.upAxis]
  let fbxExportOk ← fbxExport outputPath
  M.when (!fbxExportOk) (do
    cleanupTmp
    let duration := (← now) - startTime
    let fileSize ← fileSizeOrZero outputPath
    let l ← M.getL
    M.ret (makeResult false outputPath fileSize duration l.warnings
      ["FBXExport command failed in camera export"]))
  let _ ← scanFbxContent outputPath
  cleanupTmp
  let duration := (← now) - startTime
  let fileSize ← fileSizeOrZero outputPath
  let l ← M.getL
  M.ret (makeResult true outputPath fileSize duration l.warnings [])

/-- The function `exportCameraFbx`. -/
def exportCameraFbx (cameraTransform outputPath : String) (startFrame endFrame : Int)
    (opts : FbxExportOptions) : M σ CamLocals ExportResult Empty := do
  let startTime ← now
  let plugin ← ensureFbxPlugin
  M.when (!plugin) (M.ret (makeResult false outputPath 0 0 [] ["fbxmaya plugin load failed"]))
  let e ← nodeExists cameraTransform
  M.when (!e) (M.ret (makeResult false outputPath 0 0 []
    ["Camera node does not exist: " ++ cameraTransform]))
  M.tryCatch
    (exportCameraFbxBody cameraTransform outputPath startFrame endFrame opts startTime)
    (do
      cleanupTmp
      let duration := (← now) - startTime
      let l ← M.getL
      M.ret (makeResult false outputPath 0 duration l.warnings
        ["Camera export failed: unknown exception"]))

end Camera

/-! ## Mesh collection helpers (lines 432-529) -/

section MeshCollect

variable {σ L ρ : Type}

/-- The loop shared by the mesh collectors: the parent transform of every shape, gathered in
a `std::set`. -/
def parentsOfShapes (meshShapes : List String) : M σ L ρ (List String) :=
  M.foldM (fun (acc : List String) shape => do
      let parent ← melQueryStringArray "listRelatives" ["-parent", "-fullPath", q shape]
      pure (match parent with
        | [] => acc
        | p0 :: _ => setInsert p0 acc)) [] meshShapes

/-- The helper `collectMeshTransformsUnderNode`. -/
def collectMeshTransformsUnderNode (node : String) : M σ L ρ (List String) :=
  if node.data = [] then pure []
  else do
    let meshShapes ← melQueryStringArray "listRelatives"
      ["-allDescendents", "-type", "\"mesh\"", "-fullPath", q node]
    parentsOfShapes meshShapes

/-- The helper `collectMeshTransformsByNamespace`. -/
def collectMeshTransformsByNamespace (node : String) : M σ L ρ (List String) :=
  let leaf := dagLeafName node
  match rfind leaf ':' with
  | none => pure []
  | some nsPos =>
    let ns := substrN leaf 0 nsPos
    if ns.data = [] then pure []
    else do
      let meshShapes ← melQueryStringArray "ls" ["-long", "-type", "\"mesh\"", q (ns ++ ":*")]
      parentsOfShapes meshShapes

/-- The skin clusters connected to the joints, gathered in a `std::set`. -/
def skinClustersOfJoints (joints : List String) : M σ L ρ (List String) :=
  M.foldM (fun (acc : List String) j => do
      let c1 ← melQueryStringArray "listConnections"
        ["-source", "true", "-destination", "false", "-type", "\"skinCluster\"", q j]
      let clusters ← (if c1.isEmpty then
          melQueryStringArray "listConnections"
            ["-source", "true", "-destination", "true", "-type", "\"skinCluster\"", q j]
        else pure c1)
      pure (clusters.foldl (fun a c => setInsert c a) acc)) [] joints

/-- The mesh transforms deformed by one skin cluster, added to the set `acc`. -/
def meshTransformsOfSkin (acc : List String) (skin : String) : M σ L ρ (List String) := do
  let geos ← melQueryStringArray "skinCluster" ["-q", "-g", q skin]
  M.foldM (fun (acc : List String) g => do
      let full ← melQueryStringArray "ls" ["-long", q g]
      let geo := full.headD g
      let geoType ← melQueryString "nodeType" [q geo]
      if geoType = "mesh" then do
        let parent ← melQueryStringArray "listRelatives" ["-parent", "-fullPath", q geo]
        pure (match parent with
          | [] => acc
          | p0 :: _ => setInsert p0 acc)
      else if geoType = "transform" then do
        let shapes ← melQueryStringArray "listRelatives"
          ["-children", "-type", "\"mesh\"", "-fullPath", q geo]
        pure (if shapes.isEmpty then acc else setInsert geo acc)
      else pure acc) acc geos

/-- The helper `collectSkinnedMeshTransformsForJoints`; the two counts it can report are only
logged and are left out. -/
def collectSkinnedMeshTransformsForJoints (joints : List String) : M σ L ρ (List String) := do
  let skinClusters ← skinClustersOfJoints joints
  M.foldM meshTransformsOfSkin [] skinClusters

/-- The root-joint search of `exportSkeletonFbx` and `exportSkeletonBlendShapeFbx`: when the
input is not a joint, pick the joint without a joint parent in the subtree that has the most
descendants. The result is `none` when there is no joint below the input, else the chosen
root and the warning to record. -/
def findRootJoint (rootJoint : String) : M σ L ρ (Option (String × List String)) := do
  let type ← melQueryString "nodeType" [q rootJoint]
  if type ≠ "joint" then do
    let joints ← melQueryStringArray "listRelatives"
      ["-allDescendents", "-type", "\"joint\"", "-fullPath", q rootJoint]
    if joints.isEmpty then pure none
    else do
      let candidates ← M.foldM (fun (acc : List String) j => do
          let parents ← melQueryStringArray "listRelatives"
            ["-parent", "-type", "\"joint\"", "-fullPath", q j]
          pure (if parents.isEmpty || !joints.contains (parents.headD "") then acc ++ [j]
            else acc)) [] joints
      if !candidates.isEmpty then do
        let best ← M.foldM (fun (b : String × Int) c => do
            let desc ← melQueryStringArray "listRelatives"
              ["-allDescendents", "-type", "\"joint\"", "-fullPath", q c]
            pure (if (desc.length : Int) > b.2 then (c, (desc.length : Int)) else b))
          (candidates.headD "", -1) candidates
        pure (some (best.1, ["Input node is not a joint; using joint root: " ++ best.1]))
      else
        pure (some (joints.headD "",
          ["Input node is not a joint; using first joint found: " ++ joints.headD ""]))
  else pure (some (rootJoint, []))

end MeshCollect

/-! ## Source function `exportSkeletonFbx` (lines 1840-2435) -/

/-- The local `struct JointRec` (and `NodeRec`): the handle of a node and its name before the
renames. -/
structure JointRec where
  obj : MObject
  originalName : String
  deriving DecidableEq, Repr

/-- The variables of `exportSkeletonFbx` that the `catch` block reads. -/
structure SkelLocals where
  warnings : List String := []
  jointRecs : List JointRec := []
  didRename : Bool := false

/-- The work list of the in-place rename: one item per joint path. -/
def inPlaceWorkList (jointPaths : List String) (rootJoint : String) : List WorkItem :=
  jointPaths.map fun p =>
    let isRoot := (p = rootJoint)
    let leaf := dagLeafName p
    let bare0 := stripAllNamespaces leaf
    let bare := if isRoot then normalizeRootBoneName bare0 else bare0
    let hasNs := hasChar leaf ':'
    let rootNeedsNorm := isRoot && normalizeRootBoneName bare0 != bare0
    { fullPath := p, depth := dagDepth p, isRoot := isRoot, leaf := leaf,
      desiredBare := bare, needsRename := hasNs || rootNeedsNorm }

section Skeleton

variable {σ ρ : Type}

/-- Append to the local `warnings`. -/
def skelWarn (w : String) : M σ SkelLocals ρ Unit :=
  M.modifyL fun l => { l with warnings := l.warnings ++ [w] }

/-- The restore loop: `setName(originalName)` through the handle of every record. -/
def restoreNames (recs : List JointRec) : M σ SkelLocals ρ Unit :=
  M.forEach recs fun r => do
    let _ ← M.call (.setName r.obj r.originalName)
    pure ()

/-- The statement `if (didRename) { restore loop }`. -/
def restoreIfRenamed : M σ SkelLocals ρ Unit := do
  let l ← M.getL
  M.when l.didRename (restoreNames l.jointRecs)

/-- The loop that builds `jointRecs`: one record per selection item, and the handle of the
root joint when its path is met; `sel` holds the handles of the paths that could be added. -/
def buildJointRecs (rootJoint : String) (rootObj : MObject) (sel : List MObject)
    (jointPaths : List String) : M σ SkelLocals ρ MObject :=
  M.foldM (fun (root : MObject) (it : MObject × String) => do
      let name ← M.call (.nodeName it.1)
      M.modifyL fun l =>
        { l with jointRecs := l.jointRecs ++ [{ obj := it.1, originalName := name.str }] }
      pure (if it.2 = rootJoint then it.1 else root)) rootObj (List.zip sel jointPaths)

/-- The lambda `exportReferencedInPlace`: the export settings, the export, the scan. The
result is the scanned counts and whether `FBXExport` succeeded. -/
def exportReferencedInPlace (outputPath : String) (startFrame endFrame : Int)
    (opts : FbxExportOptions) (useInputConnections warnedSkelDefs : Bool) :
    M σ SkelLocals ρ (FbxContentStats × Bool) := do
  setFbxExportDefaults
  let _ ← melExec "FBXExportSkeletonDefinitions" ["-v", boolStr opts.skelSkeletonDefs]
  M.when (!opts.skelSkeletonDefs && !warnedSkelDefs) (skelWarn
    "SkeletonDefs(UI)=false: FBX skeleton hierarchy metadata may be incomplete in some DCC/engines")
  let _ ← melExec "FBXExportAnimationOnly" ["-v", "false"]
  let _ ← melExec "FBXExportBakeComplexAnimation" ["-v", boolStr opts.skelBakeComplex]
  let _ ← melExec "FBXExportConstraints" ["-v", boolStr opts.skelConstraints]
  let _ ← melExec "FBXExportInputConnections" ["-v", boolStr useInputConnections]
  let _ ← melExec "FBXExportSkins" ["-v", "true"]
  setFbxBakeRange startFrame endFrame
  let _ ← melExec "FBXExportFileVersion" ["-v", opts.fileVersion]
  let _ ← melExec "FBXExportUpAxis" [opts.upAxis]
  let fbxExportOk ← fbxExport outputPath
  if !fbxExportOk then pure ({}, false)
  else do
    let stats ← scanFbxContent outputPath
    pure (stats, true)

/-- The branch `rootReferenced && !opts.skelAnimationOnly`: export in place, with one retry
that follows input connections when the first output has no skin and no deformer marker. -/
def exportReferencedBranch (rootJoint outputPath : String) (startFrame endFrame : Int)
    (opts : FbxExportOptions) (startTime : Int) : M σ SkelLocals ExportResult Empty := do
  skelWarn "Referenced skeleton + AnimationOnly=false: export in-place to preserve skinned meshes"
  skelWarn "Referenced export keeps original bone names; namespaces may remain"
  let desc ← melQueryStringArray "listRelatives"
    ["-allDescendents", "-type", "\"joint\"", "-fullPath", q rootJoint]
  let allJoints := desc ++ [rootJoint]
  M.when allJoints.isEmpty (do
    let l ← M.getL
    M.ret (makeResult false outputPath 0 0 l.warnings
      ["No joints collected for referenced in-place export"]))
  let m1 ← collectSkinnedMeshTransformsForJoints allJoints
  let m2 ← (if m1.isEmpty then collectMeshTransformsByNamespace rootJoint else pure m1)
  let meshTransforms ← (if m2.isEmpty then collectMeshTransformsUnderNode rootJoint else pure m2)
  let sel ← buildSelection (allJoints ++ meshTransforms)
  let _ ← M.call (.setActiveSelectionList sel)
  debugSelectionSnapshot
  let initialInputConnections := opts.skelInputConns
  let first ← exportReferencedInPlace outputPath startFrame endFrame opts
    initialInputConnections false
  M.when (!first.2) (do
    let duration := (← now) - startTime
    let fileSize ← fileSizeOrZero outputPath
    let l ← M.getL
    M.ret (makeResult false outputPath fileSize duration l.warnings
      ["FBXExport command failed in referenced in-place skeleton export"]))
  let fbxStats ← (if !initialInputConnections && decide (first.1.skins ≤ 0)
      && decide (first.1.deformers ≤ 0) then do
      skelWarn "Referenced in-place export missing skin/deformer data; retry with InputConnections=true"
      let retry ← exportReferencedInPlace outputPath startFrame endFrame opts true
        (!opts.skelSkeletonDefs)
      M.when (!retry.2) (do
        let duration := (← now) - startTime
        let fileSize ← fileSizeOrZero outputPath
        let l ← M.getL
        M.ret (makeResult false outputPath fileSize duration l.warnings
          ["FBXExport command failed in referenced in-place retry"]))
      pure retry.1
    else pure first.1)
  M.when (decide (fbxStats.limbNodes > (allJoints.length : Int) * 2)) (skelWarn
    ("Referenced in-place export pulled extra bones: selectedJoints=" ++ toString allJoints.length
      ++ ", exportedLimbNodes=" ++ toString fbxStats.limbNodes
      ++ " (likely from connected assets/namespaces)"))
  let duration := (← now) - startTime
  let fileSize ← fileSizeOrZero outputPath
  let l ← M.getL
  if fileSize ≤ 0 then
    M.ret (makeResult false outputPath fileSize duration l.warnings
      ["Referenced in-place skeleton export produced empty file"])
  else if fbxStats.limbNodes ≤ 0 then
    M.ret (makeResult false outputPath fileSize duration l.warnings
      ["Referenced in-place export contains no LimbNode bones"])
  else if fbxStats.skins ≤ 0 ∧ fbxStats.deformers ≤ 0 then
    M.ret (makeResult false outputPath fileSize duration l.warnings
      ["Referenced in-place export contains no skin/deformer data"])
  else
    M.ret (makeResult true outputPath fileSize duration l.warnings [])

/-- A call of `exportSkeletonFbxViaDuplicate` from `exportSkeletonFbx`: the warnings gathered
so far are put in front of the warnings of its result. -/
def delegateToDuplicate (rootJoint outputPath : String) (startFrame endFrame : Int)
    (opts : FbxExportOptions) : M σ SkelLocals ExportResult Empty := do
  let dupRes ← M.callFn
    (exportSkeletonFbxViaDuplicate rootJoint outputPath startFrame endFrame opts) {}
  let l ← M.getL
  M.ret { dupRes with warnings := l.warnings ++ dupRes.warnings }

/-- The residual-namespace fallback: restore the names, refresh the root path, delegate. -/
def fallbackToDuplicate (rootObj : MObject) (rootJoint outputPath : String)
    (startFrame endFrame : Int) (opts : FbxExportOptions) :
    M σ SkelLocals ExportResult Empty := do
  let l ← M.getL
  M.when l.didRename (do
    restoreNames l.jointRecs
    M.modifyL fun l => { l with didRename := false })
  let rootJoint ← (if rootObj.isSome then fullPathName rootObj else pure rootJoint)
  delegateToDuplicate rootJoint outputPath startFrame endFrame opts

/-- The in-place rename strategy of `exportSkeletonFbx` (writable root), from the parent
query to the final result. -/
def exportWritableBranch (rootObj0 : MObject) (rootJoint0 outputPath : String)
    (startFrame endFrame : Int) (opts : FbxExportOptions) (startTime : Int) :
    M σ SkelLocals ExportResult Empty := do
  let parents ← melQueryStringArray "listRelatives" ["-parent", "-fullPath", q rootJoint0]
  let originalParent := parents.headD ""
  let type ← melQueryString "nodeType" [q rootJoint0]
  M.when (type != "joint") (do
    let l ← M.getL
    M.ret (makeResult false outputPath 0 0 l.warnings
      ["Resolved skeleton root is not a joint: " ++ rootJoint0]))
  let desc ← melQueryStringArray "listRelatives"
    ["-allDescendents", "-type", "\"joint\"", "-fullPath", q rootJoint0]
  let jointPaths := desc ++ [rootJoint0]
  M.when jointPaths.isEmpty (do
    let l ← M.getL
    M.ret (makeResult false outputPath 0 0 l.warnings
      ["No joints collected for export under: " ++ rootJoint0]))
  debugJointMotionSample rootJoint0 startFrame endFrame
  -- records with handles, so that the names can be restored
  let sel ← buildSelection jointPaths
  let rootObj ← buildJointRecs rootJoint0 rootObj0 sel jointPaths
  -- strip namespaces for the export only, normalize the top bone
  let work := inPlaceWorkList jointPaths rootJoint0
  let hadNamespaceOnBones := work.any fun wi => hasChar wi.leaf ':'
  let rootNameNormalized := work.any fun wi =>
    wi.isRoot && normalizeRootBoneName (stripAllNamespaces wi.leaf) != stripAllNamespaces wi.leaf
  let didRename := work.any fun wi => wi.needsRename
  M.when didRename (M.modifyL fun l => { l with didRename := true })
  let rootJoint ← (if didRename then do
      renameWork (sortDeepestFirst work)
      (if rootObj.isSome then fullPathName rootObj else pure rootJoint0)
    else pure rootJoint0)
  -- select all joints again from the (possibly renamed) root
  let allDesc ← melQueryStringArray "listRelatives"
    ["-allDescendents", "-type", "\"joint\"", "-fullPath", q rootJoint]
  let allJoints := allDesc ++ [rootJoint]
  if namespacedCount allJoints > 0 then
    fallbackToDuplicate rootObj rootJoint outputPath startFrame endFrame opts
  else do
    let meshTransforms ← (if !opts.skelAnimationOnly then do
        let m1 ← collectSkinnedMeshTransformsForJoints allJoints
        let m2 ← (if m1.isEmpty then do
            let anchor := if originalParent.data = [] then rootJoint else originalParent
            let m ← collectMeshTransformsUnderNode anchor
            skelWarn "No skinned meshes found from joint connections; fallback to meshes under rig hierarchy"
            pure m
          else pure m1)
        M.when m2.isEmpty (skelWarn
          "AnimationOnly=false but no mesh transforms were found; FBX will contain skeleton only")
        pure m2
      else pure [])
    let sel ← buildSelection (allJoints ++ meshTransforms)
    let _ ← M.call (.setActiveSelectionList sel)
    let _ ← melQueryStringArray "ls" ["-sl", "-type", "\"joint\""]
    let _ ← melQueryStringArray "ls" ["-sl", "-type", "\"mesh\""]
    debugSelectionSnapshot
    M.when hadNamespaceOnBones
      (skelWarn "Detected namespaces in skeleton joints; stripped during export")
    M.when rootNameNormalized
      (skelWarn "Top skeleton bone normalized to Root during export")
    M.when opts.skelAnimationOnly (skelWarn
      "Skeleton AnimationOnly(UI)=true: exporting joints-only while FBXAnimationOnly is forced false")
    debugJointMotionSample rootJoint startFrame endFrame
    debugWorldSpacePosition rootJoint startFrame
    setFbxExportDefaults
    let _ ← melExec "FBXExportSkeletonDefinitions" ["-v", boolStr opts.skelSkeletonDefs]
    M.when (!opts.skelSkeletonDefs) (skelWarn
      "SkeletonDefs(UI)=false: FBX skeleton hierarchy metadata may be incomplete in some DCC/engines")
    let _ ← melExec "FBXExportAnimationOnly" ["-v", "false"]
    M.when opts.skelAnimationOnly (skelWarn
      "AnimationOnly(UI)=true: force FBXExportAnimationOnly=false to keep skeleton hierarchy")
    let _ ← melExec "FBXExportBakeComplexAnimation" ["-v", boolStr opts.skelBakeComplex]
    let _ ← melExec "FBXExportConstraints" ["-v", boolStr opts.skelConstraints]
    let _ ← melExec "FBXExportInputConnections" ["-v", boolStr opts.skelInputConns]
    let _ ← melExec "FBXExportSkins" ["-v", boolStr (!opts.skelAnimationOnly)]
    let _ ← melExec "FBXExportShapes" ["-v", boolStr (!opts.skelAnimationOnly)]
    setFbxBakeRange startFrame endFrame
    let _ ← melExec "FBXExportFileVersion" ["-v", opts.fileVersion]
    let _ ← melExec "FBXExportUpAxis" [opts.upAxis]
    let fbxExportOk ← fbxExport outputPath
    let fbxStats ← (if fbxExportOk then scanFbxContent outputPath else pure {})
    -- restore the joint names
    restoreIfRenamed
    let duration := (← now) - startTime
    let fileSize ← fileSizeOrZero outputPath
    let l ← M.getL
    if !fbxExportOk then
      M.ret (makeResult false outputPath fileSize duration l.warnings
        ["FBXExport command failed in skeleton export"])
    else if fileSize ≤ 0 then
      M.ret (makeResult false outputPath fileSize duration l.warnings
        ["Skeleton export produced empty file"])
    else if fbxStats.limbNodes ≤ 0 then
      M.ret (makeResult false outputPath fileSize duration l.warnings
        ["Skeleton export did not contain LimbNode bones"])
    else if !opts.skelAnimationOnly ∧ fbxStats.skins ≤ 0 ∧ fbxStats.deformers ≤ 0 then
      M.ret (makeResult false outputPath fileSize duration l.warnings
        ["AnimationOnly=false but exported FBX contains no skin/deformer data"])
    else
      M.ret (makeResult true outputPath fileSize duration l.warnings [])

/-- The body of the `try` block of `exportSkeletonFbx`. -/
def exportSkeletonFbxBody (skeletonRoot outputPath : String) (startFrame endFrame : Int)
    (opts : FbxExportOptions) (startTime : Int) : M σ SkelLocals ExportResult Empty := do
  ensureOutDir outputPath
  let found ← findRootJoint skeletonRoot
  match found with
  | none =>
    M.ret (makeResult false outputPath 0 0 [] ["No joints found under: " ++ skeletonRoot])
  | some (picked, warns) =>
    M.modifyL fun l => { l with warnings := l.warnings ++ warns }
    -- the handle of the root joint survives reparenting and renaming
    let rootObj ← getDependNode picked
    let rootJoint ← fullPathName rootObj
    let rootReferenced ← isReferencedNode rootObj
    if rootReferenced && !opts.skelAnimationOnly then
      exportReferencedBranch rootJoint outputPath startFrame endFrame opts startTime
    else if rootReferenced then do
      skelWarn "Skeleton root is referenced/read-only; exporting via temporary duplicate skeleton"
      delegateToDuplicate rootJoint outputPath startFrame endFrame opts
    else
      exportWritableBranch rootObj rootJoint outputPath startFrame endFrame opts startTime

/-- The function `exportSkeletonFbx`. -/
def exportSkeletonFbx (skeletonRoot outputPath : String) (startFrame endFrame : Int)
    (opts : FbxExportOptions) : M σ SkelLocals ExportResult Empty := do
  let startTime ← now
  let plugin ← ensureFbxPlugin
  M.when (!plugin) (M.ret (makeResult false outputPath 0 0 [] ["fbxmaya plugin load failed"]))
  let e ← nodeExists skeletonRoot
  M.when (!e) (M.ret (makeResult false outputPath 0 0 []
    ["Skeleton root does not exist: " ++ skeletonRoot]))
  M.tryCatch
    (exportSkeletonFbxBody skeletonRoot outputPath startFrame endFrame opts startTime)
    (do
      M.tryCatch restoreIfRenamed (pure ())
      let duration := (← now) - startTime
      let l ← M.getL
      M.ret (makeResult false outputPath 0 duration l.warnings
        ["Skeleton export failed: unknown exception"]))

end Skeleton

/-! ## Source function `exportBlendShapeFbx` (lines 2437-3045) -/

/-- The variables of `exportBlendShapeFbx` that its cleanup paths read. -/
structure BsLocals where
  warnings : List String := []
  dupMesh : String := ""
  dupMeshObj : MObject := none
  undoChunkOpen : Bool := false
  anyMergeSucceeded : Bool := false

/-- The bare name of the parent of a DAG path: defined when the path has a `|` that is not its
first character. -/
def parentBare (path : String) : Option String :=
  match rfind path '|' with
  | some pipePos =>
    if pipePos > 0 then some (stripAllNamespaces (dagLeafName (substrN path 0 pipePos)))
    else none
  | none => none

/-- The variable `origParentBare` of `resolvePostMerge`: empty when the path has no parent. -/
def origParentBare (preMergePath : String) : String :=
  (parentBare preMergePath).getD ""

/-- The test of the disambiguation loop: the candidate has a parent whose bare name is the
bare name of the parent of the original path. -/
def parentMatches (preMergePath c : String) : Bool :=
  match parentBare c with
  | some cParentBare => cParentBare = origParentBare preMergePath
  | none => false

/-- The disambiguation loop of `resolvePostMerge`: the last matching candidate and the number
of matching candidates. -/
def disambiguate (preMergePath : String) (candidates : List String) : String × Int :=
  candidates.foldl
    (fun (acc : String × Int) c => if parentMatches preMergePath c then (c, acc.2 + 1) else acc)
    ("", 0)

/-- The warning of an ambiguous resolution. -/
def ambiguityWarning (bare : String) (n : Nat) : String :=
  "Ambiguous node resolution for '" ++ bare ++ "': " ++ toString n
    ++ " matches found; exported skeleton may reference wrong node"

/-- The namespace of a leaf name, `A:B:Joint -> A:B`, when the last `:` is not the first
character. -/
def namespaceOfLeaf (path : String) : Option String :=
  let leaf := dagLeafName path
  match rfind leaf ':' with
  | some colonPos => if colonPos > 0 then some (substrN leaf 0 colonPos) else none
  | none => none

/-- The order of the namespace sort: more `:` first, then the order of the strings. -/
def nsBefore (a b : String) : Prop :=
  a.data.count ':' > b.data.count ':' ∨ (a.data.count ':' = b.data.count ':' ∧ a.data ≤ b.data)

instance : DecidableRel nsBefore := fun a b => by
  unfold nsBefore; exact inferInstance

/-- The list `sortedNamespaces`: the namespaces of the joints and transforms, gathered in a
`std::set`, deepest first. -/
def sortedNamespaces (bsSkelJoints bsSkelTransforms : List String) : List String :=
  let set := (bsSkelJoints ++ bsSkelTransforms).foldl
    (fun acc p => match namespaceOfLeaf p with
      | some ns => setInsert ns acc
      | none => acc) []
  set.insertionSort nsBefore

/-- The counters of the merge loop. -/
structure MergeTally where
  nsMergeSucceeded : Int := 0
  nsMergeFailed : Int := 0
  failedNamespaces : List String := []

/-- The influence joints and their non-joint parents, with the set of paths seen so far. -/
structure SkelNodes where
  seen : List String := []
  bsSkelJoints : List String := []
  bsSkelTransforms : List String := []

section BlendShape

variable {σ ρ : Type}

/-- Append to the local `warnings`. -/
def bsWarn (w : String) : M σ BsLocals ρ Unit :=
  M.modifyL fun l => { l with warnings := l.warnings ++ [w] }

/-- The lambda `cleanupDupMesh`: delete the duplicate mesh; an exception inside is
swallowed. -/
def cleanupDupMesh : M σ BsLocals ρ Unit :=
  M.tryCatch
    (do
      let l ← M.getL
      if l.dupMeshObj.isSome then do
        let p ← fullPathName l.dupMeshObj
        M.when (decide (p.data ≠ [])) (do
          let _ ← melExec "delete" [q p]
          pure ())
      else
        M.when (decide (l.dupMesh.data ≠ [])) (do
          let _ ← melExec "delete" [q l.dupMesh]
          pure ()))
    (pure ())

/-- The body of the lambda `resolvePostMerge`: handle lookup, unique bare name, parent
disambiguation, and the original path as the last resort. -/
def resolvePostMergeBody (preMergePath : String) : M σ BsLocals String String := do
  let added ← M.call (.selAdd preMergePath)
  M.when (added.ok && added.obj.isSome) (do
    let resolved ← fullPathName added.obj
    M.when (decide (resolved.data ≠ [])) (M.ret resolved))
  let bare := stripAllNamespaces (dagLeafName preMergePath)
  let candidates ← melQueryStringArray "ls" ["-long", q bare]
  if candidates.length = 1 then M.ret (candidates.headD "")
  else if candidates.length > 1 then do
    let best := disambiguate preMergePath candidates
    if best.2 = 1 then M.ret best.1
    else do
      bsWarn (ambiguityWarning bare candidates.length)
      M.ret (candidates.headD "")
  else M.ret preMergePath

/-- A call of the lambda `resolvePostMerge`. -/
def resolvePostMerge (preMergePath : String) : M σ BsLocals ρ String :=
  M.callSub (resolvePostMergeBody preMergePath)

/-- The two loops that fill `skelSelectNodes`. -/
def resolveAll (paths : List String) : M σ BsLocals ρ (List String) :=
  M.foldM (fun (acc : List String) p => do
      let r ← resolvePostMerge p
      pure (acc ++ [r])) [] paths

/-- The loop that sorts the history of the mesh into blendShape and skinCluster nodes. -/
def classifyHistory (history : List String) : M σ BsLocals ρ (List String × List String) :=
  M.foldM (fun (acc : List String × List String) n => do
      let t ← melQueryString "nodeType" [q n]
      pure (if t = "blendShape" then acc.1 ++ [n] else acc.1,
            if t = "skinCluster" then acc.2 ++ [n] else acc.2)) ([], []) history

/-- The loop body for one influence of a skin cluster. -/
def addInfluence (acc : SkelNodes) (inf : String) : M σ BsLocals ρ SkelNodes := do
  let full ← melQueryStringArray "ls" ["-long", q inf]
  let fp := full.headD inf
  let acc1 : SkelNodes :=
    if acc.seen.contains fp then acc
    else { acc with seen := setInsert fp acc.seen, bsSkelJoints := acc.bsSkelJoints ++ [fp] }
  let parents ← melQueryStringArray "listRelatives" ["-parent", "-fullPath", q fp]
  match parents with
  | [] => pure acc1
  | p0 :: _ =>
    let pt ← melQueryString "nodeType" [q p0]
    pure (if pt = "transform" && !acc1.seen.contains p0 then
        { acc1 with seen := setInsert p0 acc1.seen,
                    bsSkelTransforms := acc1.bsSkelTransforms ++ [p0] }
      else acc1)

/-- The loop over the skin clusters that collects the influence joints. -/
def collectInfluences (skinClusterNodes : List String) : M σ BsLocals ρ SkelNodes :=
  M.foldM (fun (acc : SkelNodes) sc => do
      let influences ← melQueryStringArray "skinCluster" ["-q", "-influence", q sc]
      M.foldM addInfluence acc influences) {} skinClusterNodes

/-- The loop over the history of the duplicate: skin clusters are deleted unless the skeleton
is exported too; the result is the number of blendShape nodes. -/
def pruneDuplicateHistory (includeSkeleton : Bool) (dupHistory : List String) :
    M σ BsLocals ρ Int :=
  M.foldM (fun (count : Int) n => do
      let t ← melQueryString "nodeType" [q n]
      M.when (t = "skinCluster" && !includeSkeleton) (do
        let _ ← melExec "delete" [q n]
        pure ())
      pure (if t = "blendShape" then count + 1 else count)) 0 dupHistory

/-- One round of the merge loop: skip a namespace that does not exist, open the undo chunk
before the first merge attempt, merge. -/
def mergeNamespace (t : MergeTally) (ns : String) : M σ BsLocals ρ MergeTally := do
  let nsExists ← melQueryInt "namespace" ["-exists", q ns]
  if nsExists = 0 then pure t
  else do
    let l ← M.getL
    M.when (!l.undoChunkOpen) (do
      let _ ← melExec "undoInfo" ["-openChunk"]
      M.modifyL fun l => { l with undoChunkOpen := true })
    let mergeOk ← melExec "namespace" ["-mergeNamespaceWithRoot", q ns]
    pure (if mergeOk then { t with nsMergeSucceeded := t.nsMergeSucceeded + 1 }
      else { t with nsMergeFailed := t.nsMergeFailed + 1,
                    failedNamespaces := t.failedNamespaces ++ [ns] })

/-- The warning that lists the namespaces whose merge failed. -/
def mergeFailedWarning (t : MergeTally) : String :=
  "Namespace merge failed for " ++ toString t.nsMergeFailed ++ " namespace(s): ["
    ++ String.intercalate ", " t.failedNamespaces
    ++ "]; exported bone names may contain namespace prefixes"

/-- Close the undo chunk after the export and undo the merges, when a chunk was opened. -/
def closeChunkAndUndo (t : MergeTally) : M σ BsLocals ρ Unit := do
  let l ← M.getL
  M.when l.undoChunkOpen (do
    let closeOk ← melExec "undoInfo" ["-closeChunk"]
    M.modifyL fun l => { l with undoChunkOpen := false }
    M.when (!closeOk)
      (bsWarn "Undo chunk close failed; scene undo queue may be in an inconsistent state")
    M.when (decide (t.nsMergeSucceeded > 0)) (do
      let undoOk ← melExec "undo" []
      M.when (!undoOk) (bsWarn ("Undo failed after namespace merge; scene namespaces may not be restored. "
        ++ "Consider reopening the scene if bone names appear changed."))))

/-- The skeleton-inclusive branch: merge the namespaces inside one undo chunk, resolve the
skeleton nodes again, export, close the chunk and undo, delete the duplicate. The result is
`fbxExportOk`. -/
def exportWithSkeleton (outputPath : String) (startFrame endFrame : Int)
    (opts : FbxExportOptions) (nodes : SkelNodes) : M σ BsLocals ρ Bool := do
  let namespaces := sortedNamespaces nodes.bsSkelJoints nodes.bsSkelTransforms
  let t ← M.foldM mergeNamespace {} namespaces
  M.modifyL fun l => { l with anyMergeSucceeded := decide (t.nsMergeSucceeded > 0) }
  M.when (decide (t.nsMergeFailed > 0)) (bsWarn (mergeFailedWarning t))
  let joints ← resolveAll nodes.bsSkelJoints
  let transforms ← resolveAll nodes.bsSkelTransforms
  let skelSelectNodes := joints ++ transforms
  let l ← M.getL
  M.when l.dupMeshObj.isSome (do
    let newDupMesh ← fullPathName l.dupMeshObj
    M.when (newDupMesh != l.dupMesh) (M.modifyL fun l => { l with dupMesh := newDupMesh }))
  let dupMesh := (← M.getL).dupMesh
  let sel ← buildSelection (dupMesh :: skelSelectNodes)
  let _ ← M.call (.setActiveSelectionList sel)
  debugSelectionSnapshot
  setFbxExportDefaults
  let _ ← melExec "FBXExportInputConnections" ["-v", "false"]
  let _ ← melExec "FBXExportSkins" ["-v", "true"]
  let _ ← melExec "FBXExportShapes" ["-v", boolStr opts.bsShapes]
  let _ ← melExec "FBXExportAnimationOnly" ["-v", "false"]
  let _ ← melExec "FBXExportBakeComplexAnimation" ["-v", "true"]
  let _ ← melExec "FBXExportSkeletonDefinitions" ["-v", boolStr opts.skelSkeletonDefs]
  let _ ← melExec "FBXExportSmoothMesh" ["-v", boolStr opts.bsSmoothMesh]
  setFbxBakeRange startFrame endFrame
  let _ ← melExec "FBXExportFileVersion" ["-v", opts.fileVersion]
  let _ ← melExec "FBXExportUpAxis" [opts.upAxis]
  let fbxExportOk ← fbxExport outputPath
  closeChunkAndUndo t
  cleanupDupMesh
  pure fbxExportOk

/-- The mesh-only branch. The result is `fbxExportOk`. -/
def exportMeshOnly (outputPath : String) (startFrame endFrame : Int)
    (opts : FbxExportOptions) : M σ BsLocals ρ Bool := do
  let dupMesh := (← M.getL).dupMesh
  let _ ← melExec "select" ["-replace", q dupMesh]
  debugSelectionSnapshot
  setFbxExportDefaults
  let _ ← melExec "FBXExportInputConnections" ["-v", "false"]
  let _ ← melExec "FBXExportSkins" ["-v", "false"]
  let _ ← melExec "FBXExportShapes" ["-v", boolStr opts.bsShapes]
  let _ ← melExec "FBXExportAnimationOnly" ["-v", "false"]
  let _ ← melExec "FBXExportBakeComplexAnimation" ["-v", "true"]
  let _ ← melExec "FBXExportSmoothMesh" ["-v", boolStr opts.bsSmoothMesh]
  setFbxBakeRange startFrame endFrame
  let _ ← melExec "FBXExportFileVersion" ["-v", opts.fileVersion]
  let _ ← melExec "FBXExportUpAxis" [opts.upAxis]
  let fbxExportOk ← fbxExport outputPath
  cleanupDupMesh
  pure fbxExportOk

/-- The body of the `try` block of `exportBlendShapeFbx`. -/
def exportBlendShapeFbxBody (meshNode outputPath : String) (startFrame endFrame : Int)
    (opts : FbxExportOptions) (startTime : Int) : M σ BsLocals ExportResult Empty := do
  ensureOutDir outputPath
  let hist ← melQueryStringArrayChecked "listHistory" ["-pruneDagObjects", "true", q meshNode]
  M.when (!hist.1) (do
    let l ← M.getL
    M.ret (makeResult false outputPath 0 0 l.warnings
      ["Failed to query mesh history: " ++ meshNode]))
  let classes ← classifyHistory hist.2
  let blendShapeNodes := classes.1
  let skinClusterNodes := classes.2
  let nodes ← (if opts.bsIncludeSkeleton && !skinClusterNodes.isEmpty then
      collectInfluences skinClusterNodes
    else pure {})
  let includeSkeleton := !nodes.bsSkelJoints.isEmpty
  M.when (!opts.bsShapes)
    (bsWarn "BlendShape Shapes(UI)=false: morph target geometry will not be exported")
  M.when (includeSkeleton && !opts.skelSkeletonDefs) (bsWarn
    "SkeletonDefs(UI)=false: FBX skeleton hierarchy metadata may be incomplete in some DCC/engines")
  M.when blendShapeNodes.isEmpty (do
    let l ← M.getL
    M.ret (makeResult false outputPath 0 0 l.warnings
      ["No blendShape deformer found in mesh history: " ++ meshNode]))
  -- duplicate the mesh
  let first ← melQueryStringArrayChecked "duplicate" ["-un", q meshNode]
  let dupResult ← (if !first.1 || first.2.isEmpty then do
      let second ← melQueryStringArrayChecked "duplicate" [q meshNode]
      pure second.2
    else pure first.2)
  M.when dupResult.isEmpty (do
    let l ← M.getL
    M.ret (makeResult false outputPath 0 0 l.warnings
      ["Failed to duplicate mesh for blendShape export: " ++ meshNode]))
  M.modifyL fun l => { l with dupMesh := dupResult.headD "" }
  let obj ← getDependNode (dupResult.headD "")
  M.modifyL fun l => { l with dupMeshObj := obj }
  let _ ← melExec "parent" ["-world", q (dupResult.headD "")]
  M.when obj.isSome (do
    let p ← fullPathName obj
    M.modifyL fun l => { l with dupMesh := p })
  let dupMesh := (← M.getL).dupMesh
  let dupHistory ← melQueryStringArrayChecked "listHistory" ["-pruneDagObjects", "true", q dupMesh]
  let dupBlendShapeCount ← pruneDuplicateHistory includeSkeleton dupHistory.2
  M.when (decide (dupBlendShapeCount ≤ 0)) (do
    cleanupDupMesh
    let l ← M.getL
    M.ret (makeResult false outputPath 0 0 l.warnings
      ["Duplicate mesh lost blendShape deformers during duplication"]))
  let fbxExportOk ← (if includeSkeleton then
      exportWithSkeleton outputPath startFrame endFrame opts nodes
    else exportMeshOnly outputPath startFrame endFrame opts)
  M.when (!fbxExportOk) (do
    let duration := (← now) - startTime
    let fileSize ← fileSizeOrZero outputPath
    let l ← M.getL
    M.ret (makeResult false outputPath fileSize duration l.warnings
      ["FBXExport command failed in blendshape export"]))
  let fbxStats ← scanFbxContent outputPath
  let duration := (← now) - startTime
  let fileSize ← fileSizeOrZero outputPath
  let l ← M.getL
  if fileSize ≤ 0 then
    M.ret (makeResult false outputPath fileSize duration l.warnings
      ["BlendShape export produced empty file"])
  else if fbxStats.meshes ≤ 0 ∧ fbxStats.deformers ≤ 0 then
    M.ret (makeResult false outputPath fileSize duration l.warnings
      ["BlendShape export expected mesh data but FBX contains no mesh/deformer markers"])
  else
    M.ret (makeResult true outputPath fileSize duration l.warnings [])

/-- The recovery of the `catch` block: close an open undo chunk and undo the merges when one
succeeded; an exception inside is swallowed. -/
def recoverUndoChunk : M σ BsLocals ρ Unit :=
  M.tryCatch
    (do
      let l ← M.getL
      M.when l.undoChunkOpen (do
        let _ ← melExec "undoInfo" ["-closeChunk"]
        M.when l.anyMergeSucceeded (do
          let _ ← melExec "undo" []
          pure ())))
    (pure ())

/-- The cleanup of the duplicate mesh in the `catch` block: only through the handle. -/
def recoverDupMesh : M σ BsLocals ρ Unit :=
  M.tryCatch
    (do
      let l ← M.getL
      M.when l.dupMeshObj.isSome (do
        let p ← fullPathName l.dupMeshObj
        M.when (decide (p.data ≠ [])) (do
          let _ ← melExec "delete" [q p]
          pure ())))
    (pure ())

/-- The function `exportBlendShapeFbx`. -/
def exportBlendShapeFbx (meshNode outputPath : String) (startFrame endFrame : Int)
    (opts : FbxExportOptions) : M σ BsLocals ExportResult Empty := do
  let startTime ← now
  let plugin ← ensureFbxPlugin
  M.when (!plugin) (M.ret (makeResult false outputPath 0 0 [] ["fbxmaya plugin load failed"]))
  let e ← nodeExists meshNode
  M.when (!e) (M.ret (makeResult false outputPath 0 0 []
    ["Mesh node does not exist: " ++ meshNode]))
  M.tryCatch
    (exportBlendShapeFbxBody meshNode outputPath startFrame endFrame opts startTime)
    (do
      recoverUndoChunk
      recoverDupMesh
      let duration := (← now) - startTime
      let l ← M.getL
      M.ret (makeResult false outputPath 0 duration l.warnings
        ["BlendShape export failed: unknown exception"]))

end BlendShape

/-! ## Source function `exportSkeletonBlendShapeFbx` (lines 3051-3622) -/

/-- The variables of `exportSkeletonBlendShapeFbx` declared outside its `try` block. -/
structure SkelBsLocals where
  warnings : List String := []
  jointRenameRecs : List JointRec := []
  meshRenameRecs : List JointRec := []
  didRenameJoints : Bool := false
  didRenameMeshes : Bool := false

/-- The expression `s.find(c, pos)` for a character; `none` is `npos`. -/
def findChar (s : String) (c : Char) (pos : Nat) : Option Nat :=
  find s.data [c] pos

/-- The variable `rootTop`: the root path up to its second `|`. -/
def rootTop (rootJoint : String) : String :=
  match findChar rootJoint '|' 1 with
  | some secondPipe => substrN rootJoint 0 secondPipe
  | none => rootJoint

/-- The inner `for` loop of the residue check: from `nameStart` on, a `:` before the end
of the region, a NUL or a newline. -/
def colonBeforeEnd : List Char → Bool
  | [] => false
  | c :: cs => if c = ':' then true else if c = '\x00' ∨ c = '\n' then false else colonBeforeEnd cs

/-- The `while` loop of the residue check, run for at most `fuel` rounds: the number of
`Model` tokens that have `LimbNode` within 260 bytes and a `:` in the name that follows. -/
def colonBoneLoop (data : List Char) : Nat → Nat → Nat → Nat
  | 0, _, count => count
  | fuel + 1, searchPos, count =>
    match find data "Model".data searchPos with
    | none => count
    | some p =>
      let regionEnd := min (p + 260) data.length
      let region := (data.drop p).take (regionEnd - p)
      if (find region "LimbNode".data 0).isNone then colonBoneLoop data fuel (p + 5) count
      else
        let name := (data.drop (p + 5)).take (regionEnd - (p + 5))
        colonBoneLoop data fuel (p + 5) (if colonBeforeEnd name then count + 1 else count)

/-- The count `colonBoneCount` of the residue check on the bytes of the output. -/
def colonBoneCount (fbxData : String) : Nat :=
  colonBoneLoop fbxData.data (fbxData.data.length + 1) 0 0

section SkeletonBlendShape

variable {σ ρ : Type}

/-- Append to the local `warnings`. -/
def sbsWarn (w : String) : M σ SkelBsLocals ρ Unit :=
  M.modifyL fun l => { l with warnings := l.warnings ++ [w] }

/-- The first loop over `bsMeshes`: a mesh that is not yet in the set is added when it exists,
with a warning either way. The state is the list `skinnedMeshTransforms`; `meshSet` has the
same members. -/
def addBsMeshes (skinned : List String) (bsMeshes : List String) :
    M σ SkelBsLocals ρ (List String) :=
  M.foldM (fun (acc : List String) bm =>
      if acc.contains bm then pure acc
      else do
        let e ← nodeExists bm
        if e then do
          sbsWarn ("BS mesh not in skinCluster set, added: " ++ bm)
          pure (acc ++ [bm])
        else do
          sbsWarn ("BS mesh does not exist, skipped: " ++ bm)
          pure acc) skinned bsMeshes

/-- The loop that checks that the blendshape weight attributes have keys: the number of keyed
attributes. -/
def countKeyed (bsWeightAttrs : List String) : M σ SkelBsLocals ρ Int :=
  M.foldM (fun (keyed : Int) attr => do
      let keyCount ← melQueryInt "keyframe" ["-q", "-keyframeCount", q attr]
      pure (if keyCount > 0 then keyed + 1 else keyed)) 0 bsWeightAttrs

/-- The loops that build the rename records: the handle and the current name of every item
of the selection; `push` appends the record to the right list. -/
def buildNodeRecs (push : JointRec → SkelBsLocals → SkelBsLocals) (sel : List MObject)
    (paths : List String) : M σ SkelBsLocals ρ Unit :=
  M.forEach (List.zip sel paths) fun it => do
    let name ← M.call (.nodeName it.1)
    M.modifyL (push { obj := it.1, originalName := name.str })

/-- The joint rename loop: the number of renames whose result is empty. -/
def renameJoints (work : List WorkItem) : M σ SkelBsLocals ρ Int :=
  M.foldM (fun (renameFail : Int) wi =>
      if wi.needsRename then do
        let result ← melQueryString "rename" [q wi.fullPath, q (":" ++ wi.desiredBare)]
        pure (if result.data = [] then renameFail + 1 else renameFail)
      else pure renameFail) 0 work

/-- The inner loop of the mesh re-resolution: accept the resolved nodes under the top-level
hierarchy of the root that are transforms with a mesh child. -/
def acceptResolved (top : String) (acc : List String) (resolved : List String) :
    M σ SkelBsLocals ρ (List String) :=
  M.foldM (fun (acc : List String) r =>
      if !top.data.isPrefixOf r.data || acc.contains r then pure acc
      else do
        let t ← melQueryString "nodeType" [q r]
        if t ≠ "transform" then pure acc
        else do
          let shapes ← melQueryStringArray "listRelatives"
            ["-children", "-type", "\"mesh\"", "-fullPath", q r]
          pure (if shapes.isEmpty then acc else acc ++ [r])) acc resolved

/-- The second loop over `bsMeshes`, after the joint rename. -/
def reAddBsMeshes (rootJoint : String) (skinned : List String) (bsMeshes : List String) :
    M σ SkelBsLocals ρ (List String) :=
  M.foldM (fun (acc : List String) bm =>
      if acc.contains bm then pure acc
      else do
        let e ← nodeExists bm
        if e then pure (acc ++ [bm])
        else do
          let bareMesh := stripAllNamespaces (dagLeafName bm)
          let resolved ← melQueryStringArray "ls" ["-long", q ("*|" ++ bareMesh)]
          acceptResolved (rootTop rootJoint) acc resolved) skinned bsMeshes

/-- The mesh rename loop: whether some rename returned a name. -/
def renameMeshes (skinned : List String) : M σ SkelBsLocals ρ Unit :=
  M.forEach skinned fun m =>
    let leaf := dagLeafName m
    M.when (hasChar leaf ':') (do
      let result ← melQueryString "rename" [q m, q (":" ++ stripAllNamespaces leaf)]
      M.when (decide (result.data ≠ []))
        (M.modifyL fun l => { l with didRenameMeshes := true }))

/-- The restore loop after the export: a record with a handle whose current name differs from
the original gets `setName(originalName)`. -/
def restoreChanged (recs : List JointRec) : M σ SkelBsLocals ρ Unit :=
  M.forEach recs fun r =>
    M.when r.obj.isSome (do
      let cur ← M.call (.nodeName r.obj)
      M.when (cur.str != r.originalName) (do
        let _ ← M.call (.setName r.obj r.originalName)
        pure ()))

/-- The restore loop of the `catch` block: `setName(originalName)` for every record with a
handle. -/
def restoreAll (recs : List JointRec) : M σ SkelBsLocals ρ Unit :=
  M.forEach recs fun r =>
    M.when r.obj.isSome (do
      let _ ← M.call (.setName r.obj r.originalName)
      pure ())

/-- The restore block after the export. -/
def restoreAfterExport : M σ SkelBsLocals ρ Unit := do
  let l ← M.getL
  M.when l.didRenameJoints (restoreChanged l.jointRenameRecs)
  M.when l.didRenameMeshes (restoreChanged l.meshRenameRecs)

/-- The residue check: read the output again and warn about bone names with a `:`. -/
def residueCheck (outputPath : String) : M σ SkelBsLocals ρ Unit := do
  let f ← M.call (.readFile outputPath)
  M.when f.ok (M.when (decide (colonBoneCount f.str > 0))
    (sbsWarn ("FBX file contains " ++ toString (colonBoneCount f.str)
      ++ " LimbNode bone name(s) with ':' — namespace residue detected, UE may see unexpected bone names")))

/-- The body of the `try` block of `exportSkeletonBlendShapeFbx`. -/
def exportSkeletonBlendShapeFbxBody (skeletonRoot : String) (bsMeshes bsWeightAttrs : List String)
    (outputPath : String) (startFrame endFrame : Int) (opts : FbxExportOptions)
    (startTime : Int) : M σ SkelBsLocals ExportResult Empty := do
  let found ← findRootJoint skeletonRoot
  match found with
  | none =>
    M.ret (makeResult false outputPath 0 0 [] ["No joints found under: " ++ skeletonRoot])
  | some (picked, warns) =>
    M.modifyL fun l => { l with warnings := l.warnings ++ warns }
    let rootObj ← getDependNode picked
    let rootJoint0 ← fullPathName rootObj
    let _ ← isReferencedNode rootObj
    let desc ← melQueryStringArray "listRelatives"
      ["-allDescendents", "-type", "\"joint\"", "-fullPath", q rootJoint0]
    let allJoints0 := desc ++ [rootJoint0]
    let skinned0 ← collectSkinnedMeshTransformsForJoints allJoints0
    let skinned1 ← addBsMeshes skinned0 bsMeshes
    M.when allJoints0.isEmpty (do
      let l ← M.getL
      M.ret (makeResult false outputPath 0 0 l.warnings ["No joints collected for export"]))
    let keyed ← countKeyed bsWeightAttrs
    M.when (keyed == 0 && !bsWeightAttrs.isEmpty)
      (sbsWarn "No BS weight attributes have keyframes after bake")
    -- records with handles for joints and for skinned mesh transforms
    let jSel ← buildSelection allJoints0
    buildNodeRecs (fun r l => { l with jointRenameRecs := l.jointRenameRecs ++ [r] })
      jSel allJoints0
    let mSel ← buildSelection skinned1
    buildNodeRecs (fun r l => { l with meshRenameRecs := l.meshRenameRecs ++ [r] })
      mSel skinned1
    -- rename joints: strip namespaces, normalize the root bone
    let work := inPlaceWorkList allJoints0 rootJoint0
    let hadNamespaceOnBones := work.any fun wi => hasChar wi.leaf ':'
    let didRenameJoints := work.any fun wi => wi.needsRename
    M.when didRenameJoints (M.modifyL fun l => { l with didRenameJoints := true })
    let rootJoint ← (if didRenameJoints then do
        let renameFail ← renameJoints (sortDeepestFirst work)
        M.when (decide (renameFail > 0)) (sbsWarn ("Failed to rename " ++ toString renameFail
          ++ " joint(s) — exported bone names may contain namespace prefixes"))
        (if rootObj.isSome then fullPathName rootObj else pure rootJoint0)
      else pure rootJoint0)
    -- query the joints again after the rename
    let desc2 ← melQueryStringArray "listRelatives"
      ["-allDescendents", "-type", "\"joint\"", "-fullPath", q rootJoint]
    let allJoints := desc2 ++ [rootJoint]
    M.when (decide (namespacedCount allJoints > 0)) (sbsWarn
      (toString (namespacedCount allJoints) ++ " joint(s) still have namespace prefixes after rename"))
    -- rename the skinned mesh transforms
    let skinned2 ← collectSkinnedMeshTransformsForJoints allJoints
    let skinned3 ← reAddBsMeshes rootJoint skinned2 bsMeshes
    renameMeshes skinned3
    let didRenameMeshes := (← M.getL).didRenameMeshes
    let skinnedMeshTransforms ← (if didRenameMeshes then
        collectSkinnedMeshTransformsForJoints allJoints
      else pure skinned3)
    M.when hadNamespaceOnBones
      (sbsWarn "Detected namespaces in skeleton joints; stripped during export")
    let sel ← buildSelection (allJoints ++ skinnedMeshTransforms)
    let _ ← M.call (.setActiveSelectionList sel)
    debugSelectionSnapshot
    setFbxExportDefaults
    M.when opts.skelAnimationOnly (sbsWarn
      "Skeleton AnimationOnly(UI)=true is ignored for Skeleton+BlendShape export (mesh/skin required)")
    M.when (!opts.bsShapes)
      (sbsWarn "BlendShape Shapes(UI)=false: morph target geometry will not be exported")
    M.when (!opts.skelSkeletonDefs) (sbsWarn
      "SkeletonDefs(UI)=false: FBX skeleton hierarchy metadata may be incomplete in some DCC/engines")
    let _ ← melExec "FBXExportShapes" ["-v", boolStr opts.bsShapes]
    let _ ← melExec "FBXExportSkins" ["-v", "true"]
    let _ ← melExec "FBXExportAnimationOnly" ["-v", "false"]
    let _ ← melExec "FBXExportBakeComplexAnimation" ["-v", boolStr opts.skelBakeComplex]
    let _ ← melExec "FBXExportSkeletonDefinitions" ["-v", boolStr opts.skelSkeletonDefs]
    let _ ← melExec "FBXExportConstraints" ["-v", boolStr opts.skelConstraints]
    let _ ← melExec "FBXExportInputConnections" ["-v", boolStr opts.skelInputConns]
    let _ ← melExec "FBXExportSmoothMesh" ["-v", boolStr opts.bsSmoothMesh]
    setFbxBakeRange startFrame endFrame
    let _ ← melExec "FBXExportFileVersion" ["-v", opts.fileVersion]
    let _ ← melExec "FBXExportUpAxis" [opts.upAxis]
    let fbxExportOk ← fbxExport outputPath
    -- restore the original names through the handles
    restoreAfterExport
    M.when (!fbxExportOk) (do
      let duration := (← now) - startTime
      let l ← M.getL
      M.ret (makeResult false outputPath 0 duration l.warnings
        ["FBXExport command failed for skeleton+blendshape export"]))
    let fbxStats ← scanFbxContent outputPath
    M.when (decide (fbxStats.limbNodes ≤ 0)) (sbsWarn "Exported FBX contains no LimbNode bones")
    M.when (decide (fbxStats.blendShapes ≤ 0)) (sbsWarn ("Exported FBX contains no BlendShape/Shape data — "
      ++ "UE may not import MorphTargets from this file"))
    residueCheck outputPath
    let duration := (← now) - startTime
    let fileSize ← fileSizeOrZero outputPath
    let l ← M.getL
    if fileSize ≤ 0 then
      M.ret (makeResult false outputPath fileSize duration l.warnings
        ["Skeleton+BlendShape export produced empty file"])
    else
      M.ret (makeResult true outputPath fileSize duration l.warnings [])

/-- The function `exportSkeletonBlendShapeFbx`. -/
def exportSkeletonBlendShapeFbx (skeletonRoot : String) (bsMeshes bsWeightAttrs : List String)
    (outputPath : String) (startFrame endFrame : Int) (opts : FbxExportOptions) :
    M σ SkelBsLocals ExportResult Empty := do
  let startTime ← now
  let plugin ← ensureFbxPlugin
  M.when (!plugin) (M.ret (makeResult false outputPath 0 0 [] ["fbxmaya plugin load failed"]))
  let e ← nodeExists skeletonRoot
  M.when (!e) (M.ret (makeResult false outputPath 0 0 []
    ["Skeleton root does not exist: " ++ skeletonRoot]))
  ensureOutDir outputPath
  M.tryCatch
    (exportSkeletonBlendShapeFbxBody skeletonRoot bsMeshes bsWeightAttrs outputPath
      startFrame endFrame opts startTime)
    (do
      M.tryCatch
        (do
          let l ← M.getL
          M.when l.didRenameJoints (restoreAll l.jointRenameRecs)
          M.when l.didRenameMeshes (restoreAll l.meshRenameRecs))
        (pure ())
      let duration := (← now) - startTime
      let l ← M.getL
      M.ret (makeResult false outputPath 0 duration l.warnings
        ["Skeleton+BlendShape export failed: unknown exception"]))

end SkeletonBlendShape

/-! ## Concrete scenes

Small facades on which the models are run. -/

/-- A scene with one camera: the exporter plugin is loaded, every node asked for exists,
`camera` creates `tmpCam`/`tmpCamShape`, every command succeeds, and the output file exists
with `size` bytes exactly when `written`. -/
def cameraScene (written : Bool) (size : Int) : Facade Unit := fun _ c =>
  match c with
  | .mel "pluginInfo" _ => ({ int := 1 }, ())
  | .mel "objExists" _ => ({ int := 1 }, ())
  | .mel "attributeQuery" _ => ({ int := 0 }, ())
  | .mel "camera" _ => ({ arr := ["tmpCam", "tmpCamShape"] }, ())
  | .mel "rename" _ => ({ str := "shot010" }, ())
  | .mel "ls" _ => ({ arr := ["|shot010"] }, ())
  | .mel "listRelatives" _ => ({ arr := ["|shot010|shot010Shape"] }, ())
  | .mel "xform" ("-q" :: _) => ({ arr := List.replicate 16 "0" }, ())
  | .mel "getAttr" _ => ({ str := "35" }, ())
  | .stat _ => ({ ok := written, reg := written, int := size }, ())
  | .readFile _ => ({ ok := written, str := "Camera" }, ())
  | _ => ({}, ())

/-- A writable rig whose joints cannot be renamed (the `rename` commands have no effect), so
that the joints keep their namespace: the root is `|ns:Root` with one child joint. `duplicate`
creates `Root1` with the child `spine`, constraints can be created, every command succeeds,
and the output file has 512 bytes that contain bone markers but no skin or deformer marker. -/
def lockedRigScene : Facade Unit := statelessHost fun c =>
  match c with
  | .mel "pluginInfo" _ => { int := 1 }
  | .mel "objExists" _ => { int := 1 }
  | .mel "nodeType" _ => { str := "joint" }
  | .mel "listRelatives" ["-allDescendents", "-type", "\"joint\"", "-fullPath", "\"|Root1\""] =>
      { arr := ["|Root1|spine"] }
  | .mel "listRelatives" ("-allDescendents" :: "-type" :: "\"joint\"" :: _) =>
      { arr := ["|ns:Root|ns:spine"] }
  | .mel "duplicate" _ => { arr := ["Root1"] }
  | .mel "parentConstraint" _ => { arr := ["Root1_parentConstraint1"] }
  | .selAdd "Root1" => { obj := some 7 }
  | .selAdd _ => { obj := some 1 }
  | .fullPathName (some 7) => { str := "|Root1" }
  | .fullPathName _ => { str := "|ns:Root" }
  | .nodeName _ => { str := "ns:Root" }
  | .stat _ => { ok := true, reg := true, int := 512 }
  | .readFile _ => { ok := true, str := "LimbNode Skeleton LimbNode Skeleton" }
  | _ => {}

/-! ## Observations on `resolvePostMerge` -/

/-- The host state in which `resolvePostMerge` sends its bare-name query: defined when the
identity lookup fails, that is when the path cannot be added to a selection list, has no
handle, or the handle has an empty full path. -/
def afterFailedLookup {σ : Type} (F : Facade σ) (sc : σ) (preMergePath : String) : Option σ :=
  let added := F sc (.selAdd preMergePath)
  if added.1.ok && added.1.obj.isSome then
    let resolved := F added.2 (.fullPathName added.1.obj)
    if resolved.1.str.data ≠ [] then none else some resolved.2
  else some added.2

/-- The candidates that the bare-name query `ls -long "<bare>"` returns in a host state. -/
def bareNameCandidates {σ : Type} (F : Facade σ) (sc : σ) (preMergePath : String) : List String :=
  (F sc (.mel "ls" ["-long", q (stripAllNamespaces (dagLeafName preMergePath))])).1.arr

/-- A scene for `resolvePostMerge` in which no path can be added to a selection list and the
bare-name query returns the given candidates. -/
def handScene (candidates : List String) : Facade Unit := fun _ c =>
  match c with
  | .selAdd _ => ({ ok := false }, ())
  | .mel "ls" _ => ({ arr := candidates }, ())
  | _ => ({}, ())

/-! ## Predicates on code -/

section Predicates

variable {σ L ρ α : Type}

/-- Every `return` statement that the code can execute returns a value satisfying `P`. -/
structure Rets (P : ρ → Prop) (m : M σ L ρ α) : Prop where
  /-- The returned value of any run that ends in `return`. -/
  out : ∀ F s r, (m.run F s).1 = .ret r → P r

/-- Every value with which the code can fall through satisfies `Q`. -/
structure Vals (Q : α → Prop) (m : M σ L ρ α) : Prop where
  /-- The value of any run that falls through. -/
  out : ∀ F s a, (m.run F s).1 = .val a → Q a

end Predicates

/-! ## Kinds of requests

A classification of the requests that the export code sends, used to say what a piece of
code can and cannot do to the scene. -/

/-- What a request does. -/
inductive Kind where
  /-- reads the scene (also resolving a name to a handle) -/
  | query
  /-- sets an option of the FBX exporter or loads the plugin -/
  | setting
  /-- the command `FBXExport` -/
  | export
  /-- changes the active selection -/
  | select
  /-- creates nodes: `duplicate`, `camera` -/
  | create
  /-- the command `delete` -/
  | delete
  /-- renames a node: the command `rename` and `setName` -/
  | rename
  /-- the command `parent` -/
  | reparent
  /-- creates a constraint -/
  | constrain
  /-- writes attributes, connections, locks -/
  | attr
  /-- writes keys: `setKeyframe`, `cutKey`, `bakeResults` -/
  | key
  /-- moves the current time or suspends the refresh -/
  | time
  /-- the undo queue: `undoInfo`, `undo` -/
  | undo
  /-- merges a namespace with the root -/
  | merge
  /-- the file system: `stat`, `mkdir`, reading a file -/
  | file
  /-- the clock -/
  | clock
  /-- any other command -/
  | other
  deriving DecidableEq, Repr

/-- The kind of a MEL command, from its name and, for the commands that both read and write,
from its first word. -/
def melKind (verb : String) (args : List String) : Kind :=
  match verb with
  | "objExists" => .query
  | "attributeQuery" => .query
  | "ls" => .query
  | "listRelatives" => .query
  | "listConnections" => .query
  | "listHistory" => .query
  | "nodeType" => .query
  | "pluginInfo" => .query
  | "connectionInfo" => .query
  | "keyframe" => .query
  | "skinCluster" => .query
  | "getAttr" => .query
  | "xform" => if args.head? = some "-q" then .query else .attr
  | "currentTime" => if args.head? = some "-q" then .query else .time
  | "refresh" => if args.head? = some "-q" then .query else .time
  | "namespace" => if args.head? = some "-exists" then .query else .merge
  | "loadPlugin" => .setting
  | "FBXExportSmoothingGroups" => .setting
  | "FBXExportSmoothMesh" => .setting
  | "FBXExportReferencedAssetsContent" => .setting
  | "FBXExportSkins" => .setting
  | "FBXExportShapes" => .setting
  | "FBXExportAnimationOnly" => .setting
  | "FBXExportBakeComplexAnimation" => .setting
  | "FBXExportConstraints" => .setting
  | "FBXExportInputConnections" => .setting
  | "FBXExportCameras" => .setting
  | "FBXExportLights" => .setting
  | "FBXExportEmbeddedTextures" => .setting
  | "FBXExportFileVersion" => .setting
  | "FBXExportUpAxis" => .setting
  | "FBXExportSkeletonDefinitions" => .setting
  | "FBXExportBakeComplexStart" => .setting
  | "FBXExportBakeComplexEnd" => .setting
  | "FBXExportBakeComplexStep" => .setting
  | "FBXExportBakeResampleAnimation" => .setting
  | "FBXExport" => .export
  | "select" => .select
  | "duplicate" => .create
  | "camera" => .create
  | "delete" => .delete
  | "rename" => .rename
  | "parent" => .reparent
  | "parentConstraint" => .constrain
  | "orientConstraint" => .constrain
  | "setAttr" => .attr
  | "addAttr" => .attr
  | "connectAttr" => .attr
  | "disconnectAttr" => .attr
  | "setKeyframe" => .key
  | "cutKey" => .key
  | "bakeResults" => .key
  | "undoInfo" => .undo
  | "undo" => .undo
  | _ => .other

/-- The kind of a request. -/
def Cmd.kind : Cmd → Kind
  | .mel verb args => melKind verb args
  | .selAdd _ => .query
  | .fullPathName _ => .query
  | .nodeName _ => .query
  | .setName _ _ => .rename
  | .isFromReferencedFile _ => .query
  | .setActiveSelectionList _ => .select
  | .unlockPlug _ _ => .attr
  | .setKeyable _ _ => .attr
  | .stat _ => .file
  | .mkdir _ => .file
  | .readFile _ => .file
  | .time => .clock

/-- A condition on requests that admits the kinds used by the helper code shared by all
pipelines: reading the scene, exporter settings, the selection, the file system and the
clock. -/
structure Benign (C : Cmd → Prop) : Prop where
  /-- reading the scene is allowed -/
  query : ∀ c, c.kind = .query → C c
  /-- exporter settings are allowed -/
  setting : ∀ c, c.kind = .setting → C c
  /-- the file system is allowed -/
  file : ∀ c, c.kind = .file → C c
  /-- the clock is allowed -/
  clock : ∀ c, c.kind = .clock → C c
  /-- changing the selection is allowed -/
  select : ∀ c, c.kind = .select → C c

/-- A facade none of whose answers throws. -/
def NoFault {σ : Type} (F : Facade σ) : Prop :=
  ∀ sc c, (F sc c).1.fault = false

/-- A relation on the locals that is reflexive and transitive: what a piece of code may do to
the local variables. -/
structure LocRel (L : Type) where
  /-- locals before, locals after -/
  rel : L → L → Prop
  /-- doing nothing is allowed -/
  refl : ∀ l, rel l l
  /-- two allowed changes in a row are allowed -/
  trans : ∀ a b c, rel a b → rel b c → rel a c

/-- The locals do not change. -/
def LocRel.same (L : Type) : LocRel L where
  rel := fun a b => b = a
  refl := fun _ => rfl
  trans := fun _ _ _ h1 h2 => h2.trans h1

/-- The locals may change in any way. -/
def LocRel.any (L : Type) : LocRel L where
  rel := fun _ _ => True
  refl := fun _ => trivial
  trans := fun _ _ _ _ _ => trivial

/-- The host state reached from `sc` after the requests of a trace, in order. -/
def replay {σ : Type} (F : Facade σ) : σ → List (Cmd × Resp) → σ
  | sc, [] => sc
  | sc, x :: t => replay F (F sc x.1).2 t

/-- The answers recorded in a trace are the answers of `F` from the host state `sc` on. -/
def Answered {σ : Type} (F : Facade σ) : σ → List (Cmd × Resp) → Prop
  | _, [] => True
  | sc, x :: t => x.2 = (F sc x.1).1 ∧ Answered F (F sc x.1).2 t

/-- The run `s1` extends `s`: its locals are related by `R`, its trace is the trace of `s`
followed by requests that satisfy `C` and were answered by `F`, and its host state is the one
reached through these requests. -/
structure Extends {σ L : Type} (F : Facade σ) (C : Cmd → Prop) (R : LocRel L)
    (s s1 : Run σ L) : Prop where
  /-- the locals changed within `R` -/
  loc : R.rel s.loc s1.loc
  /-- the requests sent in between -/
  steps : ∃ t, s1.trace = s.trace ++ t ∧ (∀ x ∈ t, C x.1) ∧ Answered F s.scene t
    ∧ s1.scene = replay F s.scene t

/-- Code that, however it ends, only sends requests satisfying `C` and changes the locals
within `R`, and raises an exception only when the facade faults; it may execute `return`. -/
structure Calm {σ L ρ α : Type} (C : Cmd → Prop) (R : LocRel L) (m : M σ L ρ α) : Prop where
  /-- any run extends its start state -/
  ext : ∀ F s, Extends F C R s (m.run F s).2
  /-- no run against a facade without faults ends in an exception -/
  noExc : ∀ F s, NoFault F → (m.run F s).1 ≠ .exc

/-- Code that only sends requests satisfying `C`, changes the locals within `R`, never
executes `return`, and raises an exception only when the facade faults. -/
structure Quiet {σ L ρ α : Type} (C : Cmd → Prop) (R : LocRel L) (m : M σ L ρ α) : Prop where
  /-- any run extends its start state -/
  ext : ∀ F s, Extends F C R s (m.run F s).2
  /-- no run ends in `return` -/
  noRet : ∀ F s r, (m.run F s).1 ≠ .ret r
  /-- no run against a facade without faults ends in an exception -/
  noExc : ∀ F s, NoFault F → (m.run F s).1 ≠ .exc

/-- A Hoare triple for code run against the facade `F`: from a state satisfying `pre`, the
outcome and the final state satisfy `post`. -/
def Triple {σ L ρ α : Type} (F : Facade σ) (pre : Run σ L → Prop) (m : M σ L ρ α)
    (post : Out ρ α → Run σ L → Prop) : Prop :=
  ∀ s, pre s → post (m.run F s).1 (m.run F s).2

/-- An assertion that survives every extension of the run by requests satisfying `C` with
changes of the locals within `R`. -/
def Stable {σ L : Type} (F : Facade σ) (C : Cmd → Prop) (R : LocRel L)
    (I : Run σ L → Prop) : Prop :=
  ∀ s s1, I s → Extends F C R s s1 → I s1

/-- The weakest precondition of code run against the facade `F`: the outcome and the final
state of the run from `s` satisfy `post`. -/
def wp {σ L ρ α : Type} (F : Facade σ) (m : M σ L ρ α) (post : Out ρ α → Run σ L → Prop)
    (s : Run σ L) : Prop :=
  post (m.run F s).1 (m.run F s).2

/-- The requests whose kind is one of `ks`. -/
def OfKinds (ks : List Kind) (c : Cmd) : Prop := c.kind ∈ ks

/-- The result invariant: a failed result carries an error, a successful one carries none. -/
def ResultOK (r : ExportResult) : Prop :=
  (r.success = false → r.errors ≠ []) ∧ (r.success = true → r.errors = [])


/-! ## Observations on the duplicate strategy -/

/-- No request of the trace has one of the kinds `ks`. -/
def NoKinds (ks : List Kind) (tr : List (Cmd × Resp)) : Prop := ∀ x ∈ tr, x.1.kind ∉ ks

/-- The trace holds a `duplicate` request whose answer starts with the name `d0`. -/
def DupRootNamed (tr : List (Cmd × Resp)) (d0 : String) : Prop :=
  ∃ a resp, (Cmd.mel "duplicate" a, resp) ∈ tr ∧ resp.arr.head? = some d0

/-- The last request of the trace deletes the duplicate root named `d0`: by the full path of
its handle, read just before, when `d0` could be resolved to a handle, else by the name `d0`
itself. -/
def DeletedLast (tr : List (Cmd × Resp)) (d0 : String) : Prop :=
  (∃ pre resp, tr = pre ++ [(Cmd.mel "delete" [q d0], resp)]) ∨
  (∃ pre h r0 r1 r2, (Cmd.selAdd d0, r0) ∈ tr ∧ r0.ok = true ∧ r0.obj = some h ∧
    tr = pre ++ [(Cmd.fullPathName (some h), r1), (Cmd.mel "delete" [q r1.str], r2)])

/-- What `cleanupDup` knows of the duplicate root: either only its name, or a handle that the
name was resolved to. -/
def DupHandle (d0 : String) (s : Run σ DupLocals) : Prop :=
  (s.loc.dupRootObj = none ∧ s.loc.dupRoot = d0) ∨
  (∃ h r0, s.loc.dupRootObj = some h ∧ (Cmd.selAdd d0, r0) ∈ s.trace ∧ r0.ok = true
    ∧ r0.obj = some h)

/-- The state of `exportSkeletonFbxViaDuplicate` once the duplicate exists. -/
structure DupInv {σ : Type} (ks : List Kind) (d0 : String) (s : Run σ DupLocals) : Prop where
  /-- no request of a kind in `ks` so far -/
  kinds : NoKinds ks s.trace
  /-- the duplicate was created -/
  named : DupRootNamed s.trace d0
  /-- its name is not empty -/
  nonempty : d0.data ≠ []
  /-- and `cleanupDup` can find it -/
  handle : DupHandle d0 s

/-- The outcome of the zero-constraint abort: a failed result, no `FBXExport` request, and,
when a constraint was attempted, the error about static animation and the deletion of the
duplicate as the last request. -/
def StaticAbort {σ : Type} (o : Out ExportResult Empty) (s : Run σ DupLocals) : Prop :=
  ∃ r, o = .ret r ∧ r.success = false ∧ NoKinds [.export] s.trace ∧
    ((∃ x ∈ s.trace, x.1.kind = .constrain) →
      r.errors = ["Failed to create constraints for duplicate skeleton (animation would be static)"]
      ∧ ∃ d0, DupRootNamed s.trace d0 ∧ DeletedLast s.trace d0)

/-- A scene in which the duplicate `dup1` of a single joint is made and every constraint
request fails. -/
def failingConstraintScene : Facade Unit := fun _ c =>
  match c with
  | .mel "duplicate" _ => ({ arr := ["dup1"] }, ())
  | .mel "parentConstraint" _ => ({ ok := false }, ())
  | .mel "orientConstraint" _ => ({ ok := false }, ())
  | .selAdd _ => ({ obj := some 1 }, ())
  | .fullPathName _ => ({ str := "|dup1" }, ())
  | _ => ({}, ())

/-! ## Observations on the camera pipeline -/

/-- The requests of a trace, without their answers. -/
def requests (tr : List (Cmd × Resp)) : List Cmd := tr.map Prod.fst

/-- The requests that `keyTransformAtFrame` sends: `setKeyframe -t <frame> ...`. -/
def isTransformKey : Cmd → Bool
  | .mel verb args => verb == "setKeyframe" && args.head? == some "-t"
  | _ => false

/-- The four requests of the defensive clip, in the order they are sent. -/
def clipCmds (startFrame endFrame : Int) (tmpCamXform tmpCamShape : String) : List Cmd :=
  [.mel "cutKey" (cutKeyArgs (":" ++ toString (startFrame - 1)) tmpCamXform),
   .mel "cutKey" (cutKeyArgs (toString (endFrame + 1) ++ ":") tmpCamXform),
   .mel "cutKey" (cutKeyArgs (":" ++ toString (startFrame - 1)) tmpCamShape),
   .mel "cutKey" (cutKeyArgs (toString (endFrame + 1) ++ ":") tmpCamShape)]

/-- The warnings only grow. -/
def WarningsGrow : LocRel CamLocals where
  rel := fun a b => ∀ w ∈ a.warnings, w ∈ b.warnings
  refl := fun _ _ h => h
  trans := fun _ _ _ h1 h2 w h => h2 w (h1 w h)

/-- A postcondition that holds of every exception and of every `return` of a failed result. -/
structure Lenient {σ L α : Type} (post : Out ExportResult α → Run σ L → Prop) : Prop where
  /-- exceptions are accepted -/
  exc : ∀ s, post .exc s
  /-- failed results are accepted -/
  fail : ∀ r s, r.success = false → post (.ret r) s

/-- Code that never falls through, and whose every `return` reports a failure. -/
def Fails {σ L α : Type} (m : M σ L ExportResult α) : Prop :=
  ∀ F s, match (m.run F s).1 with
    | .val _ => False
    | .ret r => r.success = false
    | .exc => True

/-- The postcondition of a round of a loop: the invariant when the round falls through, and
what `abort` says when it leaves the loop. -/
def roundPost {σ L ρ : Type} (Inv : Run σ L → Prop) (abort : Out ρ Unit → Run σ L → Prop)
    (o : Out ρ Unit) (s : Run σ L) : Prop :=
  match o with
  | .val _ => Inv s
  | .ret r => abort (.ret r) s
  | .exc => abort .exc s

/-! ## The export loop of `BatchExporterUI::onExport` (`BatchExporterUI.cpp`, lines 1225-1352)

The pipelines are called through a host that answers each call with an `ExportResult`; the same
host runs the pending slots of the event loop, among them `onCancel`, which sets the member
`cancelRequested_`. The widgets (progress bar, status line, table) are left out. -/

/-- Source: `struct ExportItem` of `NamingUtils.h`. -/
structure ExportItem where
  type : String := ""
  node : String := ""
  name : String := ""
  nsOrName : String := ""
  filename : String := ""
  selected : Bool := false
  status : String := "pending"
  message : String := ""
  bsMeshes : List String := []
  bsNodes : List String := []
  bsWeightAttrs : List String := []
  deriving DecidableEq, Repr

instance : Inhabited ExportItem := ⟨{}⟩

/-- The test `status == "pending" || status == "exporting"` of the cancel check. -/
def ExportItem.waiting (it : ExportItem) : Bool :=
  it.status = "pending" ∨ it.status = "exporting"

/-- The assignments of the cancel check to one item. -/
def ExportItem.cancel (it : ExportItem) : ExportItem :=
  { it with status := "cancelled", message := "Cancelled by user" }

/-- A call of one of the four export pipelines, with its arguments. -/
inductive PipelineCall where
  | exportCameraFbx (node outputPath : String) (startFrame endFrame : Int)
      (opts : FbxExportOptions)
  | exportSkeletonFbx (node outputPath : String) (startFrame endFrame : Int)
      (opts : FbxExportOptions)
  | exportBlendShapeFbx (node outputPath : String) (startFrame endFrame : Int)
      (opts : FbxExportOptions)
  | exportSkeletonBlendShapeFbx (node : String) (bsMeshes bsWeightAttrs : List String)
      (outputPath : String) (startFrame endFrame : Int) (opts : FbxExportOptions)
  deriving DecidableEq, Repr

/-- What the export loop runs against: the pipelines, the event loop and the cancel flag. -/
structure UiHost (τ : Type) where
  /-- run a pipeline to its result -/
  invoke : τ → PipelineCall → ExportResult × τ
  /-- Source: `QApplication::processEvents()` -/
  processEvents : τ → τ
  /-- the member `cancelRequested_` -/
  cancelRequested : τ → Bool
  /-- Source: `dir.absoluteFilePath(item.filename)` -/
  absoluteFilePath : String → String

/-- The variables of the export phase: the member `exportItems_`, the three counters, the host
state, and the pipeline calls made so far with their results. -/
structure ExportRun (τ : Type) where
  exportItems : List ExportItem
  exportedCount : Int := 0
  errorCount : Int := 0
  cancelledCount : Int := 0
  world : τ
  calls : List (PipelineCall × ExportResult) := []

/-- The loop that collects `selectedIndices`: the positions of the selected items. -/
def selectedIndicesOf (exportItems : List ExportItem) : List Nat :=
  (List.range exportItems.length).filter fun i => (exportItems.getD i default).selected

/-- The message of an item that failed during bake collection. -/
def bakeFailureMessage (type : String) : String :=
  if type = "camera" then "Camera node missing"
  else if type = "skeleton" ∨ type = "skeleton+blendshape" then "Skeleton root missing"
  else "Node missing or no blendShape found"

/-- The loop that marks the items that failed during bake collection. -/
def markBakeFailures (selectedIndices : List Nat) (failedBakeIndices : List Int)
    (exportItems : List ExportItem) : List ExportItem :=
  failedBakeIndices.foldl (fun items fi =>
    if 0 ≤ fi ∧ fi < (selectedIndices.length : Int) then
      let idx := selectedIndices.getD fi.toNat 0
      let it := items.getD idx default
      items.set idx { it with status := "error", message := bakeFailureMessage it.type }
    else items) exportItems

/-- The inner loop of the cancel check: the remaining items that are pending or exporting
become cancelled. -/
def markCancelled {τ : Type} : List Nat → ExportRun τ → ExportRun τ
  | [], s => s
  | jIdx :: rest, s =>
    let it := s.exportItems.getD jIdx default
    if it.waiting then
      markCancelled rest { s with
        exportItems := s.exportItems.set jIdx it.cancel
        cancelledCount := s.cancelledCount + 1 }
    else markCancelled rest s

/-- The dispatch on `item.type`: the pipeline call of an item, `none` for an unknown type. -/
def pipelineCallOf (outputPath : String) (startFrame endFrame : Int) (fbxOpts : FbxExportOptions)
    (item : ExportItem) : Option PipelineCall :=
  if item.type = "camera" then
    some (.exportCameraFbx item.node outputPath startFrame endFrame fbxOpts)
  else if item.type = "skeleton+blendshape" then
    if fbxOpts.skelBlendShape && !item.bsWeightAttrs.isEmpty then
      some (.exportSkeletonBlendShapeFbx item.node item.bsMeshes item.bsWeightAttrs outputPath
        startFrame endFrame fbxOpts)
    else some (.exportSkeletonFbx item.node outputPath startFrame endFrame fbxOpts)
  else if item.type = "skeleton" then
    some (.exportSkeletonFbx item.node outputPath startFrame endFrame fbxOpts)
  else if item.type = "blendshape" then
    some (.exportBlendShapeFbx item.node outputPath startFrame endFrame fbxOpts)
  else none

/-- The message of an item whose export succeeded. -/
def doneMessage (result : ExportResult) : String :=
  "OK" ++ (if result.fileSize > 0 then " (" ++ toString (result.fileSize / 1024) ++ "KB)" else "")
    ++ (if result.warnings.isEmpty then "" else " " ++ toString result.warnings.length ++ " warning(s)")

/-- The message of an item whose export failed. -/
def errorMessage (result : ExportResult) : String :=
  match result.errors with
  | e :: _ => e
  | [] => "Export failed (unknown error)"

/-- The export loop from position `i`, where `rest` holds `selectedIndices[i..]`. -/
def exportLoop {τ : Type} (host : UiHost τ) (failedBakeIndices : List Int)
    (startFrame endFrame : Int) (fbxOpts : FbxExportOptions) :
    Nat → List Nat → ExportRun τ → ExportRun τ
  | _, [], s => s
  | i, idx :: rest, s =>
    -- check the cancel flag before each item
    if host.cancelRequested s.world then markCancelled (idx :: rest) s
    -- skip items that failed during bake
    else if failedBakeIndices.contains (i : Int) then
      exportLoop host failedBakeIndices startFrame endFrame fbxOpts (i + 1) rest
        { s with errorCount := s.errorCount + 1, world := host.processEvents s.world }
    else
      let item := s.exportItems.getD idx default
      let items1 := s.exportItems.set idx { item with status := "exporting" }
      let w1 := host.processEvents s.world
      let outputPath := host.absoluteFilePath item.filename
      match pipelineCallOf outputPath startFrame endFrame fbxOpts item with
      | none =>
        exportLoop host failedBakeIndices startFrame endFrame fbxOpts (i + 1) rest
          { s with
            exportItems := items1.set idx
              { item with status := "error", message := "Unknown export type: " ++ item.type }
            errorCount := s.errorCount + 1
            world := host.processEvents w1 }
      | some call =>
        let result := (host.invoke w1 call).1
        let w2 := (host.invoke w1 call).2
        if result.success then
          exportLoop host failedBakeIndices startFrame endFrame fbxOpts (i + 1) rest
            { s with
              exportItems := items1.set idx
                { item with status := "done", message := doneMessage result }
              exportedCount := s.exportedCount + 1
              world := host.processEvents w2
              calls := s.calls ++ [(call, result)] }
        else
          exportLoop host failedBakeIndices startFrame endFrame fbxOpts (i + 1) rest
            { s with
              exportItems := items1.set idx
                { item with status := "error", message := errorMessage result }
              errorCount := s.errorCount + 1
              world := host.processEvents w2
              calls := s.calls ++ [(call, result)] }

/-- The export phase of `onExport`: mark the bake failures, then run the loop over the selected
items. -/
def exportPhase {τ : Type} (host : UiHost τ) (exportItems : List ExportItem)
    (failedBakeIndices : List Int) (startFrame endFrame : Int) (fbxOpts : FbxExportOptions)
    (w : τ) : ExportRun τ :=
  exportLoop host failedBakeIndices startFrame endFrame fbxOpts 0 (selectedIndicesOf exportItems)
    { exportItems := markBakeFailures (selectedIndicesOf exportItems) failedBakeIndices exportItems
      world := w }

/-- The pipeline call that the loop makes for an item: the dispatch on its type, with the output
path built from its file name. -/
def plannedCall {τ : Type} (host : UiHost τ) (startFrame endFrame : Int)
    (fbxOpts : FbxExportOptions) (item : ExportItem) : Option PipelineCall :=
  pipelineCallOf (host.absoluteFilePath item.filename) startFrame endFrame fbxOpts item

/-- Whether position `i` of the selection failed in the bake phase. -/
def bakeFailed (failedBakeIndices : List Int) (i : Nat) : Bool :=
  failedBakeIndices.contains (i : Int)

/-- A host on which the user has pressed cancel before the first item; every pipeline would
fail. -/
def cancelledHost : UiHost Unit where
  invoke := fun _ _ => (makeResult false "" 0 0 [] ["failed"], ())
  processEvents := fun _ => ()
  cancelRequested := fun _ => true
  absoluteFilePath := fun f => "out/" ++ f

/-- A host without cancellation on which the camera pipeline succeeds and every other pipeline
fails. -/
def cameraOnlyHost : UiHost Unit where
  invoke := fun _ c =>
    match c with
    | .exportCameraFbx _ p _ _ _ => (makeResult true p 2048 0 [] [], ())
    | _ => (makeResult false "" 0 0 [] ["failed"], ())
  processEvents := fun _ => ()
  cancelRequested := fun _ => false
  absoluteFilePath := fun f => "out/" ++ f

/-! ## Observations on `countTokenOccurrences` -/

/-- The number of non-overlapping occurrences of `needle` that a scan from left to right finds:
`skip` characters of the text still belong to the occurrence counted last; at any other position
an occurrence that starts there is counted. Written from the words of the specification. -/
def scanCount (needle : List Char) : List Char → Nat → Nat
  | [], _ => 0
  | _ :: cs, skip + 1 => scanCount needle cs skip
  | c :: cs, 0 =>
    if needle.isPrefixOf (c :: cs) then 1 + scanCount needle cs (needle.length - 1)
    else scanCount needle cs 0

/-- A file system in which no file can be opened. -/
def noFileScene : Facade Unit := fun _ c =>
  match c with
  | .readFile _ => ({ ok := false }, ())
  | _ => ({}, ())

/-! ## The motion-sampling fallback of `queryFrameRange` (lines 3731-3758) -/

/-- The variable `stride` for `allJoints.size() = n`, with `maxSamples = 24`. -/
def sampleStride (n : Nat) : Nat :=
  let stride := if n > 24 then n / 24 else 1
  if stride = 0 then 1 else stride

/-- The indices that the loop `for (size_t i = 0; i < n; i += stride)` visits from `i` on, in
at most `fuel` rounds. -/
def sampleLoop (n stride : Nat) : Nat → Nat → List Nat
  | 0, _ => []
  | fuel + 1, i => if i < n then i :: sampleLoop n stride fuel (i + stride) else []

/-- The indices of the joints that are sampled among `n` joints; the stride is at least 1, so
`n` rounds suffice. -/
def sampledJoints (n : Nat) : List Nat :=
  sampleLoop n (sampleStride n) n 0

/-- A host on which the user presses cancel while the first pipeline call runs: the state is the
number of calls made; every call succeeds. -/
def cancelAfterFirstHost : UiHost Nat where
  invoke := fun n _ => (makeResult true "" 1024 0 [] [], n + 1)
  processEvents := fun n => n
  cancelRequested := fun n => decide (1 ≤ n)
  absoluteFilePath := fun f => "out/" ++ f

/-! ## File names (`NamingUtils.cpp`, lines 222-421)

The three regular expressions of `cleanCharacterName` and `extractRigNumber` end in `$` and
start with a fixed word, so a match is a suffix of the name that is one of the words, compared
without case, followed by digits; `std::regex_search` takes the leftmost such suffix. -/

/-- Source: `struct SceneTokens` of `NamingUtils.h`. -/
structure SceneTokens where
  project : String := ""
  scene : String := ""
  shot : String := ""
  basename : String := ""
  deriving DecidableEq, Repr

/-- The class `\d` of the regular expressions. -/
def isDigit (c : Char) : Bool :=
  '0' ≤ c ∧ c ≤ '9'

/-- Whether the whole text `cs` is one of the words `alts` (given in lower case and compared
without case) followed by at least `minDigits` digits and nothing else; the digits are
returned. -/
def matchesHere (alts : List (List Char)) (minDigits : Nat) (cs : List Char) :
    Option (List Char) :=
  alts.findSome? fun alt =>
    if (cs.take alt.length).map tolower = alt ∧ (cs.drop alt.length).all isDigit
        ∧ minDigits ≤ (cs.drop alt.length).length then
      some (cs.drop alt.length)
    else none

/-- The leftmost position from which the rest of the text matches, with the digits of the
match; `i` is the position of the first character of the text. -/
def searchAtEnd (alts : List (List Char)) (minDigits : Nat) :
    List Char → Nat → Option (Nat × List Char)
  | [], _ => none
  | c :: cs, i =>
    match matchesHere alts minDigits (c :: cs) with
    | some d => some (i, d)
    | none => searchAtEnd alts minDigits cs (i + 1)

/-- The call `std::regex_replace(name, re, "")` for a pattern that ends in `$`. -/
def stripAtEnd (alts : List (List Char)) (minDigits : Nat) (name : String) : String :=
  match searchAtEnd alts minDigits name.data 0 with
  | some (i, _) => substrN name 0 i
  | none => name

/-- The words of the pattern `(_Skin_Rig|_PV_Rig|_Rig)`, in lower case. -/
def rigWords : List (List Char) :=
  ["_skin_rig".data, "_pv_rig".data, "_rig".data]

/-- Source: `cleanCharacterName`. -/
def cleanCharacterName (rawName : String) : String :=
  -- strip any namespace prefix
  let name := match rfind rawName ':' with
    | some colonPos => substr rawName (colonPos + 1)
    | none => rawName
  -- strip the prefix `SK_`, without case
  let name := if (name.data.take 3).map tolower = "sk_".data then substr name 3 else name
  -- strip `_Skin_Rig`, `_PV_Rig`, `_Rig` with optional digits
  let name := stripAtEnd rigWords 0 name
  -- strip trailing `_digits`
  let name := stripAtEnd ["_".data] 1 name
  if name.data = [] then rawName else name

/-- Source: `extractRigNumber`. -/
def extractRigNumber (rawName : String) : String :=
  match searchAtEnd rigWords 1 rawName.data 0 with
  | some (_, digits) => ⟨digits⟩
  | none => ""

/-- The loop that joins `parts` with `_`. -/
def joinParts (parts : List String) : String :=
  (parts.enum.foldl (fun (result : String) (p : Nat × String) =>
    (if p.1 > 0 then result ++ "_" else result) ++ p.2) "")

/-- The vector `parts` that the three file-name functions for rigs build before the type
suffix. -/
def rigParts (nsOrName : String) (tokens : SceneTokens) (rigSuffix : String) : List String :=
  let charName := cleanCharacterName nsOrName
  ["A"] ++ (if tokens.project.data ≠ [] then [tokens.project] else [])
    ++ [charName]
    ++ (if rigSuffix.data ≠ [] then [rigSuffix] else [])
    ++ (if tokens.scene.data ≠ [] then [tokens.scene] else [])
    ++ (if tokens.shot.data ≠ [] then [tokens.shot] else [])

/-- Source: `buildSkeletonFilename`. -/
def buildSkeletonFilename (nsOrName : String) (tokens : SceneTokens) (rigSuffix : String) :
    String :=
  joinParts (rigParts nsOrName tokens rigSuffix) ++ ".fbx"

/-- Source: `buildBlendShapeFilename`. -/
def buildBlendShapeFilename (nsOrName : String) (tokens : SceneTokens) (rigSuffix : String) :
    String :=
  joinParts (rigParts nsOrName tokens rigSuffix ++ ["Face"]) ++ ".fbx"

/-- Source: `buildSkeletonBlendShapeFilename`: no type suffix is appended. -/
def buildSkeletonBlendShapeFilename (nsOrName : String) (tokens : SceneTokens)
    (rigSuffix : String) : String :=
  joinParts (rigParts nsOrName tokens rigSuffix) ++ ".fbx"

/-- The key of a group of `deduplicateFilenames`: category and cleaned name. -/
structure GroupKey where
  category : String
  cleanedName : String
  deriving DecidableEq, Repr

/-- The member `GroupKey::operator<`. -/
def GroupKey.lt (a o : GroupKey) : Bool :=
  if a.category ≠ o.category then a.category < o.category else a.cleanedName < o.cleanedName

/-- The statement `groups[key].push_back(i)` on a map kept in the order of its keys. -/
def groupPush (key : GroupKey) (i : Nat) :
    List (GroupKey × List Nat) → List (GroupKey × List Nat)
  | [] => [(key, [i])]
  | (k, v) :: rest =>
    if k = key then (k, v ++ [i]) :: rest
    else if key.lt k then (key, [i]) :: (k, v) :: rest
    else (k, v) :: groupPush key i rest

/-- The first loop of `deduplicateFilenames`: the groups of the rig items. -/
def buildGroups (items : List ExportItem) : List (GroupKey × List Nat) :=
  items.enum.foldl (fun groups (p : Nat × ExportItem) =>
    if p.2.type = "skeleton" then
      groupPush { category := "skel", cleanedName := cleanCharacterName p.2.nsOrName } p.1 groups
    else if p.2.type = "blendshape" then
      groupPush { category := "bs", cleanedName := cleanCharacterName p.2.nsOrName } p.1 groups
    else if p.2.type = "skeleton+blendshape" then
      groupPush { category := "skelbs", cleanedName := cleanCharacterName p.2.nsOrName } p.1 groups
    else groups) []

/-- The body of the second loop for one member of a group with at least two members. -/
def renameMember (cat : String) (tokens : SceneTokens) (items : List ExportItem) (idx : Nat) :
    List ExportItem :=
  let it := items.getD idx default
  let rigNum := extractRigNumber it.nsOrName
  if cat = "skel" then
    items.set idx { it with filename := buildSkeletonFilename it.nsOrName tokens rigNum }
  else if cat = "skelbs" then
    items.set idx { it with filename := buildSkeletonBlendShapeFilename it.nsOrName tokens rigNum }
  else
    items.set idx { it with filename := buildBlendShapeFilename it.nsOrName tokens rigNum }

/-- The second loop of `deduplicateFilenames`: the members of every group with at least two
members get a file name with their rig number. -/
def renameGroups (tokens : SceneTokens) (groups : List (GroupKey × List Nat))
    (items : List ExportItem) : List ExportItem :=
  groups.foldl (fun items kv =>
    if kv.2.length < 2 then items
    else kv.2.foldl (renameMember kv.1.category tokens) items) items

/-- The value `seen[fn]` of the map `seen`, `none` when `fn` is not a key. -/
def seenFind (seen : List (String × Int)) (fn : String) : Option Int :=
  (seen.find? fun kv => kv.1 = fn).map Prod.snd

/-- The assignment `seen[fn] = n`. -/
def seenSet (seen : List (String × Int)) (fn : String) (n : Int) : List (String × Int) :=
  if (seen.any fun kv => kv.1 = fn) then seen.map fun kv => if kv.1 = fn then (fn, n) else kv
  else seen ++ [(fn, n)]

/-- The last loop of `deduplicateFilenames`: a file name seen before gets `_2`, `_3`, ...
before its extension. The result holds the items in their order. -/
def appendCounters : List ExportItem → List (String × Int) → List ExportItem
  | [], _ => []
  | item :: rest, seen =>
    let fn := item.filename
    match seenFind seen fn with
    | some n =>
      let filename := match rfind fn '.' with
        | some dotPos => substrN fn 0 dotPos ++ "_" ++ toString (n + 1) ++ substr fn dotPos
        | none => fn ++ "_" ++ toString (n + 1)
      { item with filename := filename } :: appendCounters rest (seenSet seen fn (n + 1))
    | none => item :: appendCounters rest (seenSet seen fn 1)

/-- Source: `deduplicateFilenames`; the result is the vector `items` after the call. -/
def deduplicateFilenames (items : List ExportItem) (tokens : SceneTokens) : List ExportItem :=
  appendCounters (renameGroups tokens (buildGroups items) items) []

/-! ## Source function `expandEnvVars` (`SceneScanner.cpp`, lines 137-214), without `_WIN32` -/

/-- The C function `isalnum` in the "C" locale. -/
def isalnum (c : Char) : Bool :=
  ('0' ≤ c ∧ c ≤ '9') ∨ ('a' ≤ c ∧ c ≤ 'z') ∨ ('A' ≤ c ∧ c ≤ 'Z')

/-- The two `while` loops that advance `end`: the first index at or after `pos` whose character
does not satisfy `p`, or the length of the text; `cs` is the text from `pos` on. -/
def scanWhile (p : Char → Bool) : List Char → Nat → Nat
  | [], pos => pos
  | c :: cs, pos => if p c then scanWhile p cs (pos + 1) else pos

/-- The `for` loop of `expandEnvVars` from index `i` on, for at most `fuel` rounds; `getenv`
answers `std::getenv`, and `out` is the output so far. -/
def expandLoop (getenv : String → Option String) (value : List Char) :
    Nat → Nat → List Char → List Char
  | 0, _, out => out
  | fuel + 1, i, out =>
    if i < value.length then
      if value.getD i ' ' = '$' then
        let start := i + 1
        if start < value.length ∧ value.getD start ' ' = '{' then
          -- the reference is written with braces
          let start := start + 1
          let stop := scanWhile (fun c => c ≠ '}') (value.drop start) start
          let varName := if stop < value.length then (value.drop start).take (stop - start) else []
          let i1 := if stop < value.length then stop else i
          match (if varName ≠ [] then getenv ⟨varName⟩ else none) with
          | some envVal => expandLoop getenv value fuel (i1 + 1) (out ++ envVal.data)
          | none => expandLoop getenv value fuel (i1 + 1) (out ++ ['$', '{'] ++ varName ++ ['}'])
        else
          let stop := scanWhile (fun c => isalnum c || c = '_') (value.drop start) start
          let varName := (value.drop start).take (stop - start)
          let i1 := stop - 1
          match (if varName ≠ [] then getenv ⟨varName⟩ else none) with
          | some envVal => expandLoop getenv value fuel (i1 + 1) (out ++ envVal.data)
          | none => expandLoop getenv value fuel (i1 + 1) (out ++ ['$'] ++ varName)
      else expandLoop getenv value fuel (i + 1) (out ++ [value.getD i ' '])
    else out

/-- Source: `expandEnvVars`; every round of the loop advances `i`, so `size + 1` rounds
suffice. -/
def expandEnvVars (getenv : String → Option String) (input : String) : String :=
  ⟨expandLoop getenv input.data (input.data.length + 1) 0 []⟩

/-! ## Source function `batchBakeAll` (lines 757-964) and the scanner lambda `scanMeshForBS`
(`SceneScanner.cpp`, lines 509-561) -/

/-- The plug `<histNode>.weight[<i>]` that `aliasAttr -q` is asked about. -/
def weightPlug (histNode : String) (i : Nat) : String :=
  histNode ++ ".weight[" ++ toString i ++ "]"

/-- The request `aliasAttr -q "<histNode>.weight[<i>]"`. -/
def aliasQuery (histNode : String) (i : Nat) : Cmd :=
  .mel "aliasAttr" ["-q", q (weightPlug histNode i)]

/-- The variable `attrName`: the alias qualified by the deformer when the query succeeded with
a non-empty alias, else the indexed plug. -/
def weightAttrName (histNode : String) (i : Nat) (ali : Resp) : String :=
  if ali.ok && decide (ali.str.data ≠ []) then histNode ++ "." ++ ali.str
  else weightPlug histNode i

/-- The variables of `batchBakeAll`. -/
structure BakeLocals where
  transformNodes : List String := []
  bsAttrs : List String := []
  failedIndices : List Int := []
  seenNodes : List String := []
  seenAttrs : List String := []

/-- The effect of `failedIndices.insert(idx)` on the variables. -/
def BakeLocals.fail (l : BakeLocals) (idx : Nat) : BakeLocals :=
  if l.failedIndices.contains (idx : Int) then l
  else { l with failedIndices := l.failedIndices ++ [(idx : Int)] }

/-- The effect of `if (seenAttrs.count(attr) == 0) { seenAttrs.insert(attr);
bsAttrs.push_back(attr); }` on the variables. -/
def BakeLocals.queue (l : BakeLocals) (attr : String) : BakeLocals :=
  if l.seenAttrs.contains attr then l
  else { l with seenAttrs := setInsert attr l.seenAttrs, bsAttrs := l.bsAttrs ++ [attr] }

/-- The arguments of the `bakeResults` command for transform nodes. -/
def transformBakeArgs (startFrame endFrame : Int) (nodes : List String) : List String :=
  ["-simulation", "true", "-time", q (toString startFrame ++ ":" ++ toString endFrame),
   "-sampleBy", "1", "-oversamplingRate", "1", "-disableImplicitControl", "true",
   "-preserveOutsideKeys", "false", "-sparseAnimCurveBake", "false",
   "-removeBakedAttributeFromLayer", "false", "-bakeOnOverrideLayer", "false",
   "-minimizeRotation", "true",
   "-attribute", "\"tx\"", "-attribute", "\"ty\"", "-attribute", "\"tz\"",
   "-attribute", "\"rx\"", "-attribute", "\"ry\"", "-attribute", "\"rz\"",
   "-attribute", "\"sx\"", "-attribute", "\"sy\"", "-attribute", "\"sz\"",
   "-attribute", "\"focalLength\""] ++ nodes.map q

/-- The arguments of the `bakeResults` command for blendshape weight attributes. -/
def bsBakeArgs (startFrame endFrame : Int) (attrs : List String) : List String :=
  ["-simulation", "true", "-time", q (toString startFrame ++ ":" ++ toString endFrame),
   "-sampleBy", "1", "-oversamplingRate", "1", "-disableImplicitControl", "true",
   "-preserveOutsideKeys", "false", "-sparseAnimCurveBake", "false"] ++ attrs.map q

section BatchBake

variable {σ ρ : Type}

/-- The statement `failedIndices.insert(idx)`. -/
def failIndex (idx : Nat) : M σ BakeLocals ρ Unit :=
  M.modifyL fun l => l.fail idx

/-- The statement `if (seenAttrs.count(attr) == 0) { seenAttrs.insert(attr);
bsAttrs.push_back(attr); }`. -/
def queueAttr (attr : String) : M σ BakeLocals ρ Unit :=
  M.modifyL fun l => l.queue attr

/-- The loop over the weights of one blendShape node. -/
def queueWeights (histNode : String) (weightCount : Int) : M σ BakeLocals ρ Unit :=
  M.forEach (List.range weightCount.toNat) fun i => do
    let ali ← M.call (aliasQuery histNode i)
    queueAttr (weightAttrName histNode i ali)

/-- The loop over the history of a mesh: whether a blendShape node was found. -/
def scanHistory (history : List String) : M σ BakeLocals ρ Bool :=
  M.foldM (fun (foundBS : Bool) histNode => do
      let nodeType ← melQueryString "nodeType" [q histNode]
      if nodeType != "blendShape" then pure foundBS
      else do
        let weightCount ← melQueryInt "blendShape" ["-q", "-weightCount", q histNode]
        queueWeights histNode weightCount
        pure true) false history

/-- The body of the loop over the selected items. -/
def collectItem (idx : Nat) (item : ExportItem) : M σ BakeLocals ρ Unit :=
  if item.type = "camera" then do
    let e ← nodeExists item.node
    -- the camera is baked by `exportCameraFbx`, not here
    M.when (!e) (failIndex idx)
  else if item.type = "skeleton" ∨ item.type = "skeleton+blendshape" then do
    let e ← nodeExists item.node
    if !e then failIndex idx
    else do
      -- the joints are not baked here
      let _ ← melQueryStringArray "listRelatives"
        ["-allDescendents", "-type", "\"joint\"", "-fullPath", q item.node]
      M.when (!item.bsWeightAttrs.isEmpty) (M.forEach item.bsWeightAttrs queueAttr)
  else if item.type = "blendshape" then do
    let e ← nodeExists item.node
    if !e then failIndex idx
    else do
      let hist ← melQueryStringArrayChecked "listHistory"
        ["-pruneDagObjects", "true", q item.node]
      if !hist.1 then failIndex idx
      else do
        let foundBS ← scanHistory hist.2
        M.when (!foundBS) (failIndex idx)
  else pure ()

/-- The function `batchBakeAll`; the result is the set `failedIndices`, in ascending order. -/
def batchBakeAll (selectedItems : List ExportItem) (startFrame endFrame : Int) :
    M σ BakeLocals (List Int) Empty := do
  let _ ← now
  M.forEach selectedItems.enum fun p => collectItem p.1 p.2
  let l ← M.getL
  M.when (l.transformNodes.isEmpty && l.bsAttrs.isEmpty) (M.ret l.failedIndices)
  -- bake the transform nodes in one call
  M.when (!l.transformNodes.isEmpty) (do
    let _ ← now
    let _ ← melExec "bakeResults" (transformBakeArgs startFrame endFrame l.transformNodes)
    let _ ← now
    pure ())
  -- bake all blendshape weight attributes in one call
  M.when (!l.bsAttrs.isEmpty) (do
    let _ ← now
    let _ ← melExec "bakeResults" (bsBakeArgs startFrame endFrame l.bsAttrs)
    let _ ← now
    pure ())
  let _ ← now
  M.ret l.failedIndices

end BatchBake

/-- The variables that the lambda `scanMeshForBS` captures by reference. -/
structure ScanLocals where
  seenBsNodes : List String := []
  bsNodes : List String := []
  bsWeightAttrs : List String := []
  bsMeshes : List String := []

section Scanner

variable {σ ρ : Type}

/-- The loop of `scanMeshForBS` over the weights of one blendShape node. -/
def scanWeights (histNode : String) (wc : Int) : M σ ScanLocals ρ Unit :=
  M.forEach (List.range wc.toNat) fun i => do
    let ali ← M.call (aliasQuery histNode i)
    M.modifyL fun l =>
      { l with bsWeightAttrs := l.bsWeightAttrs ++ [weightAttrName histNode i ali] }

/-- The lambda `scanMeshForBS`. -/
def scanMeshForBS (meshXform : String) : M σ ScanLocals ρ Unit := do
  let history ← melQueryStringArray "listHistory" ["-pruneDagObjects", "true", q meshXform]
  let meshHasBS ← M.foldM (fun (meshHasBS : Bool) histNode => do
      let nodeType ← melQueryString "nodeType" [q histNode]
      if nodeType != "blendShape" then pure meshHasBS
      else do
        M.modifyL fun l =>
          if l.seenBsNodes.contains histNode then l
          else { l with seenBsNodes := setInsert histNode l.seenBsNodes,
                        bsNodes := l.bsNodes ++ [histNode] }
        let wc ← melQueryInt "blendShape" ["-q", "-weightCount", q histNode]
        scanWeights histNode wc
        pure true) false history
  M.when meshHasBS (M.modifyL fun l => { l with bsMeshes := l.bsMeshes ++ [meshXform] })

end Scanner

/-- A relation between host states from which the facade gives the same answers: related
states answer every request alike and move to related states. -/
def SameAnswers {σ : Type} (F : Facade σ) (rel : σ → σ → Prop) : Prop :=
  ∀ sc sc1 c, rel sc sc1 → (F sc c).1 = (F sc1 c).1 ∧ rel (F sc c).2 (F sc1 c).2

/-- Code that depends on the host only through its answers: run from two states with the same
locals whose host states give the same answers, it ends in the same way, with the same locals,
after the same requests and answers, in host states that give the same answers. -/
def Uniform {σ L ρ α : Type} (m : M σ L ρ α) : Prop :=
  ∀ (F : Facade σ) (rel : σ → σ → Prop), SameAnswers F rel →
    ∀ s s1 : Run σ L, rel s.scene s1.scene → s.loc = s1.loc →
      (m.run F s).1 = (m.run F s1).1 ∧ (m.run F s).2.loc = (m.run F s1).2.loc
      ∧ rel (m.run F s).2.scene (m.run F s1).2.scene
      ∧ ∃ t, (m.run F s).2.trace = s.trace ++ t ∧ (m.run F s1).2.trace = s1.trace ++ t

/-- Three items of a batch: a camera, a rig with two weight attributes, and a mesh with
blendshapes. -/
def smileItems : List ExportItem :=
  [{ type := "camera", node := "|cam" },
   { type := "skeleton+blendshape", node := "|rig", bsWeightAttrs := ["bsA.Smile", "bsC.Jaw"] },
   { type := "blendshape", node := "|face" }]

/-- A scene with a mesh `|face` whose history holds the blendShape nodes `bsA` and `bsB`, each
with one weight whose alias is `Smile`, and a rig `|rig`; every node asked for exists. -/
def smileScene : Facade Unit := fun _ c =>
  match c with
  | .mel "objExists" _ => ({ int := 1 }, ())
  | .mel "listHistory" _ => ({ arr := ["bsA", "tweak1", "bsB"] }, ())
  | .mel "nodeType" ["\"bsA\""] => ({ str := "blendShape" }, ())
  | .mel "nodeType" ["\"bsB\""] => ({ str := "blendShape" }, ())
  | .mel "blendShape" _ => ({ int := 1 }, ())
  | .mel "aliasAttr" _ => ({ str := "Smile" }, ())
  | _ => ({}, ())

/-- A list without its repetitions, every element at the place of its first occurrence.
Written from the words of the specification. -/
def keepFirst (xs : List String) : List String :=
  (xs.reverse.dedup).reverse

/-- The requests that the collection pass of `batchBakeAll` sends apart from the alias
queries: they write no keys. -/
def BakeQuiet (c : Cmd) : Prop :=
  c.kind ≠ .key ∧ ∀ a, c ≠ .mel "aliasAttr" a

/-- Where a queued attribute name comes from: the list of an item, or the answer to an alias
query of the trace. -/
def AttrSource (items : List ExportItem) (tr : List (Cmd × Resp)) (a : String) : Prop :=
  (∃ item ∈ items, a ∈ item.bsWeightAttrs)
  ∨ ∃ d i resp, (aliasQuery d i, resp) ∈ tr ∧ a = weightAttrName d i resp

/-- The state of the collection pass of `batchBakeAll` after the attribute names `offered` were
queued, in this order. -/
structure BakeInv {σ : Type} (items : List ExportItem) (offered : List String)
    (s : Run σ BakeLocals) : Prop where
  /-- no transform node is collected -/
  noTransform : s.loc.transformNodes = []
  /-- the bake list holds the offered names, each at its first occurrence -/
  attrs : s.loc.bsAttrs = keepFirst offered
  /-- the set of seen names -/
  seen : ∀ a, a ∈ s.loc.seenAttrs ↔ a ∈ offered
  /-- no request has written keys -/
  nokey : NoKinds [.key] s.trace
  /-- every offered name has a source -/
  sound : ∀ a ∈ offered, AttrSource items s.trace a
  /-- the name of every alias query was offered -/
  complete : ∀ x ∈ s.trace, (∃ a, x.1 = .mel "aliasAttr" a) →
    ∃ d i, x.1 = aliasQuery d i ∧ weightAttrName d i x.2 ∈ offered

/-- What the code between two queued names may do to the variables: only add failed
indices. -/
def BakeKeep : LocRel BakeLocals where
  rel := fun a b => b.transformNodes = a.transformNodes ∧ b.bsAttrs = a.bsAttrs
    ∧ b.seenAttrs = a.seenAttrs ∧ ∀ i ∈ a.failedIndices, i ∈ b.failedIndices
  refl := fun _ => ⟨rfl, rfl, rfl, fun _ h => h⟩
  trans := fun _ _ _ h1 h2 =>
    ⟨h2.1.trans h1.1, h2.2.1.trans h1.2.1, h2.2.2.1.trans h1.2.2.1,
      fun i h => h2.2.2.2 i (h1.2.2.2 i h)⟩

/-- An item whose blendshape weight attributes `batchBakeAll` takes from the item. -/
def ExportItem.isRig (item : ExportItem) : Prop :=
  item.type = "skeleton" ∨ item.type = "skeleton+blendshape"

/-- The request `listHistory -pruneDagObjects true "<mesh>"` of `batchBakeAll`. -/
def historyQuery (mesh : String) : Cmd :=
  .mel "listHistory" ["-pruneDagObjects", "true", q mesh]

/-- The request `nodeType "<histNode>"` of `batchBakeAll`. -/
def nodeTypeQuery (histNode : String) : Cmd :=
  .mel "nodeType" [q histNode]

/-- The request `blendShape -q -weightCount "<histNode>"` of `batchBakeAll`. -/
def weightCountQuery (histNode : String) : Cmd :=
  .mel "blendShape" ["-q", "-weightCount", q histNode]

/-- The trace shows the loop over the weights of the blendShape node `d`: the weight count was
asked, and for every index below the answer the alias was asked and the name built from the
answer was offered to the queue. -/
def DeformerScanned (tr : List (Cmd × Resp)) (offered : List String) (d : String) : Prop :=
  ∃ wc, (weightCountQuery d, wc) ∈ tr
    ∧ ∀ i, i < wc.int.toNat →
        ∃ ali, (aliasQuery d i, ali) ∈ tr ∧ weightAttrName d i ali ∈ offered

/-- The trace shows the scan of the mesh of a blendshape item: the history was listed with
success, the type of every node of the history was asked, one of them answered `blendShape`,
and every node that answered `blendShape` had all its weights offered to the queue. -/
def MeshScanned (tr : List (Cmd × Resp)) (offered : List String) (mesh : String) : Prop :=
  ∃ hist, (historyQuery mesh, hist) ∈ tr ∧ hist.ok = true
    ∧ (∃ d ∈ hist.arr, ∃ nt, (nodeTypeQuery d, nt) ∈ tr ∧ nt.str = "blendShape")
    ∧ ∀ d ∈ hist.arr, ∃ nt, (nodeTypeQuery d, nt) ∈ tr
        ∧ (nt.str = "blendShape" → DeformerScanned tr offered d)

/-- The state of the loop of `batchBakeAll` after the items `done`. -/
def BakeLoopInv {σ : Type} (items : List ExportItem) (done : List (Nat × ExportItem))
    (s : Run σ BakeLocals) : Prop :=
  ∃ offered, BakeInv items offered s
    ∧ (∀ p ∈ done, p.2.isRig →
        (p.1 : Int) ∈ s.loc.failedIndices ∨ p.2.bsWeightAttrs <:+: offered)
    ∧ (∀ p ∈ done, p.2.type = "blendshape" →
        (p.1 : Int) ∈ s.loc.failedIndices ∨ MeshScanned s.trace offered p.2.node)

/-- The requests that write keys. -/
def isKeyWrite (c : Cmd) : Bool :=
  decide (c.kind = .key)

/-- What `batchBakeAll` has done when it returns: it returns the failed indices, its only
request that writes keys is one `bakeResults` for the names offered, each at its first
occurrence, or none when no name was offered; the list of every rig item that did not fail is
a block of the names offered; every name offered has a source and every alias query has its
name among them; and the mesh of every blendshape item that did not fail was scanned, all
weights of all its blendShape nodes being offered. -/
def BakePost {σ : Type} (items : List ExportItem) (startFrame endFrame : Int)
    (o : Out (List Int) Empty) (s : Run σ BakeLocals) : Prop :=
  ∃ offered, o = .ret s.loc.failedIndices
    ∧ (requests s.trace).filter isKeyWrite
        = (if keepFirst offered = [] then []
           else [.mel "bakeResults" (bsBakeArgs startFrame endFrame (keepFirst offered))])
    ∧ (∀ p ∈ items.enum, p.2.isRig →
        (p.1 : Int) ∈ s.loc.failedIndices ∨ p.2.bsWeightAttrs <:+: offered)
    ∧ (∀ a ∈ offered, AttrSource items s.trace a)
    ∧ (∀ x ∈ s.trace, (∃ a, x.1 = .mel "aliasAttr" a) →
        ∃ d i, x.1 = aliasQuery d i ∧ weightAttrName d i x.2 ∈ offered)
    ∧ (∀ p ∈ items.enum, p.2.type = "blendshape" →
        (p.1 : Int) ∈ s.loc.failedIndices ∨ MeshScanned s.trace offered p.2.node)

/-- What the scanner lambda does to its variables apart from adding names: the list of names
is kept. -/
def ScanKeep : LocRel ScanLocals where
  rel := fun a b => b.bsWeightAttrs = a.bsWeightAttrs
  refl := fun _ => rfl
  trans := fun _ _ _ h1 h2 => h2.trans h1

/-- The state of the scanner lambda since the names `attrs0` and the trace `tr0`: the names
added since are the names of the alias queries sent since, and every such query has its name in
the list. -/
def ScanInv {σ : Type} (attrs0 : List String) (tr0 : List (Cmd × Resp))
    (s : Run σ ScanLocals) : Prop :=
  ∃ added t, s.trace = tr0 ++ t ∧ s.loc.bsWeightAttrs = attrs0 ++ added
    ∧ (∀ a ∈ added, ∃ d i resp, (aliasQuery d i, resp) ∈ t ∧ a = weightAttrName d i resp)
    ∧ (∀ x ∈ t, (∃ a, x.1 = .mel "aliasAttr" a) →
        ∃ d i, x.1 = aliasQuery d i ∧ weightAttrName d i x.2 ∈ added)

/-! ## Observations on the rename loop -/

/-- The request `parentConstraint "<orig>" "<dup>"` for a joint pair. -/
def parentConstraintCmd (pair : String × String) : Cmd :=
  .mel "parentConstraint" [q pair.1, q pair.2]

/-- The request `orientConstraint "<orig>" "<dup>"` for a joint pair. -/
def orientConstraintCmd (pair : String × String) : Cmd :=
  .mel "orientConstraint" [q pair.1, q pair.2]

/-- The requests that create constraints, with their answers. -/
def isConstraint (x : Cmd × Resp) : Bool :=
  decide (x.1.kind = .constrain)

/-- The test `!ok || c.empty()`: the command failed or returned nothing. -/
def badAnswer (r : Resp) : Bool :=
  !r.ok || r.arr.isEmpty

/-- One round of the constraint loop as the trace shows it: the pair, the answer to the
`parentConstraint` request, and the answer to the `orientConstraint` request when one was
sent. -/
structure Round where
  pair : String × String
  parent : Resp
  orient : Option Resp

/-- The constraint requests of a round, with their answers. -/
def Round.entries (rd : Round) : List (Cmd × Resp) :=
  (parentConstraintCmd rd.pair, rd.parent) ::
    (match rd.orient with
     | some r => [(orientConstraintCmd rd.pair, r)]
     | none => [])

/-- An `orientConstraint` is attempted exactly when the `parentConstraint` failed or returned
nothing. -/
def Round.valid (rd : Round) : Prop :=
  rd.orient.isSome = badAnswer rd.parent

/-- The answer that decides the round: that of the last request sent. -/
def Round.final (rd : Round) : Resp :=
  rd.orient.getD rd.parent

/-- The counters after a round that was decided by the answer `res`. -/
def ConstraintTally.after (t : ConstraintTally) (res : Resp) : ConstraintTally :=
  if badAnswer res then
    { t with
      failed := t.failed + 1
      failedSamples := if t.failedSamples < 5 then t.failedSamples + 1 else t.failedSamples }
  else if res.arr.headD "" = "0" then { t with returnedZero := t.returnedZero + 1 }
  else { t with constraints := t.constraints ++ [res.arr.headD ""], created := t.created + 1 }

/-- The counters after the rounds of a trace. -/
def tallyOf (rounds : List Round) : ConstraintTally :=
  rounds.foldl (fun t rd => t.after rd.final) {}

/-- The warning about partly created constraints. -/
def partialWarning (t : ConstraintTally) : String :=
  "Duplicate constraint creation partial: created=" ++ toString t.created
    ++ ", failed=" ++ toString t.failed ++ ", returnedZero=" ++ toString t.returnedZero

/-- The request that lists the joints below `root`, as steps 3 and 6 send it. -/
def jointQuery (root : String) : Cmd :=
  .mel "listRelatives" ["-allDescendents", "-type", "\"joint\"", "-fullPath", q root]

/-- The request `duplicate -rc "<src>"` of step 1. -/
def duplicateCmd (src : String) : Cmd :=
  .mel "duplicate" ["-rc", q src]

/-- The request `duplicate "<src>"` that step 1 sends when the first one failed or returned
nothing. -/
def duplicateAgainCmd (src : String) : Cmd :=
  .mel "duplicate" [q src]

/-- What the trace of `exportSkeletonFbxViaDuplicate` shows from step 2 on, when a duplicate
root was created: the joints that the host listed below `src` and below the duplicate root,
each list followed by its root, are the two joint lists. When their lengths differ the call
sends no constraint request and returns the error about the joint count; when they agree the
rounds are those of the matched joint pairs, one round for every pair, in order. -/
def PairClaims (src : String) (r : ExportResult) (tr : List (Cmd × Resp))
    (rounds : List Round) : Prop :=
  ∃ (ro rp : Resp) (dupRoot : String),
    (jointQuery src, ro) ∈ tr ∧ (jointQuery dupRoot, rp) ∈ tr
    ∧ (if (ro.arr ++ [src]).length = (rp.arr ++ [dupRoot]).length then
        rounds.map Round.pair = List.zip (ro.arr ++ [src]) (rp.arr ++ [dupRoot])
      else rounds = [] ∧ r.errors = ["Duplicate skeleton joint count mismatch"])

/-- What a result of `exportSkeletonFbxViaDuplicate` for the root `src` and its trace show of
the constraint loop. The call has sent `duplicate -rc`, and a plain `duplicate` when that
failed or returned nothing; `dupRoots` is the answer it went on with. The constraint requests
of the trace are those of a list of rounds, in order, each with an `orientConstraint` exactly
after a `parentConstraint` that failed or returned nothing. When no duplicate was created
there is no round and the error says so; when one was created, the rounds are those of the
matched joint pairs (`PairClaims`). The three counters add up to the number of rounds; when a
constraint was created and a round failed or returned "0", the call has not aborted for lack
of constraints and the warnings of the result hold the warning with the three counters. -/
def ConstraintClaims (src : String) (r : ExportResult) (tr : List (Cmd × Resp)) : Prop :=
  ∃ (first : Resp) (dupRoots : List String) (rounds : List Round),
    (duplicateCmd src, first) ∈ tr
    ∧ (if badAnswer first then
        ∃ second, (duplicateAgainCmd src, second) ∈ tr ∧ dupRoots = second.arr
      else dupRoots = first.arr)
    ∧ tr.filter isConstraint = rounds.flatMap Round.entries
    ∧ (∀ rd ∈ rounds, rd.valid)
    ∧ (dupRoots = [] →
        rounds = [] ∧ r.errors = ["Failed to duplicate skeleton root: " ++ src])
    ∧ (dupRoots ≠ [] → PairClaims src r tr rounds)
    ∧ (tallyOf rounds).created + (tallyOf rounds).failed + (tallyOf rounds).returnedZero
        = (rounds.length : Int)
    ∧ ((tallyOf rounds).created > 0 →
        ((tallyOf rounds).failed > 0 ∨ (tallyOf rounds).returnedZero > 0) →
        partialWarning (tallyOf rounds) ∈ r.warnings
        ∧ r.errors
          ≠ ["Failed to create constraints for duplicate skeleton (animation would be static)"])

/-- The warnings of `exportSkeletonFbxViaDuplicate` only grow. -/
def DupWarnGrow : LocRel DupLocals where
  rel := fun a b => ∀ w ∈ a.warnings, w ∈ b.warnings
  refl := fun _ _ h => h
  trans := fun _ _ _ h1 h2 w h => h2 w (h1 w h)

/-- Every kind of request but the creation of a constraint. -/
def notConstrain : List Kind :=
  [.query, .setting, .export, .select, .create, .delete, .rename, .reparent, .attr, .key,
   .time, .undo, .merge, .file, .clock, .other]

/-- Code that carries the warnings `w` of the locals along: they only grow, and every result
it returns holds the warnings that were there when the code started. -/
structure Carry {σ L α : Type} (w : L → List String) (m : M σ L ExportResult α) : Prop where
  /-- the warnings only grow -/
  grow : ∀ F s, ∀ x ∈ w s.loc, x ∈ w (m.run F s).2.loc
  /-- a returned result holds the warnings -/
  out : ∀ F s r, (m.run F s).1 = .ret r → ∀ x ∈ w s.loc, x ∈ r.warnings

/-- The run `s1` continues `s` without a new constraint request: the constraint requests of
its trace are those of `s`, and the trace of `s` is kept. -/
def Keeps {σ L : Type} (s s1 : Run σ L) : Prop :=
  s1.trace.filter isConstraint = s.trace.filter isConstraint ∧ ∀ x ∈ s.trace, x ∈ s1.trace

/-- A scene in which the duplicate of a root with one child joint is made; the
`parentConstraint` of the child fails and its `orientConstraint` returns "0", the
`parentConstraint` of the root succeeds. -/
def partialConstraintScene : Facade Unit := statelessHost fun c =>
  match c with
  | .mel "pluginInfo" _ => { int := 1 }
  | .mel "listRelatives" ["-allDescendents", "-type", "\"joint\"", "-fullPath", "\"|dup1\""] =>
      { arr := ["|dup1|spine"] }
  | .mel "listRelatives" ("-allDescendents" :: _) => { arr := ["|Root|spine"] }
  | .mel "duplicate" _ => { arr := ["dup1"] }
  | .mel "parentConstraint" ["\"|Root|spine\"", _] => { ok := false }
  | .mel "orientConstraint" _ => { arr := ["0"] }
  | .mel "parentConstraint" _ => { arr := ["dup1_parentConstraint1"] }
  | .selAdd _ => { obj := some 1 }
  | .fullPathName _ => { str := "|dup1" }
  | .stat _ => { ok := true, reg := true, int := 512 }
  | .readFile _ => { ok := true, str := "LimbNode Skeleton LimbNode Skeleton" }
  | _ => {}

/-! ## Observations on the export attempts of the referenced in-place export -/

/-- The requests of a trace that satisfy `p`, with their answers, in order. -/
def sent (p : Cmd → Bool) (tr : List (Cmd × Resp)) : List (Cmd × Resp) :=
  tr.filter fun x => p x.1

/-- The requests of an export attempt that matter to the retry: the setting
`FBXExportInputConnections`, the command `FBXExport`, and the read of the written file by
`scanFbxContent`. -/
def isAttemptStep : Cmd → Bool
  | .mel "FBXExportInputConnections" _ => true
  | .mel "FBXExport" _ => true
  | .readFile _ => true
  | _ => false

/-- One call of the lambda `exportReferencedInPlace` as the trace shows it: the value of
`useInputConnections`, the answers to the two `FBXExportInputConnections` settings (that of
`setFbxExportDefaults` and that of the lambda), the answer to `FBXExport`, and the answer to
the read of the output when the output was scanned. -/
structure Attempt where
  inputConns : Bool
  reset : Resp
  set : Resp
  exported : Resp
  scan : Option Resp

/-- The requests of an attempt that matter to the retry, with their answers. -/
def Attempt.entries (outputPath : String) (t : Attempt) : List (Cmd × Resp) :=
  [(.mel "FBXExportInputConnections" ["-v", "false"], t.reset),
   (.mel "FBXExportInputConnections" ["-v", boolStr t.inputConns], t.set),
   (.mel "FBXExport" ["-f", q (melPath outputPath), "-s"], t.exported)]
  ++ (match t.scan with
      | some f => [(.readFile outputPath, f)]
      | none => [])

/-- The output is scanned exactly when `FBXExport` succeeded. -/
def Attempt.valid (t : Attempt) : Prop :=
  t.scan.isSome = t.exported.ok

/-- The counts that the attempt hands back: those of the scanned bytes, all zero when the
output was not scanned or could not be opened. -/
def Attempt.stats (t : Attempt) : FbxContentStats :=
  match t.scan with
  | some f => if !f.ok then {} else scanData f.str
  | none => {}

/-- The condition under which the source retries: the attempt succeeded, the options did not
ask for input connections, and the scanned output has no `Skin` and no `Deformer` marker. -/
def Attempt.retryNeeded (opts : FbxExportOptions) (t : Attempt) : Prop :=
  t.exported.ok = true ∧ opts.skelInputConns = false ∧ t.stats.skins ≤ 0
    ∧ t.stats.deformers ≤ 0

/-- The result is judged on the attempt `t`: it is a failure when `FBXExport` failed, and else
it is a success exactly when the file is not empty and the counts of `t` show a `LimbNode`
and a `Skin` or `Deformer` marker. -/
def Attempt.judges (t : Attempt) (r : ExportResult) : Prop :=
  (t.exported.ok = false → r.success = false)
  ∧ (t.exported.ok = true →
      (r.success = true ↔
        0 < r.fileSize ∧ 0 < t.stats.limbNodes ∧ (0 < t.stats.skins ∨ 0 < t.stats.deformers)))

/-- What a result of the referenced in-place export and its trace show of the retry: there is
one attempt, made with the input-connection option of the caller, no retry was due and the
result is judged on it; or there are two, a retry was due after the first, the second was made
with input connections on, and the result is judged on the second. -/
def RetryClaims (opts : FbxExportOptions) (outputPath : String) (r : ExportResult)
    (tr : List (Cmd × Resp)) : Prop :=
  ∃ attempts : List Attempt,
    sent isAttemptStep tr = attempts.flatMap (Attempt.entries outputPath)
    ∧ (∀ t ∈ attempts, t.valid)
    ∧ ((∃ t1, attempts = [t1] ∧ t1.inputConns = opts.skelInputConns
          ∧ ¬ t1.retryNeeded opts ∧ t1.judges r)
      ∨ (∃ t1 t2, attempts = [t1, t2] ∧ t1.inputConns = opts.skelInputConns
          ∧ t1.retryNeeded opts ∧ t2.inputConns = true ∧ t2.judges r))

/-- A scene whose skeleton root `rig:Root` comes from a referenced file; every command
succeeds and the written file holds bones but no `Skin` and no `Deformer` marker. -/
def referencedRigScene : Facade Unit := fun _ c =>
  match c with
  | .mel "pluginInfo" _ => ({ int := 1 }, ())
  | .mel "objExists" _ => ({ int := 1 }, ())
  | .mel "nodeType" _ => ({ str := "joint" }, ())
  | .selAdd _ => ({ obj := some 1 }, ())
  | .fullPathName _ => ({ str := "|rig:Root" }, ())
  | .isFromReferencedFile _ => ({ int := 1 }, ())
  | .stat _ => ({ ok := true, reg := true, int := 512 }, ())
  | .readFile _ => ({ ok := true, str := "LimbNode LimbNode" }, ())
  | _ => ({}, ())

/-! ## Observations on the precondition checks -/

/-- The FBX plugin is loaded, or loads on request, in every host state. -/
def PluginReady {σ : Type} (F : Facade σ) : Prop :=
  ∀ sc, (F sc (.mel "pluginInfo" ["-q", "-loaded", "\"fbxmaya\""])).1.int ≠ 0
    ∨ (F (F sc (.mel "pluginInfo" ["-q", "-loaded", "\"fbxmaya\""])).2
        (.mel "loadPlugin" ["\"fbxmaya\""])).1.ok = true

/-- The node does not exist, in whatever host state `objExists` is asked. -/
def Missing {σ : Type} (F : Facade σ) (node : String) : Prop :=
  ∀ sc, (F sc (.mel "objExists" [q node])).1.int = 0

/-- The node exists, in whatever host state `objExists` is asked. -/
def Present {σ : Type} (F : Facade σ) (node : String) : Prop :=
  ∀ sc, (F sc (.mel "objExists" [q node])).1.int ≠ 0

/-- The history of the mesh can be queried and holds no blendShape deformer: no node that the
host lists in it has the type `blendShape`, in whatever host state. -/
def NoDeformer {σ : Type} (F : Facade σ) (mesh : String) : Prop :=
  ∀ sc, (F sc (.mel "listHistory" ["-pruneDagObjects", "true", q mesh])).1.ok = true
    ∧ ∀ n ∈ (F sc (.mel "listHistory" ["-pruneDagObjects", "true", q mesh])).1.arr,
        ∀ sc2, (F sc2 (.mel "nodeType" [q n])).1.str ≠ "blendShape"

/-- The kinds of the commands that change the scene: `duplicate`, `rename`, `delete`, `parent`,
constraint creation, namespace merge, keyframes. -/
def mutatingKinds : List Kind :=
  [.create, .rename, .delete, .reparent, .constrain, .merge, .key]

/-- The kinds of the requests that the precondition checks send: reading the scene, the
settings of the plugin, the file system (the output directory) and the clock. -/
def checkKinds : List Kind := [.query, .setting, .file, .clock]

/-- A call that ends in a precondition failure: it returns `success = false` with the one
error `msg`, and every request it has sent reads the scene, loads the plugin, looks at the
file system or reads the clock; none of them changes the scene. -/
def PreconditionFailure {σ : Type} (msg : String) (fin : Final σ ExportResult) : Prop :=
  ∃ r, fin.result = some r ∧ r.success = false ∧ r.errors = [msg]
    ∧ (∀ x ∈ fin.trace, x.1.kind ∈ checkKinds)
    ∧ (∀ x ∈ fin.trace, x.1.kind ∉ mutatingKinds)

/-- A scene without nodes: every query comes back empty. -/
def emptyScene : Facade Unit := fun _ _ => ({}, ())

/-- A scene with the mesh `|body`, deformed by a skin cluster with one influence and by no
blendShape. -/
def skinnedMeshScene : Facade Unit := statelessHost fun c =>
  match c with
  | .mel "pluginInfo" _ => { int := 1 }
  | .mel "objExists" _ => { int := 1 }
  | .mel "listHistory" _ => { arr := ["skinCluster1", "tweak1"] }
  | .mel "nodeType" ["\"skinCluster1\""] => { str := "skinCluster" }
  | .mel "nodeType" ["\"tweak1\""] => { str := "tweak" }
  | .mel "nodeType" _ => { str := "transform" }
  | .mel "skinCluster" _ => { arr := ["Root"] }
  | .mel "ls" _ => { arr := ["|rig|Root"] }
  | .mel "listRelatives" _ => { arr := ["|rig"] }
  | _ => {}

/-! ## Observations on the undo chunk of `exportBlendShapeFbx` -/

/-- The requests `undoInfo -openChunk`. -/
def isOpenChunk : Cmd → Bool
  | .mel "undoInfo" ["-openChunk"] => true
  | _ => false

/-- The requests `undoInfo -closeChunk`. -/
def isCloseChunk : Cmd → Bool
  | .mel "undoInfo" ["-closeChunk"] => true
  | _ => false

/-- The requests `undo`. -/
def isUndo : Cmd → Bool
  | .mel "undo" _ => true
  | _ => false

/-- The requests `namespace -mergeNamespaceWithRoot` that the host answered with success. -/
def isMerged (x : Cmd × Resp) : Bool :=
  match x.1 with
  | .mel "namespace" ("-mergeNamespaceWithRoot" :: _) => x.2.ok && !x.2.fault
  | _ => false

/-- A scene with the mesh `|body`, deformed by a blendShape and by a skin cluster whose two
influence joints live in the namespaces `a` and `b`. Every command succeeds, but the host
throws when it is asked whether the second namespace of the merge loop exists. -/
def throwingMergeScene : Facade Unit := fun _ c =>
  match c with
  | .mel "pluginInfo" _ => ({ int := 1 }, ())
  | .mel "objExists" _ => ({ int := 1 }, ())
  | .mel "listHistory" _ => ({ arr := ["blendShape1", "skinCluster1"] }, ())
  | .mel "nodeType" ["\"blendShape1\""] => ({ str := "blendShape" }, ())
  | .mel "nodeType" ["\"skinCluster1\""] => ({ str := "skinCluster" }, ())
  | .mel "nodeType" _ => ({ str := "transform" }, ())
  | .mel "skinCluster" _ => ({ arr := ["a:J1", "b:J2"] }, ())
  | .mel "ls" ["-long", "\"a:J1\""] => ({ arr := ["|a:J1"] }, ())
  | .mel "ls" ["-long", "\"b:J2\""] => ({ arr := ["|b:J2"] }, ())
  | .mel "duplicate" _ => ({ arr := ["body1"] }, ())
  | .selAdd _ => ({ obj := some 1 }, ())
  | .fullPathName _ => ({ str := "|body1" }, ())
  | .mel "namespace" ["-exists", "\"a\""] => ({ int := 1 }, ())
  | .mel "namespace" ["-exists", "\"b\""] => ({ int := 1, fault := true }, ())
  | _ => ({}, ())

/-! ## Observations on the strategy selection of `exportSkeletonFbx` -/

/-- Run a function to its end from the host state `sc`, with the requests `pre` already in
the trace: what remains of a call after `pre`. -/
def runFnAfter {σ L ρ : Type} (m : M σ L ρ Empty) (l0 : L) (F : Facade σ) (sc : σ)
    (pre : List (Cmd × Resp)) : Final σ ρ :=
  match m.run F { scene := sc, trace := pre, loc := l0 } with
  | (.val a, _) => nomatch a
  | (.ret r, s) => { result := some r, scene := s.scene, trace := s.trace }
  | (.exc, s) => { result := none, scene := s.scene, trace := s.trace }

/-- The kinds of the requests of an export in place: reading the scene, the selection, the
exporter settings, `FBXExport`, the file system and the clock. No node is created, deleted,
renamed, reparented or constrained. -/
def inPlaceKinds : List Kind := [.query, .select, .setting, .export, .file, .clock]

/-- The requests of an export in place after the rename phase: those of `inPlaceKinds`, and
the restore through `setName`. -/
def isInPlaceStep : Cmd → Bool
  | .setName _ _ => true
  | c => inPlaceKinds.contains c.kind

/-- The requests of the rename phase: reading the scene, the MEL command `rename`. -/
def isRenamePhase : Cmd → Bool
  | .setName _ _ => false
  | .nodeName _ => false
  | c => decide (c.kind = .query) || decide (c.kind = .rename)

/-- The requests that read the scene and are no `nodeName` lookup. -/
def isPlainQuery : Cmd → Bool
  | .nodeName _ => false
  | c => decide (c.kind = .query)

/-- The restore requests that belong to the records of a trace: for every `nodeName` lookup,
`setName` through the same handle with the name that the lookup answered. -/
def restoreRequests (tr : List (Cmd × Resp)) : List Cmd :=
  tr.filterMap fun x =>
    match x.1 with
    | .nodeName obj => some (.setName obj x.2.str)
    | _ => none

/-- Code that, against a host that throws nothing, sends a request satisfying `p` in every run,
however the run ends. -/
structure Sends {σ L ρ α : Type} (p : Cmd → Prop) (m : M σ L ρ α) : Prop where
  /-- a request satisfying `p` is among the requests that the run adds to the trace -/
  out : ∀ F s, NoFault F → ∃ t, (m.run F s).2.trace = s.trace ++ t ∧ ∃ x ∈ t, p x.1

/-- The request `FBXExport -f "<path>" -s`. -/
def fbxExportCmd (outputPath : String) : Cmd :=
  .mel "FBXExport" ["-f", q (melPath outputPath), "-s"]

/-- How the choice `rootReferenced` is read off the requests before the choice: the last
requests ask for the full path of the root through its handle and, when there is a handle,
whether it comes from a referenced file. Without a handle the root counts as writable; with a
handle the root is referenced when the answer to `isFromReferencedFile` is not zero. -/
def ReferencedAt (rootObj : MObject) (pre : List (Cmd × Resp)) (refd : Bool) : Prop :=
  (rootObj = none ∧ refd = false ∧ ∃ r, pre.getLast? = some (.fullPathName none, r))
  ∨ ∃ r, rootObj.isSome = true ∧ pre.getLast? = some (.isFromReferencedFile rootObj, r)
      ∧ refd = (r.int != 0)

/-- The call has handed over to the duplicate strategy after the requests `pre`: from there on
it is a run of `exportSkeletonFbxViaDuplicate` on some root, and it returns the result of that
run with the warnings gathered so far in front. -/
def Delegated {σ : Type} (F : Facade σ) (sc : σ) (outputPath : String)
    (startFrame endFrame : Int) (opts : FbxExportOptions) (pre : List (Cmd × Resp))
    (fin : Final σ ExportResult) : Prop :=
  ∃ (root : String) (w : List String) (d : ExportResult),
    (runFnAfter (exportSkeletonFbxViaDuplicate root outputPath startFrame endFrame opts) {}
      F (replay F sc pre) pre).result = some d
    ∧ fin.trace
      = (runFnAfter (exportSkeletonFbxViaDuplicate root outputPath startFrame endFrame opts) {}
          F (replay F sc pre) pre).trace
    ∧ fin.result = some { d with warnings := w ++ d.warnings }

/-- The call has failed on a precondition, before the choice of the strategy: only checks were
sent, and the answer to the last one is the reason of the failure. Either `loadPlugin` failed,
or `objExists` answered 0 for the root, or the root is no joint and the host listed no joint
below it. -/
def EarlyFailure {σ : Type} (root : String) (fin : Final σ ExportResult) : Prop :=
  ∃ r ans, fin.result = some r ∧ r.success = false
    ∧ (∀ x ∈ fin.trace, x.1.kind ∈ checkKinds)
    ∧ ((fin.trace.getLast? = some (.mel "loadPlugin" ["\"fbxmaya\""], ans) ∧ ans.ok = false
          ∧ r.errors = ["fbxmaya plugin load failed"])
      ∨ (fin.trace.getLast? = some (.mel "objExists" [q root], ans) ∧ ans.int = 0
          ∧ r.errors = ["Skeleton root does not exist: " ++ root])
      ∨ (fin.trace.getLast? = some (jointQuery root, ans) ∧ ans.arr = []
          ∧ r.errors = ["No joints found under: " ++ root]))

/-- What the requests `post` after the choice show of the in-place rename strategy. The
requests up to the residual-namespace check, `w1`, read the scene or are `rename` commands.
Then either the host has answered that the resolved root is no joint, and the call has
returned the failure that says so; or the check counts the namespaces left in the joints
listed last, and either none is left and the rest of the call exports in place (settings,
selection, `FBXExport`, file system, clock, and the restore through `setName`) and holds the
`FBXExport` request, or some are left and the rest is: the restore requests of all records
(none when no rename was due), queries, and the run of the duplicate strategy. In that case
`w1` holds no `FBXExport`, so nothing was exported from the partly renamed joints. -/
def WritableClaims {σ : Type} (F : Facade σ) (sc : σ) (outputPath : String)
    (startFrame endFrame : Int) (opts : FbxExportOptions) (pre post : List (Cmd × Resp))
    (fin : Final σ ExportResult) : Prop :=
  ∃ w1 rest : List (Cmd × Resp), post = w1 ++ rest
    ∧ (∀ x ∈ w1, isRenamePhase x.1 = true ∨ (∃ obj, x.1 = .nodeName obj))
    ∧ ((∃ (p : String) (ans : Resp) (r : ExportResult),
          w1.getLast? = some (.mel "nodeType" [q p], ans) ∧ ans.str ≠ "joint"
          ∧ rest = [] ∧ fin.result = some r ∧ r.success = false
          ∧ r.errors = ["Resolved skeleton root is not a joint: " ++ p])
      ∨ ∃ (root2 : String) (ans : Resp),
          w1.getLast? = some (.mel "listRelatives"
            ["-allDescendents", "-type", "\"joint\"", "-fullPath", q root2], ans)
          ∧ (namespacedCount (ans.arr ++ [root2]) = 0 →
              (∀ x ∈ rest, x.1.kind ∈ inPlaceKinds ∨ (∃ obj n, x.1 = .setName obj n))
              ∧ ∃ x ∈ rest, x.1 = fbxExportCmd outputPath)
          ∧ (namespacedCount (ans.arr ++ [root2]) > 0 →
              ∃ restore w3 : List (Cmd × Resp),
                (requests restore = restoreRequests w1
                  ∨ (restore = [] ∧ ∀ x ∈ w1, x.1.kind = .query))
                ∧ (∀ x ∈ w3, x.1.kind = .query)
                ∧ Delegated F sc outputPath startFrame endFrame opts
                    (pre ++ w1 ++ restore ++ w3) fin))

/-- What a call of `exportSkeletonFbx` on `root` shows of the choice of the strategy. Either
a precondition fails (`EarlyFailure`: the answer to the last check is the reason); or the
requests split into those before the choice, `pre`, which are checks, and those after it,
`post`, and with `refd` read off `pre`: a referenced root without `skelAnimationOnly` is
exported in place, with `FBXExport` sent and no rename and no duplicate; a referenced root
with `skelAnimationOnly` is handed to the duplicate strategy at once; a writable root gets the
in-place rename strategy. -/
def StrategyClaims {σ : Type} (F : Facade σ) (sc : σ) (root outputPath : String)
    (startFrame endFrame : Int) (opts : FbxExportOptions) (fin : Final σ ExportResult) : Prop :=
  EarlyFailure root fin
  ∨ ∃ (pre post : List (Cmd × Resp)) (rootObj : MObject) (refd : Bool),
      fin.trace = pre ++ post
      ∧ (∀ x ∈ pre, x.1.kind ∈ checkKinds)
      ∧ ReferencedAt rootObj pre refd
      ∧ (refd = true → opts.skelAnimationOnly = false →
          (∃ r, fin.result = some r) ∧ (∀ x ∈ post, x.1.kind ∈ inPlaceKinds)
          ∧ ∃ x ∈ post, x.1 = fbxExportCmd outputPath)
      ∧ (refd = true → opts.skelAnimationOnly = true →
          Delegated F sc outputPath startFrame endFrame opts pre fin)
      ∧ (refd = false →
          WritableClaims F sc outputPath startFrame endFrame opts pre post fin)

/-- A scene with a writable rig without namespaces: the root `|Root` with one child joint;
every command succeeds and the written file holds bone, skin and deformer markers. -/
def cleanRigScene : Facade Unit := statelessHost fun c =>
  match c with
  | .mel "pluginInfo" _ => { int := 1 }
  | .mel "objExists" _ => { int := 1 }
  | .mel "nodeType" _ => { str := "joint" }
  | .mel "listRelatives" ("-allDescendents" :: "-type" :: "\"joint\"" :: _) =>
      { arr := ["|Root|spine"] }
  | .selAdd _ => { obj := some 1 }
  | .fullPathName _ => { str := "|Root" }
  | .nodeName _ => { str := "Root" }
  | .stat _ => { ok := true, reg := true, int := 512 }
  | .readFile _ => { ok := true, str := "LimbNode Skin Deformer LimbNode" }
  | _ => {}

/-- The requests of a trace that rename a node, create one or export, in order. -/
def strategySteps (tr : List (Cmd × Resp)) : List Cmd :=
  (requests tr).filter fun c => decide (c.kind ∈ [Kind.rename, Kind.create, Kind.export])

/-! ## Observations on the names of the nodes -/

/-- Laws of a host whose nodes carry names: `name sc h` is the name of the node behind the
handle `h` in the host state `sc`, and `denote sc p` is the handle of the node at the full
path `p`, if there is one. -/
structure NamingLaws {σ : Type} (F : Facade σ) (name : σ → Nat → String)
    (denote : σ → String → Option Nat) : Prop where
  /-- a request that reads the scene, changes the selection or an exporter setting, exports,
  or touches the file system or the clock renames no node and moves none -/
  frame : ∀ sc c, c.kind ∈ inPlaceKinds →
    name (F sc c).2 = name sc ∧ denote (F sc c).2 = denote sc
  /-- `MSelectionList::add` of a path yields the handle of the node at that path -/
  selAdd : ∀ sc p,
    (if (F sc (.selAdd p)).1.ok then (F sc (.selAdd p)).1.obj else none) = denote sc p
  /-- `MFnDependencyNode::name` answers the name of the node -/
  nodeName : ∀ sc h, (F sc (.nodeName (some h))).1.str = name sc h
  /-- `MFnDependencyNode::setName` does not throw; it sets the name of the node behind the
  handle and changes no other name -/
  setName : ∀ sc o n, (F sc (.setName o n)).1.fault = false
    ∧ ∀ h, name (F sc (.setName o n)).2 h = if o = some h then n else name sc h
  /-- the MEL command `rename` changes no name but that of the node at the path -/
  renameName : ∀ sc p n h, denote sc p ≠ some h →
    name (F sc (.mel "rename" [q p, n])).2 h = name sc h
  /-- the MEL command `rename` moves no node but the one at the path and those below it -/
  renameKeeps : ∀ sc p n p2 h, denote sc p2 = some h → p2 ≠ p →
    ¬ ((p ++ "|").data <+: p2.data) →
    denote (F sc (.mel "rename" [q p, n])).2 p2 = some h
  /-- the joints listed below a node are listed once, are not the node itself and exist -/
  listed : ∀ sc p,
    (F sc (.mel "listRelatives"
      ["-allDescendents", "-type", "\"joint\"", "-fullPath", q p])).1.arr.Nodup
    ∧ ∀ x ∈ (F sc (.mel "listRelatives"
        ["-allDescendents", "-type", "\"joint\"", "-fullPath", q p])).1.arr,
      x ≠ p ∧ (denote sc x).isSome = true
  /-- only the path of a node has the type `joint` -/
  typed : ∀ sc p, (F sc (.mel "nodeType" [q p])).1.str = "joint" →
    (denote sc p).isSome = true

/-- The frame condition of the duplicate strategy on the names: a run of
`exportSkeletonFbxViaDuplicate` leaves every name as it was. -/
def DuplicateKeepsNames {σ : Type} (F : Facade σ) (name : σ → Nat → String) : Prop :=
  ∀ (root out : String) (a b : Int) (opts : FbxExportOptions) (sc : σ)
    (pre : List (Cmd × Resp)),
    name (runFnAfter (exportSkeletonFbxViaDuplicate root out a b opts) {} F sc pre).scene
      = name sc

/-- The locals of `exportSkeletonFbx` change in the warnings only. -/
def keepRecs : LocRel SkelLocals where
  rel := fun a b => b.jointRecs = a.jointRecs ∧ b.didRename = a.didRename
  refl := fun _ => ⟨rfl, rfl⟩
  trans := fun _ _ _ h1 h2 => ⟨h2.1.trans h1.1, h2.2.trans h1.2⟩

/-- What holds of the names at every point of `exportSkeletonFbx`, with `name0` the names at
the start of the call: every record holds the first name of its node, every node without a
record has its first name, and as long as `didRename` is not set every node has. -/
structure Kept {σ : Type} (name0 : Nat → String) (name : σ → Nat → String)
    (s : Run σ SkelLocals) : Prop where
  /-- the records hold the first names -/
  recs : ∀ r ∈ s.loc.jointRecs, ∀ h, r.obj = some h → r.originalName = name0 h
  /-- a node without a record has its first name -/
  names : ∀ h, name s.scene h = name0 h ∨ ∃ r ∈ s.loc.jointRecs, r.obj = some h
  /-- nothing is renamed while the flag is not set -/
  clean : s.loc.didRename = false → name s.scene = name0

/-- The postcondition of the code inside `try`: a `return` is reached with the first names in
place, and an exception or the end of a statement in a state from which the restore loop puts
them in place. -/
def restored {σ ρ α : Type} (name0 : Nat → String) (name : σ → Nat → String) :
    Out ρ α → Run σ SkelLocals → Prop
  | .ret _, s => name s.scene = name0
  | _, s => Kept name0 name s

/-- The new name that the host of `namedRigScene` gives on `rename`: the requested name
without the quotes and without the leading namespace separators. -/
def renamedTo (target : String) : String :=
  ⟨(target.data.filter fun ch => ch != '"').dropWhile fun ch => ch == ':'⟩

/-- A host with names: every handle has a name (the host state), and the scene holds one
writable joint, behind the handle 0, at the top level, so its full path is `|` followed by
its name. Names are read and set through handles, the MEL command `rename` renames the joint
when it is given its path, the joint can be selected by its path, `duplicate` creates nothing,
and no request throws. -/
def namedRigScene : Facade (Nat → String) := fun sc c =>
  match c with
  | .nodeName (some h) => ({ str := sc h }, sc)
  | .setName (some h) n => ({}, fun k => if k = h then n else sc k)
  | .selAdd p => (if p = "|" ++ sc 0 then { obj := some 0 } else { ok := false }, sc)
  | .fullPathName (some 0) => ({ str := "|" ++ sc 0 }, sc)
  | .mel "objExists" _ => ({ int := 1 }, sc)
  | .mel "nodeType" [a] => (if a = q ("|" ++ sc 0) then { str := "joint" } else {}, sc)
  | .mel "rename" [a, b] =>
      if a = q ("|" ++ sc 0) then
        ({ str := renamedTo b }, fun k => if k = 0 then renamedTo b else sc k)
      else ({ ok := false }, sc)
  | _ => ({}, sc)

/-- The names of `namedRigScene`, with the joint named `rig:Root`. -/
def rigNames : Nat → String := fun h => if h = 0 then "rig:Root" else ""

/-- The path that denotes the joint of `namedRigScene`. -/
def rigDenote (sc : Nat → String) (p : String) : Option Nat :=
  if p = "|" ++ sc 0 then some 0 else none

/-! ## Observations on the restore of the combined pipeline -/

/-- A host with names for `exportSkeletonBlendShapeFbx`: every handle has a name (the host
state); the scene holds one writable joint behind the handle 0 and one mesh transform behind
the handle 1, both at the top level, so the full path of each is `|` followed by its name.
Names are read and set through handles, and the MEL command `rename` renames the node whose
path it is given. With `throws` set, the `rename` of the mesh transform takes effect and the
call then throws, as when the result of the executed command cannot be converted; no other
request throws. -/
def meshRigScene (throws : Bool) : Facade (Nat → String) := fun sc c =>
  match c with
  | .nodeName (some h) => ({ str := sc h }, sc)
  | .setName (some h) n => ({}, fun k => if k = h then n else sc k)
  | .selAdd p =>
      (if p = "|" ++ sc 0 then { obj := some 0 }
        else if p = "|" ++ sc 1 then { obj := some 1 } else { ok := false }, sc)
  | .fullPathName (some h) => ({ str := "|" ++ sc h }, sc)
  | .mel "objExists" _ => ({ int := 1 }, sc)
  | .mel "nodeType" [a] =>
      (if a = q ("|" ++ sc 0) then { str := "joint" }
        else if a = q ("|" ++ sc 1) then { str := "transform" } else {}, sc)
  | .mel "rename" [a, b] =>
      if a = q ("|" ++ sc 0) then
        ({ str := renamedTo b }, fun k => if k = 0 then renamedTo b else sc k)
      else if a = q ("|" ++ sc 1) then
        ({ str := renamedTo b, fault := throws }, fun k => if k = 1 then renamedTo b else sc k)
      else ({ ok := false }, sc)
  | _ => ({}, sc)

/-- The names of `meshRigScene` before the call: the joint `rig:Root`, the mesh transform
`rig:body`. -/
def meshRigNames : Nat → String := fun h =>
  if h = 0 then "rig:Root" else if h = 1 then "rig:body" else ""

/-- The requests that set a name through the handle `h`. -/
def setsNameOf (h : Nat) : Cmd → Bool
  | .setName o _ => o == some h
  | _ => false

/-- A scene without nodes on which the FBX plugin is not loaded and cannot be loaded: the
`loadPlugin` command fails, every query comes back empty. -/
def noPluginScene : Facade Unit := fun _ c =>
  match c with
  | .mel "loadPlugin" _ => ({ ok := false }, ())
  | _ => ({}, ())

/-- The vector `selectedItems` of `onExport` when the bake phase starts: copies of the selected
items, in the order of `selectedIndices` (lines 969-975), with the weight attributes cleared
when the UI flag BlendShape is off (lines 1219-1223). -/
def selectedItemsOf (fbxOpts : FbxExportOptions) (exportItems : List ExportItem) :
    List ExportItem :=
  ((selectedIndicesOf exportItems).map fun i => exportItems.getD i default).map fun it =>
    if !fbxOpts.skelBlendShape then { it with bsWeightAttrs := [] } else it

/-- Phases 1 and 2 of `onExport` (lines 1225-1352): `batchBakeAll` runs on the scene and gives
`failedBakeIndices`, the failures are marked, and the export loop runs. `none` when
`batchBakeAll` throws. -/
def bakeAndExport {σ τ : Type} (F : Facade σ) (host : UiHost τ) (exportItems : List ExportItem)
    (startFrame endFrame : Int) (fbxOpts : FbxExportOptions) (sc : σ) (w : τ) :
    Option (ExportRun τ) :=
  (runFn (batchBakeAll (selectedItemsOf fbxOpts exportItems) startFrame endFrame) {} F sc).result.map
    fun failedBakeIndices =>
      exportPhase host exportItems failedBakeIndices startFrame endFrame fbxOpts w

/-- The three counters of a run and the statuses of the items, as the summary shows them. -/
def ExportRun.summary {τ : Type} (r : ExportRun τ) : Int × Int × Int × List String :=
  (r.exportedCount, r.errorCount, r.cancelledCount, r.exportItems.map fun it => it.status)

/-- A scene with the cameras `|cam1` and `|cam2` and no other node. -/
def twoCameraScene : Facade Unit := fun _ c =>
  match c with
  | .mel "objExists" ["\"|cam1\""] => ({ int := 1 }, ())
  | .mel "objExists" ["\"|cam2\""] => ({ int := 1 }, ())
  | _ => ({}, ())

/-- Three selected cameras with the status of a fresh scan; the node of the third is not in
`twoCameraScene`. -/
def threeCameras : List ExportItem :=
  [{ type := "camera", node := "|cam1", name := "cam1", filename := "cam1.fbx", selected := true },
   { type := "camera", node := "|cam2", name := "cam2", filename := "cam2.fbx", selected := true },
   { type := "camera", node := "|cam3", name := "cam3", filename := "cam3.fbx", selected := true }]

/-- One selected camera that still carries the status "done" of an earlier run. -/
def staleCamera : List ExportItem :=
  [{ type := "camera", node := "|cam1", name := "cam1", filename := "cam1.fbx", selected := true,
     status := "done", message := "OK (1KB)" }]

/-- A host without cancellation on which every pipeline call succeeds. -/
def succeedingHost : UiHost Nat where
  invoke := fun n _ => (makeResult true "" 1024 0 [] [], n + 1)
  processEvents := fun n => n
  cancelRequested := fun _ => false
  absoluteFilePath := fun f => "out/" ++ f

/-- The requests that ask for the joints below a node:
`listRelatives -allDescendents -type "joint" ...`. -/
def isJointQuery : Cmd → Bool
  | .mel "listRelatives" ("-allDescendents" :: "-type" :: "\"joint\"" :: _) => true
  | _ => false

/-- The kinds of the requests of the combined pipeline: those of an export in place and the
renames. No node is created, deleted, reparented or constrained, so the duplicate strategy is
never run. -/
def combinedKinds : List Kind :=
  [.query, .select, .setting, .export, .file, .clock, .rename]

/-- The kinds of the requests of the combined pipeline up to the residual-namespace check. -/
def beforeCheckKinds : List Kind := [.query, .setting, .file, .clock, .rename]

/-- The requests of the combined pipeline after the residual-namespace check: of the kinds
`combinedKinds`, and the joints are not listed again. -/
def isAfterCheck (c : Cmd) : Bool :=
  combinedKinds.contains c.kind && !isJointQuery c

/-- The requests of the combined pipeline between the residual-namespace check and the
settings of the export: those of `isAfterCheck` that export nothing. -/
def isSelectPhase (c : Cmd) : Bool :=
  isAfterCheck c && (c.kind != .export)

/-- The warnings of `exportSkeletonBlendShapeFbx` only grow. -/
def SbsGrow : LocRel SkelBsLocals where
  rel := fun a b => ∀ w ∈ a.warnings, w ∈ b.warnings
  refl := fun _ _ h => h
  trans := fun _ _ _ h1 h2 w h => h2 w (h1 w h)

/-- The warning of the residual-namespace check of `exportSkeletonBlendShapeFbx`. -/
def residualWarning (namespacedCount : Nat) : String :=
  toString namespacedCount ++ " joint(s) still have namespace prefixes after rename"

/-- The node has the type `joint`, in whatever host state it is asked. -/
def IsJoint {σ : Type} (F : Facade σ) (node : String) : Prop :=
  ∀ sc, (F sc (.mel "nodeType" [q node])).1.str = "joint"

/-- What a call of `exportSkeletonBlendShapeFbx` shows of the residual-namespace check. The
call returns; no request creates, deletes, reparents or constrains a node. The trace splits at
the last request that lists the joints, `root2` being the root after the renames and `ans`
the answer: before it nothing is exported; after it every joint of the list and the root are
added to the selection list (`MSelectionList::add`), in `sel`, and then `FBXExport` is sent,
in `rest`; and when a leaf of the list still holds a namespace, the warnings of the result
hold the warning with their number. -/
def ResidualExported {σ : Type} (outputPath : String) (fin : Final σ ExportResult) : Prop :=
  ∃ (r : ExportResult) (pre : List (Cmd × Resp)) (root2 : String) (ans : Resp)
      (sel rest : List (Cmd × Resp)),
    fin.result = some r
    ∧ fin.trace = pre ++ (jointQuery root2, ans) :: (sel ++ rest)
    ∧ (∀ x ∈ fin.trace, x.1.kind ∈ combinedKinds)
    ∧ (∀ x ∈ pre, x.1.kind ≠ .export)
    ∧ (∀ x ∈ sel ++ rest, isJointQuery x.1 = false)
    ∧ (∀ x ∈ sel, x.1.kind ≠ .export)
    ∧ (∀ j ∈ ans.arr ++ [root2], ∃ x ∈ sel, x.1 = .selAdd j)
    ∧ (∃ x ∈ rest, x.1 = fbxExportCmd outputPath)
    ∧ (namespacedCount (ans.arr ++ [root2]) > 0 →
        residualWarning (namespacedCount (ans.arr ++ [root2])) ∈ r.warnings)

/-! ## Observations on the export of the camera -/

/-- The request `camera -name "__PT_ExportCamTmp"` that creates the throwaway camera. -/
def createCameraCmd : Cmd :=
  .mel "camera" ["-name", "\"__PT_ExportCamTmp\""]

/-- The request `select -replace "<node>"` that selects the node to export. -/
def selectCmd (node : String) : Cmd :=
  .mel "select" ["-replace", q node]

/-- The warning of the fallback of `exportCameraFbx`. -/
def tempCameraWarning : String :=
  "Failed to create temp camera; exporting original camera (may include out-of-range keys)"

/-- The answer to the `camera` request names a transform and a shape: it holds two names at
least and the first two are not empty, so that `tmpCamXform` and `tmpCamShape` are set. -/
def namesCamera (created : Resp) : Prop :=
  2 ≤ created.arr.length ∧ (created.arr.headD "").data ≠ []
    ∧ (created.arr.tail.headD "").data ≠ []

/-- The variable `tmpCamXform` after the rename: the answer of `rename`, or the created name
when the answer is empty. -/
def renamedOr (renamed : Resp) (tmpCamXform0 : String) : String :=
  if renamed.str.data ≠ [] then renamed.str else tmpCamXform0

/-- The call could not create its throwaway camera: the trace starts with requests that
create nothing and write no key, followed by the `camera` request, whose answer does not name
a transform and a shape. -/
def NoTempCamera (tr : List (Cmd × Resp)) : Prop :=
  ∃ pre created, (pre ++ [(createCameraCmd, created)]) <+: tr
    ∧ NoKinds [.key, .create] pre ∧ ¬ namesCamera created

/-- The nodes `x` and `sh` are the throwaway camera that the call created and its shape: the
trace starts with requests that create nothing and write no key, followed by the `camera`
request, the `rename` of the created transform to the name of the output file, the `ls -l`
of the renamed node, whose first answer (or the renamed name) is `x`, and the `listRelatives`
of `x`, whose first answer (or the created shape) is `sh`. -/
def TempCamera (outputPath : String) (tr : List (Cmd × Resp)) (x sh : String) : Prop :=
  ∃ pre created renamed full shapes,
    (pre ++ [(createCameraCmd, created),
        (Cmd.mel "rename" [q (created.arr.headD ""),
          q (sanitizeMayaName (basenameNoExt outputPath))], renamed),
        (Cmd.mel "ls" ["-l", q (renamedOr renamed (created.arr.headD ""))], full),
        (Cmd.mel "listRelatives" ["-shapes", "-type", "\"camera\"", "-fullPath", q x],
          shapes)]) <+: tr
    ∧ NoKinds [.key, .create] pre ∧ namesCamera created
    ∧ x = full.arr.headD (renamedOr renamed (created.arr.headD ""))
    ∧ sh = shapes.arr.headD (created.arr.tail.headD "")

/-- The requests `setKeyframe -t <f> ...` on the node `x` for the frames of `[lo, hi]`, in
ascending order. -/
def transformKeys (x : String) (lo hi : Int) : List Cmd :=
  (frameList lo hi).map (fun f => Cmd.mel "setKeyframe" (keyTransformArgs x f))

/-- The requests of the trace are `t0`, then the selection of `node`, then `tail`. -/
def SelectedAfter (node : String) (t0 tail : List Cmd) (tr : List (Cmd × Resp)) : Prop :=
  requests tr = t0 ++ selectCmd node :: tail

/-- The node was selected after the requests `t0` and then exported: between the selection
and the `FBXExport` request for the output path only exporter settings and the refresh state
are set, and after it no request writes keys, changes the selection or exports. -/
def ExportedAfter (node outputPath : String) (t0 : List Cmd) (tr : List (Cmd × Resp)) : Prop :=
  ∃ mid rest, SelectedAfter node t0 (mid ++ fbxExportCmd outputPath :: rest) tr
    ∧ (∀ c ∈ mid, c.kind ∈ [Kind.setting, Kind.time])
    ∧ (∀ c ∈ rest, c.kind ∉ [Kind.key, Kind.select, Kind.export])

/-- The fallback of `exportCameraFbx`: no throwaway camera could be created, the result
carries the warning, the original camera is selected and exported, and no request of the call
writes a key. -/
def FallbackExport (cameraTransform outputPath : String) (warnings : List String)
    (tr : List (Cmd × Resp)) : Prop :=
  NoTempCamera tr ∧ tempCameraWarning ∈ warnings ∧ (∀ x ∈ tr, x.1.kind ≠ .key)
    ∧ ∃ t0, ExportedAfter cameraTransform outputPath t0 tr

/-- The export of the throwaway camera: the camera `x` that the call created was keyed at
the frames of `[lo, hi]`, each once and in ascending order (the transform keys among the
requests `t1`), then clipped by the four `cutKey` requests, then selected and exported. -/
def TempCameraExport (outputPath : String) (lo hi : Int) (tr : List (Cmd × Resp)) : Prop :=
  ∃ x sh t1, TempCamera outputPath tr x sh
    ∧ t1.filter isTransformKey = transformKeys x lo hi
    ∧ ExportedAfter x outputPath (t1 ++ clipCmds lo hi x sh) tr

/-- The two ways in which `exportCameraFbx` can have selected the node to export, `tail`
being the requests sent since: the original camera after the fallback warning, or the
throwaway camera after it was keyed and clipped. -/
def CamStage (cameraTransform outputPath : String) (lo hi : Int) (warnings : List String)
    (tail : List Cmd) (tr : List (Cmd × Resp)) : Prop :=
  ∃ node t0, SelectedAfter node t0 tail tr
    ∧ ((node = cameraTransform ∧ NoTempCamera tr ∧ tempCameraWarning ∈ warnings
          ∧ ∀ c ∈ t0, c.kind ≠ .key)
      ∨ (∃ sh t1, t0 = t1 ++ clipCmds lo hi node sh ∧ TempCamera outputPath tr node sh
          ∧ t1.filter isTransformKey = transformKeys node lo hi))

/-- The state of `exportCameraFbx` between the selection and the export. -/
def PreExport {σ : Type} (cameraTransform outputPath : String) (lo hi : Int)
    (s : Run σ CamLocals) : Prop :=
  ∃ mid, CamStage cameraTransform outputPath lo hi s.loc.warnings mid s.trace
    ∧ ∀ c ∈ mid, c.kind ∈ [Kind.setting, Kind.time]

/-- The state of `exportCameraFbx` after the export. -/
def PostExport {σ : Type} (cameraTransform outputPath : String) (lo hi : Int)
    (s : Run σ CamLocals) : Prop :=
  ∃ mid rest, CamStage cameraTransform outputPath lo hi s.loc.warnings
      (mid ++ fbxExportCmd outputPath :: rest) s.trace
    ∧ (∀ c ∈ mid, c.kind ∈ [Kind.setting, Kind.time])
    ∧ (∀ c ∈ rest, c.kind ∉ [Kind.key, Kind.select, Kind.export])

/-- The two ways in which `exportCameraFbx` can reach a successful export. -/
def CamGood (cameraTransform outputPath : String) (lo hi : Int) (warnings : List String)
    (tr : List (Cmd × Resp)) : Prop :=
  FallbackExport cameraTransform outputPath warnings tr ∨ TempCameraExport outputPath lo hi tr

/-- What is claimed of each `return` of `exportCameraFbx` that reports success. -/
def CamPost {σ α : Type} (cameraTransform : String) (lo hi : Int) (outputPath : String)
    (o : Out ExportResult α) (s : Run σ CamLocals) : Prop :=
  ∀ r, o = .ret r → r.success = true → CamGood cameraTransform outputPath lo hi r.warnings s.trace

/-- The state of `exportCameraFbx` after the creation and the rename of the throwaway
camera, `x` being the variable `tmpCamXform` and `sh` the variable `tmpCamShape`: no key was
written; when one of the two names is empty no camera could be created; else the trace ends
with the `camera` request and the `rename`, from whose answers `x` and `sh` are taken. -/
def AfterCreate {σ : Type} (outputPath x sh : String) (s : Run σ CamLocals) : Prop :=
  NoKinds [.key] s.trace
    ∧ ((x.data = [] ∨ sh.data = []) → NoTempCamera s.trace)
    ∧ (¬ (x.data = [] ∨ sh.data = []) →
        ∃ pre created renamed,
          s.trace = pre ++ [(createCameraCmd, created),
            (Cmd.mel "rename" [q (created.arr.headD ""),
              q (sanitizeMayaName (basenameNoExt outputPath))], renamed)]
          ∧ NoKinds [.key, .create] pre ∧ namesCamera created
          ∧ x = renamedOr renamed (created.arr.headD "")
          ∧ sh = created.arr.tail.headD "")

/-- A scene in which the throwaway camera cannot be created: `camera` answers nothing, the
exporter plugin is loaded, every node asked for exists, every other command succeeds, and the
output file exists with 2048 bytes. -/
def noTempCameraScene : Facade Unit := fun _ c =>
  match c with
  | .mel "pluginInfo" _ => ({ int := 1 }, ())
  | .mel "objExists" _ => ({ int := 1 }, ())
  | .mel "camera" _ => ({ ok := false }, ())
  | .mel "listRelatives" _ => ({ arr := ["|cam1|cam1Shape"] }, ())
  | .stat _ => ({ ok := true, reg := true, int := 2048 }, ())
  | .readFile _ => ({ ok := true, str := "Camera" }, ())
  | _ => ({}, ())

/-- The requests of a trace that create a node, write keys, change the selection, export or
delete, in order. -/
def cameraSteps (tr : List (Cmd × Resp)) : List Cmd :=
  (requests tr).filter fun c =>
    decide (c.kind ∈ [Kind.create, Kind.key, Kind.select, Kind.export, Kind.delete])

/-! # Theorems

## Run equations -/

namespace M

variable {σ L L' ρ ρ' α β : Type}

theorem bind_def (m : M σ L ρ α) (f : α → M σ L ρ β) : (m >>= f) = M.bind m f := rfl

theorem pure_def (a : α) : (Pure.pure a : M σ L ρ α) = M.pure a := rfl

theorem run_pure (a : α) (F : Facade σ) (s : Run σ L) :
    (M.pure a : M σ L ρ α).run F s = (.val a, s) := by
  unfold M.pure; rfl

theorem run_bind (m : M σ L ρ α) (f : α → M σ L ρ β) (F : Facade σ) (s : Run σ L) :
    (M.bind m f).run F s =
      match m.run F s with
      | (.val a, s1) => (f a).run F s1
      | (.ret r, s1) => (.ret r, s1)
      | (.exc, s1) => (.exc, s1) := by
  unfold M.bind; rfl

theorem run_call (c : Cmd) (F : Facade σ) (s : Run σ L) :
    (M.call c : M σ L ρ Resp).run F s =
      (if (F s.scene c).1.fault then Out.exc else Out.val (F s.scene c).1,
       { scene := (F s.scene c).2, trace := s.trace ++ [(c, (F s.scene c).1)], loc := s.loc }) := by
  unfold M.call
  simp only
  split <;> rfl

theorem run_ret (r : ρ) (F : Facade σ) (s : Run σ L) :
    (M.ret r : M σ L ρ α).run F s = (.ret r, s) := by
  unfold M.ret; rfl

theorem run_getL (F : Facade σ) (s : Run σ L) :
    (M.getL : M σ L ρ L).run F s = (.val s.loc, s) := by
  unfold M.getL; rfl

theorem run_modifyL (f : L → L) (F : Facade σ) (s : Run σ L) :
    (M.modifyL f : M σ L ρ Unit).run F s = (.val (), { s with loc := f s.loc }) := by
  unfold M.modifyL; rfl

theorem run_tryCatch (b h : M σ L ρ α) (F : Facade σ) (s : Run σ L) :
    (M.tryCatch b h).run F s =
      match b.run F s with
      | (.exc, s1) => h.run F s1
      | r => r := by
  unfold M.tryCatch; rfl

theorem run_callSub (m : M σ L ρ' ρ') (F : Facade σ) (s : Run σ L) :
    (M.callSub m : M σ L ρ ρ').run F s =
      match m.run F s with
      | (.val a, s1) => (.val a, s1)
      | (.ret r, s1) => (.val r, s1)
      | (.exc, s1) => (.exc, s1) := by
  unfold M.callSub; rfl

theorem run_callFn (m : M σ L' ρ' Empty) (l0 : L') (F : Facade σ) (s : Run σ L) :
    (M.callFn m l0 : M σ L ρ ρ').run F s =
      match m.run F { scene := s.scene, trace := s.trace, loc := l0 } with
      | (.val a, _) => nomatch a
      | (.ret r, s1) => (.val r, { scene := s1.scene, trace := s1.trace, loc := s.loc })
      | (.exc, s1) => (.exc, { scene := s1.scene, trace := s1.trace, loc := s.loc }) := by
  unfold M.callFn; rfl

theorem run_withGuard (b : M σ L ρ α) (rel : M σ L ρ Unit) (F : Facade σ) (s : Run σ L) :
    (M.withGuard b rel).run F s =
      match rel.run F (b.run F s).2 with
      | (.val _, s2) => ((b.run F s).1, s2)
      | (.ret r, s2) => (.ret r, s2)
      | (.exc, s2) => (.exc, s2) := by
  unfold M.withGuard; rfl

end M

/-! ## Reasoning about code: what every `return` returns -/

section Rets

variable {σ L L' ρ ρ' α β : Type}

theorem rets_pure (P : ρ → Prop) (a : α) : Rets P (M.pure a : M σ L ρ α) := by
  refine ⟨fun F s r h => ?_⟩; rw [M.run_pure] at h; cases h

theorem rets_ret {P : ρ → Prop} {r : ρ} (h : P r) : Rets P (M.ret r : M σ L ρ α) := by
  refine ⟨fun F s r0 h0 => ?_⟩
  rw [M.run_ret] at h0
  cases h0; exact h

theorem rets_bind {P : ρ → Prop} {m : M σ L ρ α} {f : α → M σ L ρ β}
    (hm : Rets P m) (hf : ∀ a, Rets P (f a)) : Rets P (M.bind m f) := by
  refine ⟨fun F s r h => ?_⟩
  rw [M.run_bind] at h
  have hm0 := hm.out F s
  generalize m.run F s = o at h hm0
  rcases o with ⟨(a | r0 | _), s1⟩
  · exact (hf a).out F s1 r h
  · cases h; exact hm0 _ rfl
  · cases h

theorem rets_bindVals {P : ρ → Prop} {Q : α → Prop} {m : M σ L ρ α} {f : α → M σ L ρ β}
    (hv : Vals Q m) (hm : Rets P m) (hf : ∀ a, Q a → Rets P (f a)) : Rets P (M.bind m f) := by
  refine ⟨fun F s r h => ?_⟩
  rw [M.run_bind] at h
  have hm0 := hm.out F s
  have hv0 := hv.out F s
  generalize m.run F s = o at h hm0 hv0
  rcases o with ⟨(a | r0 | _), s1⟩
  · exact (hf a (hv0 a rfl)).out F s1 r h
  · cases h; exact hm0 _ rfl
  · cases h

theorem rets_call (P : ρ → Prop) (c : Cmd) : Rets P (M.call c : M σ L ρ Resp) := by
  refine ⟨fun F s r h => ?_⟩
  rw [M.run_call] at h
  simp only at h
  split at h <;> cases h

theorem rets_getL (P : ρ → Prop) : Rets P (M.getL : M σ L ρ L) := by
  refine ⟨fun F s r h => ?_⟩; rw [M.run_getL] at h; cases h

theorem rets_modifyL (P : ρ → Prop) (f : L → L) : Rets P (M.modifyL f : M σ L ρ Unit) := by
  refine ⟨fun F s r h => ?_⟩; rw [M.run_modifyL] at h; cases h

theorem rets_tryCatch {P : ρ → Prop} {b h : M σ L ρ α} (hb : Rets P b) (hh : Rets P h) :
    Rets P (M.tryCatch b h) := by
  refine ⟨fun F s r e => ?_⟩
  rw [M.run_tryCatch] at e
  have hb0 := hb.out F s
  generalize b.run F s = o at e hb0
  rcases o with ⟨(a | r0 | _), s1⟩
  · cases e
  · cases e; exact hb0 _ rfl
  · exact hh.out F s1 r e

theorem rets_callSub (P : ρ → Prop) (m : M σ L ρ' ρ') : Rets P (M.callSub m : M σ L ρ ρ') := by
  refine ⟨fun F s r e => ?_⟩
  rw [M.run_callSub] at e
  generalize m.run F s = o at e
  rcases o with ⟨(a | r0 | _), s1⟩ <;> cases e

theorem rets_callFn (P : ρ → Prop) (m : M σ L' ρ' Empty) (l0 : L') :
    Rets P (M.callFn m l0 : M σ L ρ ρ') := by
  refine ⟨fun F s r e => ?_⟩
  rw [M.run_callFn] at e
  generalize m.run F _ = o at e
  rcases o with ⟨(a | r0 | _), s1⟩
  · exact nomatch a
  · cases e
  · cases e

theorem vals_callFn {Q : ρ' → Prop} {m : M σ L' ρ' Empty} (l0 : L')
    (hr : Rets Q m) : Vals Q (M.callFn m l0 : M σ L ρ ρ') := by
  refine ⟨fun F s a e => ?_⟩
  rw [M.run_callFn] at e
  have hr0 := hr.out F { scene := s.scene, trace := s.trace, loc := l0 }
  generalize m.run F _ = o at e hr0
  rcases o with ⟨(a0 | r0 | _), s1⟩
  · exact nomatch a0
  · cases e; exact hr0 _ rfl
  · cases e

theorem rets_withGuard {P : ρ → Prop} {b : M σ L ρ α} {rel : M σ L ρ Unit}
    (hb : Rets P b) (hr : Rets P rel) : Rets P (M.withGuard b rel) := by
  refine ⟨fun F s r e => ?_⟩
  rw [M.run_withGuard] at e
  have hb0 := hb.out F s
  have hr0 := hr.out F (b.run F s).2
  generalize rel.run F (b.run F s).2 = o at e hr0
  rcases o with ⟨(a | r0 | _), s1⟩
  · simp only at e; exact hb0 _ e
  · cases e; exact hr0 _ rfl
  · cases e

theorem rets_when {P : ρ → Prop} {c : Bool} {a : M σ L ρ Unit} (h : Rets P a) :
    Rets P (M.when c a) := by
  unfold M.when; split
  · exact h
  · exact rets_pure P _

theorem rets_ite {P : ρ → Prop} {c : Prop} [Decidable c] {a b : M σ L ρ α}
    (ha : Rets P a) (hb : Rets P b) : Rets P (if c then a else b) := by
  split
  · exact ha
  · exact hb

theorem rets_forEach {P : ρ → Prop} {f : α → M σ L ρ Unit} (xs : List α)
    (hf : ∀ a, Rets P (f a)) : Rets P (M.forEach xs f) := by
  induction xs with
  | nil => exact rets_pure P _
  | cons x xs ih => exact rets_bind (hf x) (fun _ => ih)

theorem rets_foldM {P : ρ → Prop} {f : β → α → M σ L ρ β} (xs : List α) (b : β)
    (hf : ∀ b a, Rets P (f b a)) : Rets P (M.foldM f b xs) := by
  induction xs generalizing b with
  | nil => exact rets_pure P _
  | cons x xs ih => exact rets_bind (hf b x) (fun b1 => ih b1)

end Rets

/-! ## Reasoning about code: quiet code -/

section QuietRules

variable {σ L L' ρ ρ' α β : Type} {C : Cmd → Prop} {R : LocRel L}

theorem replay_append (F : Facade σ) (sc : σ) (t1 t2 : List (Cmd × Resp)) :
    replay F sc (t1 ++ t2) = replay F (replay F sc t1) t2 := by
  induction t1 generalizing sc with
  | nil => rfl
  | cons x t ih => exact ih _

theorem answered_append (F : Facade σ) (sc : σ) (t1 t2 : List (Cmd × Resp))
    (h1 : Answered F sc t1) (h2 : Answered F (replay F sc t1) t2) :
    Answered F sc (t1 ++ t2) := by
  induction t1 generalizing sc with
  | nil => exact h2
  | cons x t ih => exact ⟨h1.1, ih _ h1.2 h2⟩

theorem extends_refl (F : Facade σ) (C : Cmd → Prop) (R : LocRel L) (s : Run σ L) :
    Extends F C R s s :=
  ⟨R.refl _, [], by simp, by simp, trivial, rfl⟩

theorem extends_trans {F : Facade σ} {s1 s2 s3 : Run σ L} (h1 : Extends F C R s1 s2)
    (h2 : Extends F C R s2 s3) : Extends F C R s1 s3 := by
  obtain ⟨r1, t1, e1, c1, a1, p1⟩ := h1
  obtain ⟨r2, t2, e2, c2, a2, p2⟩ := h2
  refine ⟨R.trans _ _ _ r1 r2, t1 ++ t2, by rw [e2, e1, List.append_assoc], ?_, ?_, ?_⟩
  · intro x hx
    rcases List.mem_append.1 hx with h | h
    · exact c1 x h
    · exact c2 x h
  · exact answered_append F _ t1 t2 a1 (p1 ▸ a2)
  · rw [p2, p1, replay_append]

theorem extends_call (F : Facade σ) (R : LocRel L) {c : Cmd} (h : C c) (s : Run σ L) :
    Extends F C R s
      { scene := (F s.scene c).2, trace := s.trace ++ [(c, (F s.scene c).1)], loc := s.loc } := by
  refine ⟨R.refl _, [(c, (F s.scene c).1)], rfl, ?_, ⟨rfl, trivial⟩, rfl⟩
  intro x hx
  simp only [List.mem_singleton] at hx
  subst hx
  exact h

theorem extends_mono {F : Facade σ} {C2 : Cmd → Prop} {s s1 : Run σ L} (hC : ∀ c, C c → C2 c)
    (h : Extends F C R s s1) : Extends F C2 R s s1 := by
  obtain ⟨r1, t1, e1, c1, a1, p1⟩ := h
  exact ⟨r1, t1, e1, fun x hx => hC _ (c1 x hx), a1, p1⟩

theorem quiet_pure (a : α) : Quiet C R (M.pure a : M σ L ρ α) := by
  refine ⟨fun F s => ?_, fun F s r => ?_, fun F s _ => ?_⟩ <;> rw [M.run_pure]
  · exact extends_refl F C R s
  · simp
  · simp

theorem quiet_getL : Quiet C R (M.getL : M σ L ρ L) := by
  refine ⟨fun F s => ?_, fun F s r => ?_, fun F s _ => ?_⟩ <;> rw [M.run_getL]
  · exact extends_refl F C R s
  · simp
  · simp

theorem quiet_modifyL {f : L → L} (h : ∀ l, R.rel l (f l)) :
    Quiet C R (M.modifyL f : M σ L ρ Unit) := by
  refine ⟨fun F s => ?_, fun F s r => ?_, fun F s _ => ?_⟩ <;> rw [M.run_modifyL]
  · exact ⟨h _, [], by simp, by simp, trivial, rfl⟩
  · simp
  · simp

theorem quiet_call {c : Cmd} (h : C c) : Quiet C R (M.call c : M σ L ρ Resp) := by
  refine ⟨fun F s => ?_, fun F s r => ?_, fun F s hF => ?_⟩ <;> rw [M.run_call]
  · exact extends_call F R h s
  · simp only; split <;> simp
  · simp [hF s.scene c]

theorem quiet_bind {m : M σ L ρ α} {f : α → M σ L ρ β}
    (hm : Quiet C R m) (hf : ∀ a, Quiet C R (f a)) : Quiet C R (M.bind m f) := by
  refine ⟨fun F s => ?_, fun F s r => ?_, fun F s hF => ?_⟩ <;> rw [M.run_bind]
  · have h1 := hm.ext F s
    generalize m.run F s = o at h1
    rcases o with ⟨(a | r0 | _), s1⟩
    · exact extends_trans h1 ((hf a).ext F s1)
    · exact h1
    · exact h1
  · have h2 := hm.noRet F s
    generalize m.run F s = o at h2
    rcases o with ⟨(a | r0 | _), s1⟩
    · exact (hf a).noRet F s1 r
    · exact absurd rfl (h2 r0)
    · simp
  · have h2 := hm.noExc F s hF
    generalize m.run F s = o at h2
    rcases o with ⟨(a | r0 | _), s1⟩
    · exact (hf a).noExc F s1 hF
    · simp
    · exact absurd rfl h2

theorem quiet_when {c : Bool} {a : M σ L ρ Unit} (h : Quiet C R a) : Quiet C R (M.when c a) := by
  unfold M.when; split
  · exact h
  · exact quiet_pure _

theorem quiet_ite {c : Prop} [Decidable c] {a b : M σ L ρ α}
    (ha : Quiet C R a) (hb : Quiet C R b) : Quiet C R (if c then a else b) := by
  split
  · exact ha
  · exact hb

theorem quiet_forEach {f : α → M σ L ρ Unit} (xs : List α)
    (hf : ∀ a, Quiet C R (f a)) : Quiet C R (M.forEach xs f) := by
  induction xs with
  | nil => exact quiet_pure _
  | cons x xs ih => exact quiet_bind (hf x) (fun _ => ih)

theorem quiet_foldM {f : β → α → M σ L ρ β} (xs : List α) (b : β)
    (hf : ∀ b a, Quiet C R (f b a)) : Quiet C R (M.foldM f b xs) := by
  induction xs generalizing b with
  | nil => exact quiet_pure _
  | cons x xs ih => exact quiet_bind (hf b x) (fun b1 => ih b1)

theorem quiet_tryCatch {b h : M σ L ρ α} (hb : Quiet C R b) (hh : Quiet C R h) :
    Quiet C R (M.tryCatch b h) := by
  refine ⟨fun F s => ?_, fun F s r => ?_, fun F s hF => ?_⟩ <;> rw [M.run_tryCatch]
  · have h1 := hb.ext F s
    generalize b.run F s = o at h1
    rcases o with ⟨(a | r0 | _), s1⟩
    · exact h1
    · exact h1
    · exact extends_trans h1 (hh.ext F s1)
  · have h2 := hb.noRet F s
    generalize b.run F s = o at h2
    rcases o with ⟨(a | r0 | _), s1⟩
    · simp
    · exact absurd rfl (h2 r0)
    · exact hh.noRet F s1 r
  · have h2 := hb.noExc F s hF
    generalize b.run F s = o at h2
    rcases o with ⟨(a | r0 | _), s1⟩
    · simp
    · simp
    · exact absurd rfl h2

theorem quiet_mono {C2 : Cmd → Prop} {m : M σ L ρ α} (hC : ∀ c, C c → C2 c)
    (h : Quiet C R m) : Quiet C2 R m :=
  ⟨fun F s => extends_mono hC (h.ext F s), h.noRet, h.noExc⟩

/-- Quiet code returns nothing, so every `return` in it satisfies any predicate. -/
theorem quiet_rets {m : M σ L ρ α} (h : Quiet C R m) (P : ρ → Prop) : Rets P m :=
  ⟨fun F s r e => absurd e (h.noRet F s r)⟩

end QuietRules

/-! ## Reasoning about code: weakest preconditions -/

section WpRules
variable {σ L L' ρ ρ' α β : Type} {C : Cmd → Prop} {R : LocRel L}

theorem wp_pure (F : Facade σ) (a : α) (post : Out ρ α → Run σ L → Prop) (s : Run σ L) :
    wp F (M.pure a) post s ↔ post (.val a) s := by
  unfold wp; rw [M.run_pure]

theorem wp_ret (F : Facade σ) (r : ρ) (post : Out ρ α → Run σ L → Prop) (s : Run σ L) :
    wp F (M.ret r) post s ↔ post (.ret r) s := by
  unfold wp; rw [M.run_ret]

theorem wp_getL (F : Facade σ) (post : Out ρ L → Run σ L → Prop) (s : Run σ L) :
    wp F M.getL post s ↔ post (.val s.loc) s := by
  unfold wp; rw [M.run_getL]

theorem wp_modifyL (F : Facade σ) (f : L → L) (post : Out ρ Unit → Run σ L → Prop)
    (s : Run σ L) :
    wp F (M.modifyL f) post s ↔ post (.val ()) { s with loc := f s.loc } := by
  unfold wp; rw [M.run_modifyL]

theorem wp_call (F : Facade σ) (c : Cmd) (post : Out ρ Resp → Run σ L → Prop) (s : Run σ L) :
    wp F (M.call c) post s ↔
      post (if (F s.scene c).1.fault then Out.exc else Out.val (F s.scene c).1)
        { scene := (F s.scene c).2, trace := s.trace ++ [(c, (F s.scene c).1)], loc := s.loc } := by
  unfold wp; rw [M.run_call]

theorem wp_bind (F : Facade σ) (m : M σ L ρ α) (f : α → M σ L ρ β)
    (post : Out ρ β → Run σ L → Prop) (s : Run σ L) :
    wp F (M.bind m f) post s ↔
      wp F m (fun o s1 => match o with
        | .val a => wp F (f a) post s1
        | .ret r => post (.ret r) s1
        | .exc => post .exc s1) s := by
  unfold wp; rw [M.run_bind]
  generalize m.run F s = o
  rcases o with ⟨(a | r0 | _), s1⟩ <;> exact Iff.rfl

theorem wp_tryCatch (F : Facade σ) (b h : M σ L ρ α)
    (post : Out ρ α → Run σ L → Prop) (s : Run σ L) :
    wp F (M.tryCatch b h) post s ↔
      wp F b (fun o s1 => match o with
        | .exc => wp F h post s1
        | .val a => post (.val a) s1
        | .ret r => post (.ret r) s1) s := by
  unfold wp; rw [M.run_tryCatch]
  generalize b.run F s = o
  rcases o with ⟨(a | r0 | _), s1⟩ <;> exact Iff.rfl

theorem wp_when (F : Facade σ) (c : Bool) (a : M σ L ρ Unit)
    (post : Out ρ Unit → Run σ L → Prop) (s : Run σ L) :
    wp F (M.when c a) post s ↔ if c then wp F a post s else post (.val ()) s := by
  unfold M.when
  split
  · exact Iff.rfl
  · exact wp_pure F _ post s

theorem wp_ite (F : Facade σ) (c : Prop) [Decidable c] (a b : M σ L ρ α)
    (post : Out ρ α → Run σ L → Prop) (s : Run σ L) :
    wp F (if c then a else b) post s ↔ if c then wp F a post s else wp F b post s := by
  split <;> exact Iff.rfl

theorem wp_mono {F : Facade σ} {m : M σ L ρ α} {P Q : Out ρ α → Run σ L → Prop}
    {s : Run σ L} (h : wp F m P s) (hp : ∀ o s1, P o s1 → Q o s1) :
    wp F m Q s :=
  hp _ _ h

/-- Quiet code run against a facade without faults ends with a value, in a state that extends
the start state. -/
theorem wp_quiet {F : Facade σ} {m : M σ L ρ α} {post : Out ρ α → Run σ L → Prop}
    {s : Run σ L} (hq : Quiet C R m) (hF : NoFault F)
    (h : ∀ a s1, m.run F s = (.val a, s1) → Extends F C R s s1 → post (.val a) s1) :
    wp F m post s := by
  unfold wp
  have h1 := hq.ext F s
  have h2 := hq.noRet F s
  have h3 := hq.noExc F s hF
  generalize hrun : m.run F s = o at h h1 h2 h3
  rcases o with ⟨(a | r0 | _), s1⟩
  · exact h a s1 rfl h1
  · exact absurd rfl (h2 r0)
  · exact absurd rfl h3

/-- A fold with an invariant on the accumulator; every round ends with a value. -/
theorem wp_foldM {F : Facade σ} {f : β → α → M σ L ρ β} (Inv : β → Run σ L → Prop)
    (xs : List α) (b : β) (s : Run σ L) (h0 : Inv b s)
    (hstep : ∀ b0 x s1, Inv b0 s1 → wp F (f b0 x) (fun o s2 => ∃ b1, o = .val b1 ∧ Inv b1 s2) s1) :
    wp F (M.foldM f b xs) (fun o s2 => ∃ b1, o = .val b1 ∧ Inv b1 s2) s := by
  induction xs generalizing b s with
  | nil =>
    show wp F (M.pure b) _ s
    rw [wp_pure]; exact ⟨b, rfl, h0⟩
  | cons x xs ih =>
    show wp F (M.bind (f b x) fun b1 => M.foldM f b1 xs) _ s
    rw [wp_bind]
    refine wp_mono (hstep b x s h0) ?_
    rintro o s1 ⟨b1, rfl, h1⟩
    exact ih b1 s1 h1

theorem ofKinds_mono {ks ks2 : List Kind} (h : ∀ k ∈ ks, k ∈ ks2) (c : Cmd) :
    OfKinds ks c → OfKinds ks2 c := fun hc => h _ hc

theorem ofKinds_imp {ks : List Kind} {P : Kind → Prop} (h : ∀ k ∈ ks, P k) (c : Cmd) :
    OfKinds ks c → P c.kind := fun hc => h _ hc

end WpRules

/-! ## Reasoning about code: calm code, lenient postconditions -/

section CalmRules
variable {σ L L' ρ ρ' α β : Type} {C : Cmd → Prop} {R : LocRel L}

theorem calm_of_quiet {m : M σ L ρ α} (h : Quiet C R m) : Calm C R m :=
  ⟨h.ext, h.noExc⟩

theorem calm_ret (r : ρ) : Calm C R (M.ret r : M σ L ρ α) := by
  refine ⟨fun F s => ?_, fun F s _ => ?_⟩ <;> rw [M.run_ret]
  · exact extends_refl F C R s
  · simp

theorem calm_bind {m : M σ L ρ α} {f : α → M σ L ρ β}
    (hm : Calm C R m) (hf : ∀ a, Calm C R (f a)) : Calm C R (M.bind m f) := by
  refine ⟨fun F s => ?_, fun F s hF => ?_⟩ <;> rw [M.run_bind]
  · have h1 := hm.ext F s
    generalize m.run F s = o at h1
    rcases o with ⟨(a | r0 | _), s1⟩
    · exact extends_trans h1 ((hf a).ext F s1)
    · exact h1
    · exact h1
  · have h2 := hm.noExc F s hF
    generalize m.run F s = o at h2
    rcases o with ⟨(a | r0 | _), s1⟩
    · exact (hf a).noExc F s1 hF
    · simp
    · exact absurd rfl h2

theorem calm_when {c : Bool} {a : M σ L ρ Unit} (h : Calm C R a) : Calm C R (M.when c a) := by
  unfold M.when; split
  · exact h
  · exact calm_of_quiet (quiet_pure _)

theorem calm_ite {c : Prop} [Decidable c] {a b : M σ L ρ α}
    (ha : Calm C R a) (hb : Calm C R b) : Calm C R (if c then a else b) := by
  split
  · exact ha
  · exact hb

theorem quiet_callSub {m : M σ L ρ' ρ'} (h : Calm C R m) :
    Quiet C R (M.callSub m : M σ L ρ ρ') := by
  refine ⟨fun F s => ?_, fun F s r => ?_, fun F s hF => ?_⟩ <;> rw [M.run_callSub]
  · have h1 := h.ext F s
    generalize m.run F s = o at h1
    rcases o with ⟨(a | r0 | _), s1⟩ <;> exact h1
  · generalize m.run F s = o
    rcases o with ⟨(a | r0 | _), s1⟩ <;> simp
  · have h2 := h.noExc F s hF
    generalize m.run F s = o at h2
    rcases o with ⟨(a | r0 | _), s1⟩
    · simp
    · simp
    · exact absurd rfl h2

theorem quiet_withGuard {b : M σ L ρ α} {rel : M σ L ρ Unit}
    (hb : Quiet C R b) (hr : Quiet C R rel) : Quiet C R (M.withGuard b rel) := by
  refine ⟨fun F s => ?_, fun F s r => ?_, fun F s hF => ?_⟩ <;> rw [M.run_withGuard]
  · have h1 := hb.ext F s
    have h2 := hr.ext F (b.run F s).2
    generalize rel.run F (b.run F s).2 = o at h2
    rcases o with ⟨(a | r0 | _), s1⟩ <;> exact extends_trans h1 h2
  · have h1 := hb.noRet F s
    have h2 := hr.noRet F (b.run F s).2
    generalize rel.run F (b.run F s).2 = o at h2
    rcases o with ⟨(a | r0 | _), s1⟩
    · exact h1 r
    · exact absurd rfl (h2 r0)
    · simp
  · have h1 := hb.noExc F s hF
    have h2 := hr.noExc F (b.run F s).2 hF
    generalize rel.run F (b.run F s).2 = o at h2
    rcases o with ⟨(a | r0 | _), s1⟩
    · exact h1
    · simp
    · exact absurd rfl h2

end CalmRules

section LenientRules
variable {σ L α β : Type} {C : Cmd → Prop} {R : LocRel L}

/-- A quiet step in front of a lenient postcondition. -/
theorem wp_quietL {F : Facade σ} {m : M σ L ExportResult α}
    {post : Out ExportResult α → Run σ L → Prop} {s : Run σ L}
    (hq : Quiet C R m) (hl : Lenient post)
    (h : ∀ a s1, Extends F C R s s1 → post (.val a) s1) : wp F m post s := by
  unfold wp
  have h1 := hq.ext F s
  have h2 := hq.noRet F s
  generalize m.run F s = o at h1 h2
  rcases o with ⟨(a | r0 | _), s1⟩
  · exact h a s1 h1
  · exact absurd rfl (h2 r0)
  · exact hl.exc s1

theorem wp_bind_quietL {F : Facade σ} {m : M σ L ExportResult α}
    {f : α → M σ L ExportResult β}
    {post : Out ExportResult β → Run σ L → Prop} {s : Run σ L}
    (hq : Quiet C R m) (hl : Lenient post)
    (h : ∀ a s1, Extends F C R s s1 → wp F (f a) post s1) : wp F (M.bind m f) post s := by
  rw [wp_bind]
  exact wp_quietL hq ⟨fun s => hl.exc s, fun r s hr => hl.fail r s hr⟩ h

theorem wp_fails {F : Facade σ} {m : M σ L ExportResult α}
    {post : Out ExportResult α → Run σ L → Prop} {s : Run σ L}
    (hf : Fails m) (hl : Lenient post) : wp F m post s := by
  unfold wp
  have h1 := hf F s
  generalize m.run F s = o at h1
  rcases o with ⟨(a | r0 | _), s1⟩
  · exact absurd h1 id
  · exact hl.fail r0 s1 h1
  · exact hl.exc s1

theorem fails_ret (r : ExportResult) (h : r.success = false) :
    Fails (M.ret r : M σ L ExportResult α) := by
  intro F s
  rw [M.run_ret]
  exact h

theorem fails_bind {m : M σ L ExportResult α} {f : α → M σ L ExportResult β}
    (hm : ∀ F s r, (m.run F s).1 ≠ .ret r) (hf : ∀ a, Fails (f a)) : Fails (M.bind m f) := by
  intro F s
  rw [M.run_bind]
  have h2 := hm F s
  generalize m.run F s = o at h2
  rcases o with ⟨(a | r0 | _), s1⟩
  · exact hf a F s1
  · exact absurd rfl (h2 r0)
  · trivial

theorem wp_withGuard (F : Facade σ) (b : M σ L ExportResult α) (rel : M σ L ExportResult Unit)
    (post : Out ExportResult α → Run σ L → Prop) (s : Run σ L) :
    wp F (M.withGuard b rel) post s ↔
      wp F b (fun o s1 => wp F rel (fun o2 s2 => match o2 with
        | .val _ => post o s2
        | .ret r => post (.ret r) s2
        | .exc => post .exc s2) s1) s := by
  unfold wp
  rw [M.run_withGuard]
  rcases h : rel.run F (b.run F s).2 with ⟨(a | r0 | _), s2⟩ <;> simp only [h]

theorem lenient_roundPost {I : Run σ L → Prop}
    {abort : Out ExportResult Unit → Run σ L → Prop} (hl : Lenient abort) :
    Lenient (roundPost I abort) :=
  ⟨fun s => hl.exc s, fun r s hr => hl.fail r s hr⟩

/-- A loop with an invariant on the part of the list already visited; a round either falls
through and keeps the invariant, or leaves the loop in a way that `abort` accepts. -/
theorem wp_forEachR {F : Facade σ} {ρ : Type} {f : α → M σ L ρ Unit}
    (Inv : List α → Run σ L → Prop) (abort : Out ρ Unit → Run σ L → Prop)
    (xs : List α) (done : List α) (s : Run σ L) (h0 : Inv done s)
    (hstep : ∀ d x s1, Inv d s1 → wp F (f x) (roundPost (Inv (d ++ [x])) abort) s1) :
    wp F (M.forEach xs f) (roundPost (Inv (done ++ xs)) abort) s := by
  induction xs generalizing done s with
  | nil =>
    show wp F (M.pure ()) _ s
    rw [wp_pure]
    show Inv (done ++ []) s
    simpa using h0
  | cons x xs ih =>
    show wp F (M.bind (f x) fun _ => M.forEach xs f) _ s
    rw [wp_bind]
    refine wp_mono (hstep done x s h0) ?_
    rintro (a | r | _) s1 h1
    · have := ih (done ++ [x]) s1 h1
      simpa using this
    · exact h1
    · exact h1

end LenientRules

/-! ## The helpers are quiet -/

section HelperQuiet
variable {σ L ρ : Type} {R : LocRel L}

theorem quiet_callK {ks : List Kind} {c : Cmd} (h : ks.contains c.kind = true) :
    Quiet (OfKinds ks) R (M.call c : M σ L ρ Resp) :=
  quiet_call (List.mem_of_elem_eq_true h)

theorem quiet_ensureOutDir (out : String) :
    Quiet (OfKinds [.file]) R (ensureOutDir out : M σ L ρ Unit) := by
  unfold ensureOutDir ensureDir
  simp only [M.bind_def, M.pure_def]
  repeat' first
    | apply quiet_bind | apply quiet_pure | apply quiet_getL | apply quiet_when
    | apply quiet_ite | apply quiet_forEach | apply quiet_foldM | apply quiet_tryCatch
    | intro _
    | (apply quiet_callK; rfl)
    | split

theorem quiet_removeDupMeshes (d : String) :
    Quiet (OfKinds [.query, .delete]) (LocRel.same DupLocals)
      (removeDupMeshes d : M σ DupLocals ρ Unit) := by
  unfold removeDupMeshes
  simp only [M.bind_def, M.pure_def, melExec, melQueryString, melQueryStringArray]
  repeat' first
    | apply quiet_bind | apply quiet_pure | apply quiet_getL | apply quiet_when
    | apply quiet_ite | apply quiet_forEach | apply quiet_foldM | apply quiet_tryCatch
    | intro _
    | (apply quiet_callK; rfl)
    | split

theorem quiet_buildSelection (names : List String) :
    Quiet (OfKinds [.query]) R (buildSelection names : M σ L ρ (List MObject)) := by
  induction names with
  | nil => exact quiet_pure _
  | cons n rest ih =>
    unfold buildSelection
    simp only [M.bind_def, M.pure_def]
    refine quiet_bind (quiet_callK rfl) (fun r => quiet_bind ih (fun t => quiet_pure _))

theorem quiet_unlockTransformChannels (nodes : List String) :
    Quiet (OfKinds [.query, .attr]) R (unlockTransformChannels nodes : M σ L ρ Unit) := by
  unfold unlockTransformChannels
  simp only [M.bind_def, M.pure_def]
  repeat' first
    | apply quiet_bind | apply quiet_pure | apply quiet_getL | apply quiet_when
    | apply quiet_ite | apply quiet_forEach | apply quiet_foldM | apply quiet_tryCatch
    | exact quiet_mono (ofKinds_mono (by decide)) (quiet_buildSelection _)
    | intro _
    | (apply quiet_callK; rfl)
    | split

theorem quiet_getDependNode (name : String) :
    Quiet (OfKinds [.query]) R (getDependNode name : M σ L ρ MObject) := by
  unfold getDependNode
  simp only [M.bind_def, M.pure_def]
  repeat' first
    | apply quiet_bind | apply quiet_pure | apply quiet_getL | apply quiet_when
    | apply quiet_ite | apply quiet_forEach | apply quiet_foldM | apply quiet_tryCatch
    | intro _
    | (apply quiet_callK; rfl)
    | split

theorem quiet_fullPathName (obj : MObject) :
    Quiet (OfKinds [.query]) R (fullPathName obj : M σ L ρ String) := by
  unfold fullPathName
  simp only [M.bind_def, M.pure_def]
  repeat' first
    | apply quiet_bind | apply quiet_pure | apply quiet_getL | apply quiet_when
    | apply quiet_ite | apply quiet_forEach | apply quiet_foldM | apply quiet_tryCatch
    | intro _
    | (apply quiet_callK; rfl)
    | split

theorem quiet_debugJointMotionSample (j : String) (a b : Int) :
    Quiet (OfKinds [.query]) R (debugJointMotionSample j a b : M σ L ρ Unit) := by
  unfold debugJointMotionSample queryAttrAtTime
  simp only [M.bind_def, M.pure_def]
  repeat' first
    | apply quiet_bind | apply quiet_pure | apply quiet_getL | apply quiet_when
    | apply quiet_ite | apply quiet_forEach | apply quiet_foldM | apply quiet_tryCatch
    | intro _
    | (apply quiet_callK; rfl)
    | split

theorem quiet_debugWorldSpacePositionLoop (j : String) (a : Int) (attrs : List String) :
    Quiet (OfKinds [.query]) R (debugWorldSpacePositionLoop j a attrs : M σ L ρ Unit) := by
  induction attrs with
  | nil => exact quiet_pure _
  | cons x rest ih =>
    unfold debugWorldSpacePositionLoop queryAttrAtTime
    simp only [M.bind_def, M.pure_def]
    refine quiet_bind (quiet_bind (quiet_callK rfl) (fun _ => quiet_pure _)) (fun ok => ?_)
    split
    · exact ih
    · exact quiet_pure _

theorem quiet_debugWorldSpacePosition (j : String) (a : Int) :
    Quiet (OfKinds [.query]) R (debugWorldSpacePosition j a : M σ L ρ Unit) :=
  quiet_debugWorldSpacePositionLoop j a _

theorem quiet_constrainPair (t : ConstraintTally) (pair : String × String) :
    Quiet (OfKinds [.query, .constrain]) (LocRel.same DupLocals)
      (constrainPair t pair : M σ DupLocals ρ ConstraintTally) := by
  unfold constrainPair constraintFailed nodeExists
  simp only [M.bind_def, M.pure_def, melQueryStringArrayChecked, melQueryInt]
  repeat' first
    | apply quiet_bind | apply quiet_pure | apply quiet_getL | apply quiet_when
    | apply quiet_ite | apply quiet_forEach | apply quiet_foldM | apply quiet_tryCatch
    | intro _
    | (apply quiet_callK; rfl)
    | split

end HelperQuiet

/-! ## The result invariant (C1) -/

section ResultInvariant

variable {σ L ρ : Type}

theorem rets_buildSelection (P : ρ → Prop) (names : List String) :
    Rets P (buildSelection names : M σ L ρ (List MObject)) := by
  induction names with
  | nil => exact rets_pure P _
  | cons n rest ih =>
    unfold buildSelection
    exact rets_bind (rets_call P _) fun _ => rets_bind ih fun _ => rets_pure P _

theorem rets_debugWorldSpacePositionLoop (P : ρ → Prop) (j : String) (f : Int)
    (attrs : List String) :
    Rets P (debugWorldSpacePositionLoop j f attrs : M σ L ρ Unit) := by
  induction attrs with
  | nil => exact rets_pure P _
  | cons a rest ih =>
    unfold debugWorldSpacePositionLoop queryAttrAtTime
    simp only [M.bind_def, M.pure_def]
    refine rets_bind (rets_bind (rets_call P _) fun _ => rets_pure P _) fun _ => ?_
    exact rets_ite ih (rets_pure P _)

theorem rets_cleanupDup (P : ρ → Prop) : Rets P (cleanupDup : M σ DupLocals ρ Unit) := by
  unfold cleanupDup
  simp only [M.bind_def, M.pure_def, melExec, fullPathName]
  repeat' first
    | apply rets_tryCatch
    | apply rets_bind
    | apply rets_ite
    | intro _
    | exact rets_pure P _
    | exact rets_getL P
    | exact rets_call P _

theorem exportSkeletonFbxViaDuplicate_rets (a b : String) (c d : Int) (o : FbxExportOptions) :
    Rets ResultOK (exportSkeletonFbxViaDuplicate (σ := σ) a b c d o) := by
  unfold exportSkeletonFbxViaDuplicate exportSkeletonFbxViaDuplicateBody constrainDuplicate
    exportConstrained
  simp only [M.bind_def, M.pure_def, melExec, fullPathName, ensureOutDir, ensureDir,
    melQueryStringArrayChecked, melQueryStringArray, melQueryString, melQueryInt, getDependNode,
    removeDupMeshes, debugJointMotionSample, debugWorldSpacePosition,
    queryAttrAtTime, unlockTransformChannels, constrainPair, constraintFailed, nodeExists,
    dupWarn, renameWork,
    debugSelectionSnapshot, setFbxExportDefaults, setFbxBakeRange, fbxExport, deleteConstraints,
    now, fileSizeOrZero, fileExistsOnDisk, getFileSize, scanFbxContent]
  repeat' first
    | exact rets_cleanupDup _
    | exact rets_buildSelection _ _
    | exact rets_debugWorldSpacePositionLoop _ _ _ _
    | apply rets_tryCatch
    | apply rets_bind
    | apply rets_forEach
    | apply rets_foldM
    | apply rets_when
    | apply rets_ite
    | intro _
    | exact rets_pure _ _
    | exact rets_getL _
    | exact rets_modifyL _ _
    | exact rets_call _ _
    | (apply rets_ret; simp [ResultOK, makeResult])
    | split



theorem exportCameraFbx_rets (a b : String) (c d : Int) (o : FbxExportOptions) :
    Rets ResultOK (exportCameraFbx (σ := σ) a b c d o) := by
  unfold exportCameraFbx exportCameraFbxBody
  simp only [M.bind_def, M.pure_def, melExec, fullPathName, ensureOutDir, ensureDir,
    melQueryStringArrayChecked, melQueryStringArray, melQueryString, melQueryInt, getDependNode,
    debugJointMotionSample, debugWorldSpacePosition, queryAttrAtTime, nodeExists,
    attributeExists, isReferencedNode, ensureFbxPlugin,
    debugSelectionSnapshot, setFbxExportDefaults, setFbxBakeRange, fbxExport,
    now, fileSizeOrZero, fileExistsOnDisk, getFileSize, scanFbxContent,
    parentsOfShapes, collectMeshTransformsUnderNode, collectMeshTransformsByNamespace,
    skinClustersOfJoints, meshTransformsOfSkin, collectSkinnedMeshTransformsForJoints,
    findRootJoint, renameWork, cleanupTmp, camWarn, queryWorldMatrix, setWorldMatrix,
    keyTransformAtFrame, copyScalarAttr, copyShapeAttrs, deleteStaleTempCamera,
    disconnectFocalLength, camFrameFail, keyFrame, clipOutsideRange, keyTempCamera,
    useTempCamera]
  repeat' first
    | exact rets_cleanupDup _
    | exact rets_buildSelection _ _
    | exact rets_debugWorldSpacePositionLoop _ _ _ _
    | exact rets_callSub _ _
    | exact rets_callFn _ _ _
    | apply rets_tryCatch
    | apply rets_withGuard
    | apply rets_bind
    | apply rets_forEach
    | apply rets_foldM
    | apply rets_when
    | apply rets_ite
    | intro _
    | exact rets_pure _ _
    | exact rets_getL _
    | exact rets_modifyL _ _
    | exact rets_call _ _
    | (apply rets_ret; simp [ResultOK, makeResult])
    | split

theorem delegateToDuplicate_rets (a b : String) (c d : Int) (o : FbxExportOptions) :
    Rets ResultOK (delegateToDuplicate (σ := σ) a b c d o) := by
  unfold delegateToDuplicate
  simp only [M.bind_def, M.pure_def]
  refine rets_bindVals (vals_callFn _ (exportSkeletonFbxViaDuplicate_rets a b c d o))
    (rets_callFn _ _ _) fun r hr => ?_
  refine rets_bind (rets_getL _) fun l => rets_ret ?_
  exact hr

theorem exportSkeletonFbx_rets (a b : String) (c d : Int) (o : FbxExportOptions) :
    Rets ResultOK (exportSkeletonFbx (σ := σ) a b c d o) := by
  unfold exportSkeletonFbx exportSkeletonFbxBody exportWritableBranch exportReferencedBranch
    fallbackToDuplicate
  simp only [M.bind_def, M.pure_def, melExec, fullPathName, ensureOutDir, ensureDir,
    melQueryStringArrayChecked, melQueryStringArray, melQueryString, melQueryInt, getDependNode,
    debugJointMotionSample, debugWorldSpacePosition, queryAttrAtTime, nodeExists,
    attributeExists, isReferencedNode, ensureFbxPlugin,
    debugSelectionSnapshot, setFbxExportDefaults, setFbxBakeRange, fbxExport,
    now, fileSizeOrZero, fileExistsOnDisk, getFileSize, scanFbxContent,
    parentsOfShapes, collectMeshTransformsUnderNode, collectMeshTransformsByNamespace,
    skinClustersOfJoints, meshTransformsOfSkin, collectSkinnedMeshTransformsForJoints,
    findRootJoint, renameWork, skelWarn, restoreNames, restoreIfRenamed, buildJointRecs,
    exportReferencedInPlace]
  repeat' first
    | exact delegateToDuplicate_rets _ _ _ _ _
    | exact rets_cleanupDup _
    | exact rets_buildSelection _ _
    | exact rets_debugWorldSpacePositionLoop _ _ _ _
    | exact rets_callSub _ _
    | exact rets_callFn _ _ _
    | apply rets_tryCatch
    | apply rets_withGuard
    | apply rets_bind
    | apply rets_forEach
    | apply rets_foldM
    | apply rets_when
    | apply rets_ite
    | intro _
    | exact rets_pure _ _
    | exact rets_getL _
    | exact rets_modifyL _ _
    | exact rets_call _ _
    | (apply rets_ret; simp [ResultOK, makeResult])
    | split

theorem rets_cleanupDupMesh (P : ρ → Prop) : Rets P (cleanupDupMesh : M σ BsLocals ρ Unit) := by
  unfold cleanupDupMesh
  simp only [M.bind_def, M.pure_def, melExec, fullPathName]
  repeat' first
    | exact rets_cleanupDup _
    | exact rets_buildSelection _ _
    | exact rets_debugWorldSpacePositionLoop _ _ _ _
    | exact rets_callSub _ _
    | exact rets_callFn _ _ _
    | apply rets_tryCatch
    | apply rets_withGuard
    | apply rets_bind
    | apply rets_forEach
    | apply rets_foldM
    | apply rets_when
    | apply rets_ite
    | intro _
    | exact rets_pure _ _
    | exact rets_getL _
    | exact rets_modifyL _ _
    | exact rets_call _ _
    | (apply rets_ret; simp [ResultOK, makeResult])
    | split

theorem exportBlendShapeFbx_rets (a b : String) (c d : Int) (o : FbxExportOptions) :
    Rets ResultOK (exportBlendShapeFbx (σ := σ) a b c d o) := by
  unfold exportBlendShapeFbx exportBlendShapeFbxBody exportWithSkeleton exportMeshOnly
  simp only [M.bind_def, M.pure_def, melExec, fullPathName, ensureOutDir, ensureDir,
    melQueryStringArrayChecked, melQueryStringArray, melQueryString, melQueryInt, getDependNode,
    debugJointMotionSample, debugWorldSpacePosition, queryAttrAtTime, nodeExists,
    attributeExists, isReferencedNode, ensureFbxPlugin,
    debugSelectionSnapshot, setFbxExportDefaults, setFbxBakeRange, fbxExport,
    now, fileSizeOrZero, fileExistsOnDisk, getFileSize, scanFbxContent,
    parentsOfShapes, collectMeshTransformsUnderNode, collectMeshTransformsByNamespace,
    skinClustersOfJoints, meshTransformsOfSkin, collectSkinnedMeshTransformsForJoints,
    findRootJoint, renameWork, bsWarn, resolvePostMerge, resolveAll, classifyHistory,
    addInfluence, collectInfluences, pruneDuplicateHistory, mergeNamespace, closeChunkAndUndo,
    recoverUndoChunk, recoverDupMesh]
  repeat' first
    | exact rets_cleanupDupMesh _
    | exact rets_cleanupDup _
    | exact rets_buildSelection _ _
    | exact rets_debugWorldSpacePositionLoop _ _ _ _
    | exact rets_callSub _ _
    | exact rets_callFn _ _ _
    | apply rets_tryCatch
    | apply rets_withGuard
    | apply rets_bind
    | apply rets_forEach
    | apply rets_foldM
    | apply rets_when
    | apply rets_ite
    | intro _
    | exact rets_pure _ _
    | exact rets_getL _
    | exact rets_modifyL _ _
    | exact rets_call _ _
    | (apply rets_ret; simp [ResultOK, makeResult])
    | split

theorem exportSkeletonBlendShapeFbx_rets (a : String) (ms ws : List String) (b : String)
    (c d : Int) (o : FbxExportOptions) :
    Rets ResultOK (exportSkeletonBlendShapeFbx (σ := σ) a ms ws b c d o) := by
  unfold exportSkeletonBlendShapeFbx exportSkeletonBlendShapeFbxBody
  simp only [M.bind_def, M.pure_def, melExec, fullPathName, ensureOutDir, ensureDir,
    melQueryStringArrayChecked, melQueryStringArray, melQueryString, melQueryInt, getDependNode,
    debugJointMotionSample, debugWorldSpacePosition, queryAttrAtTime, nodeExists,
    attributeExists, isReferencedNode, ensureFbxPlugin,
    debugSelectionSnapshot, setFbxExportDefaults, setFbxBakeRange, fbxExport,
    now, fileSizeOrZero, fileExistsOnDisk, getFileSize, scanFbxContent,
    parentsOfShapes, collectMeshTransformsUnderNode, collectMeshTransformsByNamespace,
    skinClustersOfJoints, meshTransformsOfSkin, collectSkinnedMeshTransformsForJoints,
    findRootJoint, renameWork, sbsWarn, addBsMeshes, countKeyed, buildNodeRecs, renameJoints,
    acceptResolved, reAddBsMeshes, renameMeshes, restoreChanged, restoreAll, restoreAfterExport,
    residueCheck]
  repeat' first
    | exact rets_cleanupDup _
    | exact rets_buildSelection _ _
    | exact rets_debugWorldSpacePositionLoop _ _ _ _
    | exact rets_callSub _ _
    | exact rets_callFn _ _ _
    | apply rets_tryCatch
    | apply rets_withGuard
    | apply rets_bind
    | apply rets_forEach
    | apply rets_foldM
    | apply rets_when
    | apply rets_ite
    | intro _
    | exact rets_pure _ _
    | exact rets_getL _
    | exact rets_modifyL _ _
    | exact rets_call _ _
    | (apply rets_ret; simp [ResultOK, makeResult])
    | split

theorem runFn_result_of_rets {σ L ρ : Type} {P : ρ → Prop} {m : M σ L ρ Empty} (h : Rets P m)
    (l0 : L) (F : Facade σ) (sc : σ) (r : ρ) (hr : (runFn m l0 F sc).result = some r) : P r := by
  unfold runFn at hr
  have h0 := h.out F { scene := sc, trace := [], loc := l0 }
  generalize m.run F _ = o at hr h0
  rcases o with ⟨(a | r0 | _), s1⟩
  · exact nomatch a
  · simp only [Option.some.injEq] at hr
    subst hr
    exact h0 _ rfl
  · simp at hr

/-- C1: whatever the scene facade answers, a result returned by `exportCameraFbx`,
`exportSkeletonFbx`, `exportSkeletonFbxViaDuplicate`, `exportBlendShapeFbx` or
`exportSkeletonBlendShapeFbx` has a non-empty `errors` list when `success` is false and an
empty one when `success` is true. -/
theorem export_result_invariant {σ : Type} (F : Facade σ) (sc : σ) (node outputPath : String)
    (bsMeshes bsWeightAttrs : List String) (startFrame endFrame : Int)
    (opts : FbxExportOptions) (r : ExportResult)
    (h : (runFn (exportCameraFbx node outputPath startFrame endFrame opts) {} F sc).result
          = some r
      ∨ (runFn (exportSkeletonFbx node outputPath startFrame endFrame opts) {} F sc).result
          = some r
      ∨ (runFn (exportSkeletonFbxViaDuplicate node outputPath startFrame endFrame opts)
          {} F sc).result = some r
      ∨ (runFn (exportBlendShapeFbx node outputPath startFrame endFrame opts) {} F sc).result
          = some r
      ∨ (runFn (exportSkeletonBlendShapeFbx node bsMeshes bsWeightAttrs outputPath
          startFrame endFrame opts) {} F sc).result = some r) :
    (r.success = false → r.errors ≠ []) ∧ (r.success = true → r.errors = []) := by
  rcases h with h | h | h | h | h
  · exact runFn_result_of_rets (exportCameraFbx_rets _ _ _ _ _) _ F sc r h
  · exact runFn_result_of_rets (exportSkeletonFbx_rets _ _ _ _ _) _ F sc r h
  · exact runFn_result_of_rets (exportSkeletonFbxViaDuplicate_rets _ _ _ _ _) _ F sc r h
  · exact runFn_result_of_rets (exportBlendShapeFbx_rets _ _ _ _ _) _ F sc r h
  · exact runFn_result_of_rets (exportSkeletonBlendShapeFbx_rets _ _ _ _ _ _ _) _ F sc r h

set_option maxRecDepth 100000 in
/-- C1 on a camera export that succeeds: the result has no errors. -/
theorem export_result_invariant_witness :
    (runFn (exportCameraFbx "|cam1" "out/shot010.fbx" 10 12 {}) {} (cameraScene true 2048)
        ()).result = some (makeResult true "out/shot010.fbx" 2048 0 [] [])
    ∧ ((makeResult true "out/shot010.fbx" 2048 0 [] []).success = false →
        (makeResult true "out/shot010.fbx" 2048 0 [] []).errors ≠ [])
    ∧ ((makeResult true "out/shot010.fbx" 2048 0 [] []).success = true →
        (makeResult true "out/shot010.fbx" 2048 0 [] []).errors = []) :=
  ⟨by decide!,
   export_result_invariant (cameraScene true 2048) () "|cam1" "out/shot010.fbx" [] [] 10 12 {}
     (makeResult true "out/shot010.fbx" 2048 0 [] []) (Or.inl (by decide!))⟩

end ResultInvariant

/-! ## Output validation (C9, C10) -/

set_option maxRecDepth 100000 in
/-- C9, the camera pipeline at a failing input: every command succeeds, also `FBXExport`, but
no output file exists; `exportCameraFbx` returns `success = true` with `fileSize = 0`. -/
theorem exportCameraFbx_success_without_file :
    (runFn (exportCameraFbx "|cam1" "out/shot010.fbx" 10 12 {}) {} (cameraScene false 0)
        ()).result = some (makeResult true "out/shot010.fbx" 0 0 [] []) := by
  decide!

set_option maxRecDepth 100000 in
/-- C10, the residual-namespace fallback at a failing input: the skeleton is writable, full
mesh export is requested (`skelAnimationOnly = false`), the renames leave a namespace, the
call falls back to the duplicate strategy, and the scanned output has two `LimbNode` markers
but no `Skin` and no `Deformer` marker; `exportSkeletonFbx` returns `success = true`. -/
theorem exportSkeletonFbx_fallback_success_without_skin :
    (scanData "LimbNode Skeleton LimbNode Skeleton").limbNodes = 2
    ∧ (scanData "LimbNode Skeleton LimbNode Skeleton").skins = 0
    ∧ (scanData "LimbNode Skeleton LimbNode Skeleton").deformers = 0
    ∧ (runFn (exportSkeletonFbx "|ns:Root" "out/rig.fbx" 1 24 {}) {} lockedRigScene ()).result
      = some (makeResult true "out/rig.fbx" 512 0
          ["Skeleton was referenced/read-only; exported via temporary duplicate skeleton",
           "Namespaces stripped on duplicate skeleton during export"] []) := by
  decide!

/-! ## Post-rename disambiguation (C8) -/

section Disambiguation
variable {σ L ρ α : Type}

theorem run_when (c : Bool) (a : M σ L ρ Unit) (F : Facade σ) (s : Run σ L) :
    (M.when c a).run F s = if c then a.run F s else (.val (), s) := by
  unfold M.when
  split
  · rfl
  · rw [M.run_pure]

theorem run_ite (c : Prop) [Decidable c] (a b : M σ L ρ α) (F : Facade σ) (s : Run σ L) :
    (if c then a else b).run F s = if c then a.run F s else b.run F s := by
  split <;> rfl

theorem disambiguate_foldl (pre : String) (cands : List String) (acc : String × Int) :
    cands.foldl
      (fun (acc : String × Int) c => if parentMatches pre c then (c, acc.2 + 1) else acc) acc
    = (((cands.filter (parentMatches pre)).getLast?).getD acc.1,
       acc.2 + ((cands.filter (parentMatches pre)).length : Nat)) := by
  induction cands generalizing acc with
  | nil => simp
  | cons c cs ih =>
    rw [List.foldl_cons, ih]
    by_cases h : parentMatches pre c
    · simp only [h, if_true, List.filter_cons_of_pos]
      refine Prod.ext ?_ ?_
      · simp only
        cases hf : cs.filter (parentMatches pre) with
        | nil => simp
        | cons d ds =>
          have hx : (d :: ds).getLast? = some ((d :: ds).getLast (by simp)) :=
            List.getLast?_eq_getLast _ (by simp)
          simp only [hx, Option.getD_some]
          rw [List.getLast?_cons_cons]; simp [hx]
      · simp only [List.length_cons]; push_cast; ring
    · simp [h]

theorem disambiguate_unique (pre : String) (cands : List String) (c : String)
    (h : cands.filter (parentMatches pre) = [c]) : disambiguate pre cands = (c, 1) := by
  unfold disambiguate
  rw [disambiguate_foldl, h]
  simp

theorem disambiguate_count (pre : String) (cands : List String) :
    (disambiguate pre cands).2 = ((cands.filter (parentMatches pre)).length : Nat) := by
  unfold disambiguate
  rw [disambiguate_foldl]
  simp


theorem resolvePostMerge_run (F : Facade σ) (hF : NoFault F) (s : Run σ BsLocals)
    (pre : String) (sc1 : σ) (h1 : afterFailedLookup F s.scene pre = some sc1)
    (hmany : (bareNameCandidates F sc1 pre).length > 1) :
    ((resolvePostMerge pre : M σ BsLocals ρ String).run F s).1
      = .val (if (disambiguate pre (bareNameCandidates F sc1 pre)).2 = 1
          then (disambiguate pre (bareNameCandidates F sc1 pre)).1
          else (bareNameCandidates F sc1 pre).headD "")
    ∧ ((resolvePostMerge pre : M σ BsLocals ρ String).run F s).2.loc.warnings
      = (if (disambiguate pre (bareNameCandidates F sc1 pre)).2 = 1 then s.loc.warnings
          else s.loc.warnings ++ [ambiguityWarning (stripAllNamespaces (dagLeafName pre))
            (bareNameCandidates F sc1 pre).length]) := by
  have hne1 : (bareNameCandidates F sc1 pre).length ≠ 1 := by omega
  unfold afterFailedLookup at h1
  by_cases hl : ((F s.scene (Cmd.selAdd pre)).1.ok && (F s.scene (Cmd.selAdd pre)).1.obj.isSome) = true
  · simp only [hl, if_true] at h1
    by_cases he : (F (F s.scene (Cmd.selAdd pre)).2
        (Cmd.fullPathName (F s.scene (Cmd.selAdd pre)).1.obj)).1.str.data ≠ []
    · simp [he] at h1
    · simp only [he, if_false, Option.some.injEq] at h1
      have hc : (F sc1 (Cmd.mel "ls" ["-long", q (stripAllNamespaces (dagLeafName pre))])).1.arr
          = bareNameCandidates F sc1 pre := rfl
      by_cases hd : (disambiguate pre (bareNameCandidates F sc1 pre)).2 = 1
      · simp [resolvePostMerge, resolvePostMergeBody, M.bind_def, M.pure_def, M.run_callSub,
          M.run_bind, M.run_call, run_when, run_ite, fullPathName, melQueryStringArray, bsWarn,
          M.run_pure, M.run_ret, M.run_modifyL, hF _ _, hl, he, h1, hc, hne1, hmany, hd]
      · simp [resolvePostMerge, resolvePostMergeBody, M.bind_def, M.pure_def, M.run_callSub,
          M.run_bind, M.run_call, run_when, run_ite, fullPathName, melQueryStringArray, bsWarn,
          M.run_pure, M.run_ret, M.run_modifyL, hF _ _, hl, he, h1, hc, hne1, hmany, hd]
  · simp only [hl, if_false, Option.some.injEq, Bool.false_eq_true] at h1
    have hc : (F sc1 (Cmd.mel "ls" ["-long", q (stripAllNamespaces (dagLeafName pre))])).1.arr
        = bareNameCandidates F sc1 pre := rfl
    by_cases hd : (disambiguate pre (bareNameCandidates F sc1 pre)).2 = 1
    · simp [resolvePostMerge, resolvePostMergeBody, M.bind_def, M.pure_def, M.run_callSub,
        M.run_bind, M.run_call, run_when, run_ite, fullPathName, melQueryStringArray, bsWarn,
        M.run_pure, M.run_ret, M.run_modifyL, hF _ _, hl, h1, hc, hne1, hmany, hd]
    · simp [resolvePostMerge, resolvePostMergeBody, M.bind_def, M.pure_def, M.run_callSub,
        M.run_bind, M.run_call, run_when, run_ite, fullPathName, melQueryStringArray, bsWarn,
        M.run_pure, M.run_ret, M.run_modifyL, hF _ _, hl, h1, hc, hne1, hmany, hd]


/-- C8: when the identity lookup of `resolvePostMerge` fails and the bare-name query returns
several candidates, then (1) if exactly one candidate has a parent whose bare name is that of
the parent of the original path, that candidate is returned and the warnings are unchanged;
(2) if more than one candidate matches, the first candidate of the list is returned and an
ambiguity warning is appended. -/
theorem resolvePostMerge_disambiguation (F : Facade σ) (hF : NoFault F) (s : Run σ BsLocals)
    (pre : String) (sc1 : σ) (h1 : afterFailedLookup F s.scene pre = some sc1)
    (hmany : (bareNameCandidates F sc1 pre).length > 1) :
    (∀ c, (bareNameCandidates F sc1 pre).filter (parentMatches pre) = [c] →
      ((resolvePostMerge pre : M σ BsLocals ρ String).run F s).1 = .val c
      ∧ ((resolvePostMerge pre : M σ BsLocals ρ String).run F s).2.loc.warnings
          = s.loc.warnings)
    ∧ (((bareNameCandidates F sc1 pre).filter (parentMatches pre)).length > 1 →
      ((resolvePostMerge pre : M σ BsLocals ρ String).run F s).1
          = .val ((bareNameCandidates F sc1 pre).headD "")
      ∧ ((resolvePostMerge pre : M σ BsLocals ρ String).run F s).2.loc.warnings
          = s.loc.warnings ++ [ambiguityWarning (stripAllNamespaces (dagLeafName pre))
              (bareNameCandidates F sc1 pre).length]) := by
  have hrun := resolvePostMerge_run (ρ := ρ) F hF s pre sc1 h1 hmany
  refine ⟨fun c hc => ?_, fun hgt => ?_⟩
  · rw [disambiguate_unique pre _ c hc] at hrun
    simpa using hrun
  · have hcount := disambiguate_count pre (bareNameCandidates F sc1 pre)
    have hne : (disambiguate pre (bareNameCandidates F sc1 pre)).2 ≠ 1 := by
      rw [hcount]; omega
    simpa [hne] using hrun

end Disambiguation

theorem handScene_noFault (cands : List String) : NoFault (handScene cands) := by
  intro sc c
  unfold handScene
  split <;> rfl

set_option maxRecDepth 100000 in
/-- C8 on the scenario of the specification: the original parent is `Hand_L`; with candidates
under `Hand_L` and `Hand_R` the first is returned without a warning, with both candidates
under `Hand_L` the first is returned with a warning. -/
theorem resolvePostMerge_disambiguation_witness :
    (((resolvePostMerge "|ns:rig|ns:Hand_L|ns:Thumb" : M Unit BsLocals ExportResult String).run
        (handScene ["|rigB|Hand_R|Thumb", "|rigA|Hand_L|Thumb"])
        { scene := (), trace := [], loc := {} }).1 = .val "|rigA|Hand_L|Thumb"
      ∧ ((resolvePostMerge "|ns:rig|ns:Hand_L|ns:Thumb" : M Unit BsLocals ExportResult String).run
        (handScene ["|rigB|Hand_R|Thumb", "|rigA|Hand_L|Thumb"])
        { scene := (), trace := [], loc := {} }).2.loc.warnings = [])
    ∧ (((resolvePostMerge "|ns:rig|ns:Hand_L|ns:Thumb" : M Unit BsLocals ExportResult String).run
        (handScene ["|rigB|Hand_L|Thumb", "|rigA|Hand_L|Thumb"])
        { scene := (), trace := [], loc := {} }).1 = .val "|rigB|Hand_L|Thumb"
      ∧ ((resolvePostMerge "|ns:rig|ns:Hand_L|ns:Thumb" : M Unit BsLocals ExportResult String).run
        (handScene ["|rigB|Hand_L|Thumb", "|rigA|Hand_L|Thumb"])
        { scene := (), trace := [], loc := {} }).2.loc.warnings
          = [ambiguityWarning "Thumb" 2]) :=
  ⟨(resolvePostMerge_disambiguation (handScene ["|rigB|Hand_R|Thumb", "|rigA|Hand_L|Thumb"])
      (handScene_noFault _) { scene := (), trace := [], loc := {} }
      "|ns:rig|ns:Hand_L|ns:Thumb" () (by decide!) (by decide!)).1 "|rigA|Hand_L|Thumb"
      (by decide!),
   (resolvePostMerge_disambiguation (handScene ["|rigB|Hand_L|Thumb", "|rigA|Hand_L|Thumb"])
      (handScene_noFault _) { scene := (), trace := [], loc := {} }
      "|ns:rig|ns:Hand_L|ns:Thumb" () (by decide!) (by decide!)).2 (by decide!)⟩

/-! ## Zero-constraint abort (C4) -/

section ZeroConstraint
variable {σ ρ : Type}

theorem noKinds_extends {F : Facade σ} {ks : List Kind} {L : Type} {R : LocRel L}
    {s s1 : Run σ L}
    (h : NoKinds ks s.trace) (he : Extends F (fun c => c.kind ∉ ks) R s s1) :
    NoKinds ks s1.trace := by
  obtain ⟨_, t, e1, c1, _, _⟩ := he
  intro x hx
  rw [e1] at hx
  rcases List.mem_append.1 hx with h1 | h1
  · exact h x h1
  · exact c1 x h1

theorem dupInv_extends {F : Facade σ} {ks : List Kind} {d0 : String} {s s1 : Run σ DupLocals}
    (h : DupInv ks d0 s)
    (he : Extends F (fun c => c.kind ∉ ks) (LocRel.same DupLocals) s s1) :
    DupInv ks d0 s1 := by
  have hk := noKinds_extends h.kinds he
  obtain ⟨hl, t, e1, c1, _, _⟩ := he
  have hl : s1.loc = s.loc := hl
  refine ⟨hk, ?_, h.nonempty, ?_⟩
  · obtain ⟨a, resp, hm, hh⟩ := h.named
    exact ⟨a, resp, by rw [e1]; exact List.mem_append_left _ hm, hh⟩
  · rcases h.handle with ⟨h1, h2⟩ | ⟨hh, r0, h1, h2, h3⟩
    · exact Or.inl ⟨by rw [hl]; exact h1, by rw [hl]; exact h2⟩
    · exact Or.inr ⟨hh, r0, by rw [hl]; exact h1, by rw [e1]; exact List.mem_append_left _ h2, h3⟩

theorem ofKinds_notin {ks bad : List Kind} (h : ∀ k ∈ ks, k ∉ bad) (c : Cmd) :
    OfKinds ks c → c.kind ∉ bad := fun hc => h _ hc

theorem dupRootNamed_append {tr : List (Cmd × Resp)} {d0 : String} (t : List (Cmd × Resp))
    (h : DupRootNamed tr d0) : DupRootNamed (tr ++ t) d0 := by
  obtain ⟨a, resp, hm, hh⟩ := h
  exact ⟨a, resp, List.mem_append_left _ hm, hh⟩

theorem dupInv_weaken {ks ks2 : List Kind} {d0 : String} {s : Run σ DupLocals}
    (hks : ∀ k ∈ ks2, k ∈ ks) (h : DupInv ks d0 s) : DupInv ks2 d0 s :=
  ⟨fun x hx hk => h.kinds x hx (hks _ hk), h.named, h.nonempty, h.handle⟩

theorem dupJ_extends {F : Facade σ} {ks : List Kind} {d0 : String} {obj : MObject}
    {s s1 : Run σ DupLocals} (h : DupInv ks d0 s ∧ s.loc.dupRootObj = obj)
    (he : Extends F (fun c => c.kind ∉ ks) (LocRel.same DupLocals) s s1) :
    DupInv ks d0 s1 ∧ s1.loc.dupRootObj = obj := by
  refine ⟨dupInv_extends h.1 he, ?_⟩
  have hl : s1.loc = s.loc := he.loc
  rw [hl]; exact h.2

/-- With every constraint request failing, a round of the constraint loop creates nothing. -/
theorem constrainPair_fails (F : Facade σ) (hF : NoFault F)
    (hparent : ∀ sc a, (F sc (.mel "parentConstraint" a)).1.ok = false
      ∨ (F sc (.mel "parentConstraint" a)).1.arr = [])
    (horient : ∀ sc a, (F sc (.mel "orientConstraint" a)).1.ok = false
      ∨ (F sc (.mel "orientConstraint" a)).1.arr = [])
    (t : ConstraintTally) (pair : String × String) (s : Run σ DupLocals) :
    wp F (constrainPair t pair : M σ DupLocals ρ ConstraintTally)
      (fun o _ => ∃ t1, o = .val t1 ∧ t1.created = t.created) s := by
  unfold constrainPair constraintFailed nodeExists
  simp only [M.bind_def, M.pure_def, melQueryStringArrayChecked, melQueryInt, wp_bind, wp_call,
    wp_pure, wp_when, wp_ite, hF _ _]
  rcases hparent s.scene [q pair.1, q pair.2] with h | h <;>
  rcases horient (F s.scene (Cmd.mel "parentConstraint" [q pair.1, q pair.2])).2
    [q pair.1, q pair.2] with h2 | h2 <;>
  simp [h, h2]

/-- With every constraint request failing, the constraint loop ends with `created = 0`. -/
theorem constraintLoop_fails (F : Facade σ) (hF : NoFault F)
    (hparent : ∀ sc a, (F sc (.mel "parentConstraint" a)).1.ok = false
      ∨ (F sc (.mel "parentConstraint" a)).1.arr = [])
    (horient : ∀ sc a, (F sc (.mel "orientConstraint" a)).1.ok = false
      ∨ (F sc (.mel "orientConstraint" a)).1.arr = [])
    (d0 : String) (pairs : List (String × String)) (s : Run σ DupLocals)
    (h : DupInv [.export] d0 s) :
    wp F (M.foldM constrainPair {} pairs : M σ DupLocals ρ ConstraintTally)
      (fun o s1 => ∃ t1, o = .val t1 ∧ (DupInv [.export] d0 s1 ∧ t1.created = 0)) s := by
  refine wp_foldM (fun (t : ConstraintTally) s1 => DupInv [.export] d0 s1 ∧ t.created = 0) pairs {} s ⟨h, rfl⟩ ?_
  intro b0 x s1 ⟨hI, hc⟩
  have hv := constrainPair_fails (ρ := ρ) F hF hparent horient b0 x s1
  refine wp_quiet (quiet_constrainPair b0 x) hF ?_
  intro t1 s2 hrun hext
  unfold wp at hv
  rw [hrun] at hv
  obtain ⟨t2, e2, hc2⟩ := hv
  cases e2
  refine ⟨t1, rfl, dupInv_extends hI (extends_mono (ofKinds_notin (by decide)) hext), ?_⟩
  rw [hc2, hc]

/-- From a state in which the duplicate exists, `cleanupDup` sends the request that deletes
it as its last request. -/
theorem cleanupDup_deletes (F : Facade σ) (hF : NoFault F)
    (hpath : ∀ sc h, (F sc (.fullPathName (some h))).1.str.data ≠ [])
    (ks : List Kind) (hks : ∀ k ∈ [Kind.query, Kind.delete], k ∉ ks)
    (d0 : String) (s : Run σ DupLocals) (h : DupInv ks d0 s) :
    wp F (cleanupDup : M σ DupLocals ρ Unit)
      (fun o s1 => o = .val () ∧ NoKinds ks s1.trace ∧ DupRootNamed s1.trace d0
        ∧ DeletedLast s1.trace d0 ∧ s1.loc = s.loc) s := by
  unfold cleanupDup
  simp only [M.bind_def, M.pure_def, fullPathName, melExec, wp_tryCatch, wp_bind, wp_getL,
    wp_ite, wp_call, wp_pure, hF _ _]
  rcases h.handle with ⟨h1, h2⟩ | ⟨hh, r0, h1, h2, h3, h4⟩
  · simp [h1, h2, h.nonempty]
    refine ⟨?_, dupRootNamed_append _ h.named, Or.inl ⟨_, _, rfl⟩⟩
    intro x hx
    rcases List.mem_append.1 hx with h3 | h3
    · exact h.kinds x h3
    · simp only [List.mem_singleton] at h3
      subst h3
      exact hks Kind.delete (by simp)
  · simp [h1, hpath]
    refine ⟨?_, dupRootNamed_append _ h.named,
      Or.inr ⟨_, hh, r0, _, _, List.mem_append_left _ h2, h3, h4, rfl⟩⟩
    intro x hx
    rcases List.mem_append.1 hx with h5 | h5
    · exact h.kinds x h5
    · simp only [List.mem_cons, List.mem_singleton, List.not_mem_nil, or_false] at h5
      rcases h5 with h5 | h5
      · subst h5
        exact hks Kind.query (by simp)
      · subst h5
        exact hks Kind.delete (by simp)

theorem quiet_melExec {L : Type} {R : LocRel L} (k : Kind) (verb : String)
    (args : List String) (h : melKind verb args = k) :
    Quiet (OfKinds [k]) R (melExec verb args : M σ L ρ Bool) := by
  unfold melExec
  simp only [M.bind_def, M.pure_def]
  exact quiet_bind (quiet_call (List.mem_singleton.2 h)) (fun _ => quiet_pure _)

theorem quiet_melQueryStringArray {L : Type} {R : LocRel L} (k : Kind) (verb : String)
    (args : List String) (h : melKind verb args = k) :
    Quiet (OfKinds [k]) R (melQueryStringArray verb args : M σ L ρ (List String)) := by
  unfold melQueryStringArray
  simp only [M.bind_def, M.pure_def]
  exact quiet_bind (quiet_call (List.mem_singleton.2 h)) (fun _ => quiet_pure _)

theorem quiet_melQueryString {L : Type} {R : LocRel L} (k : Kind) (verb : String)
    (args : List String) (h : melKind verb args = k) :
    Quiet (OfKinds [k]) R (melQueryString verb args : M σ L ρ String) := by
  unfold melQueryString
  simp only [M.bind_def, M.pure_def]
  exact quiet_bind (quiet_call (List.mem_singleton.2 h)) (fun _ => quiet_pure _)

theorem quiet_now {L : Type} {R : LocRel L} : Quiet (OfKinds [.clock]) R (now : M σ L ρ Int) := by
  unfold now
  simp only [M.bind_def, M.pure_def]
  exact quiet_bind (quiet_callK rfl) (fun _ => quiet_pure _)

/-- Steps 2 to 4 end in the abort when every constraint request fails. -/
theorem constrainDuplicate_aborts (F : Facade σ) (hF : NoFault F)
    (hparent : ∀ sc a, (F sc (.mel "parentConstraint" a)).1.ok = false
      ∨ (F sc (.mel "parentConstraint" a)).1.arr = [])
    (horient : ∀ sc a, (F sc (.mel "orientConstraint" a)).1.ok = false
      ∨ (F sc (.mel "orientConstraint" a)).1.arr = [])
    (hpath : ∀ sc h, (F sc (.fullPathName (some h))).1.str.data ≠ [])
    (src out : String) (st en : Int) (opts : FbxExportOptions) (t0 : Int) (d0 : String)
    (s : Run σ DupLocals) (hk : NoKinds [.export, .constrain] s.trace)
    (hn : DupRootNamed s.trace d0) (hne : d0.data ≠ []) :
    wp F (constrainDuplicate src out st en opts t0 d0) StaticAbort s := by
  unfold constrainDuplicate
  simp only [M.bind_def, M.pure_def]
  rw [wp_bind, wp_modifyL]
  dsimp only
  unfold getDependNode
  simp only [M.bind_def, M.pure_def]
  rw [wp_bind, wp_bind, wp_call]
  simp only [hF _ _, Bool.false_eq_true, if_false, wp_pure]
  rw [wp_bind, wp_modifyL]
  dsimp only
  generalize hobjdef : (if (F s.scene (Cmd.selAdd d0)).1.ok = true
    then (F s.scene (Cmd.selAdd d0)).1.obj else none) = obj
  generalize hs1 : (Run.mk (F s.scene (Cmd.selAdd d0)).2
      (s.trace ++ [(Cmd.selAdd d0, (F s.scene (Cmd.selAdd d0)).1)])
      { warnings := s.loc.warnings, dupRootObj := obj, dupRoot := d0 } : Run σ DupLocals) = s1
  have hJ : DupInv [.export, .constrain] d0 s1 ∧ s1.loc.dupRootObj = obj := by
    subst hs1
    refine ⟨⟨?_, dupRootNamed_append _ hn, hne, ?_⟩, rfl⟩
    · intro x hx
      rcases List.mem_append.1 hx with h3 | h3
      · exact hk x h3
      · simp only [List.mem_singleton] at h3
        subst h3
        show Kind.query ∉ [Kind.export, Kind.constrain]
        decide
    · cases obj with
      | none => exact Or.inl ⟨rfl, rfl⟩
      | some h =>
        refine Or.inr ⟨h, (F s.scene (Cmd.selAdd d0)).1, rfl, by simp, ?_, ?_⟩
        · by_contra hc
          simp [hc] at hobjdef
        · by_cases hc : (F s.scene (Cmd.selAdd d0)).1.ok = true
          · simpa [hc] using hobjdef
          · simp [hc] at hobjdef
  clear hobjdef hs1 hk hn
  -- 2) parent -world
  rw [wp_bind]
  refine wp_quiet (C := fun c => c.kind ∉ [Kind.export, Kind.constrain])
    (R := LocRel.same DupLocals)
    (quiet_mono (ofKinds_notin (by decide)) (quiet_melExec .reparent "parent" _ rfl)) hF (fun _ s2 hrun hext => ?_)
  replace hJ := dupJ_extends hJ hext
  clear hext hrun
  dsimp only
  clear s1
  rename' s2 => s1
  -- the path of the handle
  rw [wp_bind]
  refine wp_mono (P := fun o s2 => o = .val () ∧
      (DupInv [.export, .constrain] d0 s2 ∧ s2.loc.dupRootObj = obj)) ?_ ?_
  · rw [wp_when]
    split
    · rename_i hsome
      rw [wp_bind]
      refine wp_quiet (C := fun c => c.kind ∉ [Kind.export, Kind.constrain])
        (R := LocRel.same DupLocals)
        (quiet_mono (ofKinds_notin (by decide)) (quiet_fullPathName obj)) hF
        (fun p s2 _ hext => ?_)
      replace hJ := dupJ_extends hJ hext
      dsimp only
      rw [wp_modifyL]
      refine ⟨rfl, ⟨hJ.1.kinds, hJ.1.named, hJ.1.nonempty, ?_⟩, hJ.2⟩
      rcases hJ.1.handle with ⟨h1, _⟩ | h1
      · rw [hJ.2] at h1
        simp [h1] at hsome
      · exact Or.inr h1
    · exact ⟨rfl, hJ⟩
  rintro o s2 ⟨rfl, hJ2⟩
  clear hJ
  rename' hJ2 => hJ
  dsimp only
  clear s1
  rename' s2 => s1
  rw [wp_bind, wp_getL]
  dsimp only
  generalize s1.loc.dupRoot = dupRoot
  rw [wp_bind]
  refine wp_quiet (C := fun c => c.kind ∉ [Kind.export, Kind.constrain])
    (R := LocRel.same DupLocals)
    (quiet_mono (ofKinds_notin (by decide)) (quiet_when (quiet_removeDupMeshes dupRoot))) hF (fun _ s2 hrun hext => ?_)
  replace hJ := dupJ_extends hJ hext
  clear hext hrun
  dsimp only
  clear s1
  rename' s2 => s1
  rw [wp_bind]
  refine wp_quiet (C := fun c => c.kind ∉ [Kind.export, Kind.constrain])
    (R := LocRel.same DupLocals)
    (quiet_mono (ofKinds_notin (by decide)) (quiet_melQueryStringArray .query "listRelatives" _ rfl)) hF (fun origDesc s2 hrun hext => ?_)
  replace hJ := dupJ_extends hJ hext
  clear hext hrun
  dsimp only
  clear s1
  rename' s2 => s1
  rw [wp_bind]
  refine wp_quiet (C := fun c => c.kind ∉ [Kind.export, Kind.constrain])
    (R := LocRel.same DupLocals)
    (quiet_mono (ofKinds_notin (by decide)) (quiet_melQueryStringArray .query "listRelatives" _ rfl)) hF (fun dupDesc s2 hrun hext => ?_)
  replace hJ := dupJ_extends hJ hext
  clear hext hrun
  dsimp only
  clear s1
  rename' s2 => s1
  rw [wp_bind]
  refine wp_quiet (C := fun c => c.kind ∉ [Kind.export, Kind.constrain])
    (R := LocRel.same DupLocals)
    (quiet_mono (ofKinds_notin (by decide)) (quiet_debugJointMotionSample src st en)) hF (fun _ s2 hrun hext => ?_)
  replace hJ := dupJ_extends hJ hext
  clear hext hrun
  dsimp only
  clear s1
  rename' s2 => s1
  rw [wp_bind]
  refine wp_quiet (C := fun c => c.kind ∉ [Kind.export, Kind.constrain])
    (R := LocRel.same DupLocals)
    (quiet_mono (ofKinds_notin (by decide)) (quiet_debugWorldSpacePosition src st)) hF (fun _ s2 hrun hext => ?_)
  replace hJ := dupJ_extends hJ hext
  clear hext hrun
  dsimp only
  clear s1
  rename' s2 => s1
  -- joint-count mismatch
  rw [wp_bind, wp_when]
  split
  · rw [wp_bind]
    refine wp_mono (cleanupDup_deletes F hF hpath _ (by decide) d0 s1 hJ.1) ?_
    rintro o s2 ⟨rfl, hk2, hn2, hd2, hl2⟩
    dsimp only
    rw [wp_bind, wp_getL]
    dsimp only
    rw [wp_ret]
    refine ⟨_, rfl, rfl, fun x hx hk => hk2 x hx (by simp at hk; simp [hk]), ?_⟩
    rintro ⟨x, hx, hxk⟩
    exact absurd (by simp [hxk]) (hk2 x hx)
  dsimp only
  rw [wp_bind]
  refine wp_quiet (C := fun c => c.kind ∉ [Kind.export, Kind.constrain])
    (R := LocRel.same DupLocals)
    (quiet_mono (ofKinds_notin (by decide)) (quiet_unlockTransformChannels _)) hF (fun _ s2 hrun hext => ?_)
  replace hJ := dupJ_extends hJ hext
  clear hext hrun
  dsimp only
  clear s1
  rename' s2 => s1
  -- the constraint loop
  rw [wp_bind]
  refine wp_mono (constraintLoop_fails F hF hparent horient d0 _ s1 (dupInv_weaken (by decide) hJ.1)) ?_
  rintro o s2 ⟨t1, rfl, hI2, hc⟩
  dsimp only
  rw [wp_bind, wp_when]
  simp only [hc, le_refl, decide_True, if_true]
  rw [wp_bind]
  refine wp_mono (cleanupDup_deletes F hF hpath _ (by decide) d0 s2 hI2) ?_
  rintro o s3 ⟨rfl, hk3, hn3, hd3, hl3⟩
  dsimp only
  rw [wp_bind, wp_getL]
  dsimp only
  rw [wp_ret]
  exact ⟨_, rfl, rfl, hk3, fun _ => ⟨rfl, d0, hn3, hd3⟩⟩

theorem runFn_ret {L r0 : Type} (m : M σ L r0 Empty) (l0 : L) (F : Facade σ) (sc : σ) (r : r0)
    (h : (m.run F { scene := sc, trace := [], loc := l0 }).1 = .ret r) :
    (runFn m l0 F sc).result = some r
    ∧ (runFn m l0 F sc).trace = (m.run F { scene := sc, trace := [], loc := l0 }).2.trace := by
  unfold runFn
  generalize m.run F { scene := sc, trace := [], loc := l0 } = o at h
  rcases o with ⟨(a | r1 | _), s1⟩
  · exact nomatch a
  · cases h; exact ⟨rfl, rfl⟩
  · cases h

/-- The body of the function ends in a failure without export when every constraint request
fails. -/
theorem exportSkeletonFbxViaDuplicateBody_aborts (F : Facade σ) (hF : NoFault F)
    (hparent : ∀ sc a, (F sc (.mel "parentConstraint" a)).1.ok = false
      ∨ (F sc (.mel "parentConstraint" a)).1.arr = [])
    (horient : ∀ sc a, (F sc (.mel "orientConstraint" a)).1.ok = false
      ∨ (F sc (.mel "orientConstraint" a)).1.arr = [])
    (hname : ∀ sc a, "" ∉ (F sc (.mel "duplicate" a)).1.arr)
    (hpath : ∀ sc h, (F sc (.fullPathName (some h))).1.str.data ≠ [])
    (src out : String) (st en : Int) (opts : FbxExportOptions) (t0 : Int)
    (s : Run σ DupLocals) (hk : NoKinds [.export, .constrain] s.trace) :
    wp F (exportSkeletonFbxViaDuplicateBody src out st en opts t0) StaticAbort s := by
  unfold exportSkeletonFbxViaDuplicateBody
  simp only [M.bind_def, M.pure_def]
  rw [wp_bind]
  refine wp_quiet (C := fun c => c.kind ∉ [Kind.export, Kind.constrain])
    (R := LocRel.same DupLocals)
    (quiet_mono (ofKinds_notin (by decide)) (quiet_ensureOutDir out)) hF
    (fun _ s1 hrun hext => ?_)
  replace hk := noKinds_extends hk hext
  clear hext hrun
  dsimp only
  have key : ∀ (arr : List String) (s2 : Run σ DupLocals),
      NoKinds [.export, .constrain] s2.trace →
      (∀ d0 tail, arr = d0 :: tail → DupRootNamed s2.trace d0 ∧ d0.data ≠ []) →
      wp F (match arr with
        | [] => M.getL.bind fun l =>
          M.ret (makeResult false out 0 0 l.warnings ["Failed to duplicate skeleton root: " ++ src])
        | d0 :: _ => constrainDuplicate src out st en opts t0 d0) StaticAbort s2 := by
    intro arr s2 hk2 hd
    cases arr with
    | nil =>
      dsimp only
      rw [wp_bind, wp_getL]
      dsimp only
      rw [wp_ret]
      refine ⟨_, rfl, rfl, fun x hx hkx => hk2 x hx (by simp at hkx; simp [hkx]), ?_⟩
      rintro ⟨x, hx, hxk⟩
      exact absurd (by simp [hxk]) (hk2 x hx)
    | cons d0 tail =>
      exact constrainDuplicate_aborts F hF hparent horient hpath src out st en opts t0 d0 s2 hk2
        (hd d0 tail rfl).1 (hd d0 tail rfl).2
  have hdata : ∀ (sc : σ) (a : List String) (d0 : String) (tail : List String),
      (F sc (Cmd.mel "duplicate" a)).1.arr = d0 :: tail → d0.data ≠ [] := by
    intro sc a d0 tail he hd
    apply hname sc a
    rw [he]
    have : d0 = "" := by
      cases d0; simp only at hd; subst hd; rfl
    rw [this]; exact List.mem_cons_self _ _
  have hcreate : ∀ (tr : List (Cmd × Resp)) (a : List String) (r : Resp),
      NoKinds [.export, .constrain] tr →
      NoKinds [.export, .constrain] (tr ++ [(Cmd.mel "duplicate" a, r)]) := by
    intro tr a r h x hx
    rcases List.mem_append.1 hx with h3 | h3
    · exact h x h3
    · simp only [List.mem_singleton] at h3
      subst h3
      show Kind.create ∉ [Kind.export, Kind.constrain]
      decide
  unfold melQueryStringArrayChecked
  simp only [M.bind_def, M.pure_def, wp_bind, wp_call, wp_pure, wp_ite, hF _ _,
    Bool.false_eq_true, if_false]
  split
  · refine key _ _ (hcreate _ _ _ (hcreate _ _ _ hk)) ?_
    intro d0 tail he
    exact ⟨⟨_, _, List.mem_append_right _ (List.mem_singleton.2 rfl), by rw [he]; rfl⟩,
      hdata _ _ d0 tail he⟩
  · refine key _ _ (hcreate _ _ _ hk) ?_
    intro d0 tail he
    exact ⟨⟨_, _, List.mem_append_right _ (List.mem_singleton.2 rfl), by rw [he]; rfl⟩,
      hdata _ _ d0 tail he⟩

/-- The function ends in a failure without export when every constraint request fails. -/
theorem exportSkeletonFbxViaDuplicate_aborts (F : Facade σ) (hF : NoFault F)
    (hparent : ∀ sc a, (F sc (.mel "parentConstraint" a)).1.ok = false
      ∨ (F sc (.mel "parentConstraint" a)).1.arr = [])
    (horient : ∀ sc a, (F sc (.mel "orientConstraint" a)).1.ok = false
      ∨ (F sc (.mel "orientConstraint" a)).1.arr = [])
    (hname : ∀ sc a, "" ∉ (F sc (.mel "duplicate" a)).1.arr)
    (hpath : ∀ sc h, (F sc (.fullPathName (some h))).1.str.data ≠ [])
    (src out : String) (st en : Int) (opts : FbxExportOptions)
    (s : Run σ DupLocals) (hk : NoKinds [.export, .constrain] s.trace) :
    wp F (exportSkeletonFbxViaDuplicate src out st en opts) StaticAbort s := by
  unfold exportSkeletonFbxViaDuplicate
  simp only [M.bind_def, M.pure_def]
  rw [wp_bind]
  refine wp_quiet (C := fun c => c.kind ∉ [Kind.export, Kind.constrain])
    (R := LocRel.same DupLocals)
    (quiet_mono (ofKinds_notin (by decide)) quiet_now) hF
    (fun t0 s1 hrun hext => ?_)
  replace hk := noKinds_extends hk hext
  clear hext hrun
  dsimp only
  rw [wp_tryCatch]
  refine wp_mono (exportSkeletonFbxViaDuplicateBody_aborts F hF hparent horient hname hpath
    src out st en opts t0 s1 hk) ?_
  rintro o s2 ⟨r, rfl, h⟩
  exact ⟨r, rfl, h⟩

/-- C4 (zero-constraint abort). Against any host that throws nothing, in which every
`parentConstraint` and every `orientConstraint` request fails (bad status or empty answer),
node names are not empty and a handle has a non-empty path, `exportSkeletonFbxViaDuplicate`
returns a result with `success = false` and sends no `FBXExport` request; and when a
constraint was attempted at all (the call got as far as the joint pairs), the error is the one
about static animation and the last request of the call deletes the duplicate root. -/
theorem zero_constraint_abort (F : Facade σ) (hF : NoFault F)
    (hparent : ∀ sc a, (F sc (.mel "parentConstraint" a)).1.ok = false
      ∨ (F sc (.mel "parentConstraint" a)).1.arr = [])
    (horient : ∀ sc a, (F sc (.mel "orientConstraint" a)).1.ok = false
      ∨ (F sc (.mel "orientConstraint" a)).1.arr = [])
    (hname : ∀ sc a, "" ∉ (F sc (.mel "duplicate" a)).1.arr)
    (hpath : ∀ sc h, (F sc (.fullPathName (some h))).1.str.data ≠ [])
    (sc : σ) (src out : String) (st en : Int) (opts : FbxExportOptions) :
    ∃ r, (runFn (exportSkeletonFbxViaDuplicate src out st en opts) {} F sc).result = some r
      ∧ r.success = false
      ∧ (∀ a resp, (Cmd.mel "FBXExport" a, resp) ∉
          (runFn (exportSkeletonFbxViaDuplicate src out st en opts) {} F sc).trace)
      ∧ ((∃ a resp, (Cmd.mel "parentConstraint" a, resp) ∈
          (runFn (exportSkeletonFbxViaDuplicate src out st en opts) {} F sc).trace) →
        r.errors =
          ["Failed to create constraints for duplicate skeleton (animation would be static)"]
        ∧ ∃ d0,
          DupRootNamed (runFn (exportSkeletonFbxViaDuplicate src out st en opts) {} F sc).trace d0
          ∧ DeletedLast (runFn (exportSkeletonFbxViaDuplicate src out st en opts) {} F sc).trace
              d0) := by
  have h := exportSkeletonFbxViaDuplicate_aborts F hF hparent horient hname hpath src out st en
    opts { scene := sc, trace := [], loc := {} } (fun x hx => by cases hx)
  obtain ⟨r, hr, hs, hk, hc⟩ := h
  obtain ⟨h1, h2⟩ := runFn_ret _ _ F sc r hr
  rw [h2]
  refine ⟨r, h1, hs, ?_, ?_⟩
  · intro a resp hm
    exact hk _ hm (List.mem_singleton.2 rfl)
  · rintro ⟨a, resp, hm⟩
    exact hc ⟨_, hm, rfl⟩

end ZeroConstraint

theorem failingConstraintScene_noFault : NoFault failingConstraintScene := by
  intro sc c
  unfold failingConstraintScene
  split <;> rfl

set_option maxRecDepth 100000 in
/-- C4 on a scene with one joint: the duplicate `dup1` is made, both constraint requests for
the pair fail, and the call ends as the theorem says. -/
theorem zero_constraint_abort_witness :
    (Cmd.mel "parentConstraint" [q "|ns:Root", q "|dup1"], ({ ok := false } : Resp)) ∈
      (runFn (exportSkeletonFbxViaDuplicate "|ns:Root" "out/rig.fbx" 1 24 {}) {}
        failingConstraintScene ()).trace
    ∧ ∃ r, (runFn (exportSkeletonFbxViaDuplicate "|ns:Root" "out/rig.fbx" 1 24 {}) {}
        failingConstraintScene ()).result = some r
      ∧ r.success = false
      ∧ (∀ a resp, (Cmd.mel "FBXExport" a, resp) ∉
          (runFn (exportSkeletonFbxViaDuplicate "|ns:Root" "out/rig.fbx" 1 24 {}) {}
            failingConstraintScene ()).trace)
      ∧ ((∃ a resp, (Cmd.mel "parentConstraint" a, resp) ∈
          (runFn (exportSkeletonFbxViaDuplicate "|ns:Root" "out/rig.fbx" 1 24 {}) {}
            failingConstraintScene ()).trace) →
        r.errors =
          ["Failed to create constraints for duplicate skeleton (animation would be static)"]
        ∧ ∃ d0,
          DupRootNamed (runFn (exportSkeletonFbxViaDuplicate "|ns:Root" "out/rig.fbx" 1 24 {}) {}
            failingConstraintScene ()).trace d0
          ∧ DeletedLast (runFn (exportSkeletonFbxViaDuplicate "|ns:Root" "out/rig.fbx" 1 24 {}) {}
            failingConstraintScene ()).trace d0) :=
  ⟨by decide!,
   zero_constraint_abort failingConstraintScene failingConstraintScene_noFault
    (fun _ _ => Or.inl rfl) (fun _ _ => Or.inl rfl) (fun _ _ => (by decide : "" ∉ ["dup1"]))
    (fun _ _ => (by decide : ("|dup1" : String).data ≠ [])) () "|ns:Root" "out/rig.fbx" 1 24 {}⟩

/-! ## Frame-exactness of the camera pipeline (C7) -/

section CameraQuiet
variable {σ ρ α : Type}

theorem isTransformKey_kind (c : Cmd) (h : isTransformKey c = true) : c.kind = .key := by
  cases c with
  | mel verb args =>
    simp only [isTransformKey, Bool.and_eq_true, beq_iff_eq] at h
    obtain ⟨h1, _⟩ := h
    subst h1
    rfl
  | _ => simp [isTransformKey] at h

theorem wp_callC (F : Facade σ) {L : Type} (c : Cmd) (post : Out ρ Resp → Run σ L → Prop)
    (s : Run σ L) :
    wp F (M.call c) post s ↔
      ((F s.scene c).1.fault = true → post .exc
        { scene := (F s.scene c).2, trace := s.trace ++ [(c, (F s.scene c).1)], loc := s.loc })
      ∧ ((F s.scene c).1.fault = false → post (.val (F s.scene c).1)
        { scene := (F s.scene c).2, trace := s.trace ++ [(c, (F s.scene c).1)], loc := s.loc }) := by
  rw [wp_call]
  cases (F s.scene c).1.fault <;> simp

theorem wp_whenC (F : Facade σ) {L : Type} (c : Bool) (a : M σ L ρ Unit)
    (post : Out ρ Unit → Run σ L → Prop) (s : Run σ L) :
    wp F (M.when c a) post s ↔ (c = true → wp F a post s) ∧ (c = false → post (.val ()) s) := by
  rw [wp_when]
  cases c <;> simp

theorem quiet_cleanupTmp :
    Quiet (OfKinds [.query, .delete]) WarningsGrow (cleanupTmp : M σ CamLocals ρ Unit) := by
  unfold cleanupTmp
  simp only [M.bind_def, M.pure_def, melExec, nodeExists, melQueryInt]
  repeat' first
    | apply quiet_bind | apply quiet_pure | apply quiet_getL | apply quiet_when
    | apply quiet_ite | apply quiet_forEach | apply quiet_foldM | apply quiet_tryCatch
    | intro _
    | (apply quiet_callK; rfl)
    | (apply quiet_modifyL; intro l w hw; exact hw)
    | split

theorem quiet_camWarn (w : String) {C : Cmd → Prop} :
    Quiet C WarningsGrow (camWarn w : M σ CamLocals ρ Unit) := by
  unfold camWarn
  apply quiet_modifyL
  intro l w0 hw
  exact List.mem_append_left _ hw

theorem fails_camFrameFail (out : String) (t0 : Int) (msg : String) :
    Fails (camFrameFail out t0 msg : M σ CamLocals ExportResult Unit) := by
  unfold camFrameFail
  simp only [M.bind_def, M.pure_def]
  refine fails_bind quiet_cleanupTmp.noRet (fun _ => ?_)
  refine fails_bind (quiet_now (R := WarningsGrow)).noRet (fun _ => ?_)
  refine fails_bind (quiet_getL (C := fun _ => True) (R := WarningsGrow)).noRet (fun _ => ?_)
  exact fails_ret _ rfl

theorem M.ext_run {L : Type} {a b : M σ L ρ α} (h : a.run = b.run) : a = b := by
  cases a; cases b; cases h; rfl

theorem M.bind_assoc {L β γ : Type} (m : M σ L ρ α) (f : α → M σ L ρ β) (g : β → M σ L ρ γ) :
    (m.bind f).bind g = m.bind (fun a => (f a).bind g) := by
  apply M.ext_run
  funext F s
  simp only [M.run_bind]
  rcases m.run F s with ⟨(a | r0 | _), s1⟩ <;> rfl

theorem M.pure_bind {L β : Type} (a : α) (f : α → M σ L ρ β) :
    (M.pure a).bind f = f a := by
  apply M.ext_run
  funext F s
  simp only [M.run_bind, M.run_pure]

/-- A request in front of a lenient postcondition. -/
theorem wp_bind_callL {L β : Type} {F : Facade σ} {c : Cmd} {f : Resp → M σ L ExportResult β}
    {post : Out ExportResult β → Run σ L → Prop} {s : Run σ L} (hl : Lenient post)
    (h : wp F (f (F s.scene c).1) post
      { scene := (F s.scene c).2, trace := s.trace ++ [(c, (F s.scene c).1)], loc := s.loc }) :
    wp F (M.bind (M.call c) f) post s := by
  rw [wp_bind, wp_call]
  cases hf : (F s.scene c).1.fault
  · simpa using h
  · simpa using hl.exc _

/-- A guarded failing `return` in front of a lenient postcondition. -/
theorem wp_bind_whenFail {L β : Type} {F : Facade σ} {c : Bool} {a : M σ L ExportResult Unit}
    {f : Unit → M σ L ExportResult β}
    {post : Out ExportResult β → Run σ L → Prop} {s : Run σ L} (hf : Fails a)
    (hl : Lenient post) (h : c = false → wp F (f ()) post s) :
    wp F (M.bind (M.when c a) f) post s := by
  rw [wp_bind, wp_when]
  cases c
  · simpa using h rfl
  · simp only [if_true]
    exact wp_fails hf ⟨fun s => hl.exc s, fun r s hr => hl.fail r s hr⟩

/-- One round of the per-frame loop adds the transform key of its frame, and no other. -/
theorem keyFrame_spec (F : Facade σ) (cam out srcShape x sh : String) (t0 f : Int)
    (d : List Int) (abort : Out ExportResult Unit → Run σ CamLocals → Prop)
    (hl : Lenient abort) (s : Run σ CamLocals)
    (hT : (requests s.trace).filter isTransformKey
      = d.map (fun f => Cmd.mel "setKeyframe" (keyTransformArgs x f))) :
    wp F (keyFrame cam out srcShape x sh t0 f)
      (roundPost (fun s2 => (requests s2.trace).filter isTransformKey
          = (d ++ [f]).map (fun f => Cmd.mel "setKeyframe" (keyTransformArgs x f))) abort) s := by
  have hl2 := lenient_roundPost
    (I := fun (s2 : Run σ CamLocals) => (requests s2.trace).filter isTransformKey
          = (d ++ [f]).map (fun f => Cmd.mel "setKeyframe" (keyTransformArgs x f))) hl
  unfold keyFrame queryWorldMatrix setWorldMatrix keyTransformAtFrame
  simp only [M.bind_def, M.pure_def, melExec, melQueryString, M.bind_assoc, M.pure_bind]
  refine wp_bind_callL hl2 ?_
  refine wp_bind_callL hl2 ?_
  refine wp_bind_whenFail (fails_camFrameFail _ _ _) hl2 (fun _ => ?_)
  refine wp_bind_callL hl2 ?_
  refine wp_bind_whenFail (fails_camFrameFail _ _ _) hl2 (fun _ => ?_)
  refine wp_bind_callL hl2 ?_
  refine wp_bind_whenFail (fails_camFrameFail _ _ _) hl2 (fun _ => ?_)
  rw [wp_when]
  split
  · refine wp_bind_callL hl2 ?_
    refine wp_bind_callL hl2 ?_
    refine wp_bind_callL hl2 ?_
    rw [wp_pure]
    simpa [roundPost, requests, isTransformKey, keyTransformArgs] using hT
  · simpa [roundPost, requests, isTransformKey, keyTransformArgs] using hT

theorem quiet_disconnectFocalLength {R : LocRel CamLocals} (sh : String) :
    Quiet (OfKinds [.query, .attr]) R (disconnectFocalLength sh : M σ CamLocals ρ Unit) := by
  unfold disconnectFocalLength
  simp only [M.bind_def, M.pure_def, melExec, melQueryString, melQueryInt]
  repeat' first
    | apply quiet_bind | apply quiet_pure | apply quiet_getL | apply quiet_when
    | apply quiet_ite | apply quiet_forEach | apply quiet_foldM | apply quiet_tryCatch
    | intro _
    | (apply quiet_callK; rfl)
    | exact quiet_camWarn _
    | split

theorem ofKinds_notTransformKey {ks : List Kind} (h : Kind.key ∉ ks) (c : Cmd) :
    OfKinds ks c → isTransformKey c = false := by
  intro hc
  cases ht : isTransformKey c
  · rfl
  · exact absurd (isTransformKey_kind c ht ▸ hc) h

theorem transformKeys_extends {L : Type} {F : Facade σ} {R : LocRel L} {s s1 : Run σ L}
    {keys : List Cmd} (h : (requests s.trace).filter isTransformKey = keys)
    (he : Extends F (fun c => isTransformKey c = false) R s s1) :
    (requests s1.trace).filter isTransformKey = keys := by
  obtain ⟨_, t, e1, c1, _, _⟩ := he
  rw [e1]
  unfold requests at h ⊢
  rw [List.map_append, List.filter_append, h]
  have : List.filter isTransformKey (List.map Prod.fst t) = [] := by
    rw [List.filter_eq_nil_iff]
    intro c hc
    obtain ⟨x, hx, rfl⟩ := List.mem_map.1 hc
    simp [c1 x hx]
  rw [this, List.append_nil]

theorem quiet_melQueryInt {L : Type} {R : LocRel L} (k : Kind) (verb : String)
    (args : List String) (h : melKind verb args = k) :
    Quiet (OfKinds [k]) R (melQueryInt verb args : M σ L ρ Int) := by
  unfold melQueryInt
  simp only [M.bind_def, M.pure_def]
  exact quiet_bind (quiet_call (List.mem_singleton.2 h)) (fun _ => quiet_pure _)

/-- A quiet step in front of a postcondition that accepts exceptions. -/
theorem wp_quietE {L : Type} {C : Cmd → Prop} {R : LocRel L} {F : Facade σ} {m : M σ L ρ α}
    {post : Out ρ α → Run σ L → Prop} {s : Run σ L}
    (hq : Quiet C R m) (hexc : ∀ s1, post .exc s1)
    (h : ∀ a s1, Extends F C R s s1 → post (.val a) s1) : wp F m post s := by
  unfold wp
  have h1 := hq.ext F s
  have h2 := hq.noRet F s
  generalize m.run F s = o at h1 h2
  rcases o with ⟨(a | r0 | _), s1⟩
  · exact h a s1 h1
  · exact absurd rfl (h2 r0)
  · exact hexc s1

theorem quiet_attributeExists {L : Type} {R : LocRel L} (node attr : String) :
    Quiet (OfKinds [.query]) R (attributeExists node attr : M σ L ρ Bool) := by
  unfold attributeExists
  simp only [M.bind_def, M.pure_def]
  exact quiet_bind (quiet_callK rfl) (fun _ => quiet_pure _)

theorem quiet_nodeExists {L : Type} {R : LocRel L} (node : String) :
    Quiet (OfKinds [.query]) R (nodeExists node : M σ L ρ Bool) := by
  unfold nodeExists melQueryInt
  simp only [M.bind_def, M.pure_def]
  exact quiet_bind (quiet_bind (quiet_callK rfl) (fun _ => quiet_pure _)) (fun _ => quiet_pure _)

theorem calm_copyScalarAttrBody {R : LocRel CamLocals} (a b attr : String) :
    Calm (OfKinds [.query, .attr]) R (copyScalarAttrBody a b attr : M σ CamLocals Bool Bool) := by
  unfold copyScalarAttrBody
  simp only [M.bind_def, M.pure_def, melExec, melQueryString, attributeExists]
  repeat' first
    | apply calm_bind | apply calm_ret | apply calm_when | apply calm_ite
    | intro _
    | exact calm_of_quiet (quiet_pure _)
    | exact calm_of_quiet (quiet_callK rfl)
    | split

theorem quiet_copyShapeAttrs {R : LocRel CamLocals} (a b : String) :
    Quiet (OfKinds [.query, .attr]) R (copyShapeAttrs a b : M σ CamLocals ρ (List String)) := by
  unfold copyShapeAttrs copyScalarAttr
  simp only [M.bind_def, M.pure_def, melQueryInt]
  repeat' first
    | apply quiet_bind | apply quiet_pure | apply quiet_when
    | apply quiet_ite | apply quiet_foldM
    | exact quiet_callSub (calm_copyScalarAttrBody _ _ _)
    | intro _
    | (apply quiet_callK; rfl)
    | split

theorem quiet_deleteStaleTempCamera {R : LocRel CamLocals} (desired : String) :
    Quiet (OfKinds [.query, .delete]) R
      (deleteStaleTempCamera desired : M σ CamLocals ρ Unit) := by
  unfold deleteStaleTempCamera
  simp only [M.bind_def, M.pure_def, melExec, nodeExists, melQueryInt, attributeExists]
  repeat' first
    | apply quiet_bind | apply quiet_pure | apply quiet_getL | apply quiet_when
    | apply quiet_ite | apply quiet_forEach | apply quiet_foldM | apply quiet_tryCatch
    | intro _
    | (apply quiet_callK; rfl)
    | exact quiet_camWarn _
    | split

theorem noTransformKeys_of_noKinds {tr : List (Cmd × Resp)} (h : NoKinds [.key] tr) :
    (requests tr).filter isTransformKey = [] := by
  rw [List.filter_eq_nil_iff]
  intro c hc
  obtain ⟨x, hx, rfl⟩ := List.mem_map.1 hc
  intro ht
  exact h x hx (List.mem_singleton.2 (isTransformKey_kind _ ht))

end CameraQuiet

section CameraMain
variable {σ ρ α : Type}

theorem quiet_setFbxExportDefaults {L : Type} {R : LocRel L} :
    Quiet (OfKinds [.setting]) R (setFbxExportDefaults : M σ L ρ Unit) := by
  unfold setFbxExportDefaults
  simp only [M.bind_def, M.pure_def, melExec]
  repeat' first
    | apply quiet_bind | apply quiet_pure
    | intro _
    | (apply quiet_callK; rfl)

theorem quiet_setFbxBakeRange {L : Type} {R : LocRel L} (a b : Int) :
    Quiet (OfKinds [.setting]) R (setFbxBakeRange a b : M σ L ρ Unit) := by
  unfold setFbxBakeRange
  simp only [M.bind_def, M.pure_def, melExec]
  repeat' first
    | apply quiet_bind | apply quiet_pure
    | intro _
    | (apply quiet_callK; rfl)

theorem quiet_scanFbxContent {L : Type} {R : LocRel L} (p : String) :
    Quiet (OfKinds [.file]) R (scanFbxContent p : M σ L ρ FbxContentStats) := by
  unfold scanFbxContent
  simp only [M.bind_def, M.pure_def]
  repeat' first
    | apply quiet_bind | apply quiet_pure | apply quiet_ite
    | intro _
    | (apply quiet_callK; rfl)
    | split

theorem quiet_fileSizeOrZero {L : Type} {R : LocRel L} (p : String) :
    Quiet (OfKinds [.file]) R (fileSizeOrZero p : M σ L ρ Int) := by
  unfold fileSizeOrZero fileExistsOnDisk getFileSize
  simp only [M.bind_def, M.pure_def]
  repeat' first
    | apply quiet_bind | apply quiet_pure | apply quiet_ite
    | intro _
    | (apply quiet_callK; rfl)
    | split

theorem quiet_ensureFbxPlugin {L : Type} {R : LocRel L} :
    Quiet (OfKinds [.query, .setting]) R (ensureFbxPlugin : M σ L ρ Bool) := by
  unfold ensureFbxPlugin melQueryInt
  simp only [M.bind_def, M.pure_def]
  repeat' first
    | apply quiet_bind | apply quiet_pure | apply quiet_ite
    | intro _
    | (apply quiet_callK; rfl)
    | split

end CameraMain

section CameraTie
variable {σ ρ α β : Type}

theorem prefix_of_extends {L : Type} {F : Facade σ} {C : Cmd → Prop} {R : LocRel L}
    {s s1 : Run σ L} (he : Extends F C R s s1) : s.trace <+: s1.trace := by
  obtain ⟨_, t, e, _, _, _⟩ := he
  exact ⟨t, e.symm⟩

theorem calm_forEach {L : Type} {C : Cmd → Prop} {R : LocRel L} {f : α → M σ L ρ Unit}
    (xs : List α) (hf : ∀ a, Calm C R (f a)) : Calm C R (M.forEach xs f) := by
  induction xs with
  | nil => exact calm_of_quiet (quiet_pure _)
  | cons x xs ih => exact calm_bind (hf x) (fun _ => ih)

/-- The trace of calm code extends the trace it started from. -/
theorem wp_of_ext {L : Type} {C : Cmd → Prop} {R : LocRel L} {F : Facade σ} {m : M σ L ρ α}
    {post : Out ρ α → Run σ L → Prop} {s : Run σ L} (hc : Calm C R m)
    (h : wp F m (fun o s1 => Extends F C R s s1 → post o s1) s) : wp F m post s := by
  unfold wp at h ⊢
  exact h (hc.ext F s)

theorem calm_keyTempCamera (cam out srcShape x sh : String) (lo hi t0 : Int)
    (prevTime : String) (driven : List String) :
    Calm (fun _ => True) (LocRel.any CamLocals)
      (keyTempCamera cam out srcShape x sh lo hi t0 prevTime driven :
        M σ CamLocals ExportResult Unit) := by
  unfold keyTempCamera keyFrame camFrameFail clipOutsideRange queryWorldMatrix setWorldMatrix
    keyTransformAtFrame disconnectFocalLength cleanupTmp camWarn
  simp only [M.bind_def, M.pure_def, melExec, melQueryString, melQueryInt, now, nodeExists]
  repeat' first
    | apply calm_bind
    | apply calm_ret
    | apply calm_when
    | apply calm_ite
    | apply calm_forEach
    | intro _
    | exact calm_of_quiet (quiet_pure _)
    | exact calm_of_quiet quiet_getL
    | exact calm_of_quiet (quiet_call trivial)
    | exact calm_of_quiet (quiet_modifyL (fun _ => trivial))
    | split

/-- A query for a list of names in front of a lenient postcondition: the answer is at the
end of the trace. -/
theorem wp_queryArrL {L : Type} {F : Facade σ} {verb : String} {args : List String}
    {f : List String → M σ L ExportResult β}
    {post : Out ExportResult β → Run σ L → Prop} {s : Run σ L} (hl : Lenient post)
    (h : ∀ ans s1, s1.trace = s.trace ++ [(Cmd.mel verb args, ans)] → s1.loc = s.loc →
      wp F (f ans.arr) post s1) :
    wp F (M.bind (melQueryStringArray verb args) f) post s := by
  unfold melQueryStringArray
  simp only [M.bind_def, M.pure_def, M.bind_assoc, M.pure_bind]
  exact wp_bind_callL hl (h _ _ rfl rfl)

/-- A query for a name in front of a lenient postcondition: the answer is at the end of the
trace. -/
theorem wp_queryStrL {L : Type} {F : Facade σ} {verb : String} {args : List String}
    {f : String → M σ L ExportResult β}
    {post : Out ExportResult β → Run σ L → Prop} {s : Run σ L} (hl : Lenient post)
    (h : ∀ ans s1, s1.trace = s.trace ++ [(Cmd.mel verb args, ans)] → s1.loc = s.loc →
      wp F (f ans.str) post s1) :
    wp F (M.bind (melQueryString verb args) f) post s := by
  unfold melQueryString
  simp only [M.bind_def, M.pure_def, M.bind_assoc, M.pure_bind]
  exact wp_bind_callL hl (h _ _ rfl rfl)

theorem noKinds_snoc {ks : List Kind} {tr : List (Cmd × Resp)} {c : Cmd} {ans : Resp}
    (h : NoKinds ks tr) (hc : c.kind ∉ ks) : NoKinds ks (tr ++ [(c, ans)]) := by
  intro x hx
  rcases List.mem_append.1 hx with h1 | h1
  · exact h x h1
  · rw [List.mem_singleton.1 h1]
    exact hc

theorem noKinds_weaken {ks ks1 : List Kind} {tr : List (Cmd × Resp)} (h : NoKinds ks tr)
    (hk : ∀ k ∈ ks1, k ∈ ks) : NoKinds ks1 tr :=
  fun x hx hm => h x hx (hk _ hm)

theorem tempCamera_mono {out : String} {tr tr1 : List (Cmd × Resp)} {x sh : String}
    (h : TempCamera out tr x sh) (hp : tr <+: tr1) : TempCamera out tr1 x sh := by
  obtain ⟨pre, created, renamed, full, shapes, h1, h2⟩ := h
  exact ⟨pre, created, renamed, full, shapes, h1.trans hp, h2⟩

theorem noTempCamera_mono {tr tr1 : List (Cmd × Resp)} (h : NoTempCamera tr)
    (hp : tr <+: tr1) : NoTempCamera tr1 := by
  obtain ⟨pre, created, h1, h2⟩ := h
  exact ⟨pre, created, h1.trans hp, h2⟩

/-- The keying block: from a state without transform keys it ends, when it falls through,
with the camera keyed at the frames of the range, clipped and selected. -/
theorem keyTempCamera_spec (F : Facade σ) (cam out srcShape x sh : String) (lo hi t0 : Int)
    (prevTime : String) (driven : List String)
    (post : Out ExportResult Unit → Run σ CamLocals → Prop) (hl : Lenient post)
    (s : Run σ CamLocals) (hT : (requests s.trace).filter isTransformKey = [])
    (h : ∀ s2, (∃ t1, SelectedAfter x (t1 ++ clipCmds lo hi x sh) [] s2.trace
      ∧ t1.filter isTransformKey = transformKeys x lo hi) → post (.val ()) s2) :
    wp F (keyTempCamera cam out srcShape x sh lo hi t0 prevTime driven) post s := by
  unfold keyTempCamera
  simp only [M.bind_def, M.pure_def]
  refine wp_bind_quietL (C := fun c => isTransformKey c = false) (R := LocRel.any CamLocals)
    (quiet_mono (ofKinds_notTransformKey (by decide)) (quiet_disconnectFocalLength sh)) hl
    (fun _ s1 hext => ?_)
  replace hT := transformKeys_extends hT hext
  clear hext
  -- the per-frame loop
  rw [wp_bind]
  refine wp_mono (wp_forEachR
    (fun d s2 => (requests s2.trace).filter isTransformKey
      = d.map (fun f => Cmd.mel "setKeyframe" (keyTransformArgs x f)))
    (roundPost (fun _ => True) post)
    (frameList lo hi) [] s1 hT (fun d f s2 hd => ?_)) ?_
  · exact keyFrame_spec F cam out srcShape x sh t0 f d _ (lenient_roundPost hl) s2 hd
  rintro (a | r | _) s2 h2
  swap
  · exact h2
  swap
  · exact h2
  simp only [roundPost, List.nil_append] at h2
  dsimp only
  clear hT s1
  -- back to the previous time, the key count, the bake
  refine wp_bind_quietL (C := fun c => isTransformKey c = false) (R := LocRel.any CamLocals)
    (quiet_mono (ofKinds_notTransformKey (by decide)) (quiet_melExec .time "currentTime" _ rfl))
    hl (fun _ s3 hext => ?_)
  replace h2 := transformKeys_extends h2 hext
  clear hext s2
  refine wp_bind_quietL (C := fun c => isTransformKey c = false) (R := LocRel.any CamLocals)
    (quiet_when (quiet_bind (quiet_mono (ofKinds_notTransformKey (by decide))
      (quiet_melQueryInt .query "keyframe" _ rfl)) (fun _ => quiet_pure _)))
    hl (fun _ s4 hext => ?_)
  replace h2 := transformKeys_extends h2 hext
  clear hext s3
  refine wp_bind_quietL (C := fun c => isTransformKey c = false) (R := LocRel.any CamLocals)
    (m := M.when _ _) ?_ hl (fun _ s5 hext => ?_)
  · unfold melExec camWarn
    simp only [M.bind_def, M.pure_def]
    exact quiet_when (quiet_bind (quiet_bind (quiet_call rfl) (fun _ => quiet_pure _))
      (fun _ => quiet_when (quiet_modifyL (fun _ => trivial))))
  replace h2 := transformKeys_extends h2 hext
  clear hext s4
  -- the clip and the selection
  unfold clipOutsideRange
  simp only [M.bind_def, M.pure_def, melExec, M.bind_assoc, M.pure_bind]
  refine wp_bind_callL hl ?_
  refine wp_bind_callL hl ?_
  refine wp_bind_callL hl ?_
  refine wp_bind_callL hl ?_
  refine wp_bind_callL hl ?_
  rw [wp_pure]
  apply h
  refine ⟨requests s5.trace, ?_, h2⟩
  simp [SelectedAfter, selectCmd, requests, clipCmds]

/-- The branch with the throwaway camera: when it falls through, the camera named by the
answers to `ls` and `listRelatives` is keyed at the frames of the range, clipped and
selected, and since the selection only the refresh state was set. -/
theorem useTempCamera_spec (F : Facade σ) (cam out srcShape x0 sh0 : String) (lo hi t0 : Int)
    (post : Out ExportResult Unit → Run σ CamLocals → Prop) (hl : Lenient post)
    (s : Run σ CamLocals) (hk : NoKinds [.key] s.trace)
    (h : ∀ s2 full shapes tail,
      (s.trace ++ [(Cmd.mel "ls" ["-l", q x0], full),
        (Cmd.mel "listRelatives" ["-shapes", "-type", "\"camera\"", "-fullPath",
          q (full.arr.headD x0)], shapes)]) <+: s2.trace →
      (∃ t1, SelectedAfter (full.arr.headD x0)
          (t1 ++ clipCmds lo hi (full.arr.headD x0) (shapes.arr.headD sh0)) tail s2.trace
        ∧ t1.filter isTransformKey = transformKeys (full.arr.headD x0) lo hi) →
      (∀ c ∈ tail, c.kind ∈ [Kind.setting, Kind.time]) → post (.val ()) s2) :
    wp F (useTempCamera cam out srcShape x0 sh0 lo hi t0) post s := by
  unfold useTempCamera
  simp only [M.bind_def, M.pure_def]
  refine wp_queryArrL hl (fun full s1 e1 l1 => ?_)
  refine wp_queryArrL hl (fun shapes s2 e2 l2 => ?_)
  have hp : (s.trace ++ [(Cmd.mel "ls" ["-l", q x0], full),
        (Cmd.mel "listRelatives" ["-shapes", "-type", "\"camera\"", "-fullPath",
          q (full.arr.headD x0)], shapes)]) <+: s2.trace := by
    rw [e2, e1, List.append_assoc]
    exact List.prefix_refl _
  replace hk : NoKinds [.key] s2.trace := by
    rw [e2, e1]
    have q1 : (Cmd.mel "ls" ["-l", q x0]).kind = Kind.query := rfl
    have q2 : (Cmd.mel "listRelatives" ["-shapes", "-type", "\"camera\"", "-fullPath",
          q (full.arr.headD x0)]).kind = Kind.query := rfl
    exact noKinds_snoc (noKinds_snoc hk (by rw [q1]; decide)) (by rw [q2]; decide)
  clear e1 e2 l1 l2 s1
  rw [wp_bind, wp_modifyL]
  dsimp only
  generalize hs3 : (Run.mk s2.scene s2.trace
    { warnings := s2.loc.warnings,
      tmpNodesToDelete := s2.loc.tmpNodesToDelete ++ [full.arr.headD x0] } : Run σ CamLocals) = s3
  replace hk : NoKinds [.key] s3.trace := by subst hs3; exact hk
  have e3 : s2.trace = s3.trace := by subst hs3; rfl
  rw [e3] at hp
  clear e3
  clear hs3 s2
  refine wp_bind_quietL (C := fun c => c.kind ∉ [Kind.key]) (R := LocRel.any CamLocals)
    (quiet_mono (ofKinds_notin (by decide)) (quiet_attributeExists _ _))
    hl (fun marked s4 hext => ?_)
  replace hk := noKinds_extends hk hext
  replace hp := hp.trans (prefix_of_extends hext)
  clear hext s3
  refine wp_bind_quietL (C := fun c => c.kind ∉ [Kind.key]) (R := LocRel.any CamLocals)
    (m := M.when _ _) ?_ hl (fun _ s5 hext => ?_)
  · exact quiet_when (quiet_bind (quiet_mono (ofKinds_notin (by decide))
      (quiet_melExec .attr "addAttr" _ rfl)) (fun _ => quiet_bind
        (quiet_mono (ofKinds_notin (by decide)) (quiet_melExec .attr "setAttr" _ rfl))
        (fun _ => quiet_pure _)))
  replace hk := noKinds_extends hk hext
  replace hp := hp.trans (prefix_of_extends hext)
  clear hext s4
  refine wp_bind_quietL (C := fun c => c.kind ∉ [Kind.key]) (R := LocRel.any CamLocals)
    (m := ite _ _ _) ?_ hl (fun driven s6 hext => ?_)
  · exact quiet_ite (quiet_mono (ofKinds_notin (by decide)) (quiet_copyShapeAttrs _ _))
      (quiet_pure _)
  replace hk := noKinds_extends hk hext
  replace hp := hp.trans (prefix_of_extends hext)
  clear hext s5
  refine wp_bind_quietL (C := fun c => c.kind ∉ [Kind.key]) (R := LocRel.any CamLocals)
    (m := M.when _ _) ?_ hl (fun _ s7 hext => ?_)
  · exact quiet_when (quiet_bind (quiet_mono (ofKinds_notin (by decide))
      (quiet_melQueryString .query "getAttr" _ rfl)) (fun _ => quiet_bind
        (quiet_mono (ofKinds_notin (by decide)) (quiet_melQueryInt .query "keyframe" _ rfl))
        (fun _ => quiet_bind
          (quiet_mono (ofKinds_notin (by decide))
            (quiet_melQueryInt .query "connectionInfo" _ rfl))
          (fun _ => quiet_pure _))))
  replace hk := noKinds_extends hk hext
  replace hp := hp.trans (prefix_of_extends hext)
  clear hext s6
  refine wp_bind_quietL (C := fun c => c.kind ∉ [Kind.key]) (R := LocRel.any CamLocals)
    (quiet_mono (ofKinds_notin (by decide)) (quiet_melQueryString .query "currentTime" _ rfl))
    hl (fun prevTime s8 hext => ?_)
  replace hk := noKinds_extends hk hext
  replace hp := hp.trans (prefix_of_extends hext)
  clear hext s7
  refine wp_bind_quietL (C := fun c => c.kind ∉ [Kind.key]) (R := LocRel.any CamLocals)
    (quiet_mono (ofKinds_notin (by decide)) (quiet_melQueryInt .query "refresh" _ rfl))
    hl (fun prevSuspend s9 hext => ?_)
  replace hk := noKinds_extends hk hext
  replace hp := hp.trans (prefix_of_extends hext)
  clear hext s8
  refine wp_bind_quietL (C := fun c => c.kind ∉ [Kind.key]) (R := LocRel.any CamLocals)
    (quiet_mono (ofKinds_notin (by decide)) (quiet_melExec .time "refresh" _ rfl))
    hl (fun active s10 hext => ?_)
  replace hk := noKinds_extends hk hext
  replace hp := hp.trans (prefix_of_extends hext)
  clear hext s9
  -- the guarded block
  have hrel : Quiet (OfKinds [Kind.time]) (LocRel.any CamLocals)
      (M.when active ((melExec "refresh" ["-suspend", boolStr (prevSuspend != 0)]).bind
        fun _ => M.pure ()) : M σ CamLocals ExportResult Unit) :=
    quiet_when (quiet_bind (quiet_melExec .time "refresh" _ rfl) (fun _ => quiet_pure _))
  rw [wp_withGuard]
  refine wp_of_ext (calm_keyTempCamera cam out srcShape _ _ lo hi t0 prevTime driven) ?_
  refine keyTempCamera_spec F cam out srcShape _ _ lo hi t0 prevTime driven _ ⟨?_, ?_⟩ s10
    (noTransformKeys_of_noKinds hk) ?_
  · intro s11 _
    exact wp_quietE hrel (fun s12 => hl.exc s12) (fun _ s12 _ => hl.exc s12)
  · intro r s11 hr _
    exact wp_quietE hrel (fun s12 => hl.exc s12) (fun _ s12 _ => hl.fail r s12 hr)
  · rintro s11 ⟨t1, h11, hkeys⟩ he11
    refine wp_quietE hrel (fun s12 => hl.exc s12) (fun _ s12 hext => ?_)
    obtain ⟨_, t, e12, c12, _, _⟩ := hext
    refine h s12 full shapes (requests t) ?_ ⟨t1, ?_, hkeys⟩ ?_
    · rw [e12]
      exact (hp.trans (prefix_of_extends he11)).trans (List.prefix_append _ _)
    · unfold SelectedAfter at h11 ⊢
      unfold requests at h11 ⊢
      rw [e12, List.map_append, h11]
      simp
    · intro c hc
      obtain ⟨y, hy, rfl⟩ := List.mem_map.1 hc
      have := c12 y hy
      simp only [OfKinds, List.mem_singleton] at this
      rw [this]
      decide

theorem lenient_camPost (cam : String) (lo hi : Int) (out : String) :
    Lenient (CamPost (σ := σ) (α := α) cam lo hi out) :=
  ⟨fun s r hr => (by cases hr), fun r s hr r0 h0 hs => (by cases h0; rw [hr] at hs; cases hs)⟩

theorem requests_append (a b : List (Cmd × Resp)) : requests (a ++ b) = requests a ++ requests b :=
  List.map_append _ _ _

theorem camStage_extends {F : Facade σ} {C : Cmd → Prop} {cam out : String} {lo hi : Int}
    {tail : List Cmd} {s s1 : Run σ CamLocals}
    (h : CamStage cam out lo hi s.loc.warnings tail s.trace)
    (he : Extends F C WarningsGrow s s1) :
    ∃ t, CamStage cam out lo hi s1.loc.warnings (tail ++ t) s1.trace ∧ ∀ c ∈ t, C c := by
  have hp := prefix_of_extends he
  obtain ⟨hw, t, e1, c1, _, _⟩ := he
  obtain ⟨node, t0, hsel, hside⟩ := h
  refine ⟨requests t, ⟨node, t0, ?_, ?_⟩, ?_⟩
  · unfold SelectedAfter at hsel ⊢
    rw [e1, requests_append, hsel]
    simp
  · rcases hside with ⟨h1, h2, h3, h4⟩ | ⟨sh, t1, h1, h2, h3⟩
    · exact Or.inl ⟨h1, noTempCamera_mono h2 hp, hw _ h3, h4⟩
    · exact Or.inr ⟨sh, t1, h1, tempCamera_mono h2 hp, h3⟩
  · intro c hc
    obtain ⟨y, hy, rfl⟩ := List.mem_map.1 hc
    exact c1 y hy

theorem preExport_extends {F : Facade σ} {cam out : String} {lo hi : Int}
    {s s1 : Run σ CamLocals} (h : PreExport cam out lo hi s)
    (he : Extends F (OfKinds [Kind.setting, Kind.time]) WarningsGrow s s1) :
    PreExport cam out lo hi s1 := by
  obtain ⟨mid, h1, h2⟩ := h
  obtain ⟨t, h3, h4⟩ := camStage_extends h1 he
  refine ⟨mid ++ t, h3, fun c hc => ?_⟩
  rcases List.mem_append.1 hc with h5 | h5
  · exact h2 c h5
  · exact h4 c h5

theorem postExport_extends {F : Facade σ} {cam out : String} {lo hi : Int}
    {s s1 : Run σ CamLocals} (h : PostExport cam out lo hi s)
    (he : Extends F (fun c => c.kind ∉ [Kind.key, Kind.select, Kind.export]) WarningsGrow
      s s1) :
    PostExport cam out lo hi s1 := by
  obtain ⟨mid, rest, h1, h2, h3⟩ := h
  obtain ⟨t, h4, h5⟩ := camStage_extends h1 he
  refine ⟨mid, rest ++ t, ?_, h2, fun c hc => ?_⟩
  · rw [List.append_assoc, List.cons_append] at h4
    exact h4
  · rcases List.mem_append.1 hc with h6 | h6
    · exact h3 c h6
    · exact h5 c h6

/-- After the export the two ways of `CamStage` are the two ways of `CamGood`. -/
theorem camGood_of_postExport {cam out : String} {lo hi : Int} {s : Run σ CamLocals}
    (h : PostExport cam out lo hi s) : CamGood cam out lo hi s.loc.warnings s.trace := by
  obtain ⟨mid, rest, ⟨node, t0, hsel, hside⟩, h2, h3⟩ := h
  rcases hside with ⟨h4, h5, h6, h7⟩ | ⟨sh, t1, h4, h5, h6⟩
  · subst h4
    refine Or.inl ⟨h5, h6, ?_, t0, mid, rest, hsel, h2, h3⟩
    intro x hx
    have hm : x.1 ∈ requests s.trace := List.mem_map.2 ⟨x, hx, rfl⟩
    unfold SelectedAfter at hsel
    rw [hsel] at hm
    simp only [List.mem_append, List.mem_cons] at hm
    rcases hm with h8 | h8 | h8 | h8 | h8
    · exact h7 _ h8
    · rw [h8]
      exact fun e => nomatch e
    · have := h2 _ h8
      intro e
      rw [e] at this
      revert this
      decide
    · rw [h8]
      exact fun e => nomatch e
    · have := h3 _ h8
      intro e
      rw [e] at this
      revert this
      decide
  · subst h4
    exact Or.inr ⟨node, sh, t1, h5, h6, mid, rest, hsel, h2, h3⟩

theorem trace_eq_of_silent {L : Type} {F : Facade σ} {R : LocRel L} {s s1 : Run σ L}
    (he : Extends F (fun _ => False) R s s1) : s1.trace = s.trace := by
  obtain ⟨_, t, e, c, _, _⟩ := he
  cases t with
  | nil => rw [e, List.append_nil]
  | cons x t => exact absurd (c x (List.mem_cons_self _ _)) id

/-- The body of `exportCameraFbx`: every `return` that reports success comes after the
throwaway camera that the call created was keyed at the frames of the range, clipped, selected
and exported, or after the fallback to the original camera. -/
theorem exportCameraFbxBody_spec (F : Facade σ) (cam out : String) (st en : Int)
    (opts : FbxExportOptions) (t0 : Int) (s : Run σ CamLocals)
    (hk : NoKinds [.key, .create] s.trace) :
    wp F (exportCameraFbxBody cam out st en opts t0)
      (CamPost cam (if en < st then en else st) (if en < st then st else en) out) s := by
  have hl := lenient_camPost (σ := σ) (α := Empty) cam (if en < st then en else st)
    (if en < st then st else en) out
  unfold exportCameraFbxBody
  simp only [M.bind_def, M.pure_def]
  generalize (if en < st then en else st) = lo at hl ⊢
  generalize (if en < st then st else en) = hi at hl ⊢
  refine wp_bind_quietL (C := fun c => c.kind ∉ [Kind.key, Kind.create]) (R := WarningsGrow)
    (quiet_mono (ofKinds_notin (by decide)) (quiet_ensureOutDir out))
    hl (fun _ s1 hext => ?_)
  replace hk := noKinds_extends hk hext
  clear hext s
  refine wp_bind_quietL (C := fun c => c.kind ∉ [Kind.key, Kind.create]) (R := WarningsGrow)
    (quiet_mono (ofKinds_notin (by decide))
      (quiet_melQueryStringArray .query "listRelatives" _ rfl))
    hl (fun srcShapes s2 hext => ?_)
  replace hk := noKinds_extends hk hext
  clear hext s1
  refine wp_bind_quietL (C := fun c => c.kind ∉ [Kind.key, Kind.create]) (R := WarningsGrow)
    (quiet_mono (ofKinds_notin (by decide)) (quiet_deleteStaleTempCamera _))
    hl (fun _ s3 hext => ?_)
  replace hk := noKinds_extends hk hext
  clear hext s2
  -- the creation of the throwaway camera
  refine wp_queryArrL hl (fun created s4 e4 l4 => ?_)
  have hk4 : NoKinds [.key] s4.trace := by
    rw [e4]
    have q1 : (Cmd.mel "camera" ["-name", "\"__PT_ExportCamTmp\""]).kind = Kind.create := rfl
    exact noKinds_snoc (noKinds_weaken hk (by decide)) (by rw [q1]; decide)
  rw [wp_bind]
  refine wp_mono (P := fun o s5 => match o with
    | .val x => AfterCreate out x
        (if created.arr.length ≥ 2 then created.arr.tail.headD "" else "") s5
    | .ret r => CamPost cam lo hi out (.ret r : Out ExportResult Empty) s5
    | .exc => CamPost cam lo hi out (.exc : Out ExportResult Empty) s5) ?_ ?_
  · by_cases hx0 : (if created.arr.length ≥ 2 then created.arr.headD "" else "").data ≠ []
    · have hlen : created.arr.length ≥ 2 := by
        by_contra hc
        rw [if_neg hc] at hx0
        exact hx0 rfl
      rw [if_pos hx0]
      simp only [if_pos hlen] at hx0 ⊢
      have hlr : Lenient (fun (o : Out ExportResult String) s5 => match o with
          | .val x => AfterCreate out x (created.arr.tail.headD "") s5
          | .ret r => CamPost cam lo hi out (.ret r : Out ExportResult Empty) s5
          | .exc => CamPost cam lo hi out (.exc : Out ExportResult Empty) s5) :=
        ⟨fun s => hl.exc s, fun r s hr => hl.fail r s hr⟩
      refine wp_queryStrL hlr (fun renamed s5 e5 _ => ?_)
      refine wp_bind_quietL (C := fun _ => False) (R := WarningsGrow)
        (quiet_when (quiet_camWarn _)) hlr (fun _ s6 hext => ?_)
      have e6 := trace_eq_of_silent hext
      rw [wp_pure]
      have hk6 : NoKinds [.key] s6.trace := by
        rw [e6, e5]
        have q1 : (Cmd.mel "rename" [q (created.arr.headD ""),
          q (sanitizeMayaName (basenameNoExt out))]).kind = Kind.rename := rfl
        exact noKinds_snoc hk4 (by rw [q1]; decide)
      have hx : ¬ (if renamed.str.data ≠ [] then renamed.str
          else created.arr.headD "").data = [] := by
        split
        · assumption
        · exact hx0
      refine ⟨hk6, fun hc => ?_, fun hc => ?_⟩
      · rcases hc with hc | hc
        · exact absurd hc hx
        · refine ⟨s3.trace, created, ?_, hk, fun hn => hn.2.2 hc⟩
          rw [e6, e5, e4]
          exact List.prefix_append _ _
      · refine ⟨s3.trace, created, renamed, ?_, hk, ⟨hlen, hx0, fun e => hc (Or.inr e)⟩,
          rfl, rfl⟩
        rw [e6, e5, e4, List.append_assoc]
        rfl
    · rw [if_neg hx0, wp_pure]
      have hx1 : (if created.arr.length ≥ 2 then created.arr.headD "" else "").data = [] := by
        by_contra hc
        exact hx0 hc
      refine ⟨hk4, fun _ => ?_, fun hc => absurd (Or.inl hx1) hc⟩
      refine ⟨s3.trace, created, ?_, hk, fun hn => ?_⟩
      · rw [e4]
        exact List.prefix_refl _
      · rw [if_pos hn.1] at hx1
        exact hn.2.1 hx1
  rintro (x | r | _) s5 hI
  swap
  · exact hI
  swap
  · exact hI
  dsimp only at hI ⊢
  generalize (if created.arr.length ≥ 2 then created.arr.tail.headD "" else "") = sh at hI ⊢
  clear hk hk4 e4 l4 s3 s4
  -- the fallback, or the throwaway camera
  rw [wp_bind]
  refine wp_mono (P := roundPost
    (fun s6 => PreExport cam out lo hi s6) (CamPost cam lo hi out)) ?_ ?_
  · have hlr := lenient_roundPost (I := fun (s6 : Run σ CamLocals) => PreExport cam out lo hi s6)
      (lenient_camPost (σ := σ) (α := Unit) cam lo hi out)
    rw [wp_ite]
    split
    · rename_i hc
      rw [wp_bind]
      unfold camWarn
      rw [wp_modifyL]
      dsimp only
      unfold melExec
      simp only [M.bind_def, M.pure_def, M.bind_assoc, M.pure_bind]
      refine wp_bind_callL hlr ?_
      rw [wp_pure]
      refine ⟨[], ⟨cam, requests s5.trace, ?_, Or.inl ⟨rfl, ?_, ?_, ?_⟩⟩, ?_⟩
      · simp [SelectedAfter, selectCmd, requests]
      · exact noTempCamera_mono (hI.2.1 hc) (List.prefix_append _ _)
      · exact List.mem_append_right _ (List.mem_singleton.2 rfl)
      · intro c hm
        obtain ⟨y, hy, rfl⟩ := List.mem_map.1 hm
        exact fun e => hI.1 y hy (List.mem_singleton.2 e)
      · intro c hm
        exact absurd hm (List.not_mem_nil _)
    · rename_i hc
      obtain ⟨pre, created1, renamed, e5, hpre, hnc, hx, hsh⟩ := hI.2.2 hc
      refine useTempCamera_spec F cam out _ x sh lo hi t0 _ hlr s5 hI.1
        (fun s6 full shapes tail hp hsel htail => ?_)
      obtain ⟨t1, hsel, hkeys⟩ := hsel
      refine ⟨tail, ⟨full.arr.headD x, _, hsel, Or.inr ⟨shapes.arr.headD sh, t1, rfl, ?_,
        hkeys⟩⟩, htail⟩
      refine ⟨pre, created1, renamed, full, shapes, ?_, hpre, hnc, by rw [hx], by rw [hsh]⟩
      rw [e5, List.append_assoc] at hp
      rw [← hx]
      exact hp
  rintro (a | r | _) s6 hJ
  swap
  · intro r0 h0 hs
    cases h0
    exact hJ r rfl hs
  swap
  · intro r0 h0
    cases h0
  simp only [roundPost] at hJ
  dsimp only
  clear hI s5
  rename' s6 => s5
  -- the exporter settings
  refine wp_bind_quietL (C := OfKinds [Kind.setting, Kind.time]) (R := WarningsGrow)
    (quiet_mono (ofKinds_mono (by decide)) (quiet_setFbxExportDefaults))
    hl (fun _ s6 hext => ?_)
  replace hJ := preExport_extends hJ hext
  clear hext s5
  rename' s6 => s5
  refine wp_bind_quietL (C := OfKinds [Kind.setting, Kind.time]) (R := WarningsGrow)
    (quiet_mono (ofKinds_mono (by decide)) (quiet_melExec .setting "FBXExportCameras" _ rfl))
    hl (fun _ s6 hext => ?_)
  replace hJ := preExport_extends hJ hext
  clear hext s5
  rename' s6 => s5
  refine wp_bind_quietL (C := OfKinds [Kind.setting, Kind.time]) (R := WarningsGrow)
    (quiet_mono (ofKinds_mono (by decide)) (quiet_setFbxBakeRange lo hi))
    hl (fun _ s6 hext => ?_)
  replace hJ := preExport_extends hJ hext
  clear hext s5
  rename' s6 => s5
  refine wp_bind_quietL (C := OfKinds [Kind.setting, Kind.time]) (R := WarningsGrow)
    (quiet_mono (ofKinds_mono (by decide))
      (quiet_melExec .setting "FBXExportFileVersion" _ rfl))
    hl (fun _ s6 hext => ?_)
  replace hJ := preExport_extends hJ hext
  clear hext s5
  rename' s6 => s5
  refine wp_bind_quietL (C := OfKinds [Kind.setting, Kind.time]) (R := WarningsGrow)
    (quiet_mono (ofKinds_mono (by decide)) (quiet_melExec .setting "FBXExportUpAxis" _ rfl))
    hl (fun _ s6 hext => ?_)
  replace hJ := preExport_extends hJ hext
  clear hext s5
  rename' s6 => s5
  -- the export
  unfold fbxExport melExec
  simp only [M.bind_def, M.pure_def, M.bind_assoc, M.pure_bind]
  refine wp_bind_callL hl ?_
  generalize hs6 : (Run.mk
    (F s5.scene (Cmd.mel "FBXExport" ["-f", q (melPath out), "-s"])).2
    (s5.trace ++ [(Cmd.mel "FBXExport" ["-f", q (melPath out), "-s"],
      (F s5.scene (Cmd.mel "FBXExport" ["-f", q (melPath out), "-s"])).1)])
    s5.loc : Run σ CamLocals) = s6
  replace hJ : PostExport cam out lo hi s6 := by
    subst hs6
    obtain ⟨mid, ⟨node, t0, hsel, hside⟩, hmid⟩ := hJ
    refine ⟨mid, [], ⟨node, t0, ?_, ?_⟩, hmid, fun c hc => absurd hc (List.not_mem_nil _)⟩
    · unfold SelectedAfter at hsel ⊢
      show requests (s5.trace ++ _) = _
      rw [requests_append, hsel]
      simp [requests, fbxExportCmd]
    · rcases hside with ⟨h1, h2, h3, h4⟩ | ⟨sh, t1, h1, h2, h3⟩
      · exact Or.inl ⟨h1, noTempCamera_mono h2 (List.prefix_append _ _), h3, h4⟩
      · exact Or.inr ⟨sh, t1, h1, tempCamera_mono h2 (List.prefix_append _ _), h3⟩
  generalize (F s5.scene (Cmd.mel "FBXExport" ["-f", q (melPath out), "-s"])).1.ok = ok
  clear hs6 s5
  rename' s6 => s5
  refine wp_bind_whenFail ?_ hl (fun _ => ?_)
  · refine fails_bind quiet_cleanupTmp.noRet (fun _ => ?_)
    refine fails_bind (quiet_now (R := WarningsGrow)).noRet (fun _ => ?_)
    refine fails_bind (quiet_fileSizeOrZero (R := WarningsGrow) out).noRet (fun _ => ?_)
    refine fails_bind (quiet_getL (C := fun _ => True) (R := WarningsGrow)).noRet (fun _ => ?_)
    exact fails_ret _ rfl
  refine wp_bind_quietL (C := fun c => c.kind ∉ [Kind.key, Kind.select, Kind.export])
    (R := WarningsGrow)
    (quiet_mono (ofKinds_notin (by decide)) (quiet_scanFbxContent out))
    hl (fun _ s6 hext => ?_)
  replace hJ := postExport_extends hJ hext
  clear hext s5
  rename' s6 => s5
  refine wp_bind_quietL (C := fun c => c.kind ∉ [Kind.key, Kind.select, Kind.export])
    (R := WarningsGrow)
    (quiet_mono (ofKinds_notin (by decide)) (quiet_cleanupTmp))
    hl (fun _ s6 hext => ?_)
  replace hJ := postExport_extends hJ hext
  clear hext s5
  rename' s6 => s5
  refine wp_bind_quietL (C := fun c => c.kind ∉ [Kind.key, Kind.select, Kind.export])
    (R := WarningsGrow)
    (quiet_mono (ofKinds_notin (by decide)) (quiet_now))
    hl (fun now0 s6 hext => ?_)
  replace hJ := postExport_extends hJ hext
  clear hext s5
  rename' s6 => s5
  refine wp_bind_quietL (C := fun c => c.kind ∉ [Kind.key, Kind.select, Kind.export])
    (R := WarningsGrow)
    (quiet_mono (ofKinds_notin (by decide)) (quiet_fileSizeOrZero out))
    hl (fun fileSize s6 hext => ?_)
  replace hJ := postExport_extends hJ hext
  clear hext s5
  rename' s6 => s5
  rw [wp_bind, wp_getL]
  dsimp only
  rw [wp_ret]
  intro r hr _
  cases hr
  exact camGood_of_postExport hJ

/-- The function `exportCameraFbx`: every `return` that reports success comes after the
throwaway camera that the call created was keyed at the frames of the range, clipped, selected
and exported, or after the fallback. -/
theorem exportCameraFbx_spec (F : Facade σ) (cam out : String) (st en : Int)
    (opts : FbxExportOptions) (s : Run σ CamLocals) (hk : NoKinds [.key, .create] s.trace) :
    wp F (exportCameraFbx cam out st en opts)
      (CamPost cam (if en < st then en else st) (if en < st then st else en) out) s := by
  have hl := lenient_camPost (σ := σ) (α := Empty) cam (if en < st then en else st)
    (if en < st then st else en) out
  unfold exportCameraFbx
  simp only [M.bind_def, M.pure_def]
  refine wp_bind_quietL (C := fun c => c.kind ∉ [Kind.key, Kind.create]) (R := WarningsGrow)
    (quiet_mono (ofKinds_notin (by decide)) quiet_now) hl (fun t0 s1 hext => ?_)
  replace hk := noKinds_extends hk hext
  clear hext s
  refine wp_bind_quietL (C := fun c => c.kind ∉ [Kind.key, Kind.create]) (R := WarningsGrow)
    (quiet_mono (ofKinds_notin (by decide)) quiet_ensureFbxPlugin) hl (fun plugin s2 hext => ?_)
  replace hk := noKinds_extends hk hext
  clear hext s1
  refine wp_bind_whenFail (fails_ret _ rfl) hl (fun _ => ?_)
  refine wp_bind_quietL (C := fun c => c.kind ∉ [Kind.key, Kind.create]) (R := WarningsGrow)
    (quiet_mono (ofKinds_notin (by decide)) (quiet_nodeExists cam)) hl (fun e s3 hext => ?_)
  replace hk := noKinds_extends hk hext
  clear hext s2
  refine wp_bind_whenFail (fails_ret _ rfl) hl (fun _ => ?_)
  rw [wp_tryCatch]
  refine wp_mono (exportCameraFbxBody_spec F cam out st en opts t0 s3 hk) ?_
  rintro (a | r | _) s4 h4
  · exact nomatch a
  · exact h4
  · dsimp only
    refine wp_fails ?_ hl
    refine fails_bind quiet_cleanupTmp.noRet (fun _ => ?_)
    refine fails_bind (quiet_now (R := WarningsGrow)).noRet (fun _ => ?_)
    refine fails_bind (quiet_getL (C := fun _ => True) (R := WarningsGrow)).noRet (fun _ => ?_)
    exact fails_ret _ rfl

end CameraTie

section CameraMain
variable {σ ρ α : Type}

theorem runFn_result {L r0 : Type} (m : M σ L r0 Empty) (l0 : L) (F : Facade σ) (sc : σ) (r : r0)
    (h : (runFn m l0 F sc).result = some r) :
    (m.run F { scene := sc, trace := [], loc := l0 }).1 = .ret r
    ∧ (runFn m l0 F sc).trace = (m.run F { scene := sc, trace := [], loc := l0 }).2.trace := by
  unfold runFn at h ⊢
  generalize m.run F { scene := sc, trace := [], loc := l0 } = o at h ⊢
  rcases o with ⟨(a | r1 | _), s1⟩
  · exact nomatch a
  · simp only [Option.some.injEq] at h
    subst h
    exact ⟨rfl, rfl⟩
  · cases h

theorem mem_frameList (lo hi f : Int) : f ∈ frameList lo hi ↔ lo ≤ f ∧ f ≤ hi := by
  unfold frameList
  simp only [List.mem_map, List.mem_range]
  constructor
  · rintro ⟨i, hi1, rfl⟩
    omega
  · rintro ⟨h1, h2⟩
    refine ⟨(f - lo).toNat, ?_, ?_⟩ <;> omega

theorem frameList_ascending (lo hi : Int) : (frameList lo hi).Pairwise (fun a b => a < b) := by
  unfold frameList
  rw [List.pairwise_map]
  refine (List.pairwise_lt_range _).imp ?_
  intro a b hab
  omega

/-- C7 (frame-exactness of the camera pipeline), as the code has it. Let `lo` and `hi` be the
smaller and the larger of the two frame arguments (a reversed range is swapped), both `int`s
whose neighbours `lo - 1` and `hi + 1` are representable. Whenever `exportCameraFbx` returns
a result with `success = true`, against any host, one of two things happened. Either the
throwaway camera could not be created: the answer to the `camera` request does not name a
transform and a shape, the result carries the warning about exporting the original camera,
the original camera is selected and exported, and no request of the call writes a key. Or
the requests of the call are `t1 ++ clip ++ [select x] ++ mid ++ [FBXExport] ++ rest`, where
`x` is the camera that the call created (the node named by the answers to its `camera`,
`rename` and `ls` requests, the first node it created) and `sh` its shape: the
`setKeyframe -t` requests in `t1` are exactly those of the frames `lo, lo + 1, ..., hi` on
`x`, each once and in ascending order; `clip` is the four `cutKey` requests that clear the
keys at frames `≤ lo - 1` and `≥ hi + 1` on `x` and on `sh`; `x` is then selected; `mid`
only sets exporter settings and the refresh state; and `rest` writes no key, changes no
selection and exports nothing. -/
theorem camera_frame_exact (F : Facade σ) (sc : σ) (cam out : String) (st en : Int)
    (opts : FbxExportOptions) (r : ExportResult)
    (hfit : -2147483648 < min st en ∧ max st en < 2147483647)
    (hres : (runFn (exportCameraFbx cam out st en opts) {} F sc).result = some r)
    (hs : r.success = true) :
    (∀ f, f ∈ frameList (min st en) (max st en) ↔ min st en ≤ f ∧ f ≤ max st en)
    ∧ (frameList (min st en) (max st en)).Pairwise (fun a b => a < b)
    ∧ (FallbackExport cam out r.warnings
          (runFn (exportCameraFbx cam out st en opts) {} F sc).trace
        ∨ TempCameraExport out (min st en) (max st en)
          (runFn (exportCameraFbx cam out st en opts) {} F sc).trace) := by
  refine ⟨mem_frameList _ _, frameList_ascending _ _, ?_⟩
  have h := exportCameraFbx_spec F cam out st en opts { scene := sc, trace := [], loc := {} }
    (fun x hx => by cases hx)
  obtain ⟨h1, h2⟩ := runFn_result _ _ F sc r hres
  rw [h2]
  have e1 : (if en < st then en else st) = min st en := by
    rw [min_def]; split <;> split <;> omega
  have e2 : (if en < st then st else en) = max st en := by
    rw [max_def]; split <;> split <;> omega
  rw [e1, e2] at h
  exact h r h1 hs

end CameraMain

set_option maxRecDepth 1000000 in
/-- C7 on the frames 10 to 12 of a scene in which every command succeeds and the output has
2048 bytes: the call reports success without warnings; the requests that create, write
keys, select, export or delete are the creation of the throwaway camera, the transform key
and the focal-length key of the frames 10, 11, 12 on `|shot010` and its shape, the four
`cutKey` requests, the selection of `|shot010`, `FBXExport` and the deletion of `|shot010`;
the reversed range 12 to 10 gives the same requests. -/
theorem camera_frame_exact_witness :
    ((runFn (exportCameraFbx "|cam1" "out/shot010.fbx" 10 12 {}) {} (cameraScene true 2048)
        ()).result = some (makeResult true "out/shot010.fbx" 2048 0 [] [])
      ∧ frameList 10 12 = [10, 11, 12]
      ∧ cameraSteps (runFn (exportCameraFbx "|cam1" "out/shot010.fbx" 10 12 {}) {}
          (cameraScene true 2048) ()).trace
        = [createCameraCmd,
           .mel "setKeyframe" (keyTransformArgs "|shot010" 10),
           .mel "setKeyframe" ["-attribute", "\"focalLength\"", "-time", "10", "-value", "35",
             "\"|shot010|shot010Shape\""],
           .mel "setKeyframe" (keyTransformArgs "|shot010" 11),
           .mel "setKeyframe" ["-attribute", "\"focalLength\"", "-time", "11", "-value", "35",
             "\"|shot010|shot010Shape\""],
           .mel "setKeyframe" (keyTransformArgs "|shot010" 12),
           .mel "setKeyframe" ["-attribute", "\"focalLength\"", "-time", "12", "-value", "35",
             "\"|shot010|shot010Shape\""]]
          ++ clipCmds 10 12 "|shot010" "|shot010|shot010Shape"
          ++ [selectCmd "|shot010", fbxExportCmd "out/shot010.fbx",
              .mel "delete" ["\"|shot010\""]]
      ∧ requests (runFn (exportCameraFbx "|cam1" "out/shot010.fbx" 12 10 {}) {}
          (cameraScene true 2048) ()).trace
        = requests (runFn (exportCameraFbx "|cam1" "out/shot010.fbx" 10 12 {}) {}
          (cameraScene true 2048) ()).trace)
    ∧ TempCameraExport "out/shot010.fbx" 10 12
        (runFn (exportCameraFbx "|cam1" "out/shot010.fbx" 10 12 {}) {} (cameraScene true 2048)
          ()).trace :=
  ⟨⟨by decide!, by decide!, by decide!, by decide!⟩,
   (camera_frame_exact (cameraScene true 2048) () "|cam1" "out/shot010.fbx" 10 12 {}
      (makeResult true "out/shot010.fbx" 2048 0 [] []) (by decide) (by decide!) rfl).2.2.resolve_left
      (fun h => absurd h.2.1 (List.not_mem_nil _))⟩

set_option maxRecDepth 1000000 in
/-- C7 at a run against its wording: the host cannot create the throwaway camera (`camera`
answers no name). `exportCameraFbx` on the frames 10 to 12 returns `success = true` with the
fallback warning; the only requests that create, write keys, select, export or delete are
the failed `camera` request, the selection of the original camera `|cam1` and `FBXExport`:
no frame is keyed and nothing is clipped, the original camera is exported with the keys it
has. -/
theorem camera_fallback_exports_original_unclipped :
    (runFn (exportCameraFbx "|cam1" "out/shot010.fbx" 10 12 {}) {} noTempCameraScene
        ()).result
      = some (makeResult true "out/shot010.fbx" 2048 0 [tempCameraWarning] [])
    ∧ cameraSteps (runFn (exportCameraFbx "|cam1" "out/shot010.fbx" 10 12 {}) {}
        noTempCameraScene ()).trace
      = [createCameraCmd, selectCmd "|cam1", fbxExportCmd "out/shot010.fbx"]
    ∧ (∀ c ∈ requests (runFn (exportCameraFbx "|cam1" "out/shot010.fbx" 10 12 {}) {}
        noTempCameraScene ()).trace, c.kind ≠ Kind.key) := by
  refine ⟨by decide!, by decide!, by decide!⟩

/-! ## Residual namespaces in the combined pipeline (C16) -/

set_option maxRecDepth 100000 in
/-- C16, the combined pipeline at a failing input: the renames of the joints have no effect, the
joints queried again after the renames are `|ns:Root|ns:spine` and `|ns:Root`, both with a
namespace in the leaf; `exportSkeletonBlendShapeFbx` adds a warning, sends `FBXExport` on these
names and returns `success = true`. -/
theorem exportSkeletonBlendShapeFbx_exports_residual_namespaces :
    namespacedCount ["|ns:Root|ns:spine", "|ns:Root"] = 2
    ∧ (runFn (exportSkeletonBlendShapeFbx "|ns:Root" [] [] "out/rig.fbx" 1 24 {}) {}
        lockedRigScene ()).result
      = some (makeResult true "out/rig.fbx" 512 0
          ["Failed to rename 2 joint(s) — exported bone names may contain namespace prefixes",
           "2 joint(s) still have namespace prefixes after rename",
           "Detected namespaces in skeleton joints; stripped during export",
           "Exported FBX contains no BlendShape/Shape data — UE may not import MorphTargets from this file"] [])
    ∧ Cmd.mel "FBXExport" ["-f", q (melPath "out/rig.fbx"), "-s"]
        ∈ requests (runFn (exportSkeletonBlendShapeFbx "|ns:Root" [] [] "out/rig.fbx" 1 24 {}) {}
            lockedRigScene ()).trace
    ∧ (∀ a, Cmd.mel "duplicate" a
        ∉ requests (runFn (exportSkeletonBlendShapeFbx "|ns:Root" [] [] "out/rig.fbx" 1 24 {}) {}
            lockedRigScene ()).trace) := by
  refine ⟨by decide!, by decide!, by decide!, ?_⟩
  intro a h
  have : ∀ c ∈ requests (runFn (exportSkeletonBlendShapeFbx "|ns:Root" [] [] "out/rig.fbx" 1 24 {}) {}
            lockedRigScene ()).trace, c.kind ≠ Kind.create := by decide!
  exact this _ h rfl

/-! ## The export loop of the batch exporter (C19, C20) -/

section ExportLoop
variable {τ : Type}

theorem getD_set_item (l : List ExportItem) (j k : Nat) (a : ExportItem) :
    (l.set j a).getD k default = if j = k ∧ j < l.length then a else l.getD k default := by
  simp only [List.getD_eq_getElem?_getD, List.getElem?_set]
  by_cases h : j = k
  · subst h
    by_cases hj : j < l.length
    · simp [hj]
    · simp [hj, List.getElem?_eq_none (Nat.le_of_not_lt hj)]
  · simp [h]

theorem markCancelled_spec (rest : List Nat) (s : ExportRun τ) (hnd : rest.Nodup)
    (hr : ∀ idx ∈ rest, idx < s.exportItems.length) :
    (markCancelled rest s).calls = s.calls
    ∧ (markCancelled rest s).world = s.world
    ∧ (markCancelled rest s).exportedCount = s.exportedCount
    ∧ (markCancelled rest s).errorCount = s.errorCount
    ∧ (∀ idx, (markCancelled rest s).exportItems.getD idx default =
        if idx ∈ rest ∧ (s.exportItems.getD idx default).waiting = true then
          (s.exportItems.getD idx default).cancel
        else s.exportItems.getD idx default)
    ∧ (markCancelled rest s).cancelledCount = s.cancelledCount
        + ((rest.filter fun idx => (s.exportItems.getD idx default).waiting).length : Int) := by
  induction rest generalizing s with
  | nil => simp [markCancelled]
  | cons j t ih =>
    have hjt : j ∉ t := (List.nodup_cons.mp hnd).1
    have htn : t.Nodup := (List.nodup_cons.mp hnd).2
    have hj : j < s.exportItems.length := hr j (List.mem_cons_self _ _)
    unfold markCancelled
    by_cases ho : (s.exportItems.getD j default).waiting = true
    · rw [if_pos ho]
      have hr1 : ∀ idx ∈ t, idx < (s.exportItems.set j (s.exportItems.getD j default).cancel).length := by
        intro idx h; rw [List.length_set]; exact hr idx (List.mem_cons_of_mem _ h)
      obtain ⟨h1, h2, h3, h4, h5, h6⟩ := ih { s with
        exportItems := s.exportItems.set j (s.exportItems.getD j default).cancel
        cancelledCount := s.cancelledCount + 1 } htn hr1
      refine ⟨h1, h2, h3, h4, ?_, ?_⟩
      · intro idx
        by_cases hi : j = idx
        · subst hi
          have e1 : (s.exportItems.set j (s.exportItems.getD j default).cancel).getD j default
              = (s.exportItems.getD j default).cancel := by
            rw [getD_set_item, if_pos ⟨rfl, hj⟩]
          rw [h5 j]
          simp only [e1]
          rw [if_neg (fun h => hjt h.1), if_pos ⟨List.mem_cons_self _ _, ho⟩]
        · have hi2 : ¬ idx = j := fun h => hi h.symm
          have e2 : (s.exportItems.set j (s.exportItems.getD j default).cancel).getD idx default
              = s.exportItems.getD idx default := by
            rw [getD_set_item, if_neg (fun h => hi h.1)]
          rw [h5 idx]
          simp only [e2, List.mem_cons, hi2, false_or]
      · rw [h6]
        have hf : (t.filter fun idx => ((s.exportItems.set j
              (s.exportItems.getD j default).cancel).getD idx default).waiting)
            = t.filter fun idx => (s.exportItems.getD idx default).waiting := by
          apply List.filter_congr
          intro idx hidx
          have hi : ¬ j = idx := fun h => hjt (h ▸ hidx)
          simp [getD_set_item, hi]
        rw [hf, List.filter_cons]
        simp only [ho, if_true, List.length_cons]
        push_cast
        ring
    · rw [if_neg ho]
      obtain ⟨h1, h2, h3, h4, h5, h6⟩ := ih s htn (fun idx h => hr idx (List.mem_cons_of_mem _ h))
      refine ⟨h1, h2, h3, h4, ?_, ?_⟩
      · intro idx
        rw [h5 idx]
        by_cases hi : idx = j
        · subst hi
          rw [if_neg (fun h => hjt h.1), if_neg (fun h => ho h.2)]
        · simp only [List.mem_cons, hi, false_or]
      · rw [h6, List.filter_cons, if_neg ho]

theorem plannedCall_status (host : UiHost τ) (a b : Int) (o : FbxExportOptions)
    (it : ExportItem) (st msg : String) :
    plannedCall host a b o { it with status := st, message := msg } = plannedCall host a b o it :=
  rfl

theorem plannedCall_set (host : UiHost τ) (a b : Int) (o : FbxExportOptions)
    (l : List ExportItem) (j k : Nat) (st msg : String) :
    plannedCall host a b o ((l.set j { l.getD j default with status := st, message := msg }).getD
      k default) = plannedCall host a b o (l.getD k default) := by
  rw [getD_set_item]
  by_cases h : j = k ∧ j < l.length
  · rw [if_pos h, plannedCall_status, h.1]
  · rw [if_neg h]

theorem exportLoop_spec (host : UiHost τ) (hnc : ∀ w, host.cancelRequested w = false)
    (failed : List Int) (a b : Int) (o : FbxExportOptions) (l0 : List ExportItem)
    (rest : List Nat) :
    ∀ (i : Nat) (s : ExportRun τ),
      (∀ k, plannedCall host a b o (s.exportItems.getD k default)
        = plannedCall host a b o (l0.getD k default)) →
      ∃ newCalls, (exportLoop host failed a b o i rest s).calls = s.calls ++ newCalls
        ∧ newCalls.map Prod.fst
          = ((rest.enumFrom i).filter fun p => !bakeFailed failed p.1).filterMap
              (fun p => plannedCall host a b o (l0.getD p.2 default))
        ∧ (exportLoop host failed a b o i rest s).errorCount = s.errorCount
          + (((rest.enumFrom i).filter fun p => bakeFailed failed p.1).length : Int)
          + (((rest.enumFrom i).filter (fun p => !bakeFailed failed p.1
              && (plannedCall host a b o (l0.getD p.2 default)).isNone)).length : Int)
          + ((newCalls.filter fun c => !c.2.success).length : Int)
        ∧ (exportLoop host failed a b o i rest s).exportedCount = s.exportedCount
          + ((newCalls.filter fun c => c.2.success).length : Int)
        ∧ (exportLoop host failed a b o i rest s).cancelledCount = s.cancelledCount := by
  induction rest with
  | nil =>
    intro i s _
    exact ⟨[], by simp [exportLoop], by simp, by simp [exportLoop], by simp [exportLoop],
      by simp [exportLoop]⟩
  | cons idx t ih =>
    intro i s hinv
    unfold exportLoop
    rw [if_neg (by rw [hnc]; exact Bool.false_ne_true)]
    by_cases hf : failed.contains (i : Int) = true
    · rw [if_pos hf]
      obtain ⟨nc, h1, h2, h3, h4, h5⟩ := ih (i + 1)
        { s with errorCount := s.errorCount + 1, world := host.processEvents s.world } hinv
      have hb : bakeFailed failed i = true := hf
      refine ⟨nc, h1, ?_, ?_, h4, h5⟩
      · rw [h2]; simp only [List.enumFrom_cons, List.filter_cons, List.filterMap_cons, Bool.not_false, Bool.not_true, if_true, if_false, Bool.false_eq_true, Bool.true_and, Bool.false_and, Option.isNone_none, Option.isNone_some, List.length_cons, List.map_cons, Nat.cast_add, Nat.cast_one, List.append_assoc, List.singleton_append, List.filter_nil, List.length_nil, Nat.cast_zero, hb]
      · rw [h3]; simp only [List.enumFrom_cons, List.filter_cons, List.filterMap_cons, Bool.not_false, Bool.not_true, if_true, if_false, Bool.false_eq_true, Bool.true_and, Bool.false_and, Option.isNone_none, Option.isNone_some, List.length_cons, List.map_cons, Nat.cast_add, Nat.cast_one, List.append_assoc, List.singleton_append, List.filter_nil, List.length_nil, Nat.cast_zero, hb]; ring
    · rw [if_neg hf]
      have hb : bakeFailed failed i = false := by
        simpa [bakeFailed] using hf
      have hplan : pipelineCallOf (host.absoluteFilePath (s.exportItems.getD idx default).filename)
          a b o (s.exportItems.getD idx default)
          = plannedCall host a b o (l0.getD idx default) := hinv idx
      simp only []
      cases hp : plannedCall host a b o (l0.getD idx default) with
      | none =>
        rw [hplan, hp]
        simp only []
        obtain ⟨nc, h1, h2, h3, h4, h5⟩ := ih (i + 1)
          { s with
            exportItems := (s.exportItems.set idx
                { s.exportItems.getD idx default with status := "exporting" }).set idx
              { s.exportItems.getD idx default with status := "error", message := "Unknown export type: " ++ (s.exportItems.getD idx default).type }
            errorCount := s.errorCount + 1
            world := host.processEvents (host.processEvents s.world) }
          (by
            intro k
            rw [List.set_set, plannedCall_set]
            exact hinv k)
        refine ⟨nc, h1, ?_, ?_, h4, h5⟩
        · rw [h2]; simp only [List.enumFrom_cons, List.filter_cons, List.filterMap_cons, Bool.not_false, Bool.not_true, if_true, if_false, Bool.false_eq_true, Bool.true_and, Bool.false_and, Option.isNone_none, Option.isNone_some, List.length_cons, List.map_cons, Nat.cast_add, Nat.cast_one, List.append_assoc, List.singleton_append, List.filter_nil, List.length_nil, Nat.cast_zero, hb, hp]
        · rw [h3]; simp only [List.enumFrom_cons, List.filter_cons, List.filterMap_cons, Bool.not_false, Bool.not_true, if_true, if_false, Bool.false_eq_true, Bool.true_and, Bool.false_and, Option.isNone_none, Option.isNone_some, List.length_cons, List.map_cons, Nat.cast_add, Nat.cast_one, List.append_assoc, List.singleton_append, List.filter_nil, List.length_nil, Nat.cast_zero, hb, hp]; ring
      | some call =>
        rw [hplan, hp]
        simp only []
        by_cases hs : (host.invoke (host.processEvents s.world) call).1.success = true
        · rw [if_pos hs]
          obtain ⟨nc, h1, h2, h3, h4, h5⟩ := ih (i + 1)
            { s with
              exportItems := (s.exportItems.set idx
                  { s.exportItems.getD idx default with status := "exporting" }).set idx
                { s.exportItems.getD idx default with status := "done", message := doneMessage (host.invoke (host.processEvents s.world) call).1 }
              exportedCount := s.exportedCount + 1
              world := host.processEvents (host.invoke (host.processEvents s.world) call).2
              calls := s.calls ++ [(call, (host.invoke (host.processEvents s.world) call).1)] }
            (by
              intro k
              rw [List.set_set, plannedCall_set]
              exact hinv k)
          refine ⟨(call, (host.invoke (host.processEvents s.world) call).1) :: nc, ?_, ?_, ?_, ?_, h5⟩
          · rw [h1]; simp
          · simp only [List.enumFrom_cons, List.filter_cons, List.filterMap_cons, Bool.not_false, Bool.not_true, if_true, if_false, Bool.false_eq_true, Bool.true_and, Bool.false_and, Option.isNone_none, Option.isNone_some, List.length_cons, List.map_cons, Nat.cast_add, Nat.cast_one, List.append_assoc, List.singleton_append, List.filter_nil, List.length_nil, Nat.cast_zero, hb, hp, h2]
          · rw [h3]; simp only [List.enumFrom_cons, List.filter_cons, List.filterMap_cons, Bool.not_false, Bool.not_true, if_true, if_false, Bool.false_eq_true, Bool.true_and, Bool.false_and, Option.isNone_none, Option.isNone_some, List.length_cons, List.map_cons, Nat.cast_add, Nat.cast_one, List.append_assoc, List.singleton_append, List.filter_nil, List.length_nil, Nat.cast_zero, hb, hp, hs]
          · rw [h4]; simp only [List.enumFrom_cons, List.filter_cons, List.filterMap_cons, Bool.not_false, Bool.not_true, if_true, if_false, Bool.false_eq_true, Bool.true_and, Bool.false_and, Option.isNone_none, Option.isNone_some, List.length_cons, List.map_cons, Nat.cast_add, Nat.cast_one, List.append_assoc, List.singleton_append, List.filter_nil, List.length_nil, Nat.cast_zero, hs]; ring
        · rw [if_neg hs]
          obtain ⟨nc, h1, h2, h3, h4, h5⟩ := ih (i + 1)
            { s with
              exportItems := (s.exportItems.set idx
                  { s.exportItems.getD idx default with status := "exporting" }).set idx
                { s.exportItems.getD idx default with status := "error", message := errorMessage (host.invoke (host.processEvents s.world) call).1 }
              errorCount := s.errorCount + 1
              world := host.processEvents (host.invoke (host.processEvents s.world) call).2
              calls := s.calls ++ [(call, (host.invoke (host.processEvents s.world) call).1)] }
            (by
              intro k
              rw [List.set_set, plannedCall_set]
              exact hinv k)
          refine ⟨(call, (host.invoke (host.processEvents s.world) call).1) :: nc, ?_, ?_, ?_, ?_, h5⟩
          · rw [h1]; simp
          · simp only [List.enumFrom_cons, List.filter_cons, List.filterMap_cons, Bool.not_false, Bool.not_true, if_true, if_false, Bool.false_eq_true, Bool.true_and, Bool.false_and, Option.isNone_none, Option.isNone_some, List.length_cons, List.map_cons, Nat.cast_add, Nat.cast_one, List.append_assoc, List.singleton_append, List.filter_nil, List.length_nil, Nat.cast_zero, hb, hp, h2]
          · rw [h3]; simp only [List.enumFrom_cons, List.filter_cons, List.filterMap_cons, Bool.not_false, Bool.not_true, if_true, if_false, Bool.false_eq_true, Bool.true_and, Bool.false_and, Option.isNone_none, Option.isNone_some, List.length_cons, List.map_cons, Nat.cast_add, Nat.cast_one, List.append_assoc, List.singleton_append, List.filter_nil, List.length_nil, Nat.cast_zero, hb, hp, hs]; ring
          · rw [h4]; simp only [List.enumFrom_cons, List.filter_cons, List.filterMap_cons, Bool.not_false, Bool.not_true, if_true, if_false, Bool.false_eq_true, Bool.true_and, Bool.false_and, Option.isNone_none, Option.isNone_some, List.length_cons, List.map_cons, Nat.cast_add, Nat.cast_one, List.append_assoc, List.singleton_append, List.filter_nil, List.length_nil, Nat.cast_zero, hs]

theorem plannedCall_markBakeFailures (host : UiHost τ) (a b : Int) (o : FbxExportOptions)
    (sel : List Nat) (failed : List Int) (l : List ExportItem) (k : Nat) :
    plannedCall host a b o ((markBakeFailures sel failed l).getD k default)
      = plannedCall host a b o (l.getD k default) := by
  unfold markBakeFailures
  induction failed generalizing l with
  | nil => rfl
  | cons fi t ih =>
    rw [List.foldl_cons]
    by_cases h : 0 ≤ fi ∧ fi < (sel.length : Int)
    · rw [if_pos h, ih]
      exact plannedCall_set host a b o l _ k _ _
    · rw [if_neg h, ih]

/-- C20, a failing item never aborts the batch: in a run in which the cancel flag is never set,
the pipeline calls made are, in order, the planned calls of the selected items that did not fail
in the bake phase, one call for each such item of a known type, whatever the results; the error
counter is the number of selected items that failed in the bake phase, plus those of an unknown
type, plus the calls that returned `success = false`; nothing is counted as cancelled. -/
theorem failing_item_never_aborts (host : UiHost τ)
    (hnc : ∀ w, host.cancelRequested w = false) (exportItems : List ExportItem)
    (failed : List Int) (a b : Int) (o : FbxExportOptions) (w : τ) :
    (exportPhase host exportItems failed a b o w).calls.map Prod.fst
      = (((selectedIndicesOf exportItems).enumFrom 0).filter
            fun p => !bakeFailed failed p.1).filterMap
          (fun p => plannedCall host a b o (exportItems.getD p.2 default))
    ∧ (exportPhase host exportItems failed a b o w).errorCount
      = ((((selectedIndicesOf exportItems).enumFrom 0).filter
            fun p => bakeFailed failed p.1).length : Int)
        + ((((selectedIndicesOf exportItems).enumFrom 0).filter (fun p => !bakeFailed failed p.1
            && (plannedCall host a b o (exportItems.getD p.2 default)).isNone)).length : Int)
        + ((((exportPhase host exportItems failed a b o w).calls).filter
            fun c => !c.2.success).length : Int)
    ∧ (exportPhase host exportItems failed a b o w).exportedCount
      = ((((exportPhase host exportItems failed a b o w).calls).filter
            fun c => c.2.success).length : Int)
    ∧ (exportPhase host exportItems failed a b o w).cancelledCount = 0 := by
  obtain ⟨nc, h1, h2, h3, h4, h5⟩ := exportLoop_spec host hnc failed a b o exportItems
    (selectedIndicesOf exportItems) 0
    { exportItems := markBakeFailures (selectedIndicesOf exportItems) failed exportItems
      world := w }
    (fun k => plannedCall_markBakeFailures host a b o _ failed exportItems k)
  have hc : (exportPhase host exportItems failed a b o w).calls = nc := by
    unfold exportPhase; rw [h1]; rfl
  unfold exportPhase at hc ⊢
  rw [hc]
  refine ⟨h2, ?_, ?_, h5⟩
  · rw [h3]; simp
  · rw [h4]; simp

/-- The run of `failing_item_never_aborts` on four selected items: a camera, a skeleton whose
export fails, an item of unknown type, and a camera that failed in the bake phase. -/
theorem failing_item_never_aborts_witness :
    (∀ w, cameraOnlyHost.cancelRequested w = false)
    ∧ (exportPhase cameraOnlyHost
        [{ type := "camera", node := "|cam1", filename := "a.fbx", selected := true },
         { type := "skeleton", node := "|rig", filename := "b.fbx", selected := true },
         { type := "light", selected := true },
         { type := "camera", node := "|cam2", filename := "c.fbx", selected := true }]
        [3] 1 24 {} ()).errorCount = 3 := by
  refine ⟨fun _ => rfl, ?_⟩
  rw [(failing_item_never_aborts cameraOnlyHost (fun _ => rfl)
        [{ type := "camera", node := "|cam1", filename := "a.fbx", selected := true },
         { type := "skeleton", node := "|rig", filename := "b.fbx", selected := true },
         { type := "light", selected := true },
         { type := "camera", node := "|cam2", filename := "c.fbx", selected := true }]
        [3] 1 24 {} ()).2.1]
  decide

/-- C19 at a concrete run: two selected cameras, the second of which failed in the bake phase,
and the cancel flag is set before the first item. No pipeline is called and the first item is
cancelled, but the second keeps the status `error` and is not counted as cancelled. -/
theorem cancel_keeps_bake_failure :
    (exportPhase cancelledHost
        [{ type := "camera", node := "|cam1", selected := true },
         { type := "camera", node := "|cam2", selected := true }] [1] 1 24 {} ()).calls = []
    ∧ (exportPhase cancelledHost
        [{ type := "camera", node := "|cam1", selected := true },
         { type := "camera", node := "|cam2", selected := true }] [1] 1 24 {} ()).exportItems.map
          (fun it => it.status) = ["cancelled", "error"]
    ∧ (exportPhase cancelledHost
        [{ type := "camera", node := "|cam1", selected := true },
         { type := "camera", node := "|cam2", selected := true }] [1] 1 24 {} ()).cancelledCount
        = 1 := by
  decide

/-- C19, amended: when the cancel flag is set at the boundary before position `i`, where `rest`
holds the indices of the items `i..n-1`, the loop ends without a further pipeline call; every
one of these items whose status is `pending` or `exporting` becomes `cancelled` with the
message "Cancelled by user", every other item is left as it is, and the cancelled counter grows
by the number of the items marked. -/
theorem cancel_marks_waiting (host : UiHost τ) (failed : List Int) (a b : Int)
    (o : FbxExportOptions) (i : Nat) (rest : List Nat) (s : ExportRun τ)
    (hc : host.cancelRequested s.world = true) (hnd : rest.Nodup)
    (hr : ∀ idx ∈ rest, idx < s.exportItems.length) :
    (exportLoop host failed a b o i rest s).calls = s.calls
    ∧ (∀ idx, (exportLoop host failed a b o i rest s).exportItems.getD idx default =
        if idx ∈ rest ∧ (s.exportItems.getD idx default).waiting = true then
          (s.exportItems.getD idx default).cancel
        else s.exportItems.getD idx default)
    ∧ (exportLoop host failed a b o i rest s).cancelledCount = s.cancelledCount
        + ((rest.filter fun idx => (s.exportItems.getD idx default).waiting).length : Int) := by
  have h : exportLoop host failed a b o i rest s = markCancelled rest s := by
    cases rest with
    | nil => rfl
    | cons idx t => unfold exportLoop; rw [if_pos hc]
  rw [h]
  obtain ⟨h1, _, _, _, h5, h6⟩ := markCancelled_spec rest s hnd hr
  exact ⟨h1, h5, h6⟩

/-- The run of `cancel_marks_waiting` at the boundary before the second of three items, after
the first was exported: the second is pending, the third failed in the bake phase. -/
theorem cancel_marks_waiting_witness :
    (exportLoop cancelledHost [2] 1 24 {} 1 [1, 2]
        { exportItems := [{ type := "camera", status := "done" }, { type := "camera" },
            { type := "camera", status := "error" }], exportedCount := 1, world := () }).calls = []
    ∧ (exportLoop cancelledHost [2] 1 24 {} 1 [1, 2]
        { exportItems := [{ type := "camera", status := "done" }, { type := "camera" },
            { type := "camera", status := "error" }], exportedCount := 1, world := () }).cancelledCount
        = 0 + (([1, 2].filter fun idx => (([{ type := "camera", status := "done" },
            { type := "camera" }, { type := "camera", status := "error" }] :
              List ExportItem).getD idx default).waiting).length : Int) :=
  ⟨(cancel_marks_waiting cancelledHost [2] 1 24 {} 1 [1, 2]
      { exportItems := [{ type := "camera", status := "done" }, { type := "camera" },
          { type := "camera", status := "error" }], exportedCount := 1, world := () }
      rfl (by decide) (by decide)).1,
   (cancel_marks_waiting cancelledHost [2] 1 24 {} 1 [1, 2]
      { exportItems := [{ type := "camera", status := "done" }, { type := "camera" },
          { type := "camera", status := "error" }], exportedCount := 1, world := () }
      rfl (by decide) (by decide)).2.2⟩

end ExportLoop

/-! ## Namespace stripping (C21) -/

theorem rfindAux_absent (c : Char) (xs : List Char) (i : Nat) (acc : Option Nat)
    (h : c ∉ xs) : rfindAux c xs i acc = acc := by
  induction xs generalizing i acc with
  | nil => rfl
  | cons x t ih =>
    have hx : ¬ x = c := fun e => h (e ▸ List.mem_cons_self _ _)
    have ht : c ∉ t := fun e => h (List.mem_cons_of_mem _ e)
    simp only [rfindAux, if_neg hx]
    exact ih _ _ ht

theorem rfindAux_present (c : Char) (xs : List Char) (i : Nat) (acc : Option Nat)
    (h : c ∈ xs) :
    ∃ k, rfindAux c xs i acc = some (i + k) ∧ xs.take (k + 1) = xs.take k ++ [c]
      ∧ c ∉ xs.drop (k + 1) := by
  induction xs generalizing i acc with
  | nil => cases h
  | cons x t ih =>
    by_cases ht : c ∈ t
    · obtain ⟨k, h1, h2, h3⟩ := ih (i + 1) (if x = c then some i else acc) ht
      refine ⟨k + 1, ?_, ?_, ?_⟩
      · simp only [rfindAux]; rw [h1]; congr 1; omega
      · simp only [List.take_succ_cons, List.cons_append]; rw [h2]
      · simpa using h3
    · have hx : x = c := by
        rcases List.mem_cons.mp h with e | e
        · exact e.symm
        · exact absurd e ht
      refine ⟨0, ?_, ?_, ?_⟩
      · simp only [rfindAux, if_pos hx]
        rw [rfindAux_absent c t _ _ ht]; rfl
      · simp [hx]
      · simpa using ht

/-- C21, `stripAllNamespaces` removes everything up to and including the last `:`: the result
holds no `:`, the input is some prefix followed by the result, where the prefix is empty or ends
in `:`, and a name without `:` is returned unchanged. -/
theorem stripAllNamespaces_spec (name : String) :
    ':' ∉ (stripAllNamespaces name).data
    ∧ (∃ pre : List Char, name.data = pre ++ (stripAllNamespaces name).data
        ∧ (pre = [] ∨ pre.getLast? = some ':'))
    ∧ (':' ∉ name.data → stripAllNamespaces name = name) := by
  by_cases h : ':' ∈ name.data
  · obtain ⟨k, h1, h2, h3⟩ := rfindAux_present ':' name.data 0 none h
    have hr : rfind name ':' = some k := by
      unfold rfind; rw [h1]; simp
    have hs : (stripAllNamespaces name).data = name.data.drop (k + 1) := by
      unfold stripAllNamespaces; rw [hr]; rfl
    refine ⟨by rw [hs]; exact h3, ⟨name.data.take (k + 1), ?_, Or.inr ?_⟩, fun h' => absurd h h'⟩
    · rw [hs, List.take_append_drop]
    · rw [h2]; simp
  · have hr : rfind name ':' = none := rfindAux_absent ':' name.data 0 none h
    have hs : stripAllNamespaces name = name := by
      unfold stripAllNamespaces; rw [hr]
    exact ⟨by rw [hs]; exact h, ⟨[], by rw [hs]; rfl, Or.inl rfl⟩, fun _ => hs⟩

/-! ## Token counts (C26) -/

theorem scanCount_skip (needle : List Char) (xs : List Char) (k : Nat) :
    scanCount needle xs k = scanCount needle (xs.drop k) 0 := by
  induction xs generalizing k with
  | nil => cases k <;> simp [scanCount]
  | cons x t ih =>
    cases k with
    | zero => rfl
    | succ k => simp only [scanCount, List.drop_succ_cons]; exact ih k

theorem findAux_none (needle xs : List Char) (i : Nat) (h : findAux needle xs i = none) :
    scanCount needle xs 0 = 0 ∧ ¬ needle <:+: xs := by
  induction xs generalizing i with
  | nil =>
    simp only [findAux] at h
    have hn : ¬ needle = [] := fun e => by simp [e] at h
    exact ⟨rfl, fun hi => hn (List.infix_nil.mp hi)⟩
  | cons x t ih =>
    simp only [findAux] at h
    by_cases hp : needle.isPrefixOf (x :: t) = true
    · simp [hp] at h
    · simp only [hp] at h
      obtain ⟨h1, h2⟩ := ih (i + 1) (by simpa using h)
      refine ⟨by simp only [scanCount, hp]; simpa using h1, fun hi => ?_⟩
      rcases List.infix_cons_iff.mp hi with hpre | hin
      · exact hp (List.isPrefixOf_iff_prefix.mpr hpre)
      · exact h2 hin

theorem findAux_some (needle xs : List Char) (i p : Nat) (hn : needle ≠ [])
    (h : findAux needle xs i = some p) :
    ∃ k, p = i + k ∧ k + needle.length ≤ xs.length ∧ needle <:+: xs
      ∧ scanCount needle xs 0 = 1 + scanCount needle (xs.drop (k + needle.length)) 0 := by
  induction xs generalizing i with
  | nil => simp [findAux, hn] at h
  | cons x t ih =>
    simp only [findAux] at h
    by_cases hp : needle.isPrefixOf (x :: t) = true
    · simp only [hp, if_true, Option.some.injEq] at h
      have hpre : needle <+: x :: t := List.isPrefixOf_iff_prefix.mp hp
      have hlen : 0 < needle.length := List.length_pos.mpr hn
      refine ⟨0, by omega, by simpa using hpre.length_le, hpre.isInfix, ?_⟩
      simp only [scanCount, hp, if_true]
      rw [scanCount_skip]
      have : 0 + needle.length = (needle.length - 1) + 1 := by omega
      rw [this, List.drop_succ_cons]
    · simp only [hp] at h
      obtain ⟨k, h1, h2, h3, h4⟩ := ih (i + 1) (by simpa using h)
      refine ⟨k + 1, by omega, by simp only [List.length_cons]; omega,
        List.infix_cons h3, ?_⟩
      simp only [scanCount, hp]
      have : k + 1 + needle.length = (k + needle.length) + 1 := by omega
      rw [this, List.drop_succ_cons]
      simpa using h4

theorem countLoop_spec (data needle : List Char) (hn : needle ≠ []) (fuel : Nat) :
    ∀ pos c, pos ≤ data.length → data.length - pos < fuel →
      ∃ m, countLoop data needle fuel pos c = some (c + m)
        ∧ m * needle.length ≤ data.length - pos
        ∧ (m = 0 ↔ ¬ needle <:+: data.drop pos)
        ∧ m = scanCount needle (data.drop pos) 0 := by
  induction fuel with
  | zero => intro pos c _ h; omega
  | succ fuel ih =>
    intro pos c hpos hfuel
    have hfind : find data needle pos = findAux needle (data.drop pos) pos := by
      unfold find; rw [if_neg (by omega)]
    simp only [countLoop, hfind]
    cases hf : findAux needle (data.drop pos) pos with
    | none =>
      obtain ⟨h1, h2⟩ := findAux_none _ _ _ hf
      exact ⟨0, rfl, by simp, by simp [h2], h1.symm⟩
    | some p =>
      obtain ⟨k, h1, h2, h3, h4⟩ := findAux_some _ _ _ _ hn hf
      have hlen : 0 < needle.length := List.length_pos.mpr hn
      rw [List.length_drop] at h2
      obtain ⟨m, e1, e2, e3, e4⟩ := ih (p + needle.length) (c + 1) (by omega) (by omega)
      refine ⟨m + 1, ?_, ?_, ?_, ?_⟩
      · simp only []; rw [e1]; congr 1; omega
      · have : (m + 1) * needle.length = m * needle.length + needle.length := by ring
        omega
      · simp [h3]
      · rw [h4, List.drop_drop]
        have : pos + (k + needle.length) = p + needle.length := by omega
        rw [this, ← e4, add_comm]

/-- C26, `countTokenOccurrences` for a non-empty token ends and returns the number of
non-overlapping occurrences that the scan from left to right finds: this number is 0 exactly when
the token is not a substring of the data, and the counted occurrences fit into the data; and
`scanFbxContent` returns the all-zero counts when the file cannot be opened. -/
theorem countTokenOccurrences_spec {σ L ρ : Type} (data token : String)
    (hn : token.data ≠ []) :
    (∃ n, countTokenOccurrences data token = some n
      ∧ n = scanCount token.data data.data 0
      ∧ (n = 0 ↔ ¬ token.data <:+: data.data)
      ∧ n * token.data.length ≤ data.data.length)
    ∧ (∀ (F : Facade σ) (s : Run σ L) (fbxPath : String),
        (F s.scene (.readFile fbxPath)).1.ok = false →
        (F s.scene (.readFile fbxPath)).1.fault = false →
        ((scanFbxContent fbxPath : M σ L ρ FbxContentStats).run F s).1 = .val {}) := by
  constructor
  · obtain ⟨m, h1, h2, h3, h4⟩ := countLoop_spec data.data token.data hn (data.data.length + 1)
      0 0 (Nat.zero_le _) (by omega)
    refine ⟨m, ?_, ?_, ?_, ?_⟩
    · unfold countTokenOccurrences; rw [h1]; simp
    · simpa using h4
    · simpa using h3
    · simpa using h2
  · intro F s p hok hfault
    unfold scanFbxContent
    simp only [M.bind_def, M.pure_def, M.run_bind, M.run_call, hfault, Bool.false_eq_true,
      if_false, hok, Bool.not_false, if_true, M.run_pure]

set_option maxRecDepth 100000 in
/-- The counts of `countTokenOccurrences_spec` on a small text: `aa` is found twice in
`aaaaa`, and a file that cannot be opened scans to zero. -/
theorem countTokenOccurrences_spec_witness :
    countTokenOccurrences "aaaaa" "aa" = some 2
    ∧ ((scanFbxContent "out/none.fbx" : M Unit Unit Unit FbxContentStats).run noFileScene
        { scene := (), trace := [], loc := () }).1 = .val {} := by
  have h := @countTokenOccurrences_spec Unit Unit Unit "aaaaa" "aa" (by decide)
  refine ⟨?_, h.2 noFileScene _ "out/none.fbx" rfl rfl⟩
  obtain ⟨n, h1, h2, _, _⟩ := h.1
  rw [h1, h2]
  decide

/-! ## Motion sampling (C27) -/

set_option maxRecDepth 100000 in
/-- C27, the sampling loop at a failing input: for 47 joints the stride is `47 / 24 = 1`, so all
47 joints are sampled, and for 71 joints the stride is 2 and 36 joints are sampled. -/
theorem sampledJoints_more_than_24 :
    sampleStride 47 = 1 ∧ (sampledJoints 47).length = 47
    ∧ sampleStride 71 = 2 ∧ (sampledJoints 71).length = 36 := by
  decide

/-! ## The counters of the batch summary (C28) -/

section Counters
variable {τ : Type}

theorem markCancelled_counts (rest : List Nat) (s : ExportRun τ) :
    (markCancelled rest s).exportedCount = s.exportedCount
    ∧ (markCancelled rest s).errorCount = s.errorCount
    ∧ s.cancelledCount ≤ (markCancelled rest s).cancelledCount
    ∧ (markCancelled rest s).cancelledCount ≤ s.cancelledCount + (rest.length : Int) := by
  induction rest generalizing s with
  | nil => simp [markCancelled]
  | cons j t ih =>
    unfold markCancelled
    by_cases ho : (s.exportItems.getD j default).waiting = true
    · rw [if_pos ho]
      obtain ⟨h1, h2, h3, h4⟩ := ih { s with
        exportItems := s.exportItems.set j (s.exportItems.getD j default).cancel
        cancelledCount := s.cancelledCount + 1 }
      refine ⟨h1, h2, ?_, ?_⟩
      · simp only [] at h3; omega
      · simp only [List.length_cons] at h4 ⊢; push_cast; omega
    · rw [if_neg ho]
      obtain ⟨h1, h2, h3, h4⟩ := ih s
      refine ⟨h1, h2, h3, ?_⟩
      simp only [List.length_cons]; push_cast; omega

theorem exportLoop_counts (host : UiHost τ) (failed : List Int) (a b : Int)
    (o : FbxExportOptions) (rest : List Nat) :
    ∀ (i : Nat) (s : ExportRun τ),
      (exportLoop host failed a b o i rest s).exportedCount
          + (exportLoop host failed a b o i rest s).errorCount
          + (exportLoop host failed a b o i rest s).cancelledCount
        ≤ s.exportedCount + s.errorCount + s.cancelledCount + (rest.length : Int)
      ∧ ((∀ w, host.cancelRequested w = false) →
        (exportLoop host failed a b o i rest s).exportedCount
          + (exportLoop host failed a b o i rest s).errorCount
          + (exportLoop host failed a b o i rest s).cancelledCount
        = s.exportedCount + s.errorCount + s.cancelledCount + (rest.length : Int)) := by
  induction rest with
  | nil => intro i s; simp [exportLoop]
  | cons idx t ih =>
    intro i s
    unfold exportLoop
    by_cases hc : host.cancelRequested s.world = true
    · rw [if_pos hc]
      obtain ⟨h1, h2, h3, h4⟩ := markCancelled_counts (idx :: t) s
      refine ⟨by rw [h1, h2]; omega, fun hnc => ?_⟩
      rw [hnc] at hc; cases hc
    · rw [if_neg hc]
      simp only [List.length_cons]
      push_cast
      by_cases hf : failed.contains (i : Int) = true
      · rw [if_pos hf]
        obtain ⟨h1, h2⟩ := ih (i + 1)
          { s with errorCount := s.errorCount + 1, world := host.processEvents s.world }
        try simp only [] at h1 h2
        exact ⟨by omega, fun hnc => by have := h2 hnc; omega⟩
      · rw [if_neg hf]
        try simp only []
        cases hp : pipelineCallOf (host.absoluteFilePath (s.exportItems.getD idx default).filename)
            a b o (s.exportItems.getD idx default) with
        | none =>
          try simp only []
          obtain ⟨h1, h2⟩ := ih (i + 1)
            { s with
              exportItems := (s.exportItems.set idx
                  { s.exportItems.getD idx default with status := "exporting" }).set idx
                { s.exportItems.getD idx default with status := "error", message := "Unknown export type: " ++ (s.exportItems.getD idx default).type }
              errorCount := s.errorCount + 1
              world := host.processEvents (host.processEvents s.world) }
          try simp only [] at h1 h2
          exact ⟨by omega, fun hnc => by have := h2 hnc; omega⟩
        | some call =>
          try simp only []
          by_cases hs : (host.invoke (host.processEvents s.world) call).1.success = true
          · rw [if_pos hs]
            obtain ⟨h1, h2⟩ := ih (i + 1)
              { s with
                exportItems := (s.exportItems.set idx
                    { s.exportItems.getD idx default with status := "exporting" }).set idx
                  { s.exportItems.getD idx default with status := "done", message := doneMessage (host.invoke (host.processEvents s.world) call).1 }
                exportedCount := s.exportedCount + 1
                world := host.processEvents (host.invoke (host.processEvents s.world) call).2
                calls := s.calls ++ [(call, (host.invoke (host.processEvents s.world) call).1)] }
            try simp only [] at h1 h2
            exact ⟨by omega, fun hnc => by have := h2 hnc; omega⟩
          · rw [if_neg hs]
            obtain ⟨h1, h2⟩ := ih (i + 1)
              { s with
                exportItems := (s.exportItems.set idx
                    { s.exportItems.getD idx default with status := "exporting" }).set idx
                  { s.exportItems.getD idx default with status := "error", message := errorMessage (host.invoke (host.processEvents s.world) call).1 }
                errorCount := s.errorCount + 1
                world := host.processEvents (host.invoke (host.processEvents s.world) call).2
                calls := s.calls ++ [(call, (host.invoke (host.processEvents s.world) call).1)] }
            try simp only [] at h1 h2
            exact ⟨by omega, fun hnc => by have := h2 hnc; omega⟩

set_option maxRecDepth 100000 in
/-- C28 at two failing runs. First run: the cameras `|cam1`, `|cam2` and `|cam3` are selected,
`|cam3` is not in the scene, so `batchBakeAll` reports position 2 and the item is marked
"error"; cancel is pressed while the first camera is exported. The first item is counted as
exported, the second as cancelled, the third in no counter: the counters add up to 2 for 3
selected items. Without the cancel the same selection gives 2 exported and 1 failed: the loop
counts the bake failure when it reaches it. Second run: one selected camera still carries the
status "done" of an earlier run and cancel is observed before it is started; it is counted in
no counter, and the counters add up to 0 for 1 selected item. -/
theorem counters_miss_bake_failure_after_cancel :
    (selectedIndicesOf threeCameras).length = 3
    ∧ (runFn (batchBakeAll (selectedItemsOf {} threeCameras) 1 24) {} twoCameraScene ()).result
        = some [2]
    ∧ (bakeAndExport twoCameraScene cancelAfterFirstHost threeCameras 1 24 {} () 0).map
          ExportRun.summary
        = some (1, 0, 1, ["done", "cancelled", "error"])
    ∧ (bakeAndExport twoCameraScene succeedingHost threeCameras 1 24 {} () 0).map
          ExportRun.summary
        = some (2, 1, 0, ["done", "done", "error"])
    ∧ (selectedIndicesOf staleCamera).length = 1
    ∧ (runFn (batchBakeAll (selectedItemsOf {} staleCamera) 1 24) {} twoCameraScene ()).result
        = some []
    ∧ (bakeAndExport twoCameraScene cancelledHost staleCamera 1 24 {} () ()).map
          ExportRun.summary
        = some (0, 0, 0, ["done"]) := by
  refine ⟨by decide!, by decide!, by decide!, by decide!, by decide!, by decide!, by decide!⟩

/-- The counters of the export phase: the three counters add up to at most the number of
selected items, and to exactly that number in a run in which the cancel flag is never set. -/
theorem counters_partition_without_cancel (host : UiHost τ) (exportItems : List ExportItem)
    (failed : List Int) (a b : Int) (o : FbxExportOptions) (w : τ) :
    (exportPhase host exportItems failed a b o w).exportedCount
        + (exportPhase host exportItems failed a b o w).errorCount
        + (exportPhase host exportItems failed a b o w).cancelledCount
      ≤ ((selectedIndicesOf exportItems).length : Int)
    ∧ ((∀ w, host.cancelRequested w = false) →
      (exportPhase host exportItems failed a b o w).exportedCount
        + (exportPhase host exportItems failed a b o w).errorCount
        + (exportPhase host exportItems failed a b o w).cancelledCount
      = ((selectedIndicesOf exportItems).length : Int)) := by
  obtain ⟨h1, h2⟩ := exportLoop_counts host failed a b o (selectedIndicesOf exportItems) 0
    { exportItems := markBakeFailures (selectedIndicesOf exportItems) failed exportItems
      world := w }
  unfold exportPhase
  try simp only [] at h1 h2
  exact ⟨by omega, fun hnc => by have := h2 hnc; omega⟩

/-- The run of `counters_partition_without_cancel` on four selected items without
cancellation: the counters add up to 4. -/
theorem counters_partition_without_cancel_witness :
    (∀ w, cameraOnlyHost.cancelRequested w = false)
    ∧ (exportPhase cameraOnlyHost
        [{ type := "camera", node := "|cam1", filename := "a.fbx", selected := true },
         { type := "skeleton", node := "|rig", filename := "b.fbx", selected := true },
         { type := "light", selected := true },
         { type := "camera", node := "|cam2", filename := "c.fbx", selected := true }]
        [3] 1 24 {} ()).exportedCount
      + (exportPhase cameraOnlyHost
        [{ type := "camera", node := "|cam1", filename := "a.fbx", selected := true },
         { type := "skeleton", node := "|rig", filename := "b.fbx", selected := true },
         { type := "light", selected := true },
         { type := "camera", node := "|cam2", filename := "c.fbx", selected := true }]
        [3] 1 24 {} ()).errorCount
      + (exportPhase cameraOnlyHost
        [{ type := "camera", node := "|cam1", filename := "a.fbx", selected := true },
         { type := "skeleton", node := "|rig", filename := "b.fbx", selected := true },
         { type := "light", selected := true },
         { type := "camera", node := "|cam2", filename := "c.fbx", selected := true }]
        [3] 1 24 {} ()).cancelledCount
      = ((selectedIndicesOf
        [{ type := "camera", node := "|cam1", filename := "a.fbx", selected := true },
         { type := "skeleton", node := "|rig", filename := "b.fbx", selected := true },
         { type := "light", selected := true },
         { type := "camera", node := "|cam2", filename := "c.fbx", selected := true }]).length
          : Int) :=
  ⟨fun _ => rfl, (counters_partition_without_cancel cameraOnlyHost _ [3] 1 24 {} ()).2
    (fun _ => rfl)⟩

end Counters

/-! ## File names (C22, C29) -/

theorem joinParts_append (parts : List String) (x : String) (h : parts ≠ []) :
    joinParts (parts ++ [x]) = joinParts parts ++ "_" ++ x := by
  unfold joinParts
  have hlen : parts.length > 0 := List.length_pos.mpr h
  rw [List.enum, List.enumFrom_append, List.foldl_append]
  simp only [List.enumFrom_cons, List.enumFrom_nil, List.foldl_cons, List.foldl_nil, zero_add]
  rw [if_pos hlen]

theorem rigParts_ne_nil (nsOrName : String) (tokens : SceneTokens) (rigSuffix : String) :
    rigParts nsOrName tokens rigSuffix ≠ [] := by
  unfold rigParts
  simp

/-- C29, the file name of the combined export: `buildSkeletonBlendShapeFilename` returns what
`buildSkeletonFilename` returns, and this is the result of `buildBlendShapeFilename` without
its part `_Face`: the two results are `stem ++ ".fbx"` and `stem ++ "_Face" ++ ".fbx"` for the
same `stem`. -/
theorem buildSkeletonBlendShapeFilename_eq (nsOrName : String) (tokens : SceneTokens)
    (rigSuffix : String) :
    buildSkeletonBlendShapeFilename nsOrName tokens rigSuffix
      = buildSkeletonFilename nsOrName tokens rigSuffix
    ∧ ∃ stem, buildSkeletonBlendShapeFilename nsOrName tokens rigSuffix = stem ++ ".fbx"
      ∧ buildBlendShapeFilename nsOrName tokens rigSuffix = stem ++ "_Face" ++ ".fbx" := by
  refine ⟨rfl, joinParts (rigParts nsOrName tokens rigSuffix), rfl, ?_⟩
  unfold buildBlendShapeFilename
  rw [joinParts_append _ _ (rigParts_ne_nil _ _ _)]
  simp only [String.append_assoc]
  rfl

set_option maxRecDepth 100000 in
/-- C22, `deduplicateFilenames` at a failing input: three skeleton items whose names clean to
`Hero`, two without a rig number and one with the rig number 2. The group pass names them
`A_Hero.fbx`, `A_Hero.fbx`, `A_Hero_2.fbx`, and the final pass renames the second to
`A_Hero_2.fbx`, the name of the third. The same happens to three cameras whose file names are
`Cam_cam.fbx`, `Cam_cam.fbx`, `Cam_cam_2.fbx`. -/
theorem deduplicateFilenames_collision :
    (deduplicateFilenames
        [{ type := "skeleton", nsOrName := "Hero_Rig", filename := "A_Hero.fbx" },
         { type := "skeleton", nsOrName := "SK_Hero_Rig", filename := "A_Hero.fbx" },
         { type := "skeleton", nsOrName := "Hero_Rig2", filename := "A_Hero.fbx" }] {}).map
        (fun it => it.filename) = ["A_Hero.fbx", "A_Hero_2.fbx", "A_Hero_2.fbx"]
    ∧ (deduplicateFilenames
        [{ type := "camera", filename := "Cam_cam.fbx" },
         { type := "camera", filename := "Cam_cam.fbx" },
         { type := "camera", filename := "Cam_cam_2.fbx" }] {}).map
        (fun it => it.filename) = ["Cam_cam.fbx", "Cam_cam_2.fbx", "Cam_cam_2.fbx"] := by
  constructor <;> decide

/-! ## Environment variables in paths (C30) -/

set_option maxRecDepth 100000 in
/-- C30, `expandEnvVars` at a failing input: with an empty environment, a `${` that is not
closed by `}` is copied as `${}` and the scan goes on behind the `$`, so the text grows by `{}`;
closed and bare references to unset variables are copied as they are. -/
theorem expandEnvVars_unclosed_brace :
    expandEnvVars (fun _ => none) "assets/$\x7bPROJ" = "assets/$\x7b\x7d\x7bPROJ"
    ∧ expandEnvVars (fun _ => none) "assets/${PROJ}/$SHOT/a$" = "assets/${PROJ}/$SHOT/a$" := by
  decide

/-! ## The bake plan (C13, C14, C23) -/

section BakePlan
variable {σ ρ : Type}

theorem keepFirst_snoc (xs : List String) (a : String) :
    keepFirst (xs ++ [a]) = if a ∈ xs then keepFirst xs else keepFirst xs ++ [a] := by
  unfold keepFirst
  rw [List.reverse_append, List.reverse_singleton, List.singleton_append]
  by_cases h : a ∈ xs
  · rw [if_pos h, List.dedup_cons_of_mem (List.mem_reverse.mpr h)]
  · rw [if_neg h, List.dedup_cons_of_not_mem (fun h' => h (List.mem_reverse.mp h')),
      List.reverse_cons]

theorem mem_keepFirst (xs : List String) (a : String) : a ∈ keepFirst xs ↔ a ∈ xs := by
  unfold keepFirst; simp

theorem mem_setInsert (x a : String) (l : List String) :
    a ∈ setInsert x l ↔ a = x ∨ a ∈ l := by
  induction l with
  | nil => simp [setInsert]
  | cons y ys ih =>
    unfold setInsert
    by_cases h1 : x = y
    · rw [if_pos h1]; subst h1; simp
    · rw [if_neg h1]
      by_cases h2 : x.data < y.data
      · rw [if_pos h2]; simp
      · rw [if_neg h2, List.mem_cons, ih]; simp only [List.mem_cons]; tauto

theorem wp_bind_quietN {L α β : Type} {C : Cmd → Prop} {R : LocRel L} {F : Facade σ}
    {m : M σ L ρ α} {f : α → M σ L ρ β} {post : Out ρ β → Run σ L → Prop} {s : Run σ L}
    (hq : Quiet C R m) (hF : NoFault F)
    (h : ∀ a s1, Extends F C R s s1 → wp F (f a) post s1) : wp F (M.bind m f) post s := by
  rw [wp_bind]
  exact wp_quiet hq hF (fun a s1 _ he => h a s1 he)

theorem wp_bind_callN {L β : Type} {F : Facade σ} {c : Cmd} {f : Resp → M σ L ρ β}
    {post : Out ρ β → Run σ L → Prop} {s : Run σ L} (hF : NoFault F)
    (h : wp F (f (F s.scene c).1) post
      { scene := (F s.scene c).2, trace := s.trace ++ [(c, (F s.scene c).1)], loc := s.loc }) :
    wp F (M.bind (M.call c) f) post s := by
  rw [wp_bind, wp_call, hF]
  simpa using h

theorem wp_forEachV {L α : Type} {F : Facade σ} {f : α → M σ L ρ Unit}
    (Inv : List α → Run σ L → Prop) (xs : List α) :
    ∀ (done : List α) (s : Run σ L), Inv done s →
      (∀ d x s1, x ∈ xs → Inv d s1 →
        wp F (f x) (fun o s2 => o = .val () ∧ Inv (d ++ [x]) s2) s1) →
      wp F (M.forEach xs f) (fun o s2 => o = .val () ∧ Inv (done ++ xs) s2) s := by
  induction xs with
  | nil =>
    intro done s h0 _
    show wp F (M.pure ()) _ s
    rw [wp_pure]
    exact ⟨rfl, by simpa using h0⟩
  | cons x xs ih =>
    intro done s h0 hstep
    show wp F (M.bind (f x) fun _ => M.forEach xs f) _ s
    rw [wp_bind]
    refine wp_mono (hstep done x s (List.mem_cons_self _ _) h0) ?_
    rintro o s1 ⟨rfl, h1⟩
    have := ih (done ++ [x]) s1 h1 (fun d y s2 hy => hstep d y s2 (List.mem_cons_of_mem _ hy))
    simpa using this

theorem bakeQuiet_of_kinds {ks : List Kind} (h : ∀ k ∈ ks, k ≠ .key ∧ k ≠ .other) (c : Cmd) :
    OfKinds ks c → BakeQuiet c := by
  intro hc
  refine ⟨(h _ hc).1, fun a e => (h _ hc).2 ?_⟩
  rw [e]; rfl

/-- Code that keeps the queue leaves the state of the collection pass as it is. -/
theorem bakeInv_extends {F : Facade σ} {items : List ExportItem} {off : List String}
    {s s1 : Run σ BakeLocals} (h : BakeInv items off s)
    (he : Extends F BakeQuiet BakeKeep s s1) : BakeInv items off s1 := by
  obtain ⟨⟨l1, l2, l3, _⟩, t, e1, c1, _, _⟩ := he
  refine ⟨l1.trans h.noTransform, l2.trans h.attrs, fun a => by rw [l3]; exact h.seen a,
    ?_, ?_, ?_⟩
  · intro x hx
    rw [e1] at hx
    rcases List.mem_append.1 hx with h1 | h1
    · exact h.nokey x h1
    · intro hk; exact (c1 x h1).1 (List.mem_singleton.1 hk)
  · intro a ha
    rcases h.sound a ha with h1 | ⟨d, i, resp, h1, h2⟩
    · exact Or.inl h1
    · exact Or.inr ⟨d, i, resp, by rw [e1]; exact List.mem_append_left _ h1, h2⟩
  · intro x hx hal
    rw [e1] at hx
    rcases List.mem_append.1 hx with h1 | h1
    · exact h.complete x h1 hal
    · obtain ⟨a, ha⟩ := hal
      exact absurd ha ((c1 x h1).2 a)

/-- Queueing a name that has a source, after requests that write no keys and whose alias
queries are all named by it. -/
theorem bakeInv_queue {items : List ExportItem} {off : List String}
    {s : Run σ BakeLocals} (h : BakeInv items off s) (a : String) (t : List (Cmd × Resp))
    (sc1 : σ) (ht : ∀ x ∈ t, x.1.kind ≠ .key)
    (hsrc : AttrSource items (s.trace ++ t) a)
    (hal : ∀ x ∈ t, (∃ b, x.1 = .mel "aliasAttr" b) →
      ∃ d i, x.1 = aliasQuery d i ∧ weightAttrName d i x.2 = a) :
    BakeInv items (off ++ [a])
      { scene := sc1, trace := s.trace ++ t, loc := s.loc.queue a } := by
  have hq : (s.loc.queue a).transformNodes = s.loc.transformNodes
      ∧ (s.loc.queue a).bsAttrs = keepFirst (off ++ [a])
      ∧ ∀ b, b ∈ (s.loc.queue a).seenAttrs ↔ b ∈ off ++ [a] := by
    unfold BakeLocals.queue
    by_cases hc : s.loc.seenAttrs.contains a = true
    · have hm : a ∈ off := (h.seen a).1 (List.mem_of_elem_eq_true hc)
      rw [if_pos hc, keepFirst_snoc, if_pos hm]
      refine ⟨rfl, h.attrs, fun b => ?_⟩
      rw [h.seen b, List.mem_append, List.mem_singleton]
      exact ⟨Or.inl, fun hb => hb.elim id (fun e => e ▸ hm)⟩
    · have hm : a ∉ off := fun hm =>
        hc (List.elem_eq_true_of_mem ((h.seen a).2 hm))
      rw [if_neg hc, keepFirst_snoc, if_neg hm]
      refine ⟨rfl, by simp only []; rw [h.attrs], fun b => ?_⟩
      simp only []
      rw [mem_setInsert, h.seen b, List.mem_append, List.mem_singleton]
      tauto
  refine ⟨hq.1.trans h.noTransform, hq.2.1, hq.2.2, ?_, ?_, ?_⟩
  · intro x hx
    rcases List.mem_append.1 hx with h1 | h1
    · exact h.nokey x h1
    · intro hk; exact ht x h1 (List.mem_singleton.1 hk)
  · intro b hb
    rcases List.mem_append.1 hb with h1 | h1
    · rcases h.sound b h1 with h2 | ⟨d, i, resp, h2, h3⟩
      · exact Or.inl h2
      · exact Or.inr ⟨d, i, resp, List.mem_append_left _ h2, h3⟩
    · rw [List.mem_singleton.1 h1]; exact hsrc
  · intro x hx hxa
    rcases List.mem_append.1 hx with h1 | h1
    · obtain ⟨d, i, e, hm⟩ := h.complete x h1 hxa
      exact ⟨d, i, e, List.mem_append_left _ hm⟩
    · obtain ⟨d, i, e, hm⟩ := hal x h1 hxa
      exact ⟨d, i, e, by rw [hm]; exact List.mem_append_right _ (List.mem_singleton.2 rfl)⟩

theorem queue_failed (l : BakeLocals) (a : String) :
    (l.queue a).failedIndices = l.failedIndices := by
  unfold BakeLocals.queue; split <;> rfl

theorem fail_keep (l : BakeLocals) (idx : Nat) : BakeKeep.rel l (l.fail idx) := by
  unfold BakeLocals.fail
  split
  · exact BakeKeep.refl l
  · exact ⟨rfl, rfl, rfl, fun i h => List.mem_append_left _ h⟩

theorem fail_mem (l : BakeLocals) (idx : Nat) : (idx : Int) ∈ (l.fail idx).failedIndices := by
  unfold BakeLocals.fail
  by_cases h : l.failedIndices.contains (idx : Int) = true
  · rw [if_pos h]; exact List.mem_of_elem_eq_true h
  · rw [if_neg h]; exact List.mem_append_right _ (List.mem_singleton.2 rfl)

theorem bakeInv_fail {items : List ExportItem} {off : List String} {s : Run σ BakeLocals}
    (h : BakeInv items off s) (idx : Nat) :
    BakeInv items off { s with loc := s.loc.fail idx } := by
  obtain ⟨l1, l2, l3, _⟩ := fail_keep s.loc idx
  exact ⟨l1.trans h.noTransform, l2.trans h.attrs, fun a => by rw [l3]; exact h.seen a,
    h.nokey, h.sound, h.complete⟩

theorem queueAttr_spec (F : Facade σ) {items : List ExportItem} {off : List String}
    {s : Run σ BakeLocals} (h : BakeInv items off s) (a : String)
    (hsrc : AttrSource items s.trace a) :
    wp F (queueAttr a : M σ BakeLocals ρ Unit)
      (fun o s1 => o = .val () ∧ BakeInv items (off ++ [a]) s1
        ∧ s1.loc.failedIndices = s.loc.failedIndices) s := by
  unfold queueAttr
  rw [wp_modifyL]
  have := bakeInv_queue h a [] s.scene (fun _ hx => nomatch hx)
    (by rw [List.append_nil]; exact hsrc) (fun _ hx => nomatch hx)
  rw [List.append_nil] at this
  exact ⟨rfl, this, queue_failed _ _⟩

theorem quiet_bakeQuery {α : Type} {m : M σ BakeLocals ρ α}
    (h : Quiet (OfKinds [.query]) BakeKeep m) : Quiet BakeQuiet BakeKeep m :=
  quiet_mono (bakeQuiet_of_kinds (by decide)) h

theorem quiet_weightCount (d : String) :
    Quiet BakeQuiet BakeKeep
      (melQueryInt "blendShape" ["-q", "-weightCount", q d] : M σ BakeLocals ρ Int) := by
  unfold melQueryInt
  simp only [M.bind_def, M.pure_def]
  refine quiet_bind (quiet_call ⟨?_, ?_⟩) (fun _ => quiet_pure _)
  · have hk : (Cmd.mel "blendShape" ["-q", "-weightCount", q d]).kind = Kind.other := rfl
    rw [hk]; decide
  · intro a e
    injection e with e1 _
    exact absurd e1 (by decide)

theorem mem_of_mem_enum {α : Type} {l : List α} {p : Nat × α} (h : p ∈ l.enum) : p.2 ∈ l := by
  obtain ⟨h1, h2, h3⟩ := List.mem_enumFrom h
  rw [h3]
  exact List.getElem_mem _

theorem filter_isKeyWrite_of_noKinds {tr : List (Cmd × Resp)} (h : NoKinds [.key] tr) :
    (requests tr).filter isKeyWrite = [] := by
  rw [List.filter_eq_nil_iff]
  intro c hc
  unfold requests at hc
  obtain ⟨x, hx, rfl⟩ := List.mem_map.1 hc
  have := h x hx
  simp only [isKeyWrite, decide_eq_true_eq]
  exact fun hk => this (List.mem_singleton.2 hk)

theorem wp_foldMV {L α β : Type} {F : Facade σ} {f : β → α → M σ L ρ β}
    (Inv : List α → β → Run σ L → Prop) (xs : List α) :
    ∀ (done : List α) (b : β) (s : Run σ L), Inv done b s →
      (∀ d b0 x s1, x ∈ xs → Inv d b0 s1 →
        wp F (f b0 x) (fun o s2 => ∃ b1, o = .val b1 ∧ Inv (d ++ [x]) b1 s2) s1) →
      wp F (M.foldM f b xs) (fun o s2 => ∃ b1, o = .val b1 ∧ Inv (done ++ xs) b1 s2) s := by
  induction xs with
  | nil =>
    intro done b s h0 _
    show wp F (M.pure b) _ s
    rw [wp_pure]
    exact ⟨b, rfl, by simpa using h0⟩
  | cons x xs ih =>
    intro done b s h0 hstep
    show wp F (M.bind (f b x) fun b1 => M.foldM f b1 xs) _ s
    rw [wp_bind]
    refine wp_mono (hstep done b x s (List.mem_cons_self _ _) h0) ?_
    rintro o s1 ⟨b1, rfl, h1⟩
    have := ih (done ++ [x]) b1 s1 h1
      (fun d b0 y s2 hy => hstep d b0 y s2 (List.mem_cons_of_mem _ hy))
    simpa using this

theorem trace_sub_of_extends {L : Type} {F : Facade σ} {C : Cmd → Prop} {R : LocRel L}
    {s s1 : Run σ L} (he : Extends F C R s s1) : ∀ x ∈ s.trace, x ∈ s1.trace := by
  obtain ⟨_, t, e, _, _, _⟩ := he
  intro x hx
  rw [e]
  exact List.mem_append_left _ hx

theorem deformerScanned_mono {tr tr1 : List (Cmd × Resp)} {off off1 : List String} {d : String}
    (ht : ∀ x ∈ tr, x ∈ tr1) (ho : ∀ a ∈ off, a ∈ off1) (h : DeformerScanned tr off d) :
    DeformerScanned tr1 off1 d := by
  obtain ⟨wc, h1, h2⟩ := h
  refine ⟨wc, ht _ h1, fun i hi => ?_⟩
  obtain ⟨ali, h3, h4⟩ := h2 i hi
  exact ⟨ali, ht _ h3, ho _ h4⟩

theorem meshScanned_mono {tr tr1 : List (Cmd × Resp)} {off off1 : List String} {mesh : String}
    (ht : ∀ x ∈ tr, x ∈ tr1) (ho : ∀ a ∈ off, a ∈ off1) (h : MeshScanned tr off mesh) :
    MeshScanned tr1 off1 mesh := by
  obtain ⟨hist, h1, h2, ⟨d0, hd0, nt0, h3, h4⟩, h5⟩ := h
  refine ⟨hist, ht _ h1, h2, ⟨d0, hd0, nt0, ht _ h3, h4⟩, fun d hd => ?_⟩
  obtain ⟨nt, h6, h7⟩ := h5 d hd
  exact ⟨nt, ht _ h6, fun e => deformerScanned_mono ht ho (h7 e)⟩

/-- A request of the collection pass that is no alias query: the state of the pass is kept,
and the answer is at the end of the trace. -/
theorem wp_bakeCall {β : Type} {F : Facade σ} (hF : NoFault F) {items : List ExportItem}
    {off : List String} {s : Run σ BakeLocals} (h : BakeInv items off s) (c : Cmd)
    (hc : BakeQuiet c) (f : Resp → M σ BakeLocals ρ β)
    (post : Out ρ β → Run σ BakeLocals → Prop)
    (hk : ∀ ans s1, BakeInv items off s1 → s1.trace = s.trace ++ [(c, ans)] →
      s1.loc = s.loc → wp F (f ans) post s1) :
    wp F (M.bind (M.call c) f) post s := by
  refine wp_bind_callN hF ?_
  exact hk _ _ (bakeInv_extends h (extends_call F BakeKeep hc s)) rfl rfl

theorem bakeQuiet_query {c : Cmd} (h : c.kind = .query) : BakeQuiet c :=
  @bakeQuiet_of_kinds [.query] (by decide) c (List.mem_singleton.2 h)

theorem bakeQuiet_weightCount (d : String) : BakeQuiet (weightCountQuery d) := by
  refine ⟨?_, ?_⟩
  · have hk : (weightCountQuery d).kind = Kind.other := rfl
    rw [hk]; decide
  · intro a e
    injection e with e1 _
    exact absurd e1 (by decide)

theorem queueWeights_spec (F : Facade σ) (hF : NoFault F) {items : List ExportItem}
    (d : String) (wc : Int) {off : List String} {s : Run σ BakeLocals}
    (h : BakeInv items off s) :
    wp F (queueWeights d wc : M σ BakeLocals ρ Unit)
      (fun o s1 => o = .val () ∧ ∃ off1, BakeInv items off1 s1 ∧ off <+: off1
        ∧ s1.loc.failedIndices = s.loc.failedIndices
        ∧ (∀ x ∈ s.trace, x ∈ s1.trace)
        ∧ ∀ i ∈ List.range wc.toNat,
            ∃ ali, (aliasQuery d i, ali) ∈ s1.trace ∧ weightAttrName d i ali ∈ off1) s := by
  unfold queueWeights
  have := wp_forEachV (F := F) (ρ := ρ)
    (f := fun i => (do
      let ali ← M.call (aliasQuery d i)
      queueAttr (weightAttrName d i ali) : M σ BakeLocals ρ Unit))
    (fun done s1 => ∃ off1, BakeInv items off1 s1 ∧ off <+: off1
      ∧ s1.loc.failedIndices = s.loc.failedIndices
      ∧ (∀ x ∈ s.trace, x ∈ s1.trace)
      ∧ ∀ i ∈ done, ∃ ali, (aliasQuery d i, ali) ∈ s1.trace ∧ weightAttrName d i ali ∈ off1)
    (List.range wc.toNat) [] s
    ⟨off, h, List.prefix_refl _, rfl, fun _ hx => hx,
      (fun _ hi => absurd hi (List.not_mem_nil _))⟩ ?_
  · refine wp_mono this ?_
    rintro o s1 ⟨rfl, hp⟩
    rw [List.nil_append] at hp
    exact ⟨rfl, hp⟩
  · rintro dn i s1 _ ⟨off1, h1, hp, hfl, htr, hdn⟩
    simp only [M.bind_def]
    refine wp_bind_callN hF ?_
    unfold queueAttr
    rw [wp_modifyL]
    refine ⟨rfl, off1 ++ [weightAttrName d i (F s1.scene (aliasQuery d i)).1], ?_,
      hp.trans (List.prefix_append _ _), (queue_failed _ _).trans hfl,
      fun x hx => List.mem_append_left _ (htr x hx), ?_⟩
    · refine bakeInv_queue h1 _ [(aliasQuery d i, (F s1.scene (aliasQuery d i)).1)] _ ?_ ?_ ?_
      · intro x hx
        rw [List.mem_singleton.1 hx]
        have hk : (aliasQuery d i).kind = Kind.other := rfl
        show (aliasQuery d i).kind ≠ Kind.key
        rw [hk]; decide
      · exact Or.inr ⟨d, i, _, List.mem_append_right _ (List.mem_singleton.2 rfl), rfl⟩
      · intro x hx _
        rw [List.mem_singleton.1 hx]
        exact ⟨d, i, rfl, rfl⟩
    · intro j hj
      rcases List.mem_append.1 hj with h2 | h2
      · obtain ⟨ali, h3, h4⟩ := hdn j h2
        exact ⟨ali, List.mem_append_left _ h3, List.mem_append_left _ h4⟩
      · rw [List.mem_singleton.1 h2]
        exact ⟨_, List.mem_append_right _ (List.mem_singleton.2 rfl),
          List.mem_append_right _ (List.mem_singleton.2 rfl)⟩

theorem scanHistory_spec (F : Facade σ) (hF : NoFault F) {items : List ExportItem}
    (history : List String) {off : List String} {s : Run σ BakeLocals}
    (h : BakeInv items off s) :
    wp F (scanHistory history : M σ BakeLocals ρ Bool)
      (fun o s1 => ∃ b, o = .val b ∧ ∃ off1, BakeInv items off1 s1 ∧ off <+: off1
        ∧ (∀ i ∈ s.loc.failedIndices, i ∈ s1.loc.failedIndices)
        ∧ (∀ x ∈ s.trace, x ∈ s1.trace)
        ∧ (b = true → ∃ d ∈ history, ∃ nt, (nodeTypeQuery d, nt) ∈ s1.trace
            ∧ nt.str = "blendShape")
        ∧ ∀ d ∈ history, ∃ nt, (nodeTypeQuery d, nt) ∈ s1.trace
            ∧ (nt.str = "blendShape" → DeformerScanned s1.trace off1 d)) s := by
  unfold scanHistory
  have := wp_foldMV (F := F) (ρ := ρ)
    (f := fun (foundBS : Bool) histNode => (do
      let nodeType ← melQueryString "nodeType" [q histNode]
      if nodeType != "blendShape" then pure foundBS
      else do
        let weightCount ← melQueryInt "blendShape" ["-q", "-weightCount", q histNode]
        queueWeights histNode weightCount
        pure true : M σ BakeLocals ρ Bool))
    (fun done b s1 => ∃ off1, BakeInv items off1 s1 ∧ off <+: off1
      ∧ (∀ i ∈ s.loc.failedIndices, i ∈ s1.loc.failedIndices)
      ∧ (∀ x ∈ s.trace, x ∈ s1.trace)
      ∧ (b = true → ∃ d ∈ done, ∃ nt, (nodeTypeQuery d, nt) ∈ s1.trace
          ∧ nt.str = "blendShape")
      ∧ ∀ d ∈ done, ∃ nt, (nodeTypeQuery d, nt) ∈ s1.trace
          ∧ (nt.str = "blendShape" → DeformerScanned s1.trace off1 d))
    history [] false s
    ⟨off, h, List.prefix_refl _, fun _ hi => hi, fun _ hx => hx,
      (fun e => absurd e (by decide)), (fun _ hd => absurd hd (List.not_mem_nil _))⟩ ?_
  · refine wp_mono this ?_
    rintro o s1 ⟨b, rfl, hp⟩
    rw [List.nil_append] at hp
    exact ⟨b, rfl, hp⟩
  · rintro dn b0 d s1 _ ⟨off1, h1, hp, hfl, htr, hb, hdn⟩
    simp only [M.bind_def, M.pure_def, melQueryString, melQueryInt, M.bind_assoc, M.pure_bind]
    refine wp_bakeCall hF h1 (nodeTypeQuery d) (bakeQuiet_query rfl) _ _
      (fun nt s2 h2 e2 l2 => ?_)
    have htr2 : ∀ x ∈ s1.trace, x ∈ s2.trace := fun x hx => by
      rw [e2]; exact List.mem_append_left _ hx
    have hnt : (nodeTypeQuery d, nt) ∈ s2.trace := by
      rw [e2]; exact List.mem_append_right _ (List.mem_singleton.2 rfl)
    have hold : ∀ {tr : List (Cmd × Resp)} {off2 : List String},
        (∀ x ∈ s2.trace, x ∈ tr) → (∀ a ∈ off1, a ∈ off2) →
        ∀ d1 ∈ dn, ∃ nt1, (nodeTypeQuery d1, nt1) ∈ tr
          ∧ (nt1.str = "blendShape" → DeformerScanned tr off2 d1) := by
      intro tr off2 ht ho d1 hd1
      obtain ⟨nt1, h3, h4⟩ := hdn d1 hd1
      exact ⟨nt1, ht _ (htr2 _ h3), fun e =>
        deformerScanned_mono (fun x hx => ht _ (htr2 _ hx)) ho (h4 e)⟩
    rw [wp_ite]
    split
    · rename_i hne
      rw [wp_pure]
      refine ⟨b0, rfl, off1, h2, hp, fun i hi => l2 ▸ hfl i hi,
        fun x hx => htr2 _ (htr x hx), fun e => ?_, fun d1 hd1 => ?_⟩
      · obtain ⟨d1, hd1, nt1, h3, h4⟩ := hb e
        exact ⟨d1, List.mem_append_left _ hd1, nt1, htr2 _ h3, h4⟩
      · rcases List.mem_append.1 hd1 with h3 | h3
        · exact hold (fun _ hx => hx) (fun _ ha => ha) d1 h3
        · rw [List.mem_singleton.1 h3]
          refine ⟨nt, hnt, fun e => ?_⟩
          rw [e] at hne
          exact absurd hne (by decide)
    · rename_i hne
      have hbs : nt.str = "blendShape" := by
        simpa using hne
      refine wp_bakeCall hF h2 (weightCountQuery d) (bakeQuiet_weightCount d) _ _
        (fun wc s3 h3 e3 l3 => ?_)
      rw [wp_bind]
      refine wp_mono (queueWeights_spec F hF d wc.int h3) ?_
      rintro o s4 ⟨rfl, off4, h4, hp4, hf4, htr4, hw4⟩
      simp only []
      rw [wp_pure]
      have htr3 : ∀ x ∈ s2.trace, x ∈ s4.trace := fun x hx =>
        htr4 _ (by rw [e3]; exact List.mem_append_left _ hx)
      have hwc : (weightCountQuery d, wc) ∈ s4.trace :=
        htr4 _ (by rw [e3]; exact List.mem_append_right _ (List.mem_singleton.2 rfl))
      refine ⟨true, rfl, off4, h4, hp.trans hp4, fun i hi => ?_,
        fun x hx => htr3 _ (htr2 _ (htr x hx)), fun _ => ?_, fun d1 hd1 => ?_⟩
      · rw [hf4, l3, l2]; exact hfl i hi
      · exact ⟨d, List.mem_append_right _ (List.mem_singleton.2 rfl), nt, htr3 _ hnt, hbs⟩
      · rcases List.mem_append.1 hd1 with h5 | h5
        · exact hold htr3 (fun a ha => hp4.subset ha) d1 h5
        · rw [List.mem_singleton.1 h5]
          exact ⟨nt, htr3 _ hnt, fun _ =>
            ⟨wc, hwc, fun i hi => hw4 i (List.mem_range.2 hi)⟩⟩

theorem queueAttr_spec2 (F : Facade σ) {items : List ExportItem} {off : List String}
    {s : Run σ BakeLocals} (h : BakeInv items off s) (a : String)
    (hsrc : AttrSource items s.trace a) :
    wp F (queueAttr a : M σ BakeLocals ρ Unit)
      (fun o s1 => o = .val () ∧ BakeInv items (off ++ [a]) s1
        ∧ s1.loc.failedIndices = s.loc.failedIndices ∧ s1.trace = s.trace) s := by
  unfold queueAttr
  rw [wp_modifyL]
  have := bakeInv_queue h a [] s.scene (fun _ hx => nomatch hx)
    (by rw [List.append_nil]; exact hsrc) (fun _ hx => nomatch hx)
  rw [List.append_nil] at this
  exact ⟨rfl, this, queue_failed _ _, rfl⟩

theorem collectItem_spec (F : Facade σ) (hF : NoFault F) {items : List ExportItem}
    (idx : Nat) (item : ExportItem) (hmem : item ∈ items) {off : List String}
    {s : Run σ BakeLocals} (h : BakeInv items off s) :
    wp F (collectItem idx item : M σ BakeLocals ρ Unit)
      (fun o s1 => o = .val () ∧ ∃ off1, BakeInv items off1 s1 ∧ off <+: off1
        ∧ (∀ i ∈ s.loc.failedIndices, i ∈ s1.loc.failedIndices)
        ∧ (∀ x ∈ s.trace, x ∈ s1.trace)
        ∧ (item.isRig → (idx : Int) ∈ s1.loc.failedIndices
            ∨ item.bsWeightAttrs <:+: off1)
        ∧ (item.type = "blendshape" → (idx : Int) ∈ s1.loc.failedIndices
            ∨ MeshScanned s1.trace off1 item.node)) s := by
  unfold collectItem
  simp only [M.bind_def, M.pure_def]
  have hfail : ∀ {off1 : List String} {s1 : Run σ BakeLocals}, BakeInv items off1 s1 →
      off <+: off1 → (∀ i ∈ s.loc.failedIndices, i ∈ s1.loc.failedIndices) →
      (∀ x ∈ s.trace, x ∈ s1.trace) →
      wp F (failIndex idx : M σ BakeLocals ρ Unit)
        (fun o s2 => o = .val () ∧ ∃ off2, BakeInv items off2 s2 ∧ off <+: off2
          ∧ (∀ i ∈ s.loc.failedIndices, i ∈ s2.loc.failedIndices)
          ∧ (∀ x ∈ s.trace, x ∈ s2.trace)
          ∧ (item.isRig → (idx : Int) ∈ s2.loc.failedIndices
              ∨ item.bsWeightAttrs <:+: off2)
          ∧ (item.type = "blendshape" → (idx : Int) ∈ s2.loc.failedIndices
              ∨ MeshScanned s2.trace off2 item.node)) s1 := by
    intro off1 s1 h1 hp hf ht
    unfold failIndex
    rw [wp_modifyL]
    exact ⟨rfl, off1, bakeInv_fail h1 idx, hp,
      fun i hi => (fail_keep s1.loc idx).2.2.2 i (hf i hi), ht,
      fun _ => Or.inl (fail_mem _ _), fun _ => Or.inl (fail_mem _ _)⟩
  rw [wp_ite]
  split
  · -- camera
    rename_i hcam
    refine wp_bind_quietN (ρ := ρ) (quiet_bakeQuery (quiet_nodeExists _)) hF (fun e s1 he => ?_)
    have h1 := bakeInv_extends h he
    have hnr : ¬ item.isRig := by
      unfold ExportItem.isRig; rw [hcam]; decide
    have hnm : ¬ item.type = "blendshape" := by
      rw [hcam]; decide
    rw [wp_when]
    split
    · refine wp_mono (hfail h1 (List.prefix_refl _) he.loc.2.2.2 (trace_sub_of_extends he)) ?_
      rintro o s2 ⟨rfl, off2, a, b, c, d, _⟩
      exact ⟨rfl, off2, a, b, c, d, fun hr => absurd hr hnr, fun hr => absurd hr hnm⟩
    · exact ⟨rfl, off, h1, List.prefix_refl _, he.loc.2.2.2, trace_sub_of_extends he,
        fun hr => absurd hr hnr, fun hr => absurd hr hnm⟩
  · rw [wp_ite]
    split
    · -- skeleton, skeleton+blendshape
      rename_i hrig
      have hnm : ¬ item.type = "blendshape" := by
        intro e
        rw [e] at hrig
        revert hrig
        decide
      refine wp_bind_quietN (ρ := ρ) (quiet_bakeQuery (quiet_nodeExists _)) hF
        (fun e s1 he => ?_)
      have h1 := bakeInv_extends h he
      rw [wp_ite]
      split
      · exact hfail h1 (List.prefix_refl _) he.loc.2.2.2 (trace_sub_of_extends he)
      · refine wp_bind_quietN (ρ := ρ)
          (quiet_bakeQuery (quiet_melQueryStringArray .query "listRelatives" _ rfl)) hF
          (fun _ s2 he2 => ?_)
        have h2 := bakeInv_extends h1 he2
        have hf2 : ∀ i ∈ s.loc.failedIndices, i ∈ s2.loc.failedIndices :=
          fun i hi => he2.loc.2.2.2 i (he.loc.2.2.2 i hi)
        have ht2 : ∀ x ∈ s.trace, x ∈ s2.trace :=
          fun x hx => trace_sub_of_extends he2 _ (trace_sub_of_extends he _ hx)
        rw [wp_when]
        split
        · have := wp_forEachV (F := F) (ρ := ρ) (f := fun a => (queueAttr a : M σ BakeLocals ρ Unit))
            (fun done s3 => BakeInv items (off ++ done) s3
              ∧ (∀ i ∈ s.loc.failedIndices, i ∈ s3.loc.failedIndices)
              ∧ ∀ x ∈ s.trace, x ∈ s3.trace)
            item.bsWeightAttrs [] s2 ⟨by rw [List.append_nil]; exact h2, hf2, ht2⟩ ?_
          · refine wp_mono this ?_
            rintro o s3 ⟨rfl, h3, hf3, ht3⟩
            rw [List.nil_append] at h3
            exact ⟨rfl, _, h3, List.prefix_append _ _, hf3, ht3,
              fun _ => Or.inr (List.suffix_append _ _).isInfix, fun hr => absurd hr hnm⟩
          · rintro dn a s3 ha ⟨h3, hf3, ht3⟩
            refine wp_mono (queueAttr_spec2 F h3 a (Or.inl ⟨item, hmem, ha⟩)) ?_
            rintro o s4 ⟨rfl, h4, hf4, ht4⟩
            rw [List.append_assoc] at h4
            exact ⟨rfl, h4, fun i hi => hf4 ▸ hf3 i hi, fun x hx => ht4 ▸ ht3 x hx⟩
        · rename_i hemp
          have he0 : item.bsWeightAttrs = [] := by
            cases hb : item.bsWeightAttrs with
            | nil => rfl
            | cons a t => rw [hb] at hemp; simp at hemp
          exact ⟨rfl, off, h2, List.prefix_refl _, hf2, ht2,
            fun _ => Or.inr (by rw [he0]; exact List.nil_infix), fun hr => absurd hr hnm⟩
    · rename_i hnr0
      have hnr : ¬ item.isRig := hnr0
      rw [wp_ite]
      split
      · -- blendshape
        refine wp_bind_quietN (ρ := ρ) (quiet_bakeQuery (quiet_nodeExists _)) hF
          (fun e s1 he => ?_)
        have h1 := bakeInv_extends h he
        have ht1 := trace_sub_of_extends he
        rw [wp_ite]
        split
        · exact hfail h1 (List.prefix_refl _) he.loc.2.2.2 ht1
        · unfold melQueryStringArrayChecked
          simp only [M.bind_def, M.pure_def, M.bind_assoc, M.pure_bind]
          refine wp_bakeCall hF h1 (historyQuery item.node) (bakeQuiet_query rfl) _ _
            (fun hist s2 h2 e2 l2 => ?_)
          have hf2 : ∀ i ∈ s.loc.failedIndices, i ∈ s2.loc.failedIndices :=
            fun i hi => l2 ▸ he.loc.2.2.2 i hi
          have ht2 : ∀ x ∈ s.trace, x ∈ s2.trace := fun x hx => by
            rw [e2]; exact List.mem_append_left _ (ht1 x hx)
          have hh : (historyQuery item.node, hist) ∈ s2.trace := by
            rw [e2]; exact List.mem_append_right _ (List.mem_singleton.2 rfl)
          rw [wp_ite]
          split
          · exact hfail h2 (List.prefix_refl _) hf2 ht2
          · rename_i hok
            rw [wp_bind]
            refine wp_mono (scanHistory_spec F hF _ h2) ?_
            rintro o s3 ⟨b, rfl, off3, h3, hp3, hf3, ht3, hb3, hd3⟩
            simp only []
            rw [wp_when]
            split
            · exact hfail h3 hp3 (fun i hi => hf3 i (hf2 i hi)) (fun x hx => ht3 _ (ht2 x hx))
            · rename_i hfound
              refine ⟨rfl, off3, h3, hp3, fun i hi => hf3 i (hf2 i hi),
                fun x hx => ht3 _ (ht2 x hx), fun hr => absurd hr hnr, fun _ => Or.inr ?_⟩
              refine ⟨hist, ht3 _ hh, by simpa using hok, hb3 (by simpa using hfound), hd3⟩
      · rename_i hnm
        rw [wp_pure]
        exact ⟨rfl, off, h, List.prefix_refl _, fun _ hi => hi, fun _ hx => hx,
          fun hr => absurd hr hnr, fun hr => absurd hr hnm⟩

theorem batchBakeAll_spec (F : Facade σ) (hF : NoFault F) (items : List ExportItem)
    (a b : Int) (sc : σ) :
    wp F (batchBakeAll items a b) (BakePost items a b)
      { scene := sc, trace := [], loc := {} } := by
  unfold batchBakeAll
  simp only [M.bind_def, M.pure_def]
  have h0 : BakeInv items [] ({ scene := sc, trace := [], loc := {} } : Run σ BakeLocals) :=
    ⟨rfl, rfl, fun _ => Iff.rfl, fun _ hx => (nomatch hx), fun _ ha => (nomatch ha),
      fun _ hx => (nomatch hx)⟩
  refine wp_bind_quietN (R := BakeKeep) (quiet_mono (bakeQuiet_of_kinds (by decide)) quiet_now)
    hF (fun _ s1 he => ?_)
  have h1 := bakeInv_extends h0 he
  rw [wp_bind]
  have hloop := wp_forEachV (F := F) (ρ := List Int)
    (f := fun p : Nat × ExportItem => (collectItem p.1 p.2 : M σ BakeLocals (List Int) Unit))
    (BakeLoopInv items) items.enum [] s1
    ⟨[], h1, fun _ hp => (nomatch hp), fun _ hp => (nomatch hp)⟩ ?_
  · refine wp_mono hloop ?_
    rintro o s2 ⟨rfl, off, h2, hrig, hmesh⟩
    rw [List.nil_append] at hrig hmesh
    simp only []
    rw [wp_bind, wp_getL]
    simp only []
    rw [wp_bind, wp_when]
    have hnk := filter_isKeyWrite_of_noKinds h2.nokey
    by_cases hemp : s2.loc.bsAttrs = []
    · have hc : (s2.loc.transformNodes.isEmpty && s2.loc.bsAttrs.isEmpty) = true := by
        rw [h2.noTransform, hemp]; rfl
      rw [if_pos hc, wp_ret]
      refine ⟨off, rfl, ?_, hrig, h2.sound, h2.complete, hmesh⟩
      rw [hnk, ← h2.attrs, hemp]; rfl
    · have hc : ¬ (s2.loc.transformNodes.isEmpty && s2.loc.bsAttrs.isEmpty) = true := by
        cases hb : s2.loc.bsAttrs with
        | nil => exact absurd hb hemp
        | cons x t => simp
      have hc2 : (!s2.loc.transformNodes.isEmpty) = false := by rw [h2.noTransform]; rfl
      have hc3 : (!s2.loc.bsAttrs.isEmpty) = true := by
        cases hb : s2.loc.bsAttrs with
        | nil => exact absurd hb hemp
        | cons x t => rfl
      rw [if_neg hc]
      simp only []
      rw [wp_bind, wp_when, hc2]
      simp only [Bool.false_eq_true, if_false]
      rw [wp_bind, wp_when, hc3]
      simp only [if_true]
      unfold now melExec
      simp only [M.bind_def, M.pure_def, M.bind_assoc, M.pure_bind]
      refine wp_bind_callN hF (wp_bind_callN hF (wp_bind_callN hF ?_))
      rw [wp_pure]
      simp only []
      refine wp_bind_callN hF ?_
      rw [wp_ret]
      refine ⟨off, rfl, ?_, hrig, ?_, ?_, ?_⟩
      · simp only [requests, List.map_append, List.filter_append, List.map_cons, List.map_nil]
        have := hnk
        unfold requests at this
        rw [this, if_neg (by rw [← h2.attrs]; exact hemp), ← h2.attrs]
        rfl
      · intro x hx
        rcases h2.sound x hx with h3 | ⟨d, i, resp, h3, h4⟩
        · exact Or.inl h3
        · exact Or.inr ⟨d, i, resp, by simp only [List.mem_append]; tauto, h4⟩
      · intro x hx hal
        simp only [List.mem_append, List.mem_singleton] at hx
        rcases hx with (((hx | hx) | hx) | hx) | hx
        · exact h2.complete x hx hal
        all_goals
          obtain ⟨z, hz⟩ := hal
          rw [hx] at hz
          first
            | (injection hz with hz1 _; exact absurd hz1 (by decide))
            | cases hz
      · intro p hp hm
        rcases hmesh p hp hm with h3 | h3
        · exact Or.inl h3
        · refine Or.inr (meshScanned_mono (fun x hx => ?_) (fun _ ha => ha) h3)
          simp only [List.mem_append]
          tauto
  · rintro dn p s2 hp ⟨off, h2, hrig, hmesh⟩
    refine wp_mono (collectItem_spec F hF p.1 p.2 (mem_of_mem_enum hp) h2) ?_
    rintro o s3 ⟨rfl, off3, h3, hp3, hf3, ht3, hr3, hm3⟩
    refine ⟨rfl, off3, h3, ?_, ?_⟩
    · intro x hx hxr
      rcases List.mem_append.1 hx with h4 | h4
      · rcases hrig x h4 hxr with h5 | h5
        · exact Or.inl (hf3 _ h5)
        · exact Or.inr (h5.trans hp3.isInfix)
      · rw [List.mem_singleton.1 h4]
        rw [List.mem_singleton.1 h4] at hxr
        exact hr3 hxr
    · intro x hx hxm
      rcases List.mem_append.1 hx with h4 | h4
      · rcases hmesh x h4 hxm with h5 | h5
        · exact Or.inl (hf3 _ h5)
        · exact Or.inr (meshScanned_mono ht3 (fun a ha => hp3.subset ha) h5)
      · rw [List.mem_singleton.1 h4]
        rw [List.mem_singleton.1 h4] at hxm
        exact hm3 hxm

theorem scanInv_extends {F : Facade σ} {attrs0 : List String} {tr0 : List (Cmd × Resp)}
    {s s1 : Run σ ScanLocals} (h : ScanInv attrs0 tr0 s)
    (he : Extends F (fun c => ∀ a, c ≠ .mel "aliasAttr" a) ScanKeep s s1) :
    ScanInv attrs0 tr0 s1 := by
  obtain ⟨added, t, e1, e2, h1, h2⟩ := h
  obtain ⟨l1, t2, e3, c3, _, _⟩ := he
  refine ⟨added, t ++ t2, by rw [e3, e1, List.append_assoc], l1.trans e2, ?_, ?_⟩
  · intro a ha
    obtain ⟨d, i, resp, hm, e⟩ := h1 a ha
    exact ⟨d, i, resp, List.mem_append_left _ hm, e⟩
  · intro x hx hal
    rcases List.mem_append.1 hx with h3 | h3
    · exact h2 x h3 hal
    · obtain ⟨a, ha⟩ := hal
      exact absurd ha (c3 x h3 a)

theorem notAlias_of_kinds {ks : List Kind} (h : ∀ k ∈ ks, k ≠ .other) (c : Cmd) :
    OfKinds ks c → ∀ a, c ≠ .mel "aliasAttr" a := by
  intro hc a e
  refine h _ hc ?_
  rw [e]; rfl

theorem scanWeights_spec (F : Facade σ) (hF : NoFault F) (d : String) (wc : Int)
    {attrs0 : List String} {tr0 : List (Cmd × Resp)} {s : Run σ ScanLocals}
    (h : ScanInv attrs0 tr0 s) :
    wp F (scanWeights d wc : M σ ScanLocals ρ Unit)
      (fun o s1 => o = .val () ∧ ScanInv attrs0 tr0 s1) s := by
  unfold scanWeights
  have := wp_forEachV (F := F) (ρ := ρ)
    (f := fun i => (do
      let ali ← M.call (aliasQuery d i)
      M.modifyL fun l =>
        { l with bsWeightAttrs := l.bsWeightAttrs ++ [weightAttrName d i ali] } :
          M σ ScanLocals ρ Unit))
    (fun _ s1 => ScanInv attrs0 tr0 s1) (List.range wc.toNat) [] s h ?_
  · exact wp_mono this (fun o s1 hp => hp)
  · rintro _ i s1 _ ⟨added, t, e1, e2, h1, h2⟩
    simp only [M.bind_def]
    refine wp_bind_callN hF ?_
    rw [wp_modifyL]
    refine ⟨rfl, added ++ [weightAttrName d i (F s1.scene (aliasQuery d i)).1],
      t ++ [(aliasQuery d i, (F s1.scene (aliasQuery d i)).1)], ?_, ?_, ?_, ?_⟩
    · simp only []; rw [e1, List.append_assoc]
    · simp only []; rw [e2, List.append_assoc]
    · intro a ha
      rcases List.mem_append.1 ha with h3 | h3
      · obtain ⟨d1, i1, resp, hm, e⟩ := h1 a h3
        exact ⟨d1, i1, resp, List.mem_append_left _ hm, e⟩
      · exact ⟨d, i, _, List.mem_append_right _ (List.mem_singleton.2 rfl),
          List.mem_singleton.1 h3⟩
    · intro x hx hal
      rcases List.mem_append.1 hx with h3 | h3
      · obtain ⟨d1, i1, e, hm⟩ := h2 x h3 hal
        exact ⟨d1, i1, e, List.mem_append_left _ hm⟩
      · rw [List.mem_singleton.1 h3]
        exact ⟨d, i, rfl, List.mem_append_right _ (List.mem_singleton.2 rfl)⟩

theorem scanMeshForBS_spec (F : Facade σ) (hF : NoFault F) (meshXform : String)
    (s : Run σ ScanLocals) :
    wp F (scanMeshForBS meshXform : M σ ScanLocals ρ Unit)
      (fun o s1 => o = .val () ∧ ScanInv s.loc.bsWeightAttrs s.trace s1) s := by
  unfold scanMeshForBS
  simp only [M.bind_def, M.pure_def]
  have h0 : ScanInv s.loc.bsWeightAttrs s.trace s :=
    ⟨[], [], (List.append_nil _).symm, (List.append_nil _).symm, fun _ ha => (nomatch ha),
      fun _ hx => (nomatch hx)⟩
  refine wp_bind_quietN (ρ := ρ) (R := ScanKeep)
    (quiet_mono (notAlias_of_kinds (by decide))
      (quiet_melQueryStringArray .query "listHistory" _ rfl)) hF (fun history s1 he => ?_)
  have h1 := scanInv_extends h0 he
  rw [wp_bind]
  have hloop := wp_foldM (F := F) (ρ := ρ)
    (f := fun (meshHasBS : Bool) histNode => (M.bind (melQueryString "nodeType" [q histNode])
      fun nodeType =>
        if (nodeType != "blendShape") = true then M.pure meshHasBS
        else M.bind (M.modifyL fun l =>
            if l.seenBsNodes.contains histNode = true then l
            else { l with seenBsNodes := setInsert histNode l.seenBsNodes,
                          bsNodes := l.bsNodes ++ [histNode] })
          fun _ => M.bind (melQueryInt "blendShape" ["-q", "-weightCount", q histNode])
            fun wc => M.bind (scanWeights histNode wc) fun _ => M.pure true :
              M σ ScanLocals ρ Bool))
    (fun _ s2 => ScanInv s.loc.bsWeightAttrs s.trace s2) history false s1 h1 ?_
  · refine wp_mono hloop ?_
    rintro o s2 ⟨b, rfl, h2⟩
    simp only []
    rw [wp_when]
    split
    · rw [wp_modifyL]
      obtain ⟨added, t, e1, e2, h3, h4⟩ := h2
      exact ⟨rfl, added, t, e1, e2, h3, h4⟩
    · exact ⟨rfl, h2⟩
  · rintro b0 d s2 h2
    refine wp_bind_quietN (ρ := ρ) (R := ScanKeep)
      (quiet_mono (notAlias_of_kinds (by decide))
        (quiet_melQueryString .query "nodeType" _ rfl)) hF (fun t s3 he3 => ?_)
    have h3 := scanInv_extends h2 he3
    rw [wp_ite]
    split
    · rw [wp_pure]; exact ⟨b0, rfl, h3⟩
    · rw [wp_bind, wp_modifyL]
      simp only []
      have h4 : ScanInv s.loc.bsWeightAttrs s.trace
          { s3 with loc := if s3.loc.seenBsNodes.contains d = true then s3.loc
            else { s3.loc with seenBsNodes := setInsert d s3.loc.seenBsNodes,
                               bsNodes := s3.loc.bsNodes ++ [d] } } := by
        obtain ⟨added, t, e1, e2, h5, h6⟩ := h3
        refine ⟨added, t, e1, ?_, h5, h6⟩
        simp only []
        split <;> exact e2
      have hq : Quiet (fun c => ∀ a, c ≠ .mel "aliasAttr" a) ScanKeep
          (melQueryInt "blendShape" ["-q", "-weightCount", q d] : M σ ScanLocals ρ Int) := by
        unfold melQueryInt
        simp only [M.bind_def, M.pure_def]
        refine quiet_bind (quiet_call ?_) (fun _ => quiet_pure _)
        intro a e
        injection e with e1 _
        exact absurd e1 (by decide)
      refine wp_bind_quietN (ρ := ρ) hq hF (fun wc s5 he5 => ?_)
      have h5 := scanInv_extends h4 he5
      rw [wp_bind]
      refine wp_mono (scanWeights_spec F hF d wc h5) ?_
      rintro o s6 ⟨rfl, h6⟩
      simp only []
      rw [wp_pure]
      exact ⟨true, rfl, h6⟩

theorem statelessHost_noFault (answer : Cmd → Resp) : NoFault (statelessHost answer) :=
  fun _ _ => rfl

theorem smileScene_noFault : NoFault smileScene := by
  intro sc c
  unfold smileScene
  split <;> rfl

/-- C14, weight attributes are qualified by their deformer: a name built by the scanner or
by `batchBakeAll` is `<deformer>.<alias>` or `<deformer>.weight[i]`; two deformers with the same
alias give two different names; after `scanMeshForBS` the names added are the names of the alias
queries sent, one for every query; and the queue of `batchBakeAll` holds, besides the names
taken from the items, the name of every alias query. -/
theorem weight_attrs_qualified (F : Facade σ) (hF : NoFault F) (items : List ExportItem)
    (a b : Int) (sc : σ) (meshXform : String) (s : Run σ ScanLocals) :
    (∀ d i (r : Resp), (weightAttrName d i r = d ++ "." ++ r.str ∧ r.str.data ≠ [])
        ∨ weightAttrName d i r = d ++ ".weight[" ++ toString i ++ "]")
    ∧ (∀ d d1 i j (r r1 : Resp), d ≠ d1 → r.ok = true → r1.ok = true → r.str.data ≠ [] →
        r1.str = r.str → weightAttrName d i r ≠ weightAttrName d1 j r1)
    ∧ ScanInv s.loc.bsWeightAttrs s.trace
        ((scanMeshForBS meshXform : M σ ScanLocals Unit Unit).run F s).2
    ∧ ∃ offered,
        (requests (runFn (batchBakeAll items a b) {} F sc).trace).filter isKeyWrite
          = (if keepFirst offered = [] then []
             else [.mel "bakeResults" (bsBakeArgs a b (keepFirst offered))])
        ∧ (∀ x, x ∈ keepFirst offered ↔ x ∈ offered)
        ∧ (∀ x ∈ (runFn (batchBakeAll items a b) {} F sc).trace,
            (∃ z, x.1 = .mel "aliasAttr" z) →
              ∃ d i, x.1 = aliasQuery d i ∧ weightAttrName d i x.2 ∈ offered)
        ∧ (∀ x ∈ offered,
            AttrSource items (runFn (batchBakeAll items a b) {} F sc).trace x) := by
  refine ⟨?_, ?_, ?_, ?_⟩
  · intro d i r
    unfold weightAttrName
    by_cases h : (r.ok && decide (r.str.data ≠ [])) = true
    · rw [if_pos h]
      simp only [Bool.and_eq_true, decide_eq_true_eq] at h
      exact Or.inl ⟨rfl, h.2⟩
    · rw [if_neg h]; exact Or.inr rfl
  · intro d d1 i j r r1 hd hr hr1 hs he e
    have h1 : weightAttrName d i r = d ++ "." ++ r.str := by
      unfold weightAttrName; rw [if_pos (by simp [hr, hs])]
    have h2 : weightAttrName d1 j r1 = d1 ++ "." ++ r.str := by
      unfold weightAttrName; rw [if_pos (by simp [hr1, he, hs]), he]
    rw [h1, h2] at e
    have e2 := congrArg String.data e
    simp only [String.data_append, List.append_assoc] at e2
    exact hd (String.ext (List.append_cancel_right e2))
  · exact (scanMeshForBS_spec F hF meshXform s).2
  · have h := batchBakeAll_spec F hF items a b sc
    unfold wp BakePost at h
    obtain ⟨offered, h1, h2, h3, h4, h5, _⟩ := h
    obtain ⟨r1, r2⟩ := runFn_ret (batchBakeAll items a b) {} F sc _ h1
    rw [r2]
    exact ⟨offered, h2, mem_keepFirst _, h5, h4⟩

set_option maxRecDepth 100000 in
/-- The run of `weight_attrs_qualified` on the mesh with the deformers `bsA` and `bsB`, each
with the alias `Smile`: the scanner collects `bsA.Smile` and `bsB.Smile`. -/
theorem weight_attrs_qualified_witness :
    NoFault smileScene
    ∧ ((scanMeshForBS "|face" : M Unit ScanLocals Unit Unit).run smileScene
        { scene := (), trace := [], loc := {} }).2.loc.bsWeightAttrs = ["bsA.Smile", "bsB.Smile"]
    ∧ ScanInv [] []
        ((scanMeshForBS "|face" : M Unit ScanLocals Unit Unit).run smileScene
          { scene := (), trace := [], loc := {} }).2 :=
  ⟨smileScene_noFault, by decide!,
    (weight_attrs_qualified smileScene smileScene_noFault smileItems 1 24 () "|face"
      { scene := (), trace := [], loc := {} }).2.2.1⟩

section UniformRules
variable {L α β : Type}

theorem uniform_pure (a : α) : Uniform (M.pure a : M σ L ρ α) := by
  intro F rel _ s s1 hr hl
  rw [M.run_pure, M.run_pure]
  exact ⟨rfl, hl, hr, [], (List.append_nil _).symm, (List.append_nil _).symm⟩

theorem uniform_ret (r : ρ) : Uniform (M.ret r : M σ L ρ α) := by
  intro F rel _ s s1 hr hl
  rw [M.run_ret, M.run_ret]
  exact ⟨rfl, hl, hr, [], (List.append_nil _).symm, (List.append_nil _).symm⟩

theorem uniform_getL : Uniform (M.getL : M σ L ρ L) := by
  intro F rel _ s s1 hr hl
  rw [M.run_getL, M.run_getL]
  exact ⟨by show Out.val s.loc = Out.val s1.loc; rw [hl], hl, hr, [],
    (List.append_nil _).symm, (List.append_nil _).symm⟩

theorem uniform_modifyL (f : L → L) : Uniform (M.modifyL f : M σ L ρ Unit) := by
  intro F rel _ s s1 hr hl
  rw [M.run_modifyL, M.run_modifyL]
  exact ⟨rfl, by show f s.loc = f s1.loc; rw [hl], hr, [],
    (List.append_nil _).symm, (List.append_nil _).symm⟩

theorem uniform_call (c : Cmd) : Uniform (M.call c : M σ L ρ Resp) := by
  intro F rel hF s s1 hr hl
  obtain ⟨h1, h2⟩ := hF s.scene s1.scene c hr
  rw [M.run_call, M.run_call, h1]
  exact ⟨rfl, hl, h2, [(c, (F s1.scene c).1)], rfl, rfl⟩

theorem uniform_bind {m : M σ L ρ α} {f : α → M σ L ρ β}
    (hm : Uniform m) (hf : ∀ a, Uniform (f a)) : Uniform (M.bind m f) := by
  intro F rel hF s s1 hr hl
  have key := hm F rel hF s s1 hr hl
  rw [M.run_bind, M.run_bind]
  generalize m.run F s = p at key ⊢
  generalize m.run F s1 = p1 at key ⊢
  obtain ⟨o, s2⟩ := p
  obtain ⟨o1, s3⟩ := p1
  obtain ⟨h1, h2, h3, t, h4, h5⟩ := key
  simp only [] at h1 h2 h3 h4 h5
  subst h1
  cases o with
  | val a =>
    obtain ⟨k1, k2, k3, t2, k4, k5⟩ := hf a F rel hF s2 s3 h3 h2
    exact ⟨k1, k2, k3, t ++ t2, by rw [k4, h4, List.append_assoc],
      by rw [k5, h5, List.append_assoc]⟩
  | ret r => exact ⟨rfl, h2, h3, t, h4, h5⟩
  | exc => exact ⟨rfl, h2, h3, t, h4, h5⟩

theorem uniform_when {c : Bool} {a : M σ L ρ Unit} (h : Uniform a) : Uniform (M.when c a) := by
  cases c
  · exact uniform_pure ()
  · exact h

theorem uniform_ite {c : Prop} [Decidable c] {a b : M σ L ρ α}
    (ha : Uniform a) (hb : Uniform b) : Uniform (if c then a else b) := by
  split
  · exact ha
  · exact hb

theorem uniform_forEach {f : α → M σ L ρ Unit} (xs : List α)
    (hf : ∀ a, Uniform (f a)) : Uniform (M.forEach xs f) := by
  induction xs with
  | nil => exact uniform_pure ()
  | cons x xs ih => exact uniform_bind (hf x) (fun _ => ih)

theorem uniform_foldM {f : β → α → M σ L ρ β} (xs : List α) (b : β)
    (hf : ∀ b a, Uniform (f b a)) : Uniform (M.foldM f b xs) := by
  induction xs generalizing b with
  | nil => exact uniform_pure b
  | cons x xs ih => exact uniform_bind (hf b x) (fun b1 => ih b1)

end UniformRules

theorem uniform_batchBakeAll (items : List ExportItem) (a b : Int) :
    Uniform (batchBakeAll items a b : M σ BakeLocals (List Int) Empty) := by
  unfold batchBakeAll collectItem scanHistory queueWeights queueAttr failIndex
  simp only [M.bind_def, M.pure_def, now, melExec, nodeExists, melQueryInt, melQueryString,
    melQueryStringArray, melQueryStringArrayChecked]
  repeat' first
    | apply uniform_bind | apply uniform_pure | apply uniform_getL | apply uniform_when
    | apply uniform_ite | apply uniform_forEach | apply uniform_foldM | apply uniform_call
    | apply uniform_ret | apply uniform_modifyL | intro _

/-- C23, the bake plan is determined by the answers: two runs of `batchBakeAll` on the same
items and frame range, from host states that answer every request in the same way, return the
same failed indices after the same requests, so the `bakeResults` request and its list of names
are the same. -/
theorem batchBakeAll_deterministic (F : Facade σ) (rel : σ → σ → Prop)
    (hF : SameAnswers F rel) (sc sc1 : σ) (hr : rel sc sc1) (items : List ExportItem)
    (a b : Int) :
    (runFn (batchBakeAll items a b) {} F sc).result
        = (runFn (batchBakeAll items a b) {} F sc1).result
    ∧ (runFn (batchBakeAll items a b) {} F sc).trace
        = (runFn (batchBakeAll items a b) {} F sc1).trace := by
  have key := uniform_batchBakeAll items a b F rel hF
    { scene := sc, trace := [], loc := {} } { scene := sc1, trace := [], loc := {} } hr rfl
  unfold runFn
  generalize (batchBakeAll items a b).run F { scene := sc, trace := [], loc := {} } = p
    at key ⊢
  generalize (batchBakeAll items a b).run F { scene := sc1, trace := [], loc := {} } = p1
    at key ⊢
  obtain ⟨o, s2⟩ := p
  obtain ⟨o1, s3⟩ := p1
  obtain ⟨h1, _, _, t, h4, h5⟩ := key
  simp only [List.nil_append] at h1 h4 h5
  subst h1
  cases o with
  | val v => exact nomatch v
  | ret r => exact ⟨rfl, by simp only []; rw [h4, h5]⟩
  | exc => exact ⟨rfl, by simp only []; rw [h4, h5]⟩

/-- The run of `batchBakeAll_deterministic` on the scene with the two `Smile` deformers, whose
answers do not depend on its state. -/
theorem batchBakeAll_deterministic_witness :
    SameAnswers smileScene (fun _ _ => True)
    ∧ (runFn (batchBakeAll smileItems 1 24) {} smileScene ()).result
        = (runFn (batchBakeAll smileItems 1 24) {} smileScene ()).result
    ∧ (runFn (batchBakeAll smileItems 1 24) {} smileScene ()).trace
        = (runFn (batchBakeAll smileItems 1 24) {} smileScene ()).trace :=
  ⟨fun _ _ _ _ => ⟨rfl, trivial⟩,
    batchBakeAll_deterministic smileScene (fun _ _ => True) (fun _ _ _ _ => ⟨rfl, trivial⟩)
      () () trivial smileItems 1 24⟩

end BakePlan

/-! ## Rename ordering (C24) -/

section RenameOrder
variable {σ L : Type}

theorem renameWork_cons (wi : WorkItem) (rest : List WorkItem) :
    (renameWork (wi :: rest) : M σ L ExportResult Unit)
      = M.bind (M.when wi.needsRename (M.bind
          (melQueryString "rename" [q wi.fullPath, q (":" ++ wi.desiredBare)])
          fun _ => M.pure ())) fun _ => renameWork rest := rfl

theorem sortDeepestFirst_sorted (work : List WorkItem) :
    (sortDeepestFirst work).Pairwise (fun a b => a.depth ≥ b.depth) := by
  haveI : IsTotal WorkItem (fun a b => a.depth ≥ b.depth) := ⟨fun a b => le_total _ _⟩
  haveI : IsTrans WorkItem (fun a b => a.depth ≥ b.depth) := ⟨fun a b c h1 h2 => le_trans h2 h1⟩
  exact List.sorted_insertionSort _ work

theorem mem_sortDeepestFirst (work : List WorkItem) (wi : WorkItem) :
    wi ∈ sortDeepestFirst work ↔ wi ∈ work :=
  (List.perm_insertionSort _ work).mem_iff

theorem stripAllNamespaces_noColon (name : String) :
    ':' ∉ (stripAllNamespaces name).data := by
  by_cases h : ':' ∈ name.data
  · obtain ⟨k, h1, _, h3⟩ := rfindAux_present ':' name.data 0 none h
    have hr : rfind name ':' = some k := by
      unfold rfind; rw [h1]; simp
    have hs : (stripAllNamespaces name).data = name.data.drop (k + 1) := by
      unfold stripAllNamespaces; rw [hr]; rfl
    rw [hs]; exact h3
  · have hr : rfind name ':' = none := rfindAux_absent ':' name.data 0 none h
    have hs : stripAllNamespaces name = name := by
      unfold stripAllNamespaces; rw [hr]
    rw [hs]; exact h

theorem normalizeRootBoneName_noColon (s : String) (h : ':' ∉ s.data) :
    ':' ∉ (normalizeRootBoneName s).data := by
  unfold normalizeRootBoneName
  split
  · exact h
  · simp only []
    split
    · exact h
    · decide

theorem inPlaceWorkList_wf (paths : List String) (root : String) :
    ∀ wi ∈ inPlaceWorkList paths root,
      wi.depth = (wi.fullPath.data.count '|' : Nat) ∧ ':' ∉ wi.desiredBare.data := by
  intro wi h
  unfold inPlaceWorkList at h
  obtain ⟨p, _, rfl⟩ := List.mem_map.1 h
  refine ⟨rfl, ?_⟩
  simp only []
  split
  · exact normalizeRootBoneName_noColon _ (stripAllNamespaces_noColon _)
  · exact (stripAllNamespaces_noColon _)

end RenameOrder

/-! ## Constraint creation (C25) -/

section ConstraintCreation
variable {σ ρ : Type}

theorem after_sum (t : ConstraintTally) (r : Resp) :
    (t.after r).created + (t.after r).failed + (t.after r).returnedZero
      = t.created + t.failed + t.returnedZero + 1 := by
  unfold ConstraintTally.after
  split
  · simp only []; ring
  · split
    · simp only []; ring
    · simp only []; ring

theorem foldl_after_sum (rounds : List Round) (t : ConstraintTally) :
    (rounds.foldl (fun t rd => t.after rd.final) t).created
      + (rounds.foldl (fun t rd => t.after rd.final) t).failed
      + (rounds.foldl (fun t rd => t.after rd.final) t).returnedZero
      = t.created + t.failed + t.returnedZero + (rounds.length : Int) := by
  induction rounds generalizing t with
  | nil => simp
  | cons rd rest ih =>
    rw [List.foldl_cons, ih, after_sum]
    simp only [List.length_cons]; push_cast; ring

theorem tallyOf_sum (rounds : List Round) :
    (tallyOf rounds).created + (tallyOf rounds).failed + (tallyOf rounds).returnedZero
      = (rounds.length : Int) := by
  unfold tallyOf
  rw [foldl_after_sum]
  simp

theorem tallyOf_snoc (rounds : List Round) (rd : Round) :
    tallyOf (rounds ++ [rd]) = (tallyOf rounds).after rd.final := by
  unfold tallyOf
  rw [List.foldl_append]; rfl

theorem filter_isConstraint_extends {L : Type} {F : Facade σ} {R : LocRel L}
    {s s1 : Run σ L} (he : Extends F (fun c => c.kind ∉ [Kind.constrain]) R s s1) :
    s1.trace.filter isConstraint = s.trace.filter isConstraint := by
  obtain ⟨_, t, e1, c1, _, _⟩ := he
  rw [e1, List.filter_append]
  have : t.filter isConstraint = [] := by
    rw [List.filter_eq_nil_iff]
    intro x hx
    simp only [isConstraint, decide_eq_true_eq]
    exact fun hk => c1 x hx (List.mem_singleton.2 hk)
  rw [this, List.append_nil]

theorem constrainPair_spec (F : Facade σ) (hF : NoFault F) (t : ConstraintTally)
    (pair : String × String) (s : Run σ DupLocals) :
    wp F (constrainPair t pair : M σ DupLocals ρ ConstraintTally)
      (fun o s1 => ∃ rd : Round, rd.pair = pair ∧ rd.valid ∧ o = .val (t.after rd.final)
        ∧ s1.trace.filter isConstraint = s.trace.filter isConstraint ++ rd.entries
        ∧ s1.loc = s.loc) s := by
  have hfinish : ∀ (rd : Round) (s1 : Run σ DupLocals), rd.pair = pair → rd.valid →
      s1.trace.filter isConstraint = s.trace.filter isConstraint ++ rd.entries →
      s1.loc = s.loc →
      wp F (if (!rd.final.ok || rd.final.arr.isEmpty) = true then constraintFailed t pair
          else if rd.final.arr.headD "" = "0" then
            (M.pure { t with returnedZero := t.returnedZero + 1 } :
              M σ DupLocals ρ ConstraintTally)
          else M.pure { t with
            constraints := t.constraints ++ [rd.final.arr.headD ""]
            created := t.created + 1 })
        (fun o s2 => ∃ rd : Round, rd.pair = pair ∧ rd.valid ∧ o = .val (t.after rd.final)
          ∧ s2.trace.filter isConstraint = s.trace.filter isConstraint ++ rd.entries
          ∧ s2.loc = s.loc) s1 := by
    intro rd s1 hp hv htr hl
    rw [wp_ite]
    split
    · rename_i hbad
      unfold constraintFailed
      simp only [M.bind_def, M.pure_def]
      refine wp_bind_quietN (ρ := ρ) (C := fun c => c.kind ∉ [Kind.constrain])
        (R := LocRel.same DupLocals)
        (quiet_when (quiet_bind (quiet_mono (ofKinds_notin (by decide)) (quiet_nodeExists _))
          (fun _ => quiet_bind (quiet_mono (ofKinds_notin (by decide)) (quiet_nodeExists _))
            (fun _ => quiet_pure _)))) hF (fun _ s2 he => ?_)
      rw [wp_pure]
      refine ⟨rd, hp, hv, ?_, ?_, he.loc.trans hl⟩
      · unfold ConstraintTally.after badAnswer
        rw [if_pos hbad]
      · rw [filter_isConstraint_extends he, htr]
    · rename_i hgood
      rw [wp_ite]
      split
      · rename_i hz
        rw [wp_pure]
        refine ⟨rd, hp, hv, ?_, htr, hl⟩
        unfold ConstraintTally.after badAnswer
        rw [if_neg hgood, if_pos hz]
      · rename_i hz
        rw [wp_pure]
        refine ⟨rd, hp, hv, ?_, htr, hl⟩
        unfold ConstraintTally.after badAnswer
        rw [if_neg hgood, if_neg hz]
  unfold constrainPair melQueryStringArrayChecked
  simp only [M.bind_def, M.pure_def, M.bind_assoc, M.pure_bind]
  refine wp_bind_callN hF ?_
  have hpc : Cmd.mel "parentConstraint" [q pair.1, q pair.2] = parentConstraintCmd pair := rfl
  have hoc : Cmd.mel "orientConstraint" [q pair.1, q pair.2] = orientConstraintCmd pair := rfl
  rw [hpc]
  by_cases hbad : (!(F s.scene (parentConstraintCmd pair)).1.ok
      || (F s.scene (parentConstraintCmd pair)).1.arr.isEmpty) = true
  · rw [if_pos hbad]
    simp only [M.bind_assoc, M.pure_bind]
    refine wp_bind_callN hF ?_
    rw [hoc]
    exact hfinish ⟨pair, (F s.scene (parentConstraintCmd pair)).1,
      some (F (F s.scene (parentConstraintCmd pair)).2 (orientConstraintCmd pair)).1⟩ _ rfl
      (by unfold Round.valid badAnswer; rw [hbad]; rfl)
      (by simp only [List.filter_append, Round.entries]
          rw [List.append_assoc]; rfl) rfl
  · rw [if_neg hbad]
    simp only [M.pure_bind]
    exact hfinish ⟨pair, (F s.scene (parentConstraintCmd pair)).1, none⟩ _ rfl
      (by unfold Round.valid badAnswer
          simp only [Bool.not_eq_true] at hbad
          rw [hbad]; rfl)
      (by simp only [List.filter_append, Round.entries]; rfl) rfl

theorem constraintLoop_spec (F : Facade σ) (hF : NoFault F) (pairs : List (String × String)) :
    ∀ (rounds0 : List Round) (s : Run σ DupLocals),
      s.trace.filter isConstraint = rounds0.flatMap Round.entries →
      (∀ rd ∈ rounds0, rd.valid) →
      wp F (M.foldM constrainPair (tallyOf rounds0) pairs : M σ DupLocals ρ ConstraintTally)
        (fun o s1 => ∃ rounds, o = .val (tallyOf rounds)
          ∧ rounds.map Round.pair = rounds0.map Round.pair ++ pairs
          ∧ s1.trace.filter isConstraint = rounds.flatMap Round.entries
          ∧ (∀ rd ∈ rounds, rd.valid) ∧ s1.loc = s.loc) s := by
  induction pairs with
  | nil =>
    intro rounds0 s h1 h2
    show wp F (M.pure _) _ s
    rw [wp_pure]
    exact ⟨rounds0, rfl, (List.append_nil _).symm, h1, h2, rfl⟩
  | cons p rest ih =>
    intro rounds0 s h1 h2
    show wp F (M.bind (constrainPair (tallyOf rounds0) p) fun b1 => M.foldM constrainPair b1 rest)
      _ s
    rw [wp_bind]
    refine wp_mono (constrainPair_spec F hF (tallyOf rounds0) p s) ?_
    rintro o s1 ⟨rd, hpair, hv, rfl, htr, hl⟩
    simp only []
    rw [← tallyOf_snoc]
    refine wp_mono (ih (rounds0 ++ [rd]) s1 ?_ ?_) ?_
    · rw [htr, h1, List.flatMap_append]; simp
    · intro x hx
      rcases List.mem_append.1 hx with h | h
      · exact h2 x h
      · rw [List.mem_singleton.1 h]; exact hv
    · rintro o s2 ⟨rounds, e1, e2, e3, e4, e5⟩
      refine ⟨rounds, e1, ?_, e3, e4, e5.trans hl⟩
      rw [e2, List.map_append, List.map_cons, List.map_nil, hpair, List.append_assoc]
      rfl

section CarryRules
variable {L α β : Type} {w : L → List String}

theorem carry_pure (a : α) : Carry w (M.pure a : M σ L ExportResult α) := by
  constructor
  · intro F s; rw [M.run_pure]; exact fun _ h => h
  · intro F s r h; rw [M.run_pure] at h; exact nomatch h

theorem carry_call (c : Cmd) : Carry w (M.call c : M σ L ExportResult Resp) := by
  constructor
  · intro F s; rw [M.run_call]; exact fun _ h => h
  · intro F s r h
    rw [M.run_call] at h
    simp only [] at h
    split at h <;> cases h

theorem carry_getL : Carry w (M.getL : M σ L ExportResult L) := by
  constructor
  · intro F s; rw [M.run_getL]; exact fun _ h => h
  · intro F s r h; rw [M.run_getL] at h; exact nomatch h

theorem carry_modifyL {f : L → L} (h : ∀ l x, x ∈ w l → x ∈ w (f l)) :
    Carry w (M.modifyL f : M σ L ExportResult Unit) := by
  constructor
  · intro F s; rw [M.run_modifyL]; exact fun x hx => h _ x hx
  · intro F s r h; rw [M.run_modifyL] at h; exact nomatch h

theorem carry_bind {m : M σ L ExportResult α} {f : α → M σ L ExportResult β}
    (hm : Carry w m) (hf : ∀ a, Carry w (f a)) : Carry w (M.bind m f) := by
  constructor
  · intro F s
    have k1 := hm.grow F s
    rw [M.run_bind]
    generalize m.run F s = p at k1
    obtain ⟨o, s1⟩ := p
    cases o with
    | val a => exact fun x hx => (hf a).grow F s1 x (k1 x hx)
    | ret r => exact k1
    | exc => exact k1
  · intro F s r
    have k1 := hm.grow F s
    have k2 := hm.out F s
    rw [M.run_bind]
    generalize m.run F s = p at k1 k2
    obtain ⟨o, s1⟩ := p
    cases o with
    | val a => exact fun hr x hx => (hf a).out F s1 r hr x (k1 x hx)
    | ret r1 => exact fun hr => k2 r (by cases hr; rfl)
    | exc => exact fun hr => nomatch hr

theorem carry_getL_ret {f : L → ExportResult} (h : ∀ l, ∀ x ∈ w l, x ∈ (f l).warnings) :
    Carry w (M.bind M.getL (fun l => (M.ret (f l) : M σ L ExportResult α))) := by
  constructor
  · intro F s
    rw [M.run_bind, M.run_getL]
    simp only []
    rw [M.run_ret]
    exact fun _ hx => hx
  · intro F s r hr
    rw [M.run_bind, M.run_getL] at hr
    simp only [] at hr
    rw [M.run_ret] at hr
    cases hr
    exact h _

theorem carry_when {c : Bool} {a : M σ L ExportResult Unit} (h : Carry w a) :
    Carry w (M.when c a) := by
  cases c
  · exact carry_pure ()
  · exact h

theorem carry_ite {c : Prop} [Decidable c] {a b : M σ L ExportResult α}
    (ha : Carry w a) (hb : Carry w b) : Carry w (if c then a else b) := by
  split
  · exact ha
  · exact hb

theorem carry_forEach {f : α → M σ L ExportResult Unit} (xs : List α)
    (hf : ∀ a, Carry w (f a)) : Carry w (M.forEach xs f) := by
  induction xs with
  | nil => exact carry_pure ()
  | cons x xs ih => exact carry_bind (hf x) (fun _ => ih)

theorem carry_foldM {f : β → α → M σ L ExportResult β} (xs : List α) (b : β)
    (hf : ∀ b a, Carry w (f b a)) : Carry w (M.foldM f b xs) := by
  induction xs generalizing b with
  | nil => exact carry_pure b
  | cons x xs ih => exact carry_bind (hf b x) (fun b1 => ih b1)

theorem carry_of_quiet {C : Cmd → Prop} {R : LocRel L} {m : M σ L ExportResult α}
    (h : Quiet C R m) (hR : ∀ a b, R.rel a b → ∀ x ∈ w a, x ∈ w b) : Carry w m :=
  ⟨fun F s => hR _ _ (h.ext F s).loc, fun F s r hr => absurd hr (h.noRet F s r)⟩

/-- A function body that is calm, carries its warnings and returns only results that satisfy
`P`: against a host that throws nothing it returns such a result, with the warnings it started
with, after requests that create no constraint. -/
theorem returns_of_calm_carry {R : LocRel L} {P : ExportResult → Prop} {F : Facade σ}
    {m : M σ L ExportResult Empty} (hF : NoFault F)
    (hcalm : Calm (OfKinds notConstrain) R m) (hcarry : Carry w m) (hrets : Rets P m)
    (s : Run σ L) :
    ∃ r, (m.run F s).1 = .ret r ∧ P r ∧ (∀ x ∈ w s.loc, x ∈ r.warnings)
      ∧ (m.run F s).2.trace.filter isConstraint = s.trace.filter isConstraint
      ∧ ∀ x ∈ s.trace, x ∈ (m.run F s).2.trace := by
  have h1 := hcalm.ext F s
  have h2 := hcalm.noExc F s hF
  have h3 := hcarry.out F s
  have h4 := hrets.out F s
  generalize m.run F s = p at h1 h2 h3 h4
  obtain ⟨o, s1⟩ := p
  cases o with
  | val a => exact nomatch a
  | ret r =>
    refine ⟨r, rfl, h4 r rfl, h3 r rfl,
      filter_isConstraint_extends (extends_mono (ofKinds_notin (by decide)) h1), ?_⟩
    obtain ⟨_, t, e, _⟩ := h1
    intro x hx
    rw [e]
    exact List.mem_append_left _ hx
  | exc => exact absurd rfl h2

end CarryRules

theorem quiet_cleanupDup {R : LocRel DupLocals} :
    Quiet (OfKinds [.query, .delete]) R (cleanupDup : M σ DupLocals ρ Unit) := by
  unfold cleanupDup
  simp only [M.bind_def, M.pure_def, melExec, fullPathName]
  repeat' first
    | apply quiet_bind | apply quiet_pure | apply quiet_getL | apply quiet_when
    | apply quiet_ite | apply quiet_forEach | apply quiet_foldM | apply quiet_tryCatch
    | intro _
    | (apply quiet_callK; rfl)

theorem carry_cleanupDup :
    Carry DupLocals.warnings (cleanupDup : M σ DupLocals ExportResult Unit) :=
  carry_of_quiet (@quiet_cleanupDup _ _ (LocRel.same DupLocals)) (fun _ _ e _ hx => e ▸ hx)

theorem carry_buildSelection (names : List String) :
    Carry DupLocals.warnings (buildSelection names : M σ DupLocals ExportResult _) :=
  carry_of_quiet (@quiet_buildSelection _ _ _ (LocRel.same DupLocals) names)
    (fun _ _ e _ hx => e ▸ hx)

theorem carry_debugLoop (j : String) (a : Int) (attrs : List String) :
    Carry DupLocals.warnings
      (debugWorldSpacePositionLoop j a attrs : M σ DupLocals ExportResult Unit) :=
  carry_of_quiet (@quiet_debugWorldSpacePositionLoop _ _ _ (LocRel.same DupLocals) j a attrs)
    (fun _ _ e _ hx => e ▸ hx)

end ConstraintCreation

section ConstraintCreation
variable {σ ρ : Type}

/-- The steps after the constraint loop: they return a result that is no abort for lack of
constraints and that holds the partial-constraint warning when a round failed or returned "0",
and they send no constraint request. -/
theorem exportConstrained_spec (F : Facade σ) (hF : NoFault F) (out : String) (a b : Int)
    (opts : FbxExportOptions) (t0 : Int) (obj : MObject) (orig dup : List String)
    (t : ConstraintTally) (s : Run σ DupLocals) :
    wp F (exportConstrained out a b opts t0 obj orig dup t)
      (fun o s1 => ∃ r, o = .ret r
        ∧ r.errors
          ≠ ["Failed to create constraints for duplicate skeleton (animation would be static)"]
        ∧ ((t.failed > 0 ∨ t.returnedZero > 0) → partialWarning t ∈ r.warnings)
        ∧ s1.trace.filter isConstraint = s.trace.filter isConstraint
        ∧ ∀ x ∈ s.trace, x ∈ s1.trace) s := by
  have key : ∀ rest : M σ DupLocals ExportResult Empty,
      Calm (OfKinds notConstrain) DupWarnGrow rest → Carry DupLocals.warnings rest →
      Rets (fun r => r.errors
        ≠ ["Failed to create constraints for duplicate skeleton (animation would be static)"])
        rest →
      wp F (M.bind (M.when (decide (t.failed > 0) || decide (t.returnedZero > 0))
          (dupWarn (partialWarning t))) (fun _ => rest))
        (fun o s1 => ∃ r, o = .ret r
          ∧ r.errors
            ≠ ["Failed to create constraints for duplicate skeleton (animation would be static)"]
          ∧ ((t.failed > 0 ∨ t.returnedZero > 0) → partialWarning t ∈ r.warnings)
          ∧ s1.trace.filter isConstraint = s.trace.filter isConstraint
          ∧ ∀ x ∈ s.trace, x ∈ s1.trace) s := by
    intro rest hcalm hcarry hrets
    rw [wp_bind, wp_when]
    by_cases hc : (decide (t.failed > 0) || decide (t.returnedZero > 0)) = true
    · rw [if_pos hc]
      unfold dupWarn
      rw [wp_modifyL]
      obtain ⟨r, e1, e2, e3, e4, e5⟩ := returns_of_calm_carry hF hcalm hcarry hrets
        { s with loc := { s.loc with warnings := s.loc.warnings ++ [partialWarning t] } }
      exact ⟨r, e1, e2, fun _ => e3 _ (List.mem_append_right _ (List.mem_singleton.2 rfl)),
        e4, e5⟩
    · rw [if_neg hc]
      obtain ⟨r, e1, e2, _, e4, e5⟩ := returns_of_calm_carry hF hcalm hcarry hrets s
      refine ⟨r, e1, e2, fun h => absurd ?_ hc, e4, e5⟩
      rcases h with h | h
      · simp [h]
      · simp [h]
  unfold exportConstrained
  simp only [M.bind_def, M.pure_def]
  refine key _ ?_ ?_ ?_
  · simp only [melExec, fullPathName, melQueryStringArray, melQueryString,
      debugJointMotionSample, debugWorldSpacePosition, queryAttrAtTime, dupWarn, renameWork,
      debugSelectionSnapshot, setFbxExportDefaults, setFbxBakeRange, fbxExport,
      deleteConstraints, now, fileSizeOrZero, fileExistsOnDisk, getFileSize, scanFbxContent,
      M.bind_def, M.pure_def]
    repeat' first
      | apply calm_bind
      | apply calm_ret
      | apply calm_when
      | apply calm_ite
      | intro _
      | (apply calm_of_quiet
         repeat' first
          | exact quiet_mono (ofKinds_mono (by decide)) quiet_cleanupDup
          | exact quiet_mono (ofKinds_mono (by decide)) (quiet_buildSelection _)
          | exact quiet_mono (ofKinds_mono (by decide)) (quiet_debugWorldSpacePositionLoop _ _ _)
          | apply quiet_bind | apply quiet_pure | apply quiet_getL | apply quiet_when
          | apply quiet_ite | apply quiet_forEach | apply quiet_foldM | apply quiet_tryCatch
          | intro _
          | (apply quiet_callK; rfl)
          | (apply quiet_modifyL; intro l x hx
             first | exact hx | exact List.mem_append_left _ hx))
  · simp only [melExec, fullPathName, melQueryStringArray, melQueryString,
      debugJointMotionSample, debugWorldSpacePosition, queryAttrAtTime, dupWarn, renameWork,
      debugSelectionSnapshot, setFbxExportDefaults, setFbxBakeRange, fbxExport,
      deleteConstraints, now, fileSizeOrZero, fileExistsOnDisk, getFileSize, scanFbxContent,
      M.bind_def, M.pure_def]
    repeat' first
      | exact carry_cleanupDup
      | exact carry_buildSelection _
      | exact carry_debugLoop _ _ _
      | (apply carry_getL_ret; intro l x hx; exact hx)
      | apply carry_bind
      | apply carry_when
      | apply carry_ite
      | apply carry_forEach
      | apply carry_foldM
      | intro _
      | exact carry_pure _
      | exact carry_getL
      | exact carry_call _
      | (apply carry_modifyL; intro l x hx
         first | exact hx | exact List.mem_append_left _ hx)
  · simp only [melExec, fullPathName, melQueryStringArray, melQueryString,
      debugJointMotionSample, debugWorldSpacePosition, queryAttrAtTime, dupWarn, renameWork,
      debugSelectionSnapshot, setFbxExportDefaults, setFbxBakeRange, fbxExport,
      deleteConstraints, now, fileSizeOrZero, fileExistsOnDisk, getFileSize, scanFbxContent,
      M.bind_def, M.pure_def]
    repeat' first
      | exact rets_cleanupDup _
      | exact rets_buildSelection _ _
      | exact rets_debugWorldSpacePositionLoop _ _ _ _
      | apply rets_bind
      | apply rets_forEach
      | apply rets_foldM
      | apply rets_when
      | apply rets_ite
      | intro _
      | exact rets_pure _ _
      | exact rets_getL _
      | exact rets_modifyL _ _
      | exact rets_call _ _
      | (apply rets_ret; simp [makeResult])

end ConstraintCreation

section ConstraintCreation
variable {σ ρ : Type}

theorem keeps_refl {L : Type} (s : Run σ L) : Keeps s s :=
  ⟨rfl, fun _ h => h⟩

theorem keeps_trans {L : Type} {s s1 s2 : Run σ L} (h1 : Keeps s s1) (h2 : Keeps s1 s2) :
    Keeps s s2 :=
  ⟨h2.1.trans h1.1, fun x hx => h2.2 x (h1.2 x hx)⟩

theorem keeps_of_extends {L : Type} {F : Facade σ} {R : LocRel L} {ks : List Kind}
    (hk : ∀ k ∈ ks, k ∉ [Kind.constrain]) {s s1 : Run σ L}
    (he : Extends F (OfKinds ks) R s s1) : Keeps s s1 := by
  refine ⟨filter_isConstraint_extends (extends_mono (ofKinds_notin hk) he), ?_⟩
  obtain ⟨_, t, e, _⟩ := he
  intro x hx
  rw [e]
  exact List.mem_append_left _ hx

/-- A quiet step that sends no constraint request, against a host that throws nothing. -/
theorem wp_bind_keepQ {L α β : Type} {ks : List Kind} {R : LocRel L} {F : Facade σ}
    {m : M σ L ρ α} {f : α → M σ L ρ β} {post : Out ρ β → Run σ L → Prop} {s : Run σ L}
    (hq : Quiet (OfKinds ks) R m) (hk : ∀ k ∈ ks, k ∉ [Kind.constrain]) (hF : NoFault F)
    (h : ∀ a s1, Keeps s s1 → wp F (f a) post s1) : wp F (M.bind m f) post s :=
  wp_bind_quietN hq hF (fun a s1 he => h a s1 (keeps_of_extends hk he))

/-- A request that creates no constraint, against a host that throws nothing. -/
theorem wp_bind_keepC {L β : Type} {F : Facade σ} {c : Cmd} {f : Resp → M σ L ρ β}
    {post : Out ρ β → Run σ L → Prop} {s : Run σ L} (hF : NoFault F)
    (hc : c.kind ≠ .constrain)
    (h : ∀ s1, Keeps s s1 → (c, (F s.scene c).1) ∈ s1.trace →
      wp F (f (F s.scene c).1) post s1) :
    wp F (M.bind (M.call c) f) post s := by
  refine wp_bind_callN hF (h _ ⟨?_, ?_⟩ ?_)
  · show List.filter isConstraint (s.trace ++ [(c, (F s.scene c).1)]) = _
    rw [List.filter_append]
    have : [(c, (F s.scene c).1)].filter isConstraint = [] := by
      rw [List.filter_eq_nil_iff]
      intro x hx
      rw [List.mem_singleton.1 hx]
      simp only [isConstraint, decide_eq_true_eq]
      exact hc
    rw [this, List.append_nil]
  · intro x hx
    exact List.mem_append_left _ hx
  · exact List.mem_append_right _ (List.mem_singleton.2 rfl)

/-- A change of the locals alone. -/
theorem wp_bind_keepL {L β : Type} {F : Facade σ} {g : L → L} {f : Unit → M σ L ρ β}
    {post : Out ρ β → Run σ L → Prop} {s : Run σ L}
    (h : ∀ s1, Keeps s s1 → s1.loc = g s.loc → wp F (f ()) post s1) :
    wp F (M.bind (M.modifyL g) f) post s := by
  rw [wp_bind, wp_modifyL]
  exact h _ (keeps_refl _) rfl

/-- The abort pattern of the duplicate path: clean up, then return a failed result with the
warnings collected so far. -/
theorem wp_abortDup {F : Facade σ} (hF : NoFault F) (out msg : String)
    (post : Out ExportResult Unit → Run σ DupLocals → Prop) (s : Run σ DupLocals)
    (h : ∀ s1, Keeps s s1 → post (.ret (makeResult false out 0 0 s1.loc.warnings [msg])) s1) :
    wp F (M.bind cleanupDup (fun _ => M.bind M.getL (fun l =>
      (M.ret (makeResult false out 0 0 l.warnings [msg]) : M σ DupLocals ExportResult Unit))))
      post s := by
  refine wp_bind_keepQ (@quiet_cleanupDup _ _ (LocRel.same DupLocals)) (by decide) hF
    (fun _ s1 hk => ?_)
  rw [wp_bind, wp_getL]
  simp only []
  rw [wp_ret]
  exact h s1 hk

theorem kind_ne_constrain {c : Cmd} (k : Kind) (h : c.kind = k) (hk : k ≠ .constrain) :
    c.kind ≠ .constrain :=
  h ▸ hk

theorem jointQuery_kind (root : String) : (jointQuery root).kind ≠ .constrain :=
  kind_ne_constrain Kind.query rfl (by decide)

/-- What the steps from the duplicate root on establish: the rounds of the constraint loop
with their pairs, the counters, the warning, and the trace so far kept. -/
theorem constrainDuplicate_spec (F : Facade σ) (hF : NoFault F) (src out : String) (a b : Int)
    (opts : FbxExportOptions) (t0 : Int) (d0 : String) (s : Run σ DupLocals)
    (h0 : s.trace.filter isConstraint = []) :
    wp F (constrainDuplicate src out a b opts t0 d0)
      (fun o s1 => ∃ r rounds, o = .ret r
        ∧ s1.trace.filter isConstraint = rounds.flatMap Round.entries
        ∧ (∀ rd ∈ rounds, rd.valid)
        ∧ PairClaims src r s1.trace rounds
        ∧ ((tallyOf rounds).created > 0 →
            ((tallyOf rounds).failed > 0 ∨ (tallyOf rounds).returnedZero > 0) →
            partialWarning (tallyOf rounds) ∈ r.warnings
            ∧ r.errors ≠
              ["Failed to create constraints for duplicate skeleton (animation would be static)"])
        ∧ ∀ x ∈ s.trace, x ∈ s1.trace) s := by
  unfold constrainDuplicate
  simp only [M.bind_def, M.pure_def, melQueryStringArray, M.bind_assoc, M.pure_bind]
  refine wp_bind_keepL (fun s1 k1 _ => ?_)
  refine wp_bind_keepQ (@quiet_getDependNode _ _ _ (LocRel.same DupLocals) _) (by decide) hF
    (fun obj s2 k2 => ?_)
  refine wp_bind_keepL (fun s3 k3 _ => ?_)
  refine wp_bind_keepQ (@quiet_melExec _ _ _ (LocRel.same DupLocals) .reparent "parent" _ rfl)
    (by decide) hF (fun _ s4 k4 => ?_)
  refine wp_bind_keepQ
    (quiet_when (quiet_bind (quiet_fullPathName _) (fun _ => quiet_modifyL (fun _ => trivial))) :
      Quiet (OfKinds [.query]) (LocRel.any DupLocals) _)
    (by decide) hF (fun _ s5 k5 => ?_)
  rw [wp_bind, wp_getL]
  simp only []
  generalize s5.loc.dupRoot = dupRoot
  refine wp_bind_keepQ (quiet_when (quiet_removeDupMeshes _)) (by decide) hF (fun _ s6 k6 => ?_)
  have hjq : ∀ root, Cmd.mel "listRelatives"
      ["-allDescendents", "-type", "\"joint\"", "-fullPath", q root] = jointQuery root :=
    fun _ => rfl
  rw [hjq, hjq]
  refine wp_bind_keepC hF (jointQuery_kind src) (fun s7 k7 m7 => ?_)
  generalize (F s6.scene (jointQuery src)).1 = ro at m7 ⊢
  refine wp_bind_keepC hF (jointQuery_kind dupRoot) (fun s8 k8 m8 => ?_)
  generalize (F s7.scene (jointQuery dupRoot)).1 = rp at m8 ⊢
  refine wp_bind_keepQ (@quiet_debugJointMotionSample _ _ _ (LocRel.same DupLocals) _ _ _)
    (by decide) hF (fun _ s9 k9 => ?_)
  refine wp_bind_keepQ (@quiet_debugWorldSpacePosition _ _ _ (LocRel.same DupLocals) _ _)
    (by decide) hF (fun _ s10 k10 => ?_)
  have K10 : Keeps s s10 :=
    keeps_trans (keeps_trans (keeps_trans (keeps_trans (keeps_trans (keeps_trans (keeps_trans
      (keeps_trans (keeps_trans k1 k2) k3) k4) k5) k6) k7) k8) k9) k10
  have M7 : (jointQuery src, ro) ∈ s10.trace := k10.2 _ (k9.2 _ (k8.2 _ m7))
  have M8 : (jointQuery dupRoot, rp) ∈ s10.trace := k10.2 _ (k9.2 _ m8)
  clear k1 k2 k3 k4 k5 k6 k7 k8 k9 k10 m7 m8
  rw [wp_bind, wp_when]
  split
  · rename_i hlen
    have hne : (ro.arr ++ [src]).length ≠ (rp.arr ++ [dupRoot]).length := by
      intro he
      simp [he] at hlen
    refine wp_abortDup hF _ _ _ _ (fun s11 k11 => ⟨_, [], rfl, ?_,
      fun _ hx => absurd hx (List.not_mem_nil _),
      ⟨ro, rp, dupRoot, k11.2 _ M7, k11.2 _ M8, ?_⟩,
      fun h => absurd h (by decide), fun x hx => k11.2 _ (K10.2 _ hx)⟩)
    · rw [k11.1, K10.1, h0]; rfl
    · rw [if_neg hne]
      exact ⟨rfl, rfl⟩
  rename_i hlen
  simp only [Bool.or_eq_true, bne_iff_ne, ne_eq, not_or, Decidable.not_not] at hlen
  simp only []
  refine wp_bind_keepQ
    (@quiet_unlockTransformChannels _ _ _ (LocRel.same DupLocals) _) (by decide) hF
    (fun _ s11 k11 => ?_)
  rw [wp_bind]
  have hloop := constraintLoop_spec (ρ := ExportResult) F hF
    (List.zip (ro.arr ++ [src]) (rp.arr ++ [dupRoot])) [] s11
    (by rw [k11.1, K10.1, h0]; rfl) (fun _ hx => absurd hx (List.not_mem_nil _))
  have hext := (quiet_foldM (C := OfKinds [.query, .constrain]) (R := LocRel.same DupLocals)
    (List.zip (ro.arr ++ [src]) (rp.arr ++ [dupRoot])) (tallyOf [])
    (fun t p => quiet_constrainPair (ρ := ExportResult) (σ := σ) t p)).ext F s11
  have hloop1 : wp F (M.foldM constrainPair (tallyOf [])
      (List.zip (ro.arr ++ [src]) (rp.arr ++ [dupRoot])) :
        M σ DupLocals ExportResult ConstraintTally)
      (fun o s1 => ∃ rounds, o = Out.val (tallyOf rounds) ∧
        List.map Round.pair rounds = List.zip (ro.arr ++ [src]) (rp.arr ++ [dupRoot]) ∧
        List.filter isConstraint s1.trace = rounds.flatMap Round.entries ∧
        (∀ rd ∈ rounds, rd.valid) ∧ (∀ x ∈ s11.trace, x ∈ s1.trace)) s11 := by
    unfold wp at hloop ⊢
    obtain ⟨rounds, e1, e2, e3, e4, _⟩ := hloop
    refine ⟨rounds, e1, e2, e3, e4, ?_⟩
    obtain ⟨_, t, e, _⟩ := hext
    intro x hx
    rw [e]
    exact List.mem_append_left _ hx
  clear hloop hext
  refine wp_mono hloop1 ?_
  rintro o s12 ⟨rounds, rfl, hpairs, hfil, hval, k12⟩
  simp only []
  have M7b : (jointQuery src, ro) ∈ s12.trace := k12 _ (k11.2 _ M7)
  have M8b : (jointQuery dupRoot, rp) ∈ s12.trace := k12 _ (k11.2 _ M8)
  rw [wp_bind, wp_when]
  split
  · rename_i hcreated
    refine wp_abortDup hF _ _ _ _ (fun s13 k13 => ⟨_, rounds, rfl, ?_, hval,
      ⟨ro, rp, dupRoot, k13.2 _ M7b, k13.2 _ M8b, ?_⟩, fun hpos => ?_,
      fun x hx => k13.2 _ (k12 _ (k11.2 _ (K10.2 _ hx)))⟩)
    · rw [k13.1, hfil]
    · rw [if_pos hlen.1]
      exact hpairs
    · simp only [decide_eq_true_eq] at hcreated
      omega
  · simp only []
    refine wp_mono (exportConstrained_spec F hF out a b opts t0 obj _ _ (tallyOf rounds) s12) ?_
    rintro o s13 ⟨r, rfl, e2, e3, e4, e5⟩
    exact ⟨r, rounds, rfl, by rw [e4, hfil], hval,
      ⟨ro, rp, dupRoot, e5 _ M7b, e5 _ M8b, by rw [if_pos hlen.1]; exact hpairs⟩,
      fun _ hpart => ⟨e3 hpart, e2⟩,
      fun x hx => e5 _ (k12 _ (k11.2 _ (K10.2 _ hx)))⟩

theorem exportSkeletonFbxViaDuplicateBody_spec (F : Facade σ) (hF : NoFault F)
    (src out : String) (a b : Int) (opts : FbxExportOptions) (t0 : Int) (s : Run σ DupLocals)
    (h0 : s.trace.filter isConstraint = []) :
    wp F (exportSkeletonFbxViaDuplicateBody src out a b opts t0)
      (fun o s1 => ∃ r, o = .ret r ∧ ConstraintClaims src r s1.trace) s := by
  have hend : ∀ (first : Resp) (dupRoots : List String) (s1 : Run σ DupLocals), Keeps s s1 →
      (duplicateCmd src, first) ∈ s1.trace →
      (if badAnswer first then
        ∃ second, (duplicateAgainCmd src, second) ∈ s1.trace ∧ dupRoots = second.arr
      else dupRoots = first.arr) →
      wp F (match dupRoots with
        | [] => M.bind M.getL (fun l => (M.ret (makeResult false out 0 0 l.warnings
            ["Failed to duplicate skeleton root: " ++ src]) : M σ DupLocals ExportResult Empty))
        | d0 :: _ => constrainDuplicate src out a b opts t0 d0)
        (fun o s1 => ∃ r, o = .ret r ∧ ConstraintClaims src r s1.trace) s1 := by
    intro first dupRoots s1 k1 m1 hd
    cases dupRoots with
    | nil =>
      simp only []
      rw [wp_bind, wp_getL]
      simp only []
      rw [wp_ret]
      refine ⟨_, rfl, first, [], [], m1, hd, by rw [k1.1, h0]; rfl,
        fun _ hx => absurd hx (List.not_mem_nil _), fun _ => ⟨rfl, rfl⟩,
        fun h => absurd rfl h, by decide, fun h => absurd h (by decide)⟩
    | cons d0 rest =>
      refine wp_mono (constrainDuplicate_spec F hF src out a b opts t0 d0 s1
        (by rw [k1.1, h0])) ?_
      rintro o s2 ⟨r, rounds, rfl, e1, e2, e3, e4, e5⟩
      refine ⟨r, rfl, first, d0 :: rest, rounds, e5 _ m1, ?_, e1, e2,
        (fun h => nomatch h), fun _ => e3, tallyOf_sum rounds, e4⟩
      by_cases hb : badAnswer first = true
      · rw [if_pos hb] at hd ⊢
        obtain ⟨second, hm, he⟩ := hd
        exact ⟨second, e5 _ hm, he⟩
      · rw [if_neg hb] at hd ⊢
        exact hd
  unfold exportSkeletonFbxViaDuplicateBody
  simp only [M.bind_def, M.pure_def, melQueryStringArrayChecked, M.bind_assoc, M.pure_bind]
  refine wp_bind_keepQ (@quiet_ensureOutDir _ _ _ (LocRel.same DupLocals) _) (by decide) hF
    (fun _ s1 k1 => ?_)
  refine wp_bind_keepC hF (kind_ne_constrain Kind.create rfl (by decide)) (fun s2 k2 m2 => ?_)
  have m2b : (duplicateCmd src, (F s1.scene (duplicateCmd src)).1) ∈ s2.trace := m2
  generalize (F s1.scene (Cmd.mel "duplicate" ["-rc", q src])).1 = first at m2 m2b ⊢
  split
  · rename_i hbad
    simp only [M.bind_assoc, M.pure_bind]
    refine wp_bind_keepC hF (kind_ne_constrain Kind.create rfl (by decide))
      (fun s3 k3 m3 => ?_)
    refine hend first _ s3 (keeps_trans (keeps_trans k1 k2) k3) (k3.2 _ m2) ?_
    rw [if_pos (by simpa [badAnswer] using hbad)]
    exact ⟨_, m3, rfl⟩
  · rename_i hbad
    simp only [M.pure_bind]
    refine hend first _ s2 (keeps_trans k1 k2) m2 ?_
    rw [if_neg (by simpa [badAnswer] using hbad)]

theorem exportSkeletonFbxViaDuplicate_spec (F : Facade σ) (hF : NoFault F)
    (src out : String) (a b : Int) (opts : FbxExportOptions) (s : Run σ DupLocals)
    (h0 : s.trace.filter isConstraint = []) :
    wp F (exportSkeletonFbxViaDuplicate src out a b opts)
      (fun o s1 => ∃ r, o = .ret r ∧ ConstraintClaims src r s1.trace) s := by
  unfold exportSkeletonFbxViaDuplicate
  simp only [M.bind_def, M.pure_def]
  refine wp_bind_keepQ (@quiet_now _ _ _ (LocRel.same DupLocals)) (by decide) hF
    (fun t0 s1 k1 => ?_)
  rw [wp_tryCatch]
  refine wp_mono (exportSkeletonFbxViaDuplicateBody_spec F hF src out a b opts t0 s1
    (by rw [k1.1, h0])) ?_
  rintro o s2 ⟨r, rfl, hc⟩
  exact ⟨r, rfl, hc⟩

theorem partialConstraintScene_noFault : NoFault partialConstraintScene :=
  statelessHost_noFault _

/-- C25: against a host that throws nothing, `exportSkeletonFbxViaDuplicate` returns a result,
its trace holds the `duplicate` request, and unless no duplicate was created or the joint
lists of original and duplicate differ in length (the two cases in which the call returns
the error that says so, before the loop), the constraint requests it has sent are those of
one round for every matched joint pair, in order: a `parentConstraint` first, and an
`orientConstraint` exactly when the `parentConstraint` failed or returned nothing. The
counters created, failed and returnedZero add up to the number of pairs, and when at least one
constraint was created and at least one round failed or returned "0", the call does not abort
for lack of constraints and the warnings of its result hold the partial-constraint warning
with the three counters. -/
theorem constraint_creation (F : Facade σ) (hF : NoFault F) (src out : String) (a b : Int)
    (opts : FbxExportOptions) (sc : σ) :
    ∃ r, (runFn (exportSkeletonFbxViaDuplicate src out a b opts) {} F sc).result = some r
      ∧ ConstraintClaims src r
          (runFn (exportSkeletonFbxViaDuplicate src out a b opts) {} F sc).trace := by
  obtain ⟨r, e, hc⟩ := exportSkeletonFbxViaDuplicate_spec F hF src out a b opts
    { scene := sc, trace := [], loc := {} } rfl
  obtain ⟨e1, e2⟩ := runFn_ret _ _ F sc r e
  exact ⟨r, e1, by rw [e2]; exact hc⟩

set_option maxRecDepth 1000000 in
/-- The run of `constraint_creation` on a root with one child joint: the `parentConstraint` of
the child fails and its `orientConstraint` returns "0", the `parentConstraint` of the root
succeeds. Three constraint requests are sent, the export proceeds, and the warnings hold the
partial-constraint warning with created=1, failed=0, returnedZero=1 for the two pairs. -/
theorem constraint_creation_witness :
    NoFault partialConstraintScene
    ∧ (runFn (exportSkeletonFbxViaDuplicate "|Root" "out/a.fbx" 1 10 {}) {}
          partialConstraintScene ()).result
        = some (makeResult true "out/a.fbx" 512 0
            ["Duplicate constraint creation partial: created=1, failed=0, returnedZero=1",
             "Skeleton was referenced/read-only; exported via temporary duplicate skeleton",
             "Namespaces stripped on duplicate skeleton during export"] [])
    ∧ requests ((runFn (exportSkeletonFbxViaDuplicate "|Root" "out/a.fbx" 1 10 {}) {}
          partialConstraintScene ()).trace.filter isConstraint)
        = [parentConstraintCmd ("|Root|spine", "|dup1|spine"),
           orientConstraintCmd ("|Root|spine", "|dup1|spine"),
           parentConstraintCmd ("|Root", "|dup1")]
    ∧ ∃ r, (runFn (exportSkeletonFbxViaDuplicate "|Root" "out/a.fbx" 1 10 {}) {}
          partialConstraintScene ()).result = some r
      ∧ ConstraintClaims "|Root" r
          (runFn (exportSkeletonFbxViaDuplicate "|Root" "out/a.fbx" 1 10 {}) {}
            partialConstraintScene ()).trace :=
  ⟨partialConstraintScene_noFault, by decide!, by decide!,
    constraint_creation partialConstraintScene partialConstraintScene_noFault
      "|Root" "out/a.fbx" 1 10 {} ()⟩

end ConstraintCreation

/-! ## The retry of the referenced in-place export (C18) -/

section TrackSent
variable {σ L ρ α β : Type} {p : Cmd → Bool}

theorem sent_append (p : Cmd → Bool) (a b : List (Cmd × Resp)) :
    sent p (a ++ b) = sent p a ++ sent p b :=
  List.filter_append _ _

theorem sent_extends {F : Facade σ} {R : LocRel L} {s s1 : Run σ L}
    (he : Extends F (fun c => p c = false) R s s1) : sent p s1.trace = sent p s.trace := by
  obtain ⟨_, t, e1, c1, _, _⟩ := he
  rw [e1, sent_append]
  have : sent p t = [] := by
    unfold sent
    rw [List.filter_eq_nil_iff]
    intro x hx
    rw [c1 x hx]
    exact Bool.false_ne_true
  rw [this, List.append_nil]

/-- A request outside `p`, against a host that throws nothing. -/
theorem wp_callSkip {F : Facade σ} {c : Cmd} {f : Resp → M σ L ρ β}
    {post : Out ρ β → Run σ L → Prop} {s : Run σ L} {B : List (Cmd × Resp)} (hF : NoFault F)
    (hs : sent p s.trace = B) (hc : p c = false)
    (h : ∀ r s1, sent p s1.trace = B → s1.loc = s.loc → wp F (f r) post s1) :
    wp F (M.bind (M.call c) f) post s := by
  refine wp_bind_callN hF (h _ _ ?_ rfl)
  show sent p (s.trace ++ [(c, (F s.scene c).1)]) = B
  rw [sent_append, hs]
  unfold sent
  rw [List.filter_cons_of_neg (by simp [hc]), List.filter_nil, List.append_nil]

/-- A request inside `p`, against a host that throws nothing. -/
theorem wp_callTake {F : Facade σ} {c : Cmd} {f : Resp → M σ L ρ β}
    {post : Out ρ β → Run σ L → Prop} {s : Run σ L} {B : List (Cmd × Resp)} (hF : NoFault F)
    (hs : sent p s.trace = B) (hc : p c = true)
    (h : ∀ r s1, sent p s1.trace = B ++ [(c, r)] → s1.loc = s.loc → wp F (f r) post s1) :
    wp F (M.bind (M.call c) f) post s := by
  refine wp_bind_callN hF (h _ _ ?_ rfl)
  show sent p (s.trace ++ [(c, (F s.scene c).1)]) = _
  rw [sent_append, hs]
  unfold sent
  rw [List.filter_cons_of_pos (by simp [hc]), List.filter_nil]

/-- Quiet code that sends no request inside `p`, against a host that throws nothing. -/
theorem wp_quietSkip {C : Cmd → Prop} {R : LocRel L} {F : Facade σ}
    {m : M σ L ρ α} {f : α → M σ L ρ β} {post : Out ρ β → Run σ L → Prop} {s : Run σ L}
    {B : List (Cmd × Resp)} (hq : Quiet C R m) (hC : ∀ c, C c → p c = false) (hF : NoFault F)
    (hs : sent p s.trace = B)
    (h : ∀ a s1, sent p s1.trace = B → R.rel s.loc s1.loc → wp F (f a) post s1) :
    wp F (M.bind m f) post s :=
  wp_bind_quietN hq hF (fun a s1 he =>
    h a s1 ((sent_extends (extends_mono hC he)).trans hs) he.loc)

/-- A change of the locals. -/
theorem wp_modSkip {F : Facade σ} {g : L → L} {f : Unit → M σ L ρ β}
    {post : Out ρ β → Run σ L → Prop} {s : Run σ L} {B : List (Cmd × Resp)}
    (hs : sent p s.trace = B)
    (h : ∀ s1, sent p s1.trace = B → s1.loc = g s.loc → wp F (f ()) post s1) :
    wp F (M.bind (M.modifyL g) f) post s := by
  rw [wp_bind, wp_modifyL]
  exact h _ hs rfl

end TrackSent

section Retry
variable {σ L ρ : Type} {R : LocRel L}

theorem isAttemptStep_kind (c : Cmd) (h : c.kind ∈ [Kind.query, .select, .clock]) :
    isAttemptStep c = false := by
  cases hc : isAttemptStep c with
  | false => rfl
  | true =>
    exfalso
    unfold isAttemptStep at hc
    split at hc
    · rename_i args
      have e : (Cmd.mel "FBXExportInputConnections" args).kind = Kind.setting := rfl
      rw [e] at h
      exact absurd h (by decide)
    · rename_i args
      have e : (Cmd.mel "FBXExport" args).kind = Kind.export := rfl
      rw [e] at h
      exact absurd h (by decide)
    · rename_i path
      have e : (Cmd.readFile path).kind = Kind.file := rfl
      rw [e] at h
      exact absurd h (by decide)
    · exact absurd hc Bool.false_ne_true

theorem quiet_steps {α : Type} {ks : List Kind} {m : M σ L ρ α} (hq : Quiet (OfKinds ks) R m)
    (hk : ∀ k ∈ ks, k ∈ [Kind.query, .select, .clock]) :
    Quiet (fun c => isAttemptStep c = false) R m :=
  quiet_mono (fun c hc => isAttemptStep_kind c (hk _ hc)) hq

theorem quiet_parentsOfShapes (xs : List String) :
    Quiet (OfKinds [.query]) R (parentsOfShapes xs : M σ L ρ (List String)) := by
  unfold parentsOfShapes
  simp only [M.bind_def, M.pure_def, melQueryStringArray]
  repeat' first
    | apply quiet_bind | apply quiet_pure | apply quiet_foldM
    | intro _
    | (apply quiet_callK; rfl)

theorem quiet_collectMeshTransformsUnderNode (node : String) :
    Quiet (OfKinds [.query]) R (collectMeshTransformsUnderNode node : M σ L ρ (List String)) := by
  unfold collectMeshTransformsUnderNode
  simp only [M.bind_def, M.pure_def, melQueryStringArray]
  repeat' first
    | exact quiet_parentsOfShapes _
    | apply quiet_bind | apply quiet_pure | apply quiet_ite
    | intro _
    | (apply quiet_callK; rfl)

theorem quiet_collectMeshTransformsByNamespace (node : String) :
    Quiet (OfKinds [.query]) R
      (collectMeshTransformsByNamespace node : M σ L ρ (List String)) := by
  unfold collectMeshTransformsByNamespace
  simp only [M.bind_def, M.pure_def, melQueryStringArray]
  repeat' first
    | exact quiet_parentsOfShapes _
    | apply quiet_bind | apply quiet_pure | apply quiet_ite
    | intro _
    | (apply quiet_callK; rfl)
    | split

theorem quiet_collectSkinnedMeshTransformsForJoints (joints : List String) :
    Quiet (OfKinds [.query]) R
      (collectSkinnedMeshTransformsForJoints joints : M σ L ρ (List String)) := by
  unfold collectSkinnedMeshTransformsForJoints skinClustersOfJoints meshTransformsOfSkin
  simp only [M.bind_def, M.pure_def, melQueryStringArray, melQueryString]
  repeat' first
    | apply quiet_bind | apply quiet_pure | apply quiet_ite | apply quiet_foldM
    | intro _
    | (apply quiet_callK; rfl)

theorem quiet_debugSelectionSnapshot :
    Quiet (OfKinds [.query]) R (debugSelectionSnapshot : M σ L ρ Unit) := by
  unfold debugSelectionSnapshot
  simp only [M.bind_def, M.pure_def, melQueryStringArray]
  repeat' first
    | apply quiet_bind | apply quiet_pure
    | intro _
    | (apply quiet_callK; rfl)

theorem quiet_fileSizeOrZero_steps (path : String) :
    Quiet (fun c => isAttemptStep c = false) R (fileSizeOrZero path : M σ L ρ Int) := by
  unfold fileSizeOrZero fileExistsOnDisk getFileSize
  simp only [M.bind_def, M.pure_def]
  repeat' first
    | apply quiet_bind | apply quiet_pure | apply quiet_ite
    | intro _
    | (apply quiet_call; rfl)

theorem quiet_skelWarn {C : Cmd → Prop} (w : String) :
    Quiet C (LocRel.any SkelLocals) (skelWarn w : M σ SkelLocals ρ Unit) :=
  quiet_modifyL (fun _ => trivial)

/-- One call of the lambda `exportReferencedInPlace`: it sends the requests of one attempt and
hands back the counts of that attempt and whether `FBXExport` succeeded. -/
theorem exportReferencedInPlace_spec (F : Facade σ) (hF : NoFault F) (out : String) (a b : Int)
    (opts : FbxExportOptions) (useIC warned : Bool) (B : List (Cmd × Resp))
    (s : Run σ SkelLocals) (hs : sent isAttemptStep s.trace = B) :
    wp F (exportReferencedInPlace out a b opts useIC warned :
        M σ SkelLocals ρ (FbxContentStats × Bool))
      (fun o s1 => ∃ t : Attempt, t.inputConns = useIC ∧ t.valid
        ∧ o = .val (t.stats, t.exported.ok)
        ∧ sent isAttemptStep s1.trace = B ++ t.entries out) s := by
  unfold exportReferencedInPlace setFbxExportDefaults setFbxBakeRange fbxExport scanFbxContent
  simp only [M.bind_def, M.pure_def, melExec, M.bind_assoc, M.pure_bind]
  iterate 8 refine wp_callSkip hF (by assumption) rfl (fun _ _ hs _ => ?_)
  refine wp_callTake hF (by assumption) rfl (fun r1 _ hs _ => ?_)
  iterate 6 refine wp_callSkip hF (by assumption) rfl (fun _ _ hs _ => ?_)
  refine wp_quietSkip (R := LocRel.any SkelLocals) (quiet_when (quiet_skelWarn _))
    (fun _ h => h) hF (by assumption) (fun _ _ hs _ => ?_)
  iterate 3 refine wp_callSkip hF (by assumption) rfl (fun _ _ hs _ => ?_)
  refine wp_callTake hF (by assumption) rfl (fun r2 _ hs _ => ?_)
  iterate 7 refine wp_callSkip hF (by assumption) rfl (fun _ _ hs _ => ?_)
  refine wp_callTake hF (by assumption) rfl (fun e _ hs _ => ?_)
  cases he : e.ok
  · simp only [Bool.not_false, if_true]
    rw [wp_pure]
    refine ⟨⟨useIC, r1, r2, e, none⟩, rfl, ?_, ?_, ?_⟩
    · unfold Attempt.valid; rw [he]; rfl
    · simp only [Attempt.stats, he]
    · rw [hs]
      simp only [Attempt.entries, List.append_assoc, List.singleton_append, List.append_nil,
        List.cons_append, List.nil_append]
  · simp only [Bool.not_true, Bool.false_eq_true, if_false]
    refine wp_callTake hF (by assumption) rfl (fun f s1 hs _ => ?_)
    have hfin : sent isAttemptStep s1.trace
        = B ++ (⟨useIC, r1, r2, e, some f⟩ : Attempt).entries out := by
      rw [hs]
      simp only [Attempt.entries, List.append_assoc, List.singleton_append, List.cons_append,
        List.nil_append]
    split
    · rw [M.pure_bind, wp_pure]
      refine ⟨⟨useIC, r1, r2, e, some f⟩, rfl, ?_, ?_, hfin⟩
      · unfold Attempt.valid; rw [he]; rfl
      · rename_i hf
        simp only [Attempt.stats, he, hf, if_true]
    · rw [M.pure_bind, wp_pure]
      refine ⟨⟨useIC, r1, r2, e, some f⟩, rfl, ?_, ?_, hfin⟩
      · unfold Attempt.valid; rw [he]; rfl
      · rename_i hf
        simp only [Attempt.stats, he, hf, if_false, Bool.false_eq_true]

/-- The last statements of the referenced branch: the result is judged on the counts handed
over. -/
theorem referencedVerdict_spec (F : Facade σ) (hF : NoFault F) (out : String) (t0 : Int)
    (t : Attempt) (hok : t.exported.ok = true) (B : List (Cmd × Resp)) (s : Run σ SkelLocals)
    (hs : sent isAttemptStep s.trace = B) :
    wp F (M.bind now fun n => M.bind (fileSizeOrZero out) fun fileSize =>
      M.bind M.getL fun l =>
        if fileSize ≤ 0 then
          (M.ret (makeResult false out fileSize (n - t0) l.warnings
            ["Referenced in-place skeleton export produced empty file"]) :
            M σ SkelLocals ExportResult Empty)
        else if t.stats.limbNodes ≤ 0 then
          M.ret (makeResult false out fileSize (n - t0) l.warnings
            ["Referenced in-place export contains no LimbNode bones"])
        else if t.stats.skins ≤ 0 ∧ t.stats.deformers ≤ 0 then
          M.ret (makeResult false out fileSize (n - t0) l.warnings
            ["Referenced in-place export contains no skin/deformer data"])
        else
          M.ret (makeResult true out fileSize (n - t0) l.warnings []))
      (fun o s1 => ∃ r, o = .ret r ∧ t.judges r ∧ sent isAttemptStep s1.trace = B) s := by
  refine wp_quietSkip (R := LocRel.same SkelLocals) (quiet_steps quiet_now (by decide)) (fun _ h => h) hF hs
    (fun n s1 hs1 _ => ?_)
  refine wp_quietSkip (R := LocRel.same SkelLocals) (quiet_fileSizeOrZero_steps out)
    (fun _ h => h) hF hs1 (fun fileSize s2 hs2 _ => ?_)
  rw [wp_bind, wp_getL]
  simp only []
  split
  · rename_i h1
    rw [wp_ret]
    refine ⟨_, rfl, ⟨fun h => absurd hok (by rw [h]; decide), fun _ => ?_⟩, hs2⟩
    simp only [makeResult, Bool.false_eq_true, false_iff, not_and]
    intro h; omega
  · rename_i h1
    split
    · rename_i h2
      rw [wp_ret]
      refine ⟨_, rfl, ⟨fun h => absurd hok (by rw [h]; decide), fun _ => ?_⟩, hs2⟩
      simp only [makeResult, Bool.false_eq_true, false_iff, not_and]
      intro _ h; omega
    · rename_i h2
      split
      · rename_i h3
        rw [wp_ret]
        refine ⟨_, rfl, ⟨fun h => absurd hok (by rw [h]; decide), fun _ => ?_⟩, hs2⟩
        simp only [makeResult, Bool.false_eq_true, false_iff, not_and]
        intro _ _ h; omega
      · rename_i h3
        rw [wp_ret]
        refine ⟨_, rfl, ⟨fun h => absurd hok (by rw [h]; decide), fun _ => ?_⟩, hs2⟩
        simp only [makeResult, true_iff]
        omega

/-- The failure return after an attempt whose `FBXExport` failed. -/
theorem failedAttempt_spec (F : Facade σ) (hF : NoFault F) (out msg : String) (t0 : Int)
    (B : List (Cmd × Resp)) (s : Run σ SkelLocals) (hs : sent isAttemptStep s.trace = B) :
    wp F (M.bind now fun n => M.bind (fileSizeOrZero out) fun fileSize =>
      M.bind M.getL fun l =>
        (M.ret (makeResult false out fileSize (n - t0) l.warnings [msg]) :
          M σ SkelLocals ExportResult Unit))
      (fun o s1 => ∃ r, o = .ret r ∧ r.success = false ∧ sent isAttemptStep s1.trace = B) s := by
  refine wp_quietSkip (R := LocRel.same SkelLocals) (quiet_steps quiet_now (by decide))
    (fun _ h => h) hF hs (fun n s1 hs1 _ => ?_)
  refine wp_quietSkip (R := LocRel.same SkelLocals) (quiet_fileSizeOrZero_steps out)
    (fun _ h => h) hF hs1 (fun fileSize s2 hs2 _ => ?_)
  rw [wp_bind, wp_getL]
  simp only []
  rw [wp_ret]
  exact ⟨_, rfl, rfl, hs2⟩

theorem exportReferencedBranch_spec (F : Facade σ) (hF : NoFault F) (root out : String)
    (a b : Int) (opts : FbxExportOptions) (t0 : Int) (s : Run σ SkelLocals)
    (hs : sent isAttemptStep s.trace = []) :
    wp F (exportReferencedBranch root out a b opts t0)
      (fun o s1 => ∃ r, o = .ret r ∧ RetryClaims opts out r s1.trace) s := by
  unfold exportReferencedBranch
  simp only [M.bind_def, M.pure_def]
  refine wp_quietSkip (R := LocRel.any SkelLocals) (quiet_skelWarn _) (fun _ h => h) hF hs
    (fun _ s1 hs _ => ?_)
  refine wp_quietSkip (R := LocRel.any SkelLocals) (quiet_skelWarn _) (fun _ h => h) hF hs
    (fun _ s2 hs _ => ?_)
  refine wp_quietSkip (R := LocRel.same SkelLocals)
    (quiet_steps (quiet_melQueryStringArray .query _ _ rfl) (by decide)) (fun _ h => h) hF hs
    (fun desc s3 hs _ => ?_)
  rw [wp_bind, wp_when]
  have hne : (desc ++ [root]).isEmpty = false := by
    cases desc <;> rfl
  rw [hne]
  simp only [Bool.false_eq_true, if_false]
  refine wp_quietSkip (R := LocRel.same SkelLocals)
    (quiet_steps (quiet_collectSkinnedMeshTransformsForJoints _) (by decide)) (fun _ h => h)
    hF hs (fun m1 s4 hs _ => ?_)
  refine wp_quietSkip (R := LocRel.same SkelLocals)
    (quiet_steps (quiet_ite (quiet_collectMeshTransformsByNamespace _)
      (quiet_pure _) : Quiet (OfKinds [.query]) _ _) (by decide)) (fun _ h => h) hF hs (fun m2 s5 hs _ => ?_)
  refine wp_quietSkip (R := LocRel.same SkelLocals)
    (quiet_steps (quiet_ite (quiet_collectMeshTransformsUnderNode _)
      (quiet_pure _) : Quiet (OfKinds [.query]) _ _) (by decide)) (fun _ h => h) hF hs (fun m3 s6 hs _ => ?_)
  refine wp_quietSkip (R := LocRel.same SkelLocals)
    (quiet_steps (quiet_buildSelection _) (by decide)) (fun _ h => h) hF hs
    (fun sel s7 hs _ => ?_)
  refine wp_callSkip hF hs rfl (fun _ s8 hs _ => ?_)
  refine wp_quietSkip (R := LocRel.same SkelLocals)
    (quiet_steps quiet_debugSelectionSnapshot (by decide)) (fun _ h => h) hF hs
    (fun _ s9 hs _ => ?_)
  rw [wp_bind]
  refine wp_mono (exportReferencedInPlace_spec F hF out a b opts opts.skelInputConns false
    [] s9 hs) ?_
  rintro o s10 ⟨t1, hic1, hv1, rfl, hs⟩
  simp only [List.nil_append] at hs
  simp only []
  rw [wp_bind, wp_when]
  cases hok1 : t1.exported.ok
  · simp only [Bool.not_false, if_true]
    refine wp_mono (failedAttempt_spec F hF out _ t0 _ s10 hs) ?_
    rintro o s11 ⟨r, rfl, hr, hs11⟩
    refine ⟨r, rfl, [t1], ?_, ?_, Or.inl ⟨t1, rfl, hic1, ?_, fun _ => hr, ?_⟩⟩
    · rw [hs11]; simp
    · intro t ht
      rw [List.mem_singleton.1 ht]; exact hv1
    · intro h
      rw [h.1] at hok1
      exact absurd hok1 (by decide)
    · intro h
      rw [h] at hok1
      exact absurd hok1 (by decide)
  · simp only [Bool.not_true, Bool.false_eq_true, if_false]
    rw [wp_bind]
    by_cases hretry : (!opts.skelInputConns && decide (t1.stats.skins ≤ 0)
        && decide (t1.stats.deformers ≤ 0)) = true
    · rw [if_pos hretry]
      simp only [Bool.and_eq_true, Bool.not_eq_true', decide_eq_true_eq] at hretry
      refine wp_quietSkip (R := LocRel.any SkelLocals) (quiet_skelWarn _) (fun _ h => h) hF hs
        (fun _ s11 hs _ => ?_)
      rw [wp_bind]
      refine wp_mono (exportReferencedInPlace_spec F hF out a b opts true _ _ s11 hs) ?_
      rintro o s12 ⟨t2, hic2, hv2, rfl, hs⟩
      simp only []
      have hatt : sent isAttemptStep s12.trace
          = [t1, t2].flatMap (Attempt.entries out) := by
        rw [hs]; simp
      have hval : ∀ t ∈ [t1, t2], t.valid := by
        intro t ht
        simp only [List.mem_cons, List.mem_singleton, List.not_mem_nil, or_false] at ht
        rcases ht with rfl | rfl
        · exact hv1
        · exact hv2
      rw [wp_bind, wp_when]
      cases hok2 : t2.exported.ok
      · simp only [Bool.not_false, if_true]
        refine wp_mono (failedAttempt_spec F hF out _ t0 _ s12 hatt) ?_
        rintro o s13 ⟨r, rfl, hr, hs13⟩
        refine ⟨r, rfl, [t1, t2], hs13, hval, Or.inr ⟨t1, t2, rfl, hic1,
          ⟨hok1, hretry.1.1, hretry.1.2, hretry.2⟩, hic2, fun _ => hr, ?_⟩⟩
        intro h
        rw [h] at hok2
        exact absurd hok2 (by decide)
      · simp only [Bool.not_true, Bool.false_eq_true, if_false]
        rw [wp_pure]
        simp only []
        refine wp_quietSkip (R := LocRel.any SkelLocals) (quiet_when (quiet_skelWarn _))
          (fun _ h => h) hF hatt (fun _ s13 hs13 _ => ?_)
        refine wp_mono (referencedVerdict_spec F hF out t0 t2 hok2 _ s13 hs13) ?_
        rintro o s14 ⟨r, rfl, hj, hs14⟩
        exact ⟨r, rfl, [t1, t2], hs14, hval, Or.inr ⟨t1, t2, rfl, hic1,
          ⟨hok1, hretry.1.1, hretry.1.2, hretry.2⟩, hic2, hj⟩⟩
    · rw [if_neg hretry]
      rw [wp_pure]
      simp only []
      have hatt : sent isAttemptStep s10.trace = [t1].flatMap (Attempt.entries out) := by
        rw [hs]; simp
      refine wp_quietSkip (R := LocRel.any SkelLocals) (quiet_when (quiet_skelWarn _))
        (fun _ h => h) hF hatt (fun _ s11 hs11 _ => ?_)
      refine wp_mono (referencedVerdict_spec F hF out t0 t1 hok1 _ s11 hs11) ?_
      rintro o s12 ⟨r, rfl, hj, hs12⟩
      refine ⟨r, rfl, [t1], hs12, ?_, Or.inl ⟨t1, rfl, hic1, ?_, hj⟩⟩
      · intro t ht
        rw [List.mem_singleton.1 ht]; exact hv1
      · intro h
        apply hretry
        simp only [Bool.and_eq_true, Bool.not_eq_true', decide_eq_true_eq]
        exact ⟨⟨h.2.1, h.2.2.1⟩, h.2.2.2⟩

theorem referencedRigScene_noFault : NoFault referencedRigScene := by
  intro sc c
  unfold referencedRigScene
  split <;> rfl

/-- C18 fails when the caller already asked for input connections: the root `rig:Root` is
referenced, `skelInputConns` is set, `FBXExport` succeeds and the scanned output has no `Skin`
and no `Deformer` marker; `exportSkeletonFbx` sends `FBXExport` once, reads the output once
and returns the failure judged on that one attempt. -/
theorem no_retry_when_input_connections_set :
    (scanData "LimbNode LimbNode").skins = 0
    ∧ (scanData "LimbNode LimbNode").deformers = 0
    ∧ requests (sent isAttemptStep
        (runFn (exportSkeletonFbx "rig:Root" "out/rig.fbx" 1 10 { skelInputConns := true }) {}
          referencedRigScene ()).trace)
      = [.mel "FBXExportInputConnections" ["-v", "false"],
         .mel "FBXExportInputConnections" ["-v", "true"],
         .mel "FBXExport" ["-f", "\"out/rig.fbx\"", "-s"],
         .readFile "out/rig.fbx"]
    ∧ (runFn (exportSkeletonFbx "rig:Root" "out/rig.fbx" 1 10 { skelInputConns := true }) {}
        referencedRigScene ()).result
      = some (makeResult false "out/rig.fbx" 512 0
          ["Referenced skeleton + AnimationOnly=false: export in-place to preserve skinned meshes",
           "Referenced export keeps original bone names; namespaces may remain"]
          ["Referenced in-place export contains no skin/deformer data"]) := by
  decide!

/-- C18, amended: against a host that throws nothing, the referenced in-place export returns a
result, and its trace shows either one export attempt or two. The first attempt is made with
the input-connection option of the caller. A second attempt is made exactly when the first
`FBXExport` succeeded, the caller had not asked for input connections, and the scan of the
first output found no `Skin` and no `Deformer` marker; it is made with input connections on.
The result is judged on the last attempt: a failure when its `FBXExport` failed, else a
success exactly when the file is not empty and its scan shows a `LimbNode` and a `Skin` or
`Deformer` marker. -/
theorem retry_of_referenced_export (F : Facade σ) (hF : NoFault F) (root out : String)
    (a b : Int) (opts : FbxExportOptions) (t0 : Int) (l0 : SkelLocals) (sc : σ) :
    ∃ r, (runFn (exportReferencedBranch root out a b opts t0) l0 F sc).result = some r
      ∧ RetryClaims opts out r
          (runFn (exportReferencedBranch root out a b opts t0) l0 F sc).trace := by
  obtain ⟨r, e, hc⟩ := exportReferencedBranch_spec F hF root out a b opts t0
    { scene := sc, trace := [], loc := l0 } rfl
  obtain ⟨e1, e2⟩ := runFn_ret _ _ F sc r e
  exact ⟨r, e1, by rw [e2]; exact hc⟩

theorem retry_of_referenced_export_witness :
    NoFault referencedRigScene
    ∧ ∃ r, (runFn (exportReferencedBranch "|rig:Root" "out/rig.fbx" 1 10 {} 0) {}
          referencedRigScene ()).result = some r
      ∧ RetryClaims {} "out/rig.fbx" r
          (runFn (exportReferencedBranch "|rig:Root" "out/rig.fbx" 1 10 {} 0) {}
            referencedRigScene ()).trace :=
  ⟨referencedRigScene_noFault,
    retry_of_referenced_export referencedRigScene referencedRigScene_noFault
      "|rig:Root" "out/rig.fbx" 1 10 {} 0 {} ()⟩

end Retry

/-! ## Precondition failures (C12) -/

section TrackExtends
variable {σ L ρ α β : Type} {C : Cmd → Prop}

/-- Quiet code inside a run that is being followed from `s0`. -/
theorem wp_stepQ {C1 : Cmd → Prop} {R1 : LocRel L} {F : Facade σ}
    {m : M σ L ρ α} {f : α → M σ L ρ β} {post : Out ρ β → Run σ L → Prop} {s0 s : Run σ L}
    (hq : Quiet C1 R1 m) (hC : ∀ c, C1 c → C c) (hF : NoFault F)
    (E : Extends F C (LocRel.any L) s0 s)
    (h : ∀ a s1, Extends F C (LocRel.any L) s0 s1 → R1.rel s.loc s1.loc →
      wp F (f a) post s1) :
    wp F (M.bind m f) post s :=
  wp_bind_quietN hq hF (fun a s1 he =>
    h a s1 (extends_trans E ⟨trivial, (extends_mono hC he).steps⟩) he.loc)

/-- A request inside a run that is being followed from `s0`. -/
theorem wp_stepC {F : Facade σ} {c : Cmd} {f : Resp → M σ L ρ β}
    {post : Out ρ β → Run σ L → Prop} {s0 s : Run σ L} (hF : NoFault F) (hc : C c)
    (E : Extends F C (LocRel.any L) s0 s)
    (h : ∀ s1, Extends F C (LocRel.any L) s0 s1 → s1.loc = s.loc →
      s1.scene = (F s.scene c).2 → wp F (f (F s.scene c).1) post s1) :
    wp F (M.bind (M.call c) f) post s :=
  wp_bind_callN hF (h _ (extends_trans E (extends_call F _ hc s)) rfl rfl)

/-- A change of the locals inside a run that is being followed from `s0`. -/
theorem wp_stepL {F : Facade σ} {g : L → L} {f : Unit → M σ L ρ β}
    {post : Out ρ β → Run σ L → Prop} {s0 s : Run σ L}
    (E : Extends F C (LocRel.any L) s0 s)
    (h : ∀ s1, Extends F C (LocRel.any L) s0 s1 → s1.loc = g s.loc → s1.scene = s.scene →
      wp F (f ()) post s1) :
    wp F (M.bind (M.modifyL g) f) post s := by
  rw [wp_bind, wp_modifyL]
  exact h _ ⟨trivial, E.steps⟩ rfl rfl

theorem kinds_of_extends {F : Facade σ} {R : LocRel L} {ks : List Kind} {s0 s : Run σ L}
    (h0 : s0.trace = []) (E : Extends F (OfKinds ks) R s0 s) :
    ∀ x ∈ s.trace, x.1.kind ∈ ks := by
  obtain ⟨_, t, e, c, _, _⟩ := E
  rw [e, h0, List.nil_append]
  exact c

end TrackExtends

section Preconditions
variable {σ L ρ : Type}

theorem ofKinds_of_kind {ks : List Kind} {c : Cmd} (k : Kind) (h : c.kind = k) (hk : k ∈ ks) :
    OfKinds ks c := by
  unfold OfKinds
  rw [h]
  exact hk

/-- With the plugin ready, `ensureFbxPlugin` answers `true` after a query and at most one
`loadPlugin`. -/
theorem ensureFbxPlugin_ready (F : Facade σ) (hF : NoFault F) (hp : PluginReady F)
    {β : Type} (f : Bool → M σ L ρ β) (post : Out ρ β → Run σ L → Prop) (s0 s : Run σ L)
    (E : Extends F (OfKinds checkKinds) (LocRel.any L) s0 s)
    (h : ∀ s1, Extends F (OfKinds checkKinds) (LocRel.any L) s0 s1 → s1.loc = s.loc →
      wp F (f true) post s1) :
    wp F (M.bind ensureFbxPlugin f) post s := by
  unfold ensureFbxPlugin melQueryInt
  simp only [M.bind_def, M.pure_def, M.bind_assoc, M.pure_bind]
  refine wp_stepC (C := OfKinds checkKinds) hF (ofKinds_of_kind .query rfl (by decide)) E
    (fun s1 E1 hl1 hsc1 => ?_)
  split
  · rename_i h0
    simp only [M.bind_assoc]
    refine wp_stepC (C := OfKinds checkKinds) hF (ofKinds_of_kind .setting rfl (by decide))
      E1 (fun s2 E2 hl2 _ => ?_)
    have hok : (F s1.scene (.mel "loadPlugin" ["\"fbxmaya\""])).1.ok = true := by
      rcases hp s.scene with h1 | h1
      · exact absurd h0 h1
      · rw [hsc1]; exact h1
    rw [hok]
    simp only [Bool.not_true, Bool.false_eq_true, if_false, M.pure_bind]
    exact h s2 E2 (hl2.trans hl1)
  · simp only [M.pure_bind]
    exact h s1 E1 hl1

/-- The answer of `nodeExists`, after one query. -/
theorem nodeExists_step (F : Facade σ) (hF : NoFault F) (node : String)
    {β : Type} (f : Bool → M σ L ρ β) (post : Out ρ β → Run σ L → Prop) (s0 s : Run σ L)
    (E : Extends F (OfKinds checkKinds) (LocRel.any L) s0 s)
    (h : ∀ s1, Extends F (OfKinds checkKinds) (LocRel.any L) s0 s1 → s1.loc = s.loc →
      wp F (f ((F s.scene (.mel "objExists" [q node])).1.int != 0)) post s1) :
    wp F (M.bind (nodeExists node) f) post s := by
  unfold nodeExists melQueryInt
  simp only [M.bind_def, M.pure_def, M.bind_assoc, M.pure_bind]
  exact wp_stepC (C := OfKinds checkKinds) hF (ofKinds_of_kind .query rfl (by decide)) E
    (fun s1 E1 hl1 _ => h s1 E1 hl1)

/-- The checks that open every entry point, when the node is missing: the call returns the
failure that names the node after the clock, the plugin check and the existence check. -/
theorem precheck_missing (F : Facade σ) (hF : NoFault F) (hp : PluginReady F)
    (node out msg : String) (hm : Missing F node) (rest : Int → M σ L ExportResult Empty)
    (s : Run σ L) (h0 : s.trace = []) :
    wp F (M.bind now fun t0 => M.bind ensureFbxPlugin fun plugin =>
      M.bind (M.when (!plugin)
        (M.ret (makeResult false out 0 0 [] ["fbxmaya plugin load failed"]))) fun _ =>
      M.bind (nodeExists node) fun e =>
      M.bind (M.when (!e) (M.ret (makeResult false out 0 0 [] [msg]))) fun _ => rest t0)
      (fun o s1 => o = .ret (makeResult false out 0 0 [] [msg])
        ∧ ∀ x ∈ s1.trace, x.1.kind ∈ checkKinds) s := by
  refine wp_stepQ (C := OfKinds checkKinds) (quiet_now : Quiet _ (LocRel.same L) _)
    (ofKinds_mono (by decide)) hF (extends_refl F _ _ s) (fun t0 s1 E1 _ => ?_)
  refine ensureFbxPlugin_ready F hF hp _ _ s s1 E1 (fun s2 E2 _ => ?_)
  rw [wp_bind, wp_when]
  simp only [Bool.not_true, Bool.false_eq_true, if_false]
  refine nodeExists_step F hF node _ _ s s2 E2 (fun s3 E3 _ => ?_)
  rw [hm]
  rw [wp_bind, wp_when]
  simp only [bne_self_eq_false, Bool.not_false, if_true]
  rw [wp_ret]
  exact ⟨rfl, kinds_of_extends h0 E3⟩

theorem checkKinds_not_mutating (k : Kind) (h : k ∈ checkKinds) : k ∉ mutatingKinds := by
  revert k
  decide

theorem preconditionFailure_of_wp {F : Facade σ} {m : M σ L ExportResult Empty} {l0 : L}
    {sc : σ} {msg : String}
    (h : wp F m (fun o s1 => (∃ r, o = .ret r ∧ r.success = false ∧ r.errors = [msg])
      ∧ ∀ x ∈ s1.trace, x.1.kind ∈ checkKinds) { scene := sc, trace := [], loc := l0 }) :
    PreconditionFailure msg (runFn m l0 F sc) := by
  obtain ⟨⟨r, e, h1, h2⟩, hk⟩ := h
  obtain ⟨e1, e2⟩ := runFn_ret _ _ F sc r e
  refine ⟨r, e1, h1, h2, ?_, ?_⟩
  · rw [e2]; exact hk
  · rw [e2]; exact fun x hx => checkKinds_not_mutating _ (hk x hx)

/-- The checks that open every entry point, when the node exists: the code after them is
reached, and only checks have been sent. -/
theorem precheck_present (F : Facade σ) (hF : NoFault F) (hp : PluginReady F)
    (node out msg : String) (hn : Present F node) (rest : Int → M σ L ExportResult Empty)
    (post : Out ExportResult Empty → Run σ L → Prop) (s : Run σ L)
    (h : ∀ t0 s1, Extends F (OfKinds checkKinds) (LocRel.any L) s s1 → s1.loc = s.loc →
      wp F (rest t0) post s1) :
    wp F (M.bind now fun t0 => M.bind ensureFbxPlugin fun plugin =>
      M.bind (M.when (!plugin)
        (M.ret (makeResult false out 0 0 [] ["fbxmaya plugin load failed"]))) fun _ =>
      M.bind (nodeExists node) fun e =>
      M.bind (M.when (!e) (M.ret (makeResult false out 0 0 [] [msg]))) fun _ => rest t0)
      post s := by
  refine wp_stepQ (C := OfKinds checkKinds) (quiet_now : Quiet _ (LocRel.same L) _)
    (ofKinds_mono (by decide)) hF (extends_refl F _ _ s) (fun t0 s1 E1 hl1 => ?_)
  refine ensureFbxPlugin_ready F hF hp _ _ s s1 E1 (fun s2 E2 hl2 => ?_)
  rw [wp_bind, wp_when]
  simp only [Bool.not_true, Bool.false_eq_true, if_false]
  refine nodeExists_step F hF node _ _ s s2 E2 (fun s3 E3 hl3 => ?_)
  have hne : ((F s2.scene (.mel "objExists" [q node])).1.int != 0) = true := by
    simp only [bne_iff_ne, ne_eq]
    exact hn _
  rw [hne, wp_bind, wp_when]
  simp only [Bool.not_true, Bool.false_eq_true, if_false]
  exact h t0 s3 E3 (hl3.trans (hl2.trans hl1))

/-- The loop `classifyHistory` finds no blendShape node among nodes none of which has that
type. -/
theorem classifyHistory_none (F : Facade σ) (hF : NoFault F) (hist : List String)
    (hh : ∀ n ∈ hist, ∀ sc, (F sc (.mel "nodeType" [q n])).1.str ≠ "blendShape")
    (s0 : Run σ BsLocals) :
    ∀ (acc : List String × List String) (s : Run σ BsLocals), acc.1 = [] →
      Extends F (OfKinds checkKinds) (LocRel.any BsLocals) s0 s →
      wp F (M.foldM (fun (acc : List String × List String) n =>
          M.bind (melQueryString "nodeType" [q n]) fun t =>
            (M.pure (if t = "blendShape" then acc.1 ++ [n] else acc.1,
              if t = "skinCluster" then acc.2 ++ [n] else acc.2) :
              M σ BsLocals ρ (List String × List String))) acc hist)
        (fun o s1 => ∃ sk, o = .val ([], sk)
          ∧ Extends F (OfKinds checkKinds) (LocRel.any BsLocals) s0 s1 ∧ s1.loc = s.loc) s := by
  induction hist with
  | nil =>
    intro acc s ha E
    show wp F (M.pure acc) _ s
    rw [wp_pure]
    exact ⟨acc.2, by rw [← ha], E, rfl⟩
  | cons n rest ih =>
    intro acc s ha E
    show wp F (M.bind (M.bind (melQueryString "nodeType" [q n]) _)
      fun b1 => M.foldM _ b1 rest) _ s
    have hq : (melQueryString "nodeType" [q n] : M σ BsLocals ρ String)
        = M.bind (M.call (.mel "nodeType" [q n])) (fun r => M.pure r.str) := rfl
    rw [hq, M.bind_assoc, M.bind_assoc]
    refine wp_stepC (C := OfKinds checkKinds) hF (ofKinds_of_kind .query rfl (by decide)) E
      (fun s1 E1 hl1 _ => ?_)
    rw [M.pure_bind, M.pure_bind]
    have hne := hh n (List.mem_cons_self _ _) s.scene
    rw [if_neg hne]
    refine wp_mono (ih (fun m hm => hh m (List.mem_cons_of_mem _ hm)) _ s1 ha E1) ?_
    rintro o s2 ⟨sk, e1, e2, e3⟩
    exact ⟨sk, e1, e2, e3.trans hl1⟩

theorem quiet_collectInfluences {R : LocRel BsLocals} (skins : List String) :
    Quiet (OfKinds [.query]) R (collectInfluences skins : M σ BsLocals ρ SkelNodes) := by
  unfold collectInfluences addInfluence
  simp only [M.bind_def, M.pure_def, melQueryStringArray, melQueryString]
  repeat' first
    | apply quiet_bind | apply quiet_pure | apply quiet_ite | apply quiet_foldM
    | intro _
    | (apply quiet_callK; rfl)
    | split

theorem quiet_bsWarn {C : Cmd → Prop} (w : String) :
    Quiet C (LocRel.any BsLocals) (bsWarn w : M σ BsLocals ρ Unit) :=
  quiet_modifyL (fun _ => trivial)

/-- The body of `exportBlendShapeFbx` on a mesh without a blendShape deformer: it returns the
failure that names the mesh after queries and the check of the output directory. -/
theorem exportBlendShapeFbxBody_noDeformer (F : Facade σ) (hF : NoFault F)
    (mesh out : String) (a b : Int) (opts : FbxExportOptions) (t0 : Int)
    (hd : NoDeformer F mesh) (s0 s : Run σ BsLocals)
    (E : Extends F (OfKinds checkKinds) (LocRel.any BsLocals) s0 s) :
    wp F (exportBlendShapeFbxBody mesh out a b opts t0)
      (fun o s1 => (∃ r, o = .ret r ∧ r.success = false
          ∧ r.errors = ["No blendShape deformer found in mesh history: " ++ mesh])
        ∧ Extends F (OfKinds checkKinds) (LocRel.any BsLocals) s0 s1) s := by
  unfold exportBlendShapeFbxBody classifyHistory melQueryStringArrayChecked
  simp only [M.bind_def, M.pure_def, M.bind_assoc, M.pure_bind]
  refine wp_stepQ (quiet_ensureOutDir out : Quiet _ (LocRel.same BsLocals) _)
    (ofKinds_mono (by decide)) hF E (fun _ s1 E1 _ => ?_)
  refine wp_stepC (C := OfKinds checkKinds) hF (ofKinds_of_kind .query rfl (by decide)) E1
    (fun s2 E2 _ _ => ?_)
  obtain ⟨hok, hnone⟩ := hd s1.scene
  rw [hok, wp_bind, wp_when]
  simp only [Bool.not_true, Bool.false_eq_true, if_false]
  rw [wp_bind]
  refine wp_mono (classifyHistory_none F hF _ hnone s0 _ s2 rfl E2) ?_
  rintro o s3 ⟨sk, rfl, E3, _⟩
  simp only []
  refine wp_stepQ
    (quiet_ite (quiet_collectInfluences _) (quiet_pure _) :
      Quiet (OfKinds [.query]) (LocRel.same BsLocals) _)
    (ofKinds_mono (by decide)) hF E3 (fun nodes s4 E4 _ => ?_)
  refine wp_stepQ (quiet_when (quiet_bsWarn _) : Quiet (OfKinds checkKinds) _ _)
    (fun _ h => h) hF E4
    (fun _ s5 E5 _ => ?_)
  refine wp_stepQ (quiet_when (quiet_bsWarn _) : Quiet (OfKinds checkKinds) _ _)
    (fun _ h => h) hF E5
    (fun _ s6 E6 _ => ?_)
  rw [wp_bind, wp_when]
  simp only [List.isEmpty_nil, if_true]
  rw [wp_bind, wp_getL]
  simp only []
  rw [wp_ret]
  exact ⟨⟨_, rfl, rfl, rfl⟩, E6⟩

/-- C12, precondition failures happen before any mutation. Against a host that throws
nothing and on which the FBX plugin is ready: when the target node does not exist, each of
`exportCameraFbx`, `exportSkeletonFbx`, `exportBlendShapeFbx` and
`exportSkeletonBlendShapeFbx` returns `success = false` with the one error that names the
node; when the mesh exists and its history holds no blendShape deformer,
`exportBlendShapeFbx` returns `success = false` with the error that names the mesh. In each
case every request sent reads the scene, loads the plugin, looks at the file system or reads
the clock: no `duplicate`, `rename`, `delete`, `parent`, constraint, namespace merge or
keyframe command has been issued. -/
theorem precondition_failures (F : Facade σ) (hF : NoFault F) (hp : PluginReady F)
    (node out : String) (a b : Int) (opts : FbxExportOptions) (sc : σ) :
    (Missing F node →
      PreconditionFailure ("Camera node does not exist: " ++ node)
        (runFn (exportCameraFbx node out a b opts) {} F sc)
      ∧ PreconditionFailure ("Skeleton root does not exist: " ++ node)
        (runFn (exportSkeletonFbx node out a b opts) {} F sc)
      ∧ PreconditionFailure ("Mesh node does not exist: " ++ node)
        (runFn (exportBlendShapeFbx node out a b opts) {} F sc)
      ∧ ∀ bsMeshes bsWeightAttrs,
        PreconditionFailure ("Skeleton root does not exist: " ++ node)
          (runFn (exportSkeletonBlendShapeFbx node bsMeshes bsWeightAttrs out a b opts) {}
            F sc))
    ∧ (Present F node → NoDeformer F node →
      PreconditionFailure ("No blendShape deformer found in mesh history: " ++ node)
        (runFn (exportBlendShapeFbx node out a b opts) {} F sc)) := by
  refine ⟨fun hm => ⟨?_, ?_, ?_, fun bsMeshes bsWeightAttrs => ?_⟩, fun hn hd => ?_⟩
  · refine preconditionFailure_of_wp ?_
    unfold exportCameraFbx
    simp only [M.bind_def, M.pure_def]
    exact wp_mono (precheck_missing F hF hp node out _ hm _ _ rfl)
      (fun o s1 h => ⟨⟨_, h.1, rfl, rfl⟩, h.2⟩)
  · refine preconditionFailure_of_wp ?_
    unfold exportSkeletonFbx
    simp only [M.bind_def, M.pure_def]
    exact wp_mono (precheck_missing F hF hp node out _ hm _ _ rfl)
      (fun o s1 h => ⟨⟨_, h.1, rfl, rfl⟩, h.2⟩)
  · refine preconditionFailure_of_wp ?_
    unfold exportBlendShapeFbx
    simp only [M.bind_def, M.pure_def]
    exact wp_mono (precheck_missing F hF hp node out _ hm _ _ rfl)
      (fun o s1 h => ⟨⟨_, h.1, rfl, rfl⟩, h.2⟩)
  · refine preconditionFailure_of_wp ?_
    unfold exportSkeletonBlendShapeFbx
    simp only [M.bind_def, M.pure_def]
    exact wp_mono (precheck_missing F hF hp node out _ hm _ _ rfl)
      (fun o s1 h => ⟨⟨_, h.1, rfl, rfl⟩, h.2⟩)
  · refine preconditionFailure_of_wp ?_
    unfold exportBlendShapeFbx
    simp only [M.bind_def, M.pure_def]
    refine precheck_present F hF hp node out _ hn _ _ _ (fun t0 s1 E1 _ => ?_)
    rw [wp_tryCatch]
    refine wp_mono (exportBlendShapeFbxBody_noDeformer F hF node out a b opts t0 hd _ s1 E1) ?_
    rintro o s2 ⟨⟨r, rfl, h1, h2⟩, E2⟩
    exact ⟨⟨r, rfl, h1, h2⟩, kinds_of_extends rfl E2⟩

theorem emptyScene_ready : NoFault emptyScene ∧ PluginReady emptyScene :=
  ⟨fun _ _ => rfl, fun _ => Or.inr rfl⟩

theorem skinnedMeshScene_noFault : NoFault skinnedMeshScene :=
  statelessHost_noFault _

theorem skinnedMeshScene_ready : PluginReady skinnedMeshScene := by
  intro sc
  cases sc
  exact Or.inl (by decide)

theorem skinnedMeshScene_present : Present skinnedMeshScene "|body" := by
  intro sc
  cases sc
  decide

theorem skinnedMeshScene_noDeformer : NoDeformer skinnedMeshScene "|body" := by
  intro sc
  refine ⟨rfl, ?_⟩
  intro n hn sc2
  cases sc2
  have hn2 : n = "skinCluster1" ∨ n = "tweak1" := by
    simpa [skinnedMeshScene, statelessHost] using hn
  rcases hn2 with rfl | rfl <;> decide

theorem precondition_failures_witness :
    (NoFault emptyScene ∧ PluginReady emptyScene ∧ Missing emptyScene "|cam"
      ∧ PreconditionFailure ("Camera node does not exist: " ++ "|cam")
          (runFn (exportCameraFbx "|cam" "out/a.fbx" 1 10 {}) {} emptyScene ()))
    ∧ (NoFault skinnedMeshScene ∧ PluginReady skinnedMeshScene
      ∧ Present skinnedMeshScene "|body" ∧ NoDeformer skinnedMeshScene "|body"
      ∧ PreconditionFailure ("No blendShape deformer found in mesh history: " ++ "|body")
          (runFn (exportBlendShapeFbx "|body" "out/b.fbx" 1 10 {}) {} skinnedMeshScene ())) :=
  ⟨⟨emptyScene_ready.1, emptyScene_ready.2, fun _ => rfl,
      ((precondition_failures emptyScene emptyScene_ready.1 emptyScene_ready.2
        "|cam" "out/a.fbx" 1 10 {} ()).1 (fun _ => rfl)).1⟩,
    ⟨skinnedMeshScene_noFault, skinnedMeshScene_ready, skinnedMeshScene_present,
      skinnedMeshScene_noDeformer,
      (precondition_failures skinnedMeshScene skinnedMeshScene_noFault
        skinnedMeshScene_ready "|body" "out/b.fbx" 1 10 {} ()).2
        skinnedMeshScene_present skinnedMeshScene_noDeformer⟩⟩

end Preconditions

/-! ## The undo chunk of the namespace merge (C17) -/

/-- C17, the exception path at a failing input: the merge of the namespace `a` succeeds inside
the undo chunk, then the host throws on the next request of the merge loop. The flag
`anyMergeSucceeded` is assigned only after the loop, so the `catch` block closes the chunk but
sends no `undo`: `exportBlendShapeFbx` returns with the namespace `a` still merged. -/
theorem merge_not_undone_after_exception :
    requests ((runFn (exportBlendShapeFbx "|body" "out/b.fbx" 1 10 {}) {}
        throwingMergeScene ()).trace.filter isMerged)
      = [.mel "namespace" ["-mergeNamespaceWithRoot", "\"a\""]]
    ∧ (sent isOpenChunk (runFn (exportBlendShapeFbx "|body" "out/b.fbx" 1 10 {}) {}
        throwingMergeScene ()).trace).length = 1
    ∧ (sent isCloseChunk (runFn (exportBlendShapeFbx "|body" "out/b.fbx" 1 10 {}) {}
        throwingMergeScene ()).trace).length = 1
    ∧ sent isUndo (runFn (exportBlendShapeFbx "|body" "out/b.fbx" 1 10 {}) {}
        throwingMergeScene ()).trace = []
    ∧ (runFn (exportBlendShapeFbx "|body" "out/b.fbx" 1 10 {}) {}
        throwingMergeScene ()).result
      = some (makeResult false "out/b.fbx" 0 0 []
          ["BlendShape export failed: unknown exception"]) := by
  decide!

/-! ## Strategy selection of `exportSkeletonFbx` (C11) -/

section Strategy
variable {σ L ρ : Type}

theorem runFnAfter_ret {r0 : Type} (m : M σ L r0 Empty) (l0 : L) (F : Facade σ) (sc : σ)
    (pre : List (Cmd × Resp)) (r : r0)
    (h : (m.run F { scene := sc, trace := pre, loc := l0 }).1 = .ret r) :
    (runFnAfter m l0 F sc pre).result = some r
    ∧ (runFnAfter m l0 F sc pre).trace
      = (m.run F { scene := sc, trace := pre, loc := l0 }).2.trace := by
  unfold runFnAfter
  generalize m.run F { scene := sc, trace := pre, loc := l0 } = o at h
  rcases o with ⟨(a | r1 | _), s1⟩
  · exact nomatch a
  · cases h; exact ⟨rfl, rfl⟩
  · cases h

theorem calm_tryCatch {α : Type} {C : Cmd → Prop} {R : LocRel L} {b h : M σ L ρ α}
    (hb : Calm C R b) (hh : Calm C R h) : Calm C R (M.tryCatch b h) := by
  refine ⟨fun F s => ?_, fun F s hF => ?_⟩ <;> rw [M.run_tryCatch]
  · have h1 := hb.ext F s
    generalize b.run F s = o at h1
    rcases o with ⟨(a | r0 | _), s1⟩
    · exact h1
    · exact h1
    · exact extends_trans h1 (hh.ext F s1)
  · have h2 := hb.noExc F s hF
    generalize b.run F s = o at h2
    rcases o with ⟨(a | r0 | _), s1⟩
    · simp
    · simp
    · exact absurd rfl h2

theorem quiet_cleanupDup_any {C : Cmd → Prop} {R : LocRel DupLocals} (hC : ∀ c, C c) :
    Quiet C R (cleanupDup : M σ DupLocals ρ Unit) :=
  quiet_mono (fun c _ => hC c) (@quiet_cleanupDup σ ρ R)

/-- The whole of `exportSkeletonFbxViaDuplicate` is calm: against a host that throws nothing
it ends with `return`. -/
theorem calm_exportSkeletonFbxViaDuplicate (a b : String) (c d : Int) (o : FbxExportOptions) :
    Calm (fun _ => True) (LocRel.any DupLocals)
      (exportSkeletonFbxViaDuplicate a b c d o : M σ DupLocals ExportResult Empty) := by
  unfold exportSkeletonFbxViaDuplicate exportSkeletonFbxViaDuplicateBody constrainDuplicate
    exportConstrained
  simp only [M.bind_def, M.pure_def, melExec, fullPathName, ensureOutDir, ensureDir,
    melQueryStringArrayChecked, melQueryStringArray, melQueryString, melQueryInt, getDependNode,
    removeDupMeshes, debugJointMotionSample, debugWorldSpacePosition,
    queryAttrAtTime, unlockTransformChannels, constrainPair, constraintFailed, nodeExists,
    dupWarn, renameWork,
    debugSelectionSnapshot, setFbxExportDefaults, setFbxBakeRange, fbxExport, deleteConstraints,
    now, fileSizeOrZero, fileExistsOnDisk, getFileSize, scanFbxContent]
  repeat' first
    | apply calm_tryCatch
    | apply calm_bind
    | apply calm_ret
    | apply calm_when
    | apply calm_ite
    | intro _
    | exact calm_of_quiet (quiet_cleanupDup_any (fun _ => trivial))
    | exact calm_of_quiet (quiet_mono (fun _ _ => trivial) (quiet_buildSelection _))
    | exact calm_of_quiet
        (quiet_mono (fun _ _ => trivial) (quiet_debugWorldSpacePositionLoop _ _ _))
    | exact calm_of_quiet (quiet_pure _)
    | exact calm_of_quiet quiet_getL
    | exact calm_of_quiet (quiet_call trivial)
    | exact calm_of_quiet (quiet_modifyL (fun _ => trivial))
    | (apply calm_of_quiet
       first
        | apply quiet_forEach
        | apply quiet_foldM
       (repeat' first
          | apply quiet_bind | apply quiet_pure | apply quiet_getL | apply quiet_when
          | apply quiet_ite | apply quiet_forEach | apply quiet_foldM
          | intro _
          | (apply quiet_call; trivial)
          | (apply quiet_modifyL; intro _; trivial)
          | split)
       done)
    | split

/-- A call of `exportSkeletonFbxViaDuplicate` from `exportSkeletonFbx`: the rest of the run is
the run of the duplicate strategy from the state reached, and its result comes back with the
warnings gathered so far in front. -/
theorem delegateToDuplicate_spec (F : Facade σ) (hF : NoFault F) (root out : String)
    (a b : Int) (opts : FbxExportOptions) (s : Run σ SkelLocals) :
    wp F (delegateToDuplicate root out a b opts)
      (fun o s1 => ∃ d,
        (runFnAfter (exportSkeletonFbxViaDuplicate root out a b opts) {} F s.scene
          s.trace).result = some d
        ∧ s1.trace = (runFnAfter (exportSkeletonFbxViaDuplicate root out a b opts) {} F
            s.scene s.trace).trace
        ∧ (∃ t, s1.trace = s.trace ++ t)
        ∧ o = .ret { d with warnings := s.loc.warnings ++ d.warnings }) s := by
  unfold delegateToDuplicate
  simp only [M.bind_def, M.pure_def]
  rw [wp_bind]
  unfold wp
  rw [M.run_callFn]
  have hne := (calm_exportSkeletonFbxViaDuplicate (σ := σ) root out a b opts).noExc F
    { scene := s.scene, trace := s.trace, loc := {} } hF
  have hext := (calm_exportSkeletonFbxViaDuplicate (σ := σ) root out a b opts).ext F
    { scene := s.scene, trace := s.trace, loc := {} }
  have hret := runFnAfter_ret (exportSkeletonFbxViaDuplicate root out a b opts) {} F s.scene
    s.trace
  generalize (exportSkeletonFbxViaDuplicate root out a b opts).run F
    { scene := s.scene, trace := s.trace, loc := {} } = p at hne hret hext
  obtain ⟨o, s1⟩ := p
  cases o with
  | val x => exact nomatch x
  | exc => exact absurd rfl hne
  | ret d =>
    obtain ⟨e1, e2⟩ := hret d rfl
    simp only []
    rw [M.run_bind, M.run_getL]
    simp only []
    rw [M.run_ret]
    obtain ⟨_, t, e3, _⟩ := hext
    exact ⟨d, e1, by rw [e2], ⟨t, e3⟩, rfl⟩

/-- The referenced in-place branch sends requests of an export in place only and changes the
warnings only. -/
theorem calm_exportReferencedBranch_keep (root out : String) (a b : Int)
    (opts : FbxExportOptions) (t0 : Int) :
    Calm (OfKinds inPlaceKinds) keepRecs
      (exportReferencedBranch root out a b opts t0 : M σ SkelLocals ExportResult Empty) := by
  unfold exportReferencedBranch exportReferencedInPlace
  simp only [M.bind_def, M.pure_def, melExec, melQueryStringArray, melQueryString, skelWarn,
    debugSelectionSnapshot, setFbxExportDefaults, setFbxBakeRange, fbxExport,
    now, fileSizeOrZero, fileExistsOnDisk, getFileSize, scanFbxContent,
    collectSkinnedMeshTransformsForJoints, skinClustersOfJoints, meshTransformsOfSkin,
    parentsOfShapes, collectMeshTransformsByNamespace, collectMeshTransformsUnderNode]
  repeat' first
    | apply calm_bind
    | apply calm_ret
    | apply calm_when
    | apply calm_ite
    | intro _
    | exact calm_of_quiet (quiet_mono (ofKinds_mono (by decide)) (quiet_buildSelection _))
    | exact calm_of_quiet (quiet_pure _)
    | exact calm_of_quiet quiet_getL
    | exact calm_of_quiet (quiet_callK rfl)
    | exact calm_of_quiet (quiet_modifyL (fun _ => ⟨rfl, rfl⟩))
    | (apply calm_of_quiet
       first
        | apply quiet_forEach
        | apply quiet_foldM
       (repeat' first
          | apply quiet_bind | apply quiet_pure | apply quiet_getL | apply quiet_when
          | apply quiet_ite | apply quiet_forEach | apply quiet_foldM
          | intro _
          | (apply quiet_callK; rfl)
          | (apply quiet_modifyL; intro _; exact ⟨rfl, rfl⟩)
          | split)
       done)
    | split

theorem calm_locAny {L ρ α : Type} {C : Cmd → Prop} {R : LocRel L} {m : M σ L ρ α}
    (h : Calm C R m) : Calm C (LocRel.any L) m :=
  ⟨fun F s => ⟨trivial, (h.ext F s).steps⟩, h.noExc⟩

/-- The referenced in-place branch sends requests of an export in place only and ends with
`return`. -/
theorem calm_exportReferencedBranch (root out : String) (a b : Int) (opts : FbxExportOptions)
    (t0 : Int) :
    Calm (OfKinds inPlaceKinds) (LocRel.any SkelLocals)
      (exportReferencedBranch root out a b opts t0 : M σ SkelLocals ExportResult Empty) :=
  calm_locAny (calm_exportReferencedBranch_keep root out a b opts t0)

end Strategy

section Strategy
variable {σ L ρ : Type}

theorem restoreRequests_append (a b : List (Cmd × Resp)) :
    restoreRequests (a ++ b) = restoreRequests a ++ restoreRequests b :=
  List.filterMap_append _ _ _

theorem restoreRequests_skip (t : List (Cmd × Resp))
    (h : ∀ x ∈ t, isRenamePhase x.1 = true) : restoreRequests t = [] := by
  unfold restoreRequests
  rw [List.filterMap_eq_nil_iff]
  intro x hx
  have := h x hx
  cases hc : x.1 with
  | nodeName obj => rw [hc] at this; exact absurd this Bool.false_ne_true
  | _ => rfl

/-- The state of a run that is being followed from `sd`: the requests since `sd` satisfy `P`
and were answered by the host, and the restore requests that belong to the whole trace are
those of `sd` followed by `recs`. -/
structure Track (F : Facade σ) (P : Cmd → Prop) (sd s : Run σ L) (recs : List Cmd) : Prop where
  ext : Extends F P (LocRel.any L) sd s
  recs : restoreRequests s.trace = restoreRequests sd.trace ++ recs

theorem track_refl (F : Facade σ) (P : Cmd → Prop) (s : Run σ L) : Track F P s s [] :=
  ⟨extends_refl F _ _ s, (List.append_nil _).symm⟩

theorem track_mono {F : Facade σ} {P Q : Cmd → Prop} {sd s : Run σ L} {recs : List Cmd}
    (h : ∀ c, P c → Q c) (T : Track F P sd s recs) : Track F Q sd s recs :=
  ⟨extends_mono h T.ext, T.recs⟩

/-- Quiet code of the rename phase. -/
theorem wp_trackQ {α β : Type} {P C1 : Cmd → Prop} {R1 : LocRel L} {F : Facade σ}
    {m : M σ L ρ α} {f : α → M σ L ρ β} {post : Out ρ β → Run σ L → Prop} {sd s : Run σ L}
    {recs : List Cmd}
    (hq : Quiet C1 R1 m) (hC : ∀ c, C1 c → P c ∧ isRenamePhase c = true) (hF : NoFault F)
    (T : Track F P sd s recs)
    (h : ∀ a s1, Track F P sd s1 recs → R1.rel s.loc s1.loc → wp F (f a) post s1) :
    wp F (M.bind m f) post s := by
  refine wp_bind_quietN hq hF (fun a s1 he => h a s1 ⟨?_, ?_⟩ he.loc)
  · exact extends_trans T.ext ⟨trivial, (extends_mono (fun c hc => (hC c hc).1) he).steps⟩
  · obtain ⟨_, t, e, hc, _, _⟩ := he
    rw [e, restoreRequests_append, T.recs,
      restoreRequests_skip t (fun x hx => (hC _ (hc x hx)).2), List.append_nil]

/-- A request of the rename phase. -/
theorem wp_trackC {β : Type} {P : Cmd → Prop} {F : Facade σ} {c : Cmd}
    {f : Resp → M σ L ρ β} {post : Out ρ β → Run σ L → Prop} {sd s : Run σ L}
    {recs : List Cmd} (hF : NoFault F) (hP : P c) (hc : isRenamePhase c = true)
    (T : Track F P sd s recs)
    (h : ∀ s1, Track F P sd s1 recs → s1.loc = s.loc →
      s1.trace = s.trace ++ [(c, (F s.scene c).1)] → wp F (f (F s.scene c).1) post s1) :
    wp F (M.bind (M.call c) f) post s := by
  refine wp_bind_callN hF (h _ ⟨extends_trans T.ext (extends_call F _ hP s), ?_⟩ rfl rfl)
  show restoreRequests (s.trace ++ [(c, (F s.scene c).1)]) = _
  rw [restoreRequests_append, T.recs, restoreRequests_skip [(c, (F s.scene c).1)]
    (fun x hx => by rw [List.mem_singleton.1 hx]; exact hc), List.append_nil]

/-- A change of the locals. -/
theorem wp_trackL {β : Type} {P : Cmd → Prop} {F : Facade σ} {g : L → L}
    {f : Unit → M σ L ρ β} {post : Out ρ β → Run σ L → Prop} {sd s : Run σ L}
    {recs : List Cmd} (T : Track F P sd s recs)
    (h : ∀ s1, Track F P sd s1 recs → s1.loc = g s.loc → wp F (f ()) post s1) :
    wp F (M.bind (M.modifyL g) f) post s := by
  rw [wp_bind, wp_modifyL]
  exact h _ ⟨⟨trivial, T.ext.steps⟩, T.recs⟩ rfl

/-- The loop that builds the records: one `nodeName` lookup per item, and one record. -/
theorem buildJointRecs_spec (F : Facade σ) (hF : NoFault F) (root : String)
    (P : Cmd → Prop) (hP : ∀ obj, P (.nodeName obj)) (sd : Run σ SkelLocals)
    (items : List (MObject × String)) :
    ∀ (rootObj : MObject) (s : Run σ SkelLocals),
      Track F P sd s (s.loc.jointRecs.map fun r => Cmd.setName r.obj r.originalName) →
      wp F (M.foldM (fun (rootAcc : MObject) (it : MObject × String) =>
          M.bind (M.call (.nodeName it.1)) fun name =>
          M.bind (M.modifyL fun l =>
            { l with jointRecs := l.jointRecs ++ [{ obj := it.1, originalName := name.str }] })
            fun _ => (M.pure (if it.2 = root then it.1 else rootAcc) :
              M σ SkelLocals ρ MObject)) rootObj items)
        (fun o s1 => ∃ ro, o = .val ro
          ∧ Track F P sd s1 (s1.loc.jointRecs.map fun r => Cmd.setName r.obj r.originalName)
          ∧ s1.loc.didRename = s.loc.didRename ∧ s1.loc.warnings = s.loc.warnings) s := by
  induction items with
  | nil =>
    intro rootObj s T
    show wp F (M.pure rootObj) _ s
    rw [wp_pure]
    exact ⟨rootObj, rfl, T, rfl, rfl⟩
  | cons it rest ih =>
    intro rootObj s T
    show wp F (M.bind (M.bind (M.call (.nodeName it.1)) _) fun b1 => M.foldM _ b1 rest) _ s
    rw [M.bind_assoc]
    refine wp_bind_callN hF ?_
    rw [M.bind_assoc, wp_bind, wp_modifyL]
    simp only []
    rw [M.pure_bind]
    refine wp_mono (ih _ _ ⟨extends_trans T.ext ⟨trivial, (extends_call F (LocRel.any _)
      (hP it.1) s).steps⟩, ?_⟩) ?_
    · show restoreRequests (s.trace ++ [(Cmd.nodeName it.1, (F s.scene (.nodeName it.1)).1)]) = _
      rw [restoreRequests_append, T.recs, List.map_append, List.append_assoc]
      rfl
    · rintro o s2 ⟨ro, e1, e2, e3, e4⟩
      exact ⟨ro, e1, e2, e3, e4⟩

end Strategy

section Strategy
variable {σ L ρ : Type}

theorem plainQuery_spec (c : Cmd) (h : isPlainQuery c = true) :
    c.kind = .query ∧ isRenamePhase c = true := by
  cases c <;> simp_all [isPlainQuery, isRenamePhase, Cmd.kind]

theorem query_renamePhase (c : Cmd) (h : c.kind = .query) :
    isRenamePhase c = true ∨ ∃ obj, c = .nodeName obj := by
  cases c with
  | nodeName obj => exact Or.inr ⟨obj, rfl⟩
  | setName obj n => simp [Cmd.kind] at h
  | _ => left; simp [isRenamePhase, h]

section PlainQueries
variable {R : LocRel L}

theorem quiet_pq_melQueryStringArray (verb : String) (args : List String)
    (h : isPlainQuery (.mel verb args) = true) :
    Quiet (fun c => isPlainQuery c = true) R
      (melQueryStringArray verb args : M σ L ρ (List String)) := by
  unfold melQueryStringArray
  simp only [M.bind_def, M.pure_def]
  exact quiet_bind (quiet_call h) (fun _ => quiet_pure _)

theorem quiet_pq_melQueryString (verb : String) (args : List String)
    (h : isPlainQuery (.mel verb args) = true) :
    Quiet (fun c => isPlainQuery c = true) R
      (melQueryString verb args : M σ L ρ String) := by
  unfold melQueryString
  simp only [M.bind_def, M.pure_def]
  exact quiet_bind (quiet_call h) (fun _ => quiet_pure _)

theorem quiet_pq_fullPathName (obj : MObject) :
    Quiet (fun c => isPlainQuery c = true) R (fullPathName obj : M σ L ρ String) := by
  unfold fullPathName
  simp only [M.bind_def, M.pure_def]
  exact quiet_bind (quiet_call rfl) (fun _ => quiet_pure _)

theorem quiet_pq_buildSelection (names : List String) :
    Quiet (fun c => isPlainQuery c = true) R
      (buildSelection names : M σ L ρ (List MObject)) := by
  induction names with
  | nil => exact quiet_pure _
  | cons n rest ih =>
    unfold buildSelection
    simp only [M.bind_def, M.pure_def]
    exact quiet_bind (quiet_call rfl) (fun r => quiet_bind ih (fun t => quiet_pure _))

theorem quiet_pq_debugJointMotionSample (j : String) (a b : Int) :
    Quiet (fun c => isPlainQuery c = true) R (debugJointMotionSample j a b : M σ L ρ Unit) := by
  unfold debugJointMotionSample queryAttrAtTime
  simp only [M.bind_def, M.pure_def]
  repeat' first
    | apply quiet_bind | apply quiet_pure | apply quiet_when
    | apply quiet_ite | apply quiet_forEach | apply quiet_foldM
    | intro _
    | (apply quiet_call; rfl)

theorem quiet_rp_renameWork (work : List WorkItem) :
    Quiet (fun c => isRenamePhase c = true) R (renameWork work : M σ L ρ Unit) := by
  unfold renameWork melQueryString
  simp only [M.bind_def, M.pure_def]
  repeat' first
    | apply quiet_bind | apply quiet_pure | apply quiet_when | apply quiet_forEach
    | intro _
    | (apply quiet_call; rfl)

end PlainQueries

/-- Calm code of a function body, run against a host that throws nothing, ends with `return`
in a state that extends the start state. -/
theorem wp_of_calm {C : Cmd → Prop} {R : LocRel L} {F : Facade σ} {r0 : Type}
    {m : M σ L r0 Empty} (hc : Calm C R m) (hF : NoFault F) (s : Run σ L) :
    wp F m (fun o s1 => (∃ r, o = .ret r) ∧ Extends F C R s s1) s := by
  unfold wp
  have h1 := hc.ext F s
  have h2 := hc.noExc F s hF
  generalize m.run F s = p at h1 h2
  obtain ⟨o, s1⟩ := p
  cases o with
  | val x => exact nomatch x
  | ret r => exact ⟨⟨r, rfl⟩, h1⟩
  | exc => exact absurd rfl h2

/-- The restore loop sends `setName` with the recorded name through the handle of every
record, in order. -/
theorem restoreNames_spec (F : Facade σ) (hF : NoFault F) (recs : List JointRec) :
    ∀ (s : Run σ SkelLocals),
      wp F (restoreNames recs : M σ SkelLocals ρ Unit)
        (fun o s1 => o = .val () ∧ s1.loc = s.loc
          ∧ ∃ t, s1.trace = s.trace ++ t ∧ s1.scene = replay F s.scene t
            ∧ requests t = recs.map fun r => Cmd.setName r.obj r.originalName) s := by
  induction recs with
  | nil =>
    intro s
    show wp F (M.pure ()) _ s
    rw [wp_pure]
    exact ⟨rfl, rfl, [], (List.append_nil _).symm, rfl, rfl⟩
  | cons r rest ih =>
    intro s
    show wp F (M.bind (M.bind (M.call (.setName r.obj r.originalName)) fun _ => M.pure ())
      fun _ => restoreNames rest) _ s
    rw [M.bind_assoc]
    refine wp_bind_callN hF ?_
    rw [M.pure_bind]
    refine wp_mono (ih _) ?_
    rintro o s1 ⟨e1, e2, t, e3, e4, e5⟩
    refine ⟨e1, e2, (Cmd.setName r.obj r.originalName,
      (F s.scene (.setName r.obj r.originalName)).1) :: t, ?_, ?_, ?_⟩
    · rw [e3]; simp
    · rw [e4]; rfl
    · simp only [requests, List.map_cons] at e5 ⊢
      rw [e5]

end Strategy

section SendsRules
variable {σ L ρ α β : Type} {p : Cmd → Prop} {C : Cmd → Prop} {R : LocRel L}

theorem sends_call {c : Cmd} (h : p c) : Sends p (M.call c : M σ L ρ Resp) := by
  refine ⟨fun F s _ => ?_⟩
  rw [M.run_call]
  exact ⟨[(c, (F s.scene c).1)], rfl, _, List.mem_singleton.2 rfl, h⟩

/-- The request was sent by the first part; what follows only adds to the trace. -/
theorem sends_bind_left {m : M σ L ρ α} {f : α → M σ L ρ β}
    (hm : Sends p m) (hf : ∀ a, Calm C R (f a)) : Sends p (M.bind m f) := by
  refine ⟨fun F s hF => ?_⟩
  obtain ⟨t, e, x, hx, hp⟩ := hm.out F s hF
  rw [M.run_bind]
  generalize m.run F s = o at e
  rcases o with ⟨(a | r0 | _), s1⟩
  · obtain ⟨_, t2, e2, _⟩ := (hf a).ext F s1
    refine ⟨t ++ t2, ?_, x, List.mem_append_left _ hx, hp⟩
    show ((f a).run F s1).2.trace = _
    rw [e2]
    show s1.trace ++ t2 = _
    rw [show s1.trace = s.trace ++ t from e, List.append_assoc]
  · exact ⟨t, e, x, hx, hp⟩
  · exact ⟨t, e, x, hx, hp⟩

/-- The first part falls through; the request is sent by what follows. -/
theorem sends_bind_right {m : M σ L ρ α} {f : α → M σ L ρ β}
    (hm : Quiet C R m) (hf : ∀ a, Sends p (f a)) : Sends p (M.bind m f) := by
  refine ⟨fun F s hF => ?_⟩
  have h1 := hm.ext F s
  have h2 := hm.noRet F s
  have h3 := hm.noExc F s hF
  rw [M.run_bind]
  generalize m.run F s = o at h1 h2 h3
  rcases o with ⟨(a | r0 | _), s1⟩
  · obtain ⟨_, t1, e1, _⟩ := h1
    obtain ⟨t2, e2, x, hx, hp⟩ := (hf a).out F s1 hF
    refine ⟨t1 ++ t2, ?_, x, List.mem_append_right _ hx, hp⟩
    show ((f a).run F s1).2.trace = _
    rw [e2]
    show s1.trace ++ t2 = _
    rw [show s1.trace = s.trace ++ t1 from e1, List.append_assoc]
  · exact absurd rfl (h2 r0)
  · exact absurd rfl h3

theorem sends_ite {c : Prop} [Decidable c] {a b : M σ L ρ α}
    (ha : Sends p a) (hb : Sends p b) : Sends p (if c then a else b) := by
  split
  · exact ha
  · exact hb

theorem sends_fbxExport (out : String) :
    Sends (fun c => c = fbxExportCmd out) (fbxExport out : M σ L ρ Bool) := by
  unfold fbxExport melExec
  simp only [M.bind_def, M.pure_def]
  exact sends_bind_left (C := fun _ => True) (R := LocRel.any L) (sends_call rfl)
    (fun _ => calm_of_quiet (quiet_pure _))

/-- A run of code that sends the request holds it among the requests it has added. -/
theorem wp_sends {F : Facade σ} {m : M σ L ρ α} (hs : Sends p m) (hF : NoFault F)
    (s : Run σ L) :
    wp F m (fun _ s1 => ∃ t, s1.trace = s.trace ++ t ∧ ∃ x ∈ t, p x.1) s :=
  hs.out F s hF

end SendsRules

section SendsExport
variable {σ : Type}

theorem isEmpty_concat {α : Type} (l : List α) (a : α) : (l ++ [a]).isEmpty = false := by
  cases l <;> rfl

theorem when_false {L ρ : Type} (m : M σ L ρ Unit) : M.when false m = M.pure () := rfl

theorem sends_exportReferencedInPlace {ρ : Type} (out : String) (a b : Int)
    (opts : FbxExportOptions) (u w : Bool) :
    Sends (fun c => c = fbxExportCmd out)
      (exportReferencedInPlace out a b opts u w :
        M σ SkelLocals ρ (FbxContentStats × Bool)) := by
  unfold exportReferencedInPlace
  simp only [M.bind_def, M.pure_def, melExec, skelWarn, setFbxExportDefaults, setFbxBakeRange,
    scanFbxContent, M.bind_assoc]
  repeat' first
    | (refine sends_bind_left (C := fun _ => True) (R := LocRel.any SkelLocals)
        (sends_fbxExport out) (fun _ => ?_)
       repeat' first
        | apply calm_bind
        | apply calm_ite
        | apply calm_when
        | intro _
        | exact calm_of_quiet (quiet_pure _)
        | exact calm_of_quiet (quiet_call trivial))
    | (refine sends_bind_right (C := fun _ => True) (R := LocRel.any SkelLocals) ?_ (fun _ => ?_)
       · repeat' first
          | apply quiet_bind | apply quiet_pure | apply quiet_getL | apply quiet_when
          | apply quiet_ite
          | intro _
          | (apply quiet_call; trivial)
          | (apply quiet_modifyL; intro _; trivial))

theorem quiet_exportReferencedInPlace {ρ : Type} (out : String) (a b : Int)
    (opts : FbxExportOptions) (u w : Bool) :
    Quiet (fun _ => True) (LocRel.any SkelLocals)
      (exportReferencedInPlace out a b opts u w :
        M σ SkelLocals ρ (FbxContentStats × Bool)) := by
  unfold exportReferencedInPlace
  simp only [M.bind_def, M.pure_def, melExec, skelWarn, setFbxExportDefaults, setFbxBakeRange,
    scanFbxContent, fbxExport]
  repeat' first
    | apply quiet_bind | apply quiet_pure | apply quiet_getL | apply quiet_when
    | apply quiet_ite
    | intro _
    | (apply quiet_call; trivial)
    | (apply quiet_modifyL; intro _; trivial)

/-- The referenced in-place branch sends `FBXExport`. -/
theorem sends_exportReferencedBranch (root out : String) (a b : Int) (opts : FbxExportOptions)
    (t0 : Int) :
    Sends (fun c => c = fbxExportCmd out)
      (exportReferencedBranch root out a b opts t0 : M σ SkelLocals ExportResult Empty) := by
  unfold exportReferencedBranch
  simp only [M.bind_def, M.pure_def, isEmpty_concat, when_false]
  repeat' first
    | (refine sends_bind_left (C := fun _ => True) (R := LocRel.any SkelLocals)
        (sends_exportReferencedInPlace out a b opts _ _) (fun _ => ?_)
       simp only [now, fileSizeOrZero, fileExistsOnDisk, getFileSize, skelWarn]
       repeat' first
        | apply calm_bind
        | apply calm_ret
        | apply calm_ite
        | apply calm_when
        | intro _
        | exact calm_of_quiet (quiet_exportReferencedInPlace _ _ _ _ _ _)
        | exact calm_of_quiet (quiet_pure _)
        | exact calm_of_quiet quiet_getL
        | exact calm_of_quiet (quiet_call trivial)
        | exact calm_of_quiet (quiet_modifyL (fun _ => trivial))
        | split)
    | (refine sends_bind_right (C := fun _ => True) (R := LocRel.any SkelLocals) ?_ (fun _ => ?_)
       · repeat' first
          | exact quiet_mono (fun _ _ => trivial) (quiet_skelWarn _)
          | exact quiet_mono (fun _ _ => trivial) (quiet_melQueryStringArray _ _ _ _)
          | exact quiet_mono (fun _ _ => trivial) (quiet_buildSelection _)
          | exact quiet_mono (fun _ _ => trivial) (quiet_collectSkinnedMeshTransformsForJoints _)
          | exact quiet_mono (fun _ _ => trivial) (quiet_collectMeshTransformsByNamespace _)
          | exact quiet_mono (fun _ _ => trivial) (quiet_collectMeshTransformsUnderNode _)
          | exact quiet_mono (fun _ _ => trivial) quiet_debugSelectionSnapshot
          | apply quiet_bind | apply quiet_pure | apply quiet_getL | apply quiet_when
          | apply quiet_ite
          | intro _
          | (apply quiet_call; trivial)
          | (apply quiet_modifyL; intro _; trivial))

end SendsExport

section Strategy
variable {σ : Type}

theorem inPlaceStep_spec (c : Cmd) (h : isInPlaceStep c = true) :
    c.kind ∈ inPlaceKinds ∨ ∃ obj n, c = .setName obj n := by
  cases c with
  | setName obj n => exact Or.inr ⟨obj, n, rfl⟩
  | _ =>
    left
    unfold isInPlaceStep at h
    exact List.mem_of_elem_eq_true h

theorem replay_of_extends {L : Type} {F : Facade σ} {C : Cmd → Prop} {R : LocRel L} {sc : σ}
    {s s1 : Run σ L} (hs : s.scene = replay F sc s.trace) (E : Extends F C R s s1) :
    s1.scene = replay F sc s1.trace := by
  obtain ⟨_, t, e, _, _, hsc⟩ := E
  rw [hsc, e, replay_append, hs]

/-- The end of the residual-namespace fallback, from the state after the restore: queries,
then the run of the duplicate strategy. -/
theorem finishFallback_spec (F : Facade σ) (hF : NoFault F) (sc : σ) (out : String)
    (a b : Int) (opts : FbxExportOptions) (rootObj : MObject) (rootJoint : String)
    (s3 : Run σ SkelLocals) (hs3 : s3.scene = replay F sc s3.trace) :
    wp F (M.bind (if rootObj.isSome = true then fullPathName rootObj else M.pure rootJoint)
        fun root => delegateToDuplicate root out a b opts)
      (fun o s1 => ∃ r w3, o = .ret r ∧ (∀ x ∈ w3, x.1.kind = .query)
        ∧ (∃ t, s1.trace = s3.trace ++ t)
        ∧ Delegated F sc out a b opts (s3.trace ++ w3)
            { result := some r, scene := s1.scene, trace := s1.trace }) s3 := by
  refine wp_bind_quietN (C := fun c => isPlainQuery c = true) (R := LocRel.same SkelLocals)
    (quiet_ite (quiet_pq_fullPathName _) (quiet_pure _)) hF (fun root s4 E4 => ?_)
  have hs4 := replay_of_extends hs3 E4
  obtain ⟨_, w3, e4, hk4, _, _⟩ := E4
  refine wp_mono (delegateToDuplicate_spec F hF root out a b opts s4) ?_
  rintro o s5 ⟨d, h1, h2, ⟨t, h3⟩, rfl⟩
  refine ⟨_, w3, rfl, fun x hx => (plainQuery_spec _ (hk4 x hx)).1, ⟨w3 ++ t, ?_⟩,
    root, s4.loc.warnings, d, ?_, ?_, rfl⟩
  · rw [h3, e4, List.append_assoc]
  · rw [← e4, ← hs4]; exact h1
  · rw [← e4, ← hs4]; exact h2

/-- A run of code that is calm and sends the request: it returns, and the requests it has
added satisfy `C` and hold the request. -/
theorem wp_of_calm_sends {L r0 : Type} {C : Cmd → Prop} {p : Cmd → Prop} {R : LocRel L}
    {F : Facade σ} {m : M σ L r0 Empty} (hc : Calm C R m) (hs : Sends p m) (hF : NoFault F)
    (s : Run σ L) :
    wp F m (fun o s1 => (∃ r, o = .ret r) ∧ Extends F C R s s1
      ∧ ∃ t, s1.trace = s.trace ++ t ∧ ∃ x ∈ t, p x.1) s := by
  have h1 := wp_of_calm hc hF s
  have h2 := hs.out F s hF
  unfold wp at h1 ⊢
  exact ⟨h1.1, h1.2, h2⟩

/-- The residual-namespace check and what follows it, from the state after the rename
phase. -/
theorem residualCheck_spec (F : Facade σ) (hF : NoFault F) (sc : σ) (out : String)
    (a b : Int) (opts : FbxExportOptions) (rootObj : MObject) (rootJoint : String)
    (elseB : List String → M σ SkelLocals ExportResult Empty)
    (helse : ∀ allDesc, Calm (fun c => isInPlaceStep c = true) (LocRel.any SkelLocals)
      (elseB allDesc))
    (hsend : ∀ allDesc, Sends (fun c => c = fbxExportCmd out) (elseB allDesc))
    (P : Cmd → Prop)
    (hPrn : ∀ c, P c → isRenamePhase c = true ∨ ∃ obj, c = .nodeName obj)
    (hPq : ∀ c, isPlainQuery c = true → P c)
    (sd s : Run σ SkelLocals) (hsd : sd.scene = replay F sc sd.trace)
    (T : Track F P sd s (s.loc.jointRecs.map fun r => Cmd.setName r.obj r.originalName))
    (hq : s.loc.didRename = false → ∀ c, P c → c.kind = .query) :
    wp F (M.bind (melQueryStringArray "listRelatives"
        ["-allDescendents", "-type", "\"joint\"", "-fullPath", q rootJoint]) fun allDesc =>
        if namespacedCount (allDesc ++ [rootJoint]) > 0 then
          M.bind M.getL fun l =>
            M.bind (M.when l.didRename (M.bind (restoreNames l.jointRecs) fun _ =>
              M.modifyL fun l =>
                { warnings := l.warnings, jointRecs := l.jointRecs, didRename := false }))
            fun _ =>
              M.bind (if rootObj.isSome = true then fullPathName rootObj else M.pure rootJoint)
                fun root => delegateToDuplicate root out a b opts
        else elseB allDesc)
      (fun o s1 => ∃ r post, o = .ret r ∧ s1.trace = sd.trace ++ post
        ∧ WritableClaims F sc out a b opts sd.trace post
            { result := some r, scene := s1.scene, trace := s1.trace }) s := by
  have hjq : (melQueryStringArray "listRelatives"
      ["-allDescendents", "-type", "\"joint\"", "-fullPath", q rootJoint] :
        M σ SkelLocals ExportResult (List String))
      = M.bind (M.call (.mel "listRelatives"
          ["-allDescendents", "-type", "\"joint\"", "-fullPath", q rootJoint]))
          (fun r => M.pure r.arr) := rfl
  rw [hjq, M.bind_assoc]
  refine wp_trackC hF (hPq _ rfl) rfl T (fun s1 T1 hl1 htr1 => ?_)
  rw [M.pure_bind]
  generalize (F s.scene (.mel "listRelatives"
    ["-allDescendents", "-type", "\"joint\"", "-fullPath", q rootJoint])).1 = ans at htr1 ⊢
  have hs1 : s1.scene = replay F sc s1.trace := replay_of_extends hsd T1.ext
  obtain ⟨_, w0, e0, _, _, _⟩ := T.ext
  obtain ⟨⟨_, w1, e1, hw1, _, _⟩, hrec1⟩ := T1
  have hw : w1 = w0 ++ [(Cmd.mel "listRelatives"
      ["-allDescendents", "-type", "\"joint\"", "-fullPath", q rootJoint], ans)] := by
    have := e1.symm.trans htr1
    rw [e0, List.append_assoc] at this
    exact List.append_cancel_left this
  have hlast : w1.getLast? = some (Cmd.mel "listRelatives"
      ["-allDescendents", "-type", "\"joint\"", "-fullPath", q rootJoint], ans) := by
    rw [hw, List.getLast?_append]
    rfl
  have hrecs : restoreRequests w1
      = s.loc.jointRecs.map fun r => Cmd.setName r.obj r.originalName := by
    rw [e1, restoreRequests_append] at hrec1
    exact List.append_cancel_left hrec1
  rw [wp_ite]
  split
  · rename_i hres
    rw [wp_bind, wp_getL]
    simp only []
    rw [wp_bind, wp_when]
    cases hdr : s1.loc.didRename
    · -- no rename was due: nothing to restore
      simp only [Bool.false_eq_true, if_false]
      refine wp_mono (finishFallback_spec F hF sc out a b opts rootObj rootJoint s1 hs1) ?_
      rintro o s5 ⟨r, w3, rfl, hk3, ⟨t, ht⟩, hdel⟩
      refine ⟨r, w1 ++ t, rfl, by rw [ht, e1, List.append_assoc], w1, t, rfl,
        fun x hx => hPrn _ (hw1 x hx), Or.inr ⟨rootJoint, ans, hlast, ?_, ?_⟩⟩
      · intro h0; omega
      · intro _
        refine ⟨[], w3, Or.inr ⟨rfl, fun x hx => hq (hl1 ▸ hdr) _ (hw1 x hx)⟩, hk3, ?_⟩
        rw [List.append_nil, ← e1]
        exact hdel
    · simp only [if_true]
      rw [wp_bind]
      refine wp_mono (restoreNames_spec F hF s1.loc.jointRecs s1) ?_
      rintro o s2 ⟨rfl, hl2, tr, e2, hsc2, hreq⟩
      simp only []
      rw [wp_modifyL]
      simp only []
      have hs3 : ∀ l : SkelLocals, (Run.mk s2.scene s2.trace l).scene
          = replay F sc (Run.mk s2.scene s2.trace l).trace := by
        intro l
        show s2.scene = replay F sc s2.trace
        rw [hsc2, e2, replay_append, hs1]
      refine wp_mono (finishFallback_spec F hF sc out a b opts rootObj rootJoint _ (hs3 _)) ?_
      rintro o s5 ⟨r, w3, rfl, hk3, ⟨t, ht⟩, hdel⟩
      refine ⟨r, w1 ++ (tr ++ t), rfl, ?_, w1, tr ++ t, rfl,
        fun x hx => hPrn _ (hw1 x hx), Or.inr ⟨rootJoint, ans, hlast, ?_, ?_⟩⟩
      · rw [ht]
        show s2.trace ++ t = _
        rw [e2, e1, List.append_assoc, List.append_assoc]
      · intro h0; omega
      · intro _
        refine ⟨tr, w3, Or.inl ?_, hk3, ?_⟩
        · rw [hreq, hrecs, hl1]
        · have e : sd.trace ++ w1 ++ tr ++ w3 = s2.trace ++ w3 := by rw [e2, e1]
          rw [e]
          exact hdel
  · rename_i hres
    have hzero : namespacedCount (ans.arr ++ [rootJoint]) = 0 := by omega
    refine wp_mono (wp_of_calm_sends (helse ans.arr) (hsend ans.arr) hF s1) ?_
    rintro o s2 ⟨⟨r, rfl⟩, E2, t, et, x, hx, hp⟩
    obtain ⟨_, rest, e2, hk2, _, _⟩ := E2
    have ht : t = rest := List.append_cancel_left (et.symm.trans e2)
    refine ⟨r, w1 ++ rest, rfl, by rw [e2, e1, List.append_assoc], w1, rest, rfl,
      fun x hx => hPrn _ (hw1 x hx), Or.inr ⟨rootJoint, ans, hlast, ?_, ?_⟩⟩
    · intro _
      exact ⟨fun x hx => inPlaceStep_spec _ (hk2 x hx), x, ht ▸ hx, hp⟩
    · intro h
      omega

end Strategy

section Strategy
variable {σ : Type}

/-- The rename phase of the in-place strategy: the flag, the renames, the new path of the
root. -/
theorem renamePhase_spec (F : Facade σ) (hF : NoFault F) (dr : Bool) (work : List WorkItem)
    (rootObj : MObject) (rootJoint0 : String)
    (tail : String → M σ SkelLocals ExportResult Empty)
    (post : Out ExportResult Empty → Run σ SkelLocals → Prop) (sd s : Run σ SkelLocals)
    (T : Track F (fun c => c.kind = Kind.query) sd s
      (s.loc.jointRecs.map fun r => Cmd.setName r.obj r.originalName))
    (htail : ∀ (rootJoint : String) (P : Cmd → Prop) (s1 : Run σ SkelLocals),
      (∀ c, P c → isRenamePhase c = true ∨ ∃ obj, c = .nodeName obj) →
      (∀ c, isPlainQuery c = true → P c) →
      Track F P sd s1 (s1.loc.jointRecs.map fun r => Cmd.setName r.obj r.originalName) →
      (s1.loc.didRename = false → ∀ c, P c → c.kind = .query) →
      wp F (tail rootJoint) post s1) :
    wp F (M.bind (M.when dr (M.modifyL fun l =>
        { warnings := l.warnings, jointRecs := l.jointRecs, didRename := true })) fun _ =>
      M.bind (if dr = true then
          M.bind (renameWork work) fun _ =>
            if rootObj.isSome = true then fullPathName rootObj else M.pure rootJoint0
        else M.pure rootJoint0) tail) post s := by
  cases dr
  · rw [wp_bind, wp_when]
    simp only [Bool.false_eq_true, if_false]
    rw [M.pure_bind]
    exact htail rootJoint0 _ s query_renamePhase (fun c h => (plainQuery_spec c h).1) T
      (fun _ c h => h)
  · rw [wp_bind, wp_when]
    simp only [if_true]
    rw [wp_modifyL]
    simp only []
    rw [M.bind_assoc]
    have T1 : Track F (fun c => isRenamePhase c = true ∨ ∃ obj, c = Cmd.nodeName obj) sd
        (Run.mk s.scene s.trace (SkelLocals.mk s.loc.warnings s.loc.jointRecs true))
        (s.loc.jointRecs.map fun r => Cmd.setName r.obj r.originalName) :=
      ⟨⟨trivial, (extends_mono query_renamePhase T.ext).steps⟩, T.recs⟩
    refine wp_trackQ (quiet_rp_renameWork work : Quiet _ (LocRel.same SkelLocals) _)
      (fun c h => ⟨Or.inl h, h⟩) hF T1 (fun _ s2 T2 hl2 => ?_)
    refine wp_trackQ
      (quiet_ite (quiet_pq_fullPathName _) (quiet_pure _) :
        Quiet (fun c => isPlainQuery c = true) (LocRel.same SkelLocals) _)
      (fun c h => ⟨Or.inl (plainQuery_spec c h).2, (plainQuery_spec c h).2⟩) hF T2
      (fun rootJoint s3 T3 hl3 => ?_)
    have hloc : s3.loc = SkelLocals.mk s.loc.warnings s.loc.jointRecs true := hl3.trans hl2
    refine htail rootJoint _ s3 (fun c h => h)
      (fun c h => Or.inl (plainQuery_spec c h).2) ?_ ?_
    · rw [hloc]; exact T3
    · rw [hloc]; intro h; exact Bool.noConfusion h

theorem inPlace_of_query (c : Cmd) (h : OfKinds [.query] c) : isInPlaceStep c = true := by
  have hk : c.kind = Kind.query := List.mem_singleton.1 h
  cases c <;> simp_all [isInPlaceStep, inPlaceKinds, Cmd.kind]

/-- The failure of the in-place strategy on a root that is no joint. -/
theorem writableFailure (F : Facade σ) (sc : σ) (out : String) (a b : Int)
    (opts : FbxExportOptions) (sd s1 s : Run σ SkelLocals)
    (T1 : Track F (fun c => c.kind = Kind.query) sd s1
      (s1.loc.jointRecs.map fun r => Cmd.setName r.obj r.originalName))
    (p : String) (ans : Resp)
    (htr : s.trace = s1.trace ++ [(.mel "nodeType" [q p], ans)]) (hans : ans.str ≠ "joint")
    (r : ExportResult) (hr : r.success = false)
    (he : r.errors = ["Resolved skeleton root is not a joint: " ++ p]) :
    ∃ r1 post, (Out.ret r : Out ExportResult Empty) = .ret r1 ∧ s.trace = sd.trace ++ post
      ∧ WritableClaims F sc out a b opts sd.trace post
          { result := some r1, scene := s.scene, trace := s.trace } := by
  obtain ⟨_, w, e, hw, _, _⟩ := T1.ext
  refine ⟨r, w ++ [(.mel "nodeType" [q p], ans)], rfl, by rw [htr, e, List.append_assoc],
    w ++ [(.mel "nodeType" [q p], ans)], [], (List.append_nil _).symm, ?_,
    Or.inl ⟨p, ans, r, List.getLast?_concat _, hans, rfl, rfl, hr, he⟩⟩
  intro x hx
  rcases List.mem_append.1 hx with h | h
  · exact query_renamePhase _ (hw x h)
  · rw [List.mem_singleton.1 h]
    exact Or.inl rfl

/-- What follows the residual-namespace check when no namespace is left sends `FBXExport`
and requests of an export in place. -/
theorem exportWritableBranch_spec (F : Facade σ) (hF : NoFault F) (sc : σ)
    (rootObj0 : MObject) (rootJoint0 out : String) (a b : Int) (opts : FbxExportOptions)
    (t0 : Int) (sd : Run σ SkelLocals) (hsd : sd.scene = replay F sc sd.trace)
    (hj : sd.loc.jointRecs = []) (hd : sd.loc.didRename = false) :
    wp F (exportWritableBranch rootObj0 rootJoint0 out a b opts t0)
      (fun o s1 => ∃ r post, o = .ret r ∧ s1.trace = sd.trace ++ post
        ∧ WritableClaims F sc out a b opts sd.trace post
            { result := some r, scene := s1.scene, trace := s1.trace }) sd := by
  unfold exportWritableBranch buildJointRecs fallbackToDuplicate
  simp only [M.bind_def, M.pure_def, isEmpty_concat, when_false]
  have T0 : Track F (fun c => c.kind = Kind.query) sd sd
      (sd.loc.jointRecs.map fun r => Cmd.setName r.obj r.originalName) := by
    rw [hj]; exact track_refl F _ sd
  have key : ∀ {α : Type} {m : M σ SkelLocals ExportResult α}
      {f : α → M σ SkelLocals ExportResult Empty}
      {post : Out ExportResult Empty → Run σ SkelLocals → Prop} {s : Run σ SkelLocals},
      Quiet (fun c => isPlainQuery c = true) (LocRel.same SkelLocals) m →
      Track F (fun c => c.kind = Kind.query) sd s
        (s.loc.jointRecs.map fun r => Cmd.setName r.obj r.originalName) →
      s.loc.didRename = false →
      (∀ x s1, Track F (fun c => c.kind = Kind.query) sd s1
        (s1.loc.jointRecs.map fun r => Cmd.setName r.obj r.originalName) →
        s1.loc.didRename = false → wp F (f x) post s1) →
      wp F (M.bind m f) post s := by
    intro α m f post s hq T hdr h
    refine wp_trackQ hq plainQuery_spec hF T (fun x s1 T1 hl1 => ?_)
    have e : s1.loc = s.loc := hl1
    refine h x s1 ?_ (by rw [e]; exact hdr)
    rw [e]; exact T1
  refine key (quiet_pq_melQueryStringArray _ _ rfl) T0 hd (fun parents s1 T1 hd1 => ?_)
  have hnt : (melQueryString "nodeType" [q rootJoint0] : M σ SkelLocals ExportResult String)
      = M.bind (M.call (.mel "nodeType" [q rootJoint0])) (fun r => M.pure r.str) := rfl
  rw [hnt, M.bind_assoc]
  refine wp_trackC (P := fun c => c.kind = Kind.query) hF rfl rfl T1
    (fun s2 T2 hl2 htr2 => ?_)
  rw [M.pure_bind]
  generalize (F s1.scene (.mel "nodeType" [q rootJoint0])).1 = tans at htr2 ⊢
  have T2b : Track F (fun c => c.kind = Kind.query) sd s2
      (s2.loc.jointRecs.map fun r => Cmd.setName r.obj r.originalName) := by
    rw [hl2]; exact T2
  have hd2 : s2.loc.didRename = false := by rw [hl2]; exact hd1
  rw [wp_bind, wp_when]
  split
  · rename_i hty
    rw [wp_bind, wp_getL]
    simp only []
    rw [wp_ret]
    exact writableFailure F sc out a b opts sd s1 s2 T1 rootJoint0 tans htr2
      (by simpa using hty) _ rfl rfl
  refine key (quiet_pq_melQueryStringArray _ _ rfl) T2b hd2 (fun desc s3 T3 hd3 => ?_)
  rw [M.pure_bind]
  refine key (quiet_pq_debugJointMotionSample _ _ _) T3 hd3 (fun _ s4 T4 hd4 => ?_)
  refine key (quiet_pq_buildSelection _) T4 hd4 (fun sel s5 T5 hd5 => ?_)
  rw [wp_bind]
  refine wp_mono (buildJointRecs_spec F hF rootJoint0 (fun c => c.kind = Kind.query)
    (fun obj => rfl) sd _ rootObj0 s5 T5) ?_
  rintro o s6 ⟨rootObj, rfl, T6, hd6, -⟩
  simp only []
  refine renamePhase_spec F hF _ _ rootObj rootJoint0 _ _ sd s6 T6
    (fun rootJoint P s7 hPrn hPq T7 hq => ?_)
  refine residualCheck_spec F hF sc out a b opts rootObj rootJoint _ ?_ ?_ P hPrn hPq sd s7 hsd
    T7 hq
  · intro allDesc
    simp only [melExec, melQueryStringArray, melQueryString, skelWarn,
      debugSelectionSnapshot, setFbxExportDefaults, setFbxBakeRange, fbxExport,
      now, fileSizeOrZero, fileExistsOnDisk, getFileSize, scanFbxContent,
      collectSkinnedMeshTransformsForJoints, skinClustersOfJoints, meshTransformsOfSkin,
      parentsOfShapes, collectMeshTransformsUnderNode, restoreIfRenamed, restoreNames,
      debugJointMotionSample, queryAttrAtTime, M.bind_def, M.pure_def]
    repeat' first
      | apply calm_bind
      | apply calm_ret
      | apply calm_when
      | apply calm_ite
      | intro _
      | exact calm_of_quiet (quiet_mono (fun c h => inPlace_of_query c h) (quiet_buildSelection _))
      | exact calm_of_quiet
          (quiet_mono (fun c h => inPlace_of_query c h) (quiet_debugWorldSpacePosition _ _))
      | exact calm_of_quiet (quiet_pure _)
      | exact calm_of_quiet quiet_getL
      | exact calm_of_quiet (quiet_call rfl)
      | exact calm_of_quiet (quiet_modifyL (fun _ => trivial))
      | (apply calm_of_quiet
         first
          | apply quiet_forEach
          | apply quiet_foldM
         (repeat' first
            | apply quiet_bind | apply quiet_pure | apply quiet_getL | apply quiet_when
            | apply quiet_ite | apply quiet_forEach | apply quiet_foldM
            | intro _
            | (apply quiet_call; rfl)
            | (apply quiet_modifyL; intro _; trivial)
            | split)
         done)
      | split
  · intro allDesc
    repeat' first
      | (refine sends_bind_left (C := fun _ => True) (R := LocRel.any SkelLocals)
          (sends_fbxExport out) (fun _ => ?_)
         simp only [now, fileSizeOrZero, fileExistsOnDisk, getFileSize, skelWarn,
           restoreIfRenamed, restoreNames, M.bind_def, M.pure_def]
         repeat' first
          | apply calm_bind
          | apply calm_ret
          | apply calm_ite
          | apply calm_when
          | intro _
          | exact calm_of_quiet (quiet_mono (fun _ _ => trivial) (quiet_scanFbxContent _))
          | exact calm_of_quiet (quiet_pure _)
          | exact calm_of_quiet quiet_getL
          | exact calm_of_quiet (quiet_call trivial)
          | exact calm_of_quiet (quiet_modifyL (fun _ => trivial))
          | (apply calm_of_quiet
             apply quiet_forEach
             (repeat' first
                | apply quiet_bind | apply quiet_pure
                | intro _
                | (apply quiet_call; trivial))
             done)
          | split)
      | (refine sends_bind_right (C := fun _ => True) (R := LocRel.any SkelLocals) ?_
          (fun _ => ?_)
         · repeat' first
            | exact quiet_mono (fun _ _ => trivial) (quiet_skelWarn _)
            | exact quiet_mono (fun _ _ => trivial) (quiet_buildSelection _)
            | exact quiet_mono (fun _ _ => trivial)
                (quiet_collectSkinnedMeshTransformsForJoints _)
            | exact quiet_mono (fun _ _ => trivial) (quiet_collectMeshTransformsUnderNode _)
            | exact quiet_mono (fun _ _ => trivial) quiet_debugSelectionSnapshot
            | exact quiet_mono (fun _ _ => trivial) (quiet_debugJointMotionSample _ _ _)
            | exact quiet_mono (fun _ _ => trivial) (quiet_debugWorldSpacePosition _ _)
            | exact quiet_mono (fun _ _ => trivial) quiet_setFbxExportDefaults
            | exact quiet_mono (fun _ _ => trivial) (quiet_setFbxBakeRange _ _)
            | exact quiet_mono (fun _ _ => trivial) (quiet_melExec _ _ _ rfl)
            | exact quiet_mono (fun _ _ => trivial) (quiet_melQueryStringArray _ _ _ rfl)
            | apply quiet_bind | apply quiet_pure | apply quiet_getL | apply quiet_when
            | apply quiet_ite
            | intro _
            | (apply quiet_call; trivial)
            | (apply quiet_modifyL; intro _; trivial))

end Strategy

section Dispatch
variable {σ : Type}

theorem quiet_findRootJoint {L ρ : Type} {R : LocRel L} (root : String) :
    Quiet (OfKinds [.query]) R
      (findRootJoint root : M σ L ρ (Option (String × List String))) := by
  unfold findRootJoint
  simp only [M.bind_def, M.pure_def, melQueryString, melQueryStringArray]
  repeat' first
    | apply quiet_bind | apply quiet_pure | apply quiet_getL | apply quiet_when
    | apply quiet_ite | apply quiet_forEach | apply quiet_foldM
    | intro _
    | (apply quiet_callK; rfl)
    | split

/-- The state of `exportSkeletonFbx` before the choice of the strategy: only checks have been
sent, no record is kept and nothing is renamed. -/
structure Before (F : Facade σ) (s0 s : Run σ SkelLocals) : Prop where
  ext : Extends F (OfKinds checkKinds) (LocRel.any SkelLocals) s0 s
  recs : s.loc.jointRecs = []
  flag : s.loc.didRename = false

/-- Quiet code before the choice. -/
theorem wp_beforeQ {α β : Type} {ks : List Kind} {F : Facade σ}
    {m : M σ SkelLocals ExportResult α} {f : α → M σ SkelLocals ExportResult β}
    {post : Out ExportResult β → Run σ SkelLocals → Prop} {s0 s : Run σ SkelLocals}
    (hq : Quiet (OfKinds ks) (LocRel.same SkelLocals) m) (hk : ∀ k ∈ ks, k ∈ checkKinds)
    (hF : NoFault F) (B : Before F s0 s)
    (h : ∀ x s1, Before F s0 s1 → wp F (f x) post s1) :
    wp F (M.bind m f) post s := by
  refine wp_stepQ hq (ofKinds_mono hk) hF B.ext (fun x s1 E1 hl => ?_)
  have e : s1.loc = s.loc := hl
  exact h x s1 ⟨E1, by rw [e]; exact B.recs, by rw [e]; exact B.flag⟩

/-- A postcondition on the returned result and the trace holds of the run of the function. -/
theorem runFn_of_wp {L r0 : Type} {F : Facade σ} {m : M σ L r0 Empty} {l0 : L} {sc : σ}
    {Q : Final σ r0 → Prop}
    (h : wp F m (fun o s1 => ∃ r, o = .ret r
      ∧ Q { result := some r, scene := s1.scene, trace := s1.trace })
      { scene := sc, trace := [], loc := l0 }) :
    Q (runFn m l0 F sc) := by
  unfold wp at h
  unfold runFn
  generalize m.run F { scene := sc, trace := [], loc := l0 } = p at h ⊢
  obtain ⟨o, s1⟩ := p
  obtain ⟨r, e, hQ⟩ := h
  cases e
  exact hQ

end Dispatch

section Dispatch
variable {σ : Type}

/-- A check before the choice, with the trace it leaves. -/
theorem wp_beforeC {β : Type} {F : Facade σ} {c : Cmd}
    {f : Resp → M σ SkelLocals ExportResult β}
    {post : Out ExportResult β → Run σ SkelLocals → Prop} {s0 s : Run σ SkelLocals}
    (hF : NoFault F) (hc : c.kind ∈ checkKinds) (B : Before F s0 s)
    (h : ∀ s1, Before F s0 s1 → s1.trace = s.trace ++ [(c, (F s.scene c).1)] →
      wp F (f (F s.scene c).1) post s1) :
    wp F (M.bind (M.call c) f) post s :=
  wp_bind_callN hF (h _ ⟨extends_trans B.ext (extends_call F _ hc s), B.recs, B.flag⟩ rfl)

/-- The plugin check: when it fails, the last request is the `loadPlugin` that failed. -/
theorem ensureFbxPlugin_before {β : Type} (F : Facade σ) (hF : NoFault F)
    (f : Bool → M σ SkelLocals ExportResult β)
    (post : Out ExportResult β → Run σ SkelLocals → Prop) (s0 s : Run σ SkelLocals)
    (B : Before F s0 s)
    (hfalse : ∀ s1 ans, Before F s0 s1 →
      s1.trace.getLast? = some (.mel "loadPlugin" ["\"fbxmaya\""], ans) → ans.ok = false →
      wp F (f false) post s1)
    (htrue : ∀ s1, Before F s0 s1 → wp F (f true) post s1) :
    wp F (M.bind ensureFbxPlugin f) post s := by
  unfold ensureFbxPlugin melQueryInt
  simp only [M.bind_def, M.pure_def, M.bind_assoc, M.pure_bind]
  refine wp_beforeC hF (by decide) B (fun s1 B1 _ => ?_)
  split
  · simp only [M.bind_assoc]
    refine wp_beforeC hF (by decide) B1 (fun s2 B2 e2 => ?_)
    cases hok : (F s1.scene (.mel "loadPlugin" ["\"fbxmaya\""])).1.ok
    · simp only [Bool.not_false, if_true, M.pure_bind]
      exact hfalse s2 _ B2 (by rw [e2]; exact List.getLast?_concat _) hok
    · simp only [Bool.not_true, Bool.false_eq_true, if_false, M.pure_bind]
      exact htrue s2 B2
  · simp only [M.pure_bind]
    exact htrue s1 B1

/-- The existence check: when it fails, the last request is `objExists` with the answer 0. -/
theorem nodeExists_before {β : Type} (F : Facade σ) (hF : NoFault F) (node : String)
    (f : Bool → M σ SkelLocals ExportResult β)
    (post : Out ExportResult β → Run σ SkelLocals → Prop) (s0 s : Run σ SkelLocals)
    (B : Before F s0 s)
    (hfalse : ∀ s1 ans, Before F s0 s1 →
      s1.trace.getLast? = some (.mel "objExists" [q node], ans) → ans.int = 0 →
      wp F (f false) post s1)
    (htrue : ∀ s1, Before F s0 s1 → wp F (f true) post s1) :
    wp F (M.bind (nodeExists node) f) post s := by
  unfold nodeExists melQueryInt
  simp only [M.bind_def, M.pure_def, M.bind_assoc, M.pure_bind]
  refine wp_beforeC hF (ofKinds_of_kind .query rfl (by decide)) B (fun s1 B1 e1 => ?_)
  by_cases h0 : (F s.scene (.mel "objExists" [q node])).1.int = 0
  · rw [h0]
    exact hfalse s1 _ B1 (by rw [e1]; exact List.getLast?_concat _) h0
  · have hb : ((F s.scene (.mel "objExists" [q node])).1.int != 0) = true := by
      simpa using h0
    rw [hb]
    exact htrue s1 B1

/-- The search for the root joint: when it finds none, the last request is the list of the
joints below the input, and the host has listed none. -/
theorem findRootJoint_before {β : Type} (F : Facade σ) (hF : NoFault F) (root : String)
    (f : Option (String × List String) → M σ SkelLocals ExportResult β)
    (post : Out ExportResult β → Run σ SkelLocals → Prop) (s0 s : Run σ SkelLocals)
    (B : Before F s0 s)
    (hnone : ∀ s1 ans, Before F s0 s1 →
      s1.trace.getLast? = some (jointQuery root, ans) → ans.arr = [] →
      wp F (f none) post s1)
    (hsome : ∀ pw s1, Before F s0 s1 → wp F (f (some pw)) post s1) :
    wp F (M.bind (findRootJoint root) f) post s := by
  unfold findRootJoint
  simp only [M.bind_def, M.pure_def, melQueryString, melQueryStringArray, M.bind_assoc,
    M.pure_bind]
  refine wp_beforeC hF (ofKinds_of_kind .query rfl (by decide)) B (fun s1 B1 _ => ?_)
  split
  · simp only [M.bind_assoc, M.pure_bind]
    refine wp_beforeC hF (ofKinds_of_kind .query rfl (by decide)) B1 (fun s2 B2 e2 => ?_)
    split
    · rename_i hemp
      simp only [M.pure_bind]
      refine hnone s2 _ B2 (by rw [e2]; exact List.getLast?_concat _) ?_
      exact List.isEmpty_iff.1 hemp
    · simp only [M.bind_assoc]
      refine wp_beforeQ (?_ : Quiet (OfKinds [.query]) (LocRel.same SkelLocals) _) (by decide) hF B2
        (fun cands s3 B3 => ?_)
      · repeat' first
          | apply quiet_bind | apply quiet_pure | apply quiet_foldM
          | intro _
          | (apply quiet_callK; rfl)
      split
      · simp only [M.bind_assoc]
        refine wp_beforeQ (?_ : Quiet (OfKinds [.query]) (LocRel.same SkelLocals) _) (by decide) hF B3
          (fun best s4 B4 => ?_)
        · repeat' first
            | apply quiet_bind | apply quiet_pure | apply quiet_foldM
            | intro _
            | (apply quiet_callK; rfl)
        simp only [M.pure_bind]
        exact hsome _ s4 B4
      · simp only [M.pure_bind]
        exact hsome _ s3 B3
  · simp only [M.pure_bind]
    exact hsome _ s1 B1

/-- A failure returned before the choice, with the answer that is its reason. -/
theorem strategyFailure (F : Facade σ) (sc : σ) (root out : String) (a b : Int)
    (opts : FbxExportOptions) (s0 s : Run σ SkelLocals) (h0 : s0.trace = [])
    (B : Before F s0 s) (r : ExportResult) (hr : r.success = false) (ans : Resp)
    (hlast : (s.trace.getLast? = some (.mel "loadPlugin" ["\"fbxmaya\""], ans) ∧ ans.ok = false
          ∧ r.errors = ["fbxmaya plugin load failed"])
      ∨ (s.trace.getLast? = some (.mel "objExists" [q root], ans) ∧ ans.int = 0
          ∧ r.errors = ["Skeleton root does not exist: " ++ root])
      ∨ (s.trace.getLast? = some (jointQuery root, ans) ∧ ans.arr = []
          ∧ r.errors = ["No joints found under: " ++ root])) :
    ∃ r1, (Out.ret r : Out ExportResult Empty) = .ret r1
      ∧ StrategyClaims F sc root out a b opts
          { result := some r1, scene := s.scene, trace := s.trace } :=
  ⟨r, rfl, Or.inl ⟨r, ans, rfl, hr, kinds_of_extends h0 B.ext, hlast⟩⟩

/-- The choice of the strategy, from the answer `refd` on the root. -/
theorem dispatch_spec (F : Facade σ) (hF : NoFault F) (sc : σ)
    (root out : String) (a b : Int) (opts : FbxExportOptions) (t0 : Int)
    (s0 s : Run σ SkelLocals) (h0 : s0.trace = []) (hs0 : s0.scene = sc)
    (B : Before F s0 s) (rootObj : MObject) (rootJoint : String) (refd : Bool)
    (hR : ReferencedAt rootObj s.trace refd) :
    wp F (if (refd && !opts.skelAnimationOnly) = true then
        exportReferencedBranch rootJoint out a b opts t0
      else if refd = true then
        M.bind (skelWarn
          "Skeleton root is referenced/read-only; exporting via temporary duplicate skeleton")
          fun _ => delegateToDuplicate rootJoint out a b opts
      else exportWritableBranch rootObj rootJoint out a b opts t0)
      (fun o s1 => ∃ r, o = .ret r ∧ StrategyClaims F sc root out a b opts
        { result := some r, scene := s1.scene, trace := s1.trace }) s := by
  have hs : s.scene = replay F sc s.trace :=
    replay_of_extends (by rw [h0, hs0]; rfl) B.ext
  have hpre : ∀ x ∈ s.trace, x.1.kind ∈ checkKinds := kinds_of_extends h0 B.ext
  cases refd with
  | false =>
    simp only [Bool.false_and, Bool.false_eq_true, if_false]
    refine wp_mono
      (exportWritableBranch_spec F hF sc rootObj rootJoint out a b opts t0 s hs B.recs B.flag) ?_
    rintro o s1 ⟨r, post, rfl, e, hW⟩
    exact ⟨r, rfl, Or.inr ⟨s.trace, post, rootObj, false, e, hpre, hR,
      (fun h => nomatch h), (fun h => nomatch h), fun _ => hW⟩⟩
  | true =>
    cases hA : opts.skelAnimationOnly with
    | false =>
      simp only [Bool.true_and, Bool.not_false, if_true]
      refine wp_mono (wp_of_calm_sends (calm_exportReferencedBranch rootJoint out a b opts t0)
        (sends_exportReferencedBranch rootJoint out a b opts t0) hF s) ?_
      rintro o s1 ⟨⟨r, rfl⟩, E, t1, et, x, hx, hp⟩
      obtain ⟨_, t, e, hk, _, _⟩ := E
      have ht : t1 = t := List.append_cancel_left (et.symm.trans e)
      exact ⟨r, rfl, Or.inr ⟨s.trace, t, rootObj, true, e, hpre, hR,
        (fun _ _ => ⟨⟨r, rfl⟩, hk, x, ht ▸ hx, hp⟩),
        (fun _ h => Bool.noConfusion (hA.symm.trans h)),
        (fun h => nomatch h)⟩⟩
    | true =>
      simp only [Bool.true_and, Bool.not_true, Bool.false_eq_true, if_false, if_true]
      unfold skelWarn
      rw [wp_bind, wp_modifyL]
      simp only []
      refine wp_mono (delegateToDuplicate_spec F hF rootJoint out a b opts _) ?_
      rintro o s1 ⟨d, h1, h2, ⟨t, h3⟩, rfl⟩
      refine ⟨_, rfl, Or.inr ⟨s.trace, t, rootObj, true, h3, hpre, hR,
        (fun _ h => Bool.noConfusion (hA.symm.trans h)),
        (fun _ _ => ⟨rootJoint, _, d, ?_, ?_, rfl⟩),
        (fun h => nomatch h)⟩⟩
      · rw [← hs]; exact h1
      · rw [← hs]; exact h2

/-- The body of `exportSkeletonFbx` up to the choice, and the choice. -/
theorem exportSkeletonFbxBody_spec (F : Facade σ) (hF : NoFault F) (sc : σ)
    (root out : String) (a b : Int) (opts : FbxExportOptions) (t0 : Int)
    (s0 s : Run σ SkelLocals) (h0 : s0.trace = []) (hs0 : s0.scene = sc)
    (B : Before F s0 s) :
    wp F (exportSkeletonFbxBody root out a b opts t0)
      (fun o s1 => ∃ r, o = .ret r ∧ StrategyClaims F sc root out a b opts
        { result := some r, scene := s1.scene, trace := s1.trace }) s := by
  unfold exportSkeletonFbxBody
  simp only [M.bind_def, M.pure_def]
  refine wp_beforeQ (quiet_ensureOutDir _) (by decide) hF B (fun _ s1 B1 => ?_)
  refine findRootJoint_before F hF root _ _ s0 s1 B1 (fun s2 ans B2 hl he => ?_)
    (fun pw s2 B2 => ?_)
  · simp only []
    rw [wp_ret]
    exact strategyFailure F sc root out a b opts s0 s2 h0 B2 _ rfl ans
      (Or.inr (Or.inr ⟨hl, he, rfl⟩))
  · obtain ⟨picked, warns⟩ := pw
    simp only []
    rw [wp_bind, wp_modifyL]
    simp only []
    have B3 : Before F s0 (Run.mk s2.scene s2.trace
        (SkelLocals.mk (s2.loc.warnings ++ warns) s2.loc.jointRecs s2.loc.didRename)) :=
      ⟨⟨trivial, B2.ext.steps⟩, B2.recs, B2.flag⟩
    refine wp_beforeQ (quiet_getDependNode _) (by decide) hF B3 (fun rootObj s4 B4 => ?_)
    have hfp : (fullPathName rootObj : M σ SkelLocals ExportResult String)
        = M.bind (M.call (.fullPathName rootObj)) (fun r => M.pure r.str) := rfl
    rw [hfp, M.bind_assoc]
    refine wp_beforeC hF (ofKinds_of_kind .query rfl (by decide)) B4 (fun s5 B5 e5 => ?_)
    rw [M.pure_bind]
    generalize (F s4.scene (Cmd.fullPathName rootObj)).1.str = rootJoint
    unfold isReferencedNode
    cases rootObj with
    | none =>
      simp only [M.bind_def, M.pure_def, M.pure_bind]
      exact dispatch_spec F hF sc root out a b opts t0 s0 s5 h0 hs0 B5 none rootJoint false
        (Or.inl ⟨rfl, rfl, _, by rw [e5]; exact List.getLast?_concat _⟩)
    | some h =>
      simp only [M.bind_def, M.pure_def]
      rw [M.bind_assoc]
      refine wp_bind_callN hF ?_
      rw [M.pure_bind]
      refine dispatch_spec F hF sc root out a b opts t0 s0
        (Run.mk (F s5.scene (Cmd.isFromReferencedFile (some h))).2
          (s5.trace ++ [(Cmd.isFromReferencedFile (some h),
            (F s5.scene (Cmd.isFromReferencedFile (some h))).1)]) s5.loc)
        h0 hs0 ⟨?_, B5.recs, B5.flag⟩ (some h)
        rootJoint _ (Or.inr ⟨_, rfl, List.getLast?_concat _, rfl⟩)
      exact extends_trans B5.ext (extends_call F _
        (ofKinds_of_kind (c := Cmd.isFromReferencedFile (some h)) .query rfl (by decide)) s5)

/-- The function `exportSkeletonFbx`, from its first request to the result. -/
theorem exportSkeletonFbx_spec (F : Facade σ) (hF : NoFault F) (sc : σ)
    (root out : String) (a b : Int) (opts : FbxExportOptions) :
    wp F (exportSkeletonFbx root out a b opts)
      (fun o s1 => ∃ r, o = .ret r ∧ StrategyClaims F sc root out a b opts
        { result := some r, scene := s1.scene, trace := s1.trace })
      { scene := sc, trace := [], loc := {} } := by
  unfold exportSkeletonFbx
  simp only [M.bind_def, M.pure_def]
  have B0 : Before F (Run.mk sc [] ({} : SkelLocals)) (Run.mk sc [] ({} : SkelLocals)) :=
    ⟨extends_refl F _ _ _, rfl, rfl⟩
  refine wp_beforeQ quiet_now (by decide) hF B0 (fun t0 s1 B1 => ?_)
  refine ensureFbxPlugin_before F hF _ _ _ s1 B1 (fun s2 ans B2 hl hok => ?_)
    (fun s2 B2 => ?_)
  · rw [wp_bind, wp_when]
    simp only [Bool.not_false, if_true]
    rw [wp_ret]
    exact strategyFailure F sc root out a b opts _ s2 rfl B2 _ rfl ans (Or.inl ⟨hl, hok, rfl⟩)
  rw [wp_bind, wp_when]
  simp only [Bool.not_true, Bool.false_eq_true, if_false]
  refine nodeExists_before F hF root _ _ _ s2 B2 (fun s3 ans B3 hl he => ?_)
    (fun s3 B3 => ?_)
  · rw [wp_bind, wp_when]
    simp only [Bool.not_false, if_true]
    rw [wp_ret]
    exact strategyFailure F sc root out a b opts _ s3 rfl B3 _ rfl ans
      (Or.inr (Or.inl ⟨hl, he, rfl⟩))
  rw [wp_bind, wp_when]
  simp only [Bool.not_true, Bool.false_eq_true, if_false]
  rw [wp_tryCatch]
  refine wp_mono (exportSkeletonFbxBody_spec F hF sc root out a b opts t0 _ s3 rfl rfl B3) ?_
  rintro o s4 ⟨r, rfl, h⟩
  exact ⟨r, rfl, h⟩

/-- C11: against a host that throws nothing, every call of `exportSkeletonFbx` chooses its
strategy from the answer on the root and the option `skelAnimationOnly`. It fails before the
choice only when the answer to its last check says so (`loadPlugin` failed, the root does not
exist, or no joint is listed below a root that is no joint). Otherwise the requests split at
the choice: a referenced root without `skelAnimationOnly` is exported in place: `FBXExport`
is sent, and after the choice no request renames, reparents, creates, deletes or constrains a
node; a referenced root with `skelAnimationOnly` is handed to `exportSkeletonFbxViaDuplicate`
at once and the call returns that result; a writable root gets the in-place rename strategy,
where up to the residual-namespace check only queries, records and `rename` commands are sent
(no `FBXExport`): when the joints listed by the check hold no namespace the rest is an export
in place that sends `FBXExport`, and when they still hold one the next requests are the
restore of every recorded name, then queries, then the run of
`exportSkeletonFbxViaDuplicate`, whose result the call returns. -/
theorem strategy_selection (F : Facade σ) (hF : NoFault F) (root out : String) (a b : Int)
    (opts : FbxExportOptions) (sc : σ) :
    StrategyClaims F sc root out a b opts
      (runFn (exportSkeletonFbx root out a b opts) {} F sc) :=
  runFn_of_wp (exportSkeletonFbx_spec F hF sc root out a b opts)

end Dispatch

section Dispatch

theorem lockedRigScene_noFault : NoFault lockedRigScene :=
  statelessHost_noFault _

theorem cleanRigScene_noFault : NoFault cleanRigScene :=
  statelessHost_noFault _

set_option maxRecDepth 1000000 in
/-- The runs of `strategy_selection` on four scenes, with the requests that rename, create or
export, in order. A referenced root without `skelAnimationOnly`: two `FBXExport` requests (the
export in place and its retry), no rename and no duplicate. The same root with
`skelAnimationOnly`: the `duplicate` requests of the duplicate strategy at once. A writable
root whose renames leave the namespaces: the two `rename` commands, the restore of the two
recorded names, and only then the `duplicate`, the rename of the duplicate and `FBXExport`. A
writable root without namespaces: one `FBXExport`, in place. -/
theorem strategy_selection_witness :
    (NoFault referencedRigScene
      ∧ strategySteps (runFn (exportSkeletonFbx "|rig:Root" "out/rig.fbx" 1 10 {}) {}
          referencedRigScene ()).trace
        = [fbxExportCmd "out/rig.fbx", fbxExportCmd "out/rig.fbx"]
      ∧ strategySteps (runFn (exportSkeletonFbx "|rig:Root" "out/rig.fbx" 1 10
            { skelAnimationOnly := true }) {} referencedRigScene ()).trace
        = [.mel "duplicate" ["-rc", "\"|rig:Root\""], .mel "duplicate" ["\"|rig:Root\""]]
      ∧ strategySteps (runFn (exportSkeletonFbx "|ns:Root" "out/rig.fbx" 1 10 {}) {}
          lockedRigScene ()).trace
        = [.mel "rename" ["\"|ns:Root|ns:spine\"", "\":spine\""],
           .mel "rename" ["\"|ns:Root\"", "\":Root\""],
           .setName (some 1) "ns:Root", .setName (some 1) "ns:Root",
           .mel "duplicate" ["-rc", "\"|ns:Root\""],
           .mel "rename" ["\"|Root1\"", "\":Root\""],
           fbxExportCmd "out/rig.fbx"]
      ∧ strategySteps (runFn (exportSkeletonFbx "|Root" "out/rig.fbx" 1 10 {}) {}
          cleanRigScene ()).trace
        = [fbxExportCmd "out/rig.fbx"])
    ∧ StrategyClaims referencedRigScene () "|rig:Root" "out/rig.fbx" 1 10 {}
        (runFn (exportSkeletonFbx "|rig:Root" "out/rig.fbx" 1 10 {}) {} referencedRigScene ())
    ∧ StrategyClaims referencedRigScene () "|rig:Root" "out/rig.fbx" 1 10
        { skelAnimationOnly := true }
        (runFn (exportSkeletonFbx "|rig:Root" "out/rig.fbx" 1 10 { skelAnimationOnly := true })
          {} referencedRigScene ())
    ∧ StrategyClaims lockedRigScene () "|ns:Root" "out/rig.fbx" 1 10 {}
        (runFn (exportSkeletonFbx "|ns:Root" "out/rig.fbx" 1 10 {}) {} lockedRigScene ())
    ∧ StrategyClaims cleanRigScene () "|Root" "out/rig.fbx" 1 10 {}
        (runFn (exportSkeletonFbx "|Root" "out/rig.fbx" 1 10 {}) {} cleanRigScene ()) :=
  ⟨⟨referencedRigScene_noFault, by decide!, by decide!, by decide!, by decide!⟩,
    strategy_selection referencedRigScene referencedRigScene_noFault
      "|rig:Root" "out/rig.fbx" 1 10 {} (),
    strategy_selection referencedRigScene referencedRigScene_noFault
      "|rig:Root" "out/rig.fbx" 1 10 { skelAnimationOnly := true } (),
    strategy_selection lockedRigScene lockedRigScene_noFault
      "|ns:Root" "out/rig.fbx" 1 10 {} (),
    strategy_selection cleanRigScene cleanRigScene_noFault "|Root" "out/rig.fbx" 1 10 {} ()⟩

end Dispatch

/-! ## The names of the nodes (C2) -/

section Names
variable {σ : Type} {F : Facade σ} {name : σ → Nat → String}
  {denote : σ → String → Option Nat}

/-- Requests of an export in place rename nothing and move nothing. -/
theorem names_replay (hN : NamingLaws F name denote) :
    ∀ (t : List (Cmd × Resp)) (sc : σ), (∀ x ∈ t, x.1.kind ∈ inPlaceKinds) →
      name (replay F sc t) = name sc ∧ denote (replay F sc t) = denote sc := by
  intro t
  induction t with
  | nil => intro sc _; exact ⟨rfl, rfl⟩
  | cons x t ih =>
    intro sc h
    have h1 := hN.frame sc x.1 (h x (List.mem_cons_self _ _))
    have h2 := ih (F sc x.1).2 (fun y hy => h y (List.mem_cons_of_mem _ hy))
    exact ⟨h2.1.trans h1.1, h2.2.trans h1.2⟩

theorem names_extends (hN : NamingLaws F name denote) {L : Type} {R : LocRel L}
    {s s1 : Run σ L} (E : Extends F (OfKinds inPlaceKinds) R s s1) :
    name s1.scene = name s.scene ∧ denote s1.scene = denote s.scene := by
  obtain ⟨_, t, _, hk, _, hsc⟩ := E
  rw [hsc]
  exact names_replay hN t s.scene hk

theorem kept_of_names {name0 : Nat → String} {s s1 : Run σ SkelLocals}
    (K : Kept name0 name s) (hn : name s1.scene = name s.scene)
    (hr : s1.loc.jointRecs = s.loc.jointRecs) (hd : s1.loc.didRename = s.loc.didRename) :
    Kept name0 name s1 := by
  refine ⟨?_, ?_, ?_⟩
  · rw [hr]; exact K.recs
  · rw [hr, hn]; exact K.names
  · rw [hd, hn]; exact K.clean

theorem kept_extends (hN : NamingLaws F name denote) {name0 : Nat → String}
    {s s1 : Run σ SkelLocals} (K : Kept name0 name s)
    (E : Extends F (OfKinds inPlaceKinds) keepRecs s s1) : Kept name0 name s1 :=
  kept_of_names K (names_extends hN E).1 E.loc.1 E.loc.2

/-- Quiet code of an export in place inside `try`. -/
theorem wp_keptQ {ρ α β : Type} {ks : List Kind} {m : M σ SkelLocals ρ α}
    {f : α → M σ SkelLocals ρ β} {name0 : Nat → String} {s : Run σ SkelLocals}
    (hq : Quiet (OfKinds ks) keepRecs m) (hk : ∀ k ∈ ks, k ∈ inPlaceKinds)
    (hN : NamingLaws F name denote) (K : Kept name0 name s)
    (h : ∀ a s1, Extends F (OfKinds inPlaceKinds) keepRecs s s1 → Kept name0 name s1 →
      wp F (f a) (restored name0 name) s1) :
    wp F (M.bind m f) (restored name0 name) s := by
  rw [wp_bind]
  unfold wp
  have h1 := extends_mono (ofKinds_mono hk) (hq.ext F s)
  have h2 := hq.noRet F s
  generalize m.run F s = o at h1 h2
  rcases o with ⟨(a | r | _), s1⟩
  · exact h a s1 h1 (kept_extends hN K h1)
  · exact absurd rfl (h2 r)
  · exact kept_extends hN K h1

/-- A request of an export in place inside `try`. -/
theorem wp_keptC {ρ β : Type} {c : Cmd} {f : Resp → M σ SkelLocals ρ β}
    {name0 : Nat → String} {s : Run σ SkelLocals} (hc : c.kind ∈ inPlaceKinds)
    (hN : NamingLaws F name denote) (K : Kept name0 name s)
    (h : Kept name0 name (Run.mk (F s.scene c).2 (s.trace ++ [(c, (F s.scene c).1)]) s.loc) →
      wp F (f (F s.scene c).1) (restored name0 name)
        (Run.mk (F s.scene c).2 (s.trace ++ [(c, (F s.scene c).1)]) s.loc)) :
    wp F (M.bind (M.call c) f) (restored name0 name) s := by
  have K1 : Kept name0 name
      (Run.mk (F s.scene c).2 (s.trace ++ [(c, (F s.scene c).1)]) s.loc) :=
    kept_of_names K (hN.frame s.scene c hc).1 rfl rfl
  rw [wp_bind, wp_call]
  by_cases hf : (F s.scene c).1.fault = true
  · rw [if_pos hf]; exact K1
  · rw [if_neg hf]; exact h K1

/-- A change of the warnings inside `try`. -/
theorem wp_keptW {ρ β : Type} {w : String} {f : Unit → M σ SkelLocals ρ β}
    {name0 : Nat → String} {s : Run σ SkelLocals} (K : Kept name0 name s)
    (h : ∀ s1 : Run σ SkelLocals, s1.scene = s.scene → s1.trace = s.trace →
      s1.loc.jointRecs = s.loc.jointRecs → s1.loc.didRename = s.loc.didRename →
      Kept name0 name s1 → wp F (f ()) (restored name0 name) s1) :
    wp F (M.bind (skelWarn w) f) (restored name0 name) s := by
  unfold skelWarn
  rw [wp_bind, wp_modifyL]
  exact h _ rfl rfl rfl rfl (kept_of_names K rfl rfl rfl)

/-- A `return` inside `try` with the first names in place. -/
theorem wp_keptRet {ρ α : Type} {r : ρ} {name0 : Nat → String} {s : Run σ SkelLocals}
    (h : name s.scene = name0) :
    wp F (M.ret r : M σ SkelLocals ρ α) (restored name0 name) s := by
  rw [wp_ret]
  exact h

theorem quiet_skelWarn_keep {ρ : Type} {C : Cmd → Prop} (w : String) :
    Quiet C keepRecs (skelWarn w : M σ SkelLocals ρ Unit) :=
  quiet_modifyL (fun _ => ⟨rfl, rfl⟩)

end Names

section NameLoops
variable {σ : Type} {F : Facade σ} {name : σ → Nat → String}
  {denote : σ → String → Option Nat}

/-- The restore loop puts the first names in place, whatever the host does on other
requests: after it every node has its first name. -/
theorem restoreNames_names {ρ : Type} (hN : NamingLaws F name denote) {name0 : Nat → String}
    (recs : List JointRec) :
    ∀ (s : Run σ SkelLocals),
      (∀ r ∈ recs, ∀ h, r.obj = some h → r.originalName = name0 h) →
      (∀ h, name s.scene h = name0 h ∨ ∃ r ∈ recs, r.obj = some h) →
      wp F (restoreNames recs : M σ SkelLocals ρ Unit)
        (fun o s1 => o = .val () ∧ name s1.scene = name0 ∧ s1.loc = s.loc) s := by
  induction recs with
  | nil =>
    intro s _ hn
    show wp F (M.pure ()) _ s
    rw [wp_pure]
    refine ⟨rfl, funext fun h => ?_, rfl⟩
    rcases hn h with e | ⟨r, hr, _⟩
    · exact e
    · exact nomatch hr
  | cons r rest ih =>
    intro s hr hn
    show wp F (M.bind (M.bind (M.call (.setName r.obj r.originalName)) fun _ => M.pure ())
      fun _ => restoreNames rest) _ s
    rw [M.bind_assoc, wp_bind, wp_call, if_neg (by rw [(hN.setName _ _ _).1]; exact Bool.noConfusion)]
    simp only []
    rw [M.pure_bind]
    refine wp_mono (ih _ (fun r1 h1 => hr r1 (List.mem_cons_of_mem _ h1)) ?_) ?_
    · intro h
      show name (F s.scene (.setName r.obj r.originalName)).2 h = name0 h ∨ _
      rw [(hN.setName _ _ _).2 h]
      by_cases e : r.obj = some h
      · rw [if_pos e]
        exact Or.inl (hr r (List.mem_cons_self _ _) h e)
      · rw [if_neg e]
        rcases hn h with e1 | ⟨r1, h1, e1⟩
        · exact Or.inl e1
        · rcases List.mem_cons.1 h1 with rfl | h2
          · exact absurd e1 e
          · exact Or.inr ⟨r1, h2, e1⟩
    · rintro o s1 ⟨e1, e2, e3⟩
      exact ⟨e1, e2, e3⟩

/-- The handles that `buildSelection` gathers: the node at every path that denotes one. -/
theorem buildSelection_handles {L ρ : Type} (hN : NamingLaws F name denote)
    (names : List String) :
    ∀ (s : Run σ L),
      wp F (buildSelection names : M σ L ρ (List MObject))
        (fun o _ => ∀ sel, o = .val sel → sel.length ≤ names.length
          ∧ ∀ p ∈ names, ∀ h, denote s.scene p = some h → some h ∈ sel) s := by
  induction names with
  | nil =>
    intro s
    show wp F (M.pure []) _ s
    rw [wp_pure]
    intro sel e
    cases e
    exact ⟨Nat.le_refl _, fun p hp => nomatch hp⟩
  | cons n rest ih =>
    intro s
    show wp F (M.bind (M.call (.selAdd n)) fun r =>
      M.bind (buildSelection rest) fun tail => M.pure (if r.ok then r.obj :: tail else tail)) _ s
    rw [wp_bind, wp_call]
    by_cases hf : (F s.scene (.selAdd n)).1.fault = true
    · rw [if_pos hf]
      intro sel e
      exact nomatch e
    · rw [if_neg hf]
      simp only []
      rw [wp_bind]
      refine wp_mono (ih _) ?_
      intro o s2 h
      have hd : denote (F s.scene (.selAdd n)).2 = denote s.scene :=
        (hN.frame s.scene (.selAdd n) (ofKinds_of_kind .query rfl (by decide))).2
      cases o with
      | val tail =>
        simp only []
        rw [wp_pure]
        intro sel e
        cases e
        obtain ⟨h1, h2⟩ := h tail rfl
        have hsel := hN.selAdd s.scene n
        refine ⟨?_, ?_⟩
        · split
          · simpa using h1
          · exact Nat.le_succ_of_le h1
        · intro p hp h0 hp0
          rcases List.mem_cons.1 hp with rfl | hp1
          · rw [hp0] at hsel
            by_cases hok : (F s.scene (.selAdd p)).1.ok = true
            · rw [if_pos hok] at hsel ⊢
              rw [hsel]
              exact List.mem_cons_self _ _
            · rw [if_neg hok] at hsel
              exact nomatch hsel
          · have := h2 p hp1 h0 (by rw [show (Run.mk (F s.scene (.selAdd n)).2
                (s.trace ++ [(Cmd.selAdd n, (F s.scene (.selAdd n)).1)]) s.loc).scene
                = (F s.scene (.selAdd n)).2 from rfl, hd]; exact hp0)
            split
            · exact List.mem_cons_of_mem _ this
            · exact this
      | ret r => intro sel e; exact nomatch e
      | exc => intro sel e; exact nomatch e

/-- A path below another one is deeper. -/
theorem depth_of_below (p p2 : String) (h : (p ++ "|").data <+: p2.data) :
    p.data.count '|' < p2.data.count '|' := by
  obtain ⟨t, e⟩ := h
  rw [← e, String.data_append, List.count_append, List.count_append]
  have : List.count '|' "|".data = 1 := by decide
  omega

end NameLoops

section NameLoops
variable {σ : Type} {F : Facade σ} {name : σ → Nat → String}
  {denote : σ → String → Option Nat}

/-- The loop that builds the records, run while every node has its first name: every record
holds the first name of its node, and every item gets a record. -/
theorem buildJointRecs_names {ρ : Type} (hN : NamingLaws F name denote) {name0 : Nat → String}
    (root : String) (items : List (MObject × String)) :
    ∀ (rootObj : MObject) (s : Run σ SkelLocals),
      Kept name0 name s → name s.scene = name0 →
      wp F (M.foldM (fun (rootAcc : MObject) (it : MObject × String) =>
          M.bind (M.call (.nodeName it.1)) fun name =>
          M.bind (M.modifyL fun l =>
            { l with jointRecs := l.jointRecs ++ [{ obj := it.1, originalName := name.str }] })
            fun _ => (M.pure (if it.2 = root then it.1 else rootAcc) :
              M σ SkelLocals ρ MObject)) rootObj items)
        (fun o s1 => Kept name0 name s1 ∧ name s1.scene = name0
          ∧ denote s1.scene = denote s.scene ∧ s1.loc.didRename = s.loc.didRename
          ∧ (∀ r ∈ s.loc.jointRecs, r ∈ s1.loc.jointRecs) ∧ (∀ r, o ≠ .ret r)
          ∧ (∀ ro, o = .val ro → ∀ it ∈ items, ∃ r ∈ s1.loc.jointRecs, r.obj = it.1)) s := by
  induction items with
  | nil =>
    intro rootObj s K hc
    show wp F (M.pure rootObj) _ s
    rw [wp_pure]
    exact ⟨K, hc, rfl, rfl, fun r h => h, (fun r e => nomatch e),
      (fun ro _ it hit => nomatch hit)⟩
  | cons it rest ih =>
    intro rootObj s K hc
    show wp F (M.bind (M.bind (M.call (.nodeName it.1)) _) fun b1 => M.foldM _ b1 rest) _ s
    have hfr := hN.frame s.scene (.nodeName it.1) (ofKinds_of_kind .query rfl (by decide))
    rw [M.bind_assoc, wp_bind, wp_call]
    by_cases hf : (F s.scene (.nodeName it.1)).1.fault = true
    · rw [if_pos hf]
      exact ⟨kept_of_names K hfr.1 rfl rfl, hfr.1.trans hc, hfr.2, rfl, fun r h => h,
        (fun r e => nomatch e), (fun ro e => nomatch e)⟩
    · rw [if_neg hf]
      simp only []
      rw [M.bind_assoc, wp_bind, wp_modifyL]
      simp only []
      rw [M.pure_bind]
      have hc1 : name (F s.scene (.nodeName it.1)).2 = name0 := hfr.1.trans hc
      refine wp_mono (ih _ _ ⟨?_, ?_, ?_⟩ hc1) ?_
      · intro r hr h e
        rcases List.mem_append.1 hr with h1 | h1
        · exact K.recs r h1 h e
        · rw [List.mem_singleton.1 h1] at e ⊢
          have e1 : it.1 = some h := e
          show (F s.scene (.nodeName it.1)).1.str = name0 h
          rw [e1, hN.nodeName, hc]
      · intro h
        exact Or.inl (congrFun hc1 h)
      · intro _
        exact hc1
      · rintro o s2 ⟨k1, k2, k3, k4, k5, k6, k7⟩
        refine ⟨k1, k2, k3.trans hfr.2, k4, fun r hr => k5 r (List.mem_append_left _ hr), k6,
          fun ro e x hx => ?_⟩
        rcases List.mem_cons.1 hx with rfl | hx1
        · exact ⟨_, k5 _ (List.mem_append_right _ (List.mem_singleton_self _)), rfl⟩
        · exact k7 ro e x hx1

/-- One `rename` of a recorded node keeps what the restore loop needs. -/
theorem kept_rename (hN : NamingLaws F name denote) {name0 : Nat → String}
    {s : Run σ SkelLocals} (K : Kept name0 name s) (hd : s.loc.didRename = true)
    (p n : String) (t : List (Cmd × Resp))
    (hp : ∀ h, denote s.scene p = some h → ∃ r ∈ s.loc.jointRecs, r.obj = some h) :
    Kept name0 name (Run.mk (F s.scene (.mel "rename" [q p, n])).2 t s.loc) := by
  refine ⟨K.recs, fun h => ?_, fun e => ?_⟩
  · by_cases e : denote s.scene p = some h
    · exact Or.inr (hp h e)
    · show name (F s.scene (.mel "rename" [q p, n])).2 h = name0 h ∨ _
      rw [hN.renameName s.scene p n h e]
      exact K.names h
  · have e1 : s.loc.didRename = false := e
    rw [hd] at e1
    exact nomatch e1

/-- The rename loop on a work list ordered deepest first whose paths denote recorded nodes:
only recorded nodes are renamed, however the loop ends. -/
theorem renameWork_names (hN : NamingLaws F name denote) {name0 : Nat → String} :
    ∀ (work : List WorkItem) (s : Run σ SkelLocals),
      Kept name0 name s → s.loc.didRename = true →
      work.Pairwise (fun a b => a.depth ≥ b.depth) →
      (∀ wi ∈ work, wi.depth = (wi.fullPath.data.count '|' : Nat)) →
      (work.map fun wi => wi.fullPath).Nodup →
      (∀ wi ∈ work, ∃ h, denote s.scene wi.fullPath = some h
        ∧ ∃ r ∈ s.loc.jointRecs, r.obj = some h) →
      wp F (renameWork work : M σ SkelLocals ExportResult Unit)
        (fun o s1 => Kept name0 name s1 ∧ s1.loc = s.loc ∧ ∀ r, o ≠ .ret r) s := by
  intro work
  induction work with
  | nil =>
    intro s K _ _ _ _ _
    show wp F (M.pure ()) _ s
    rw [wp_pure]
    exact ⟨K, rfl, (fun r e => nomatch e)⟩
  | cons wi rest ih =>
    intro s K hd hs hdep hnd hden
    rw [renameWork_cons]
    have hs1 := List.pairwise_cons.1 hs
    have hnd1 := List.nodup_cons.1 hnd
    cases hn : wi.needsRename with
    | false =>
      simp only [M.when, Bool.false_eq_true, if_false]
      rw [M.pure_bind]
      exact ih s K hd hs1.2 (fun x hx => hdep x (List.mem_cons_of_mem _ hx)) hnd1.2
        (fun x hx => hden x (List.mem_cons_of_mem _ hx))
    | true =>
      simp only [M.when, if_true]
      have hq : (melQueryString "rename" [q wi.fullPath, q (":" ++ wi.desiredBare)] :
          M σ SkelLocals ExportResult String)
          = M.bind (M.call (.mel "rename" [q wi.fullPath, q (":" ++ wi.desiredBare)]))
              (fun r => M.pure r.str) := rfl
      rw [hq, M.bind_assoc, M.bind_assoc, wp_bind, wp_call]
      have K1 := kept_rename hN K hd wi.fullPath (q (":" ++ wi.desiredBare))
        (s.trace ++ [(Cmd.mel "rename" [q wi.fullPath, q (":" ++ wi.desiredBare)],
          (F s.scene (.mel "rename" [q wi.fullPath, q (":" ++ wi.desiredBare)])).1)])
        (fun h e => by
          obtain ⟨h1, e1, r⟩ := hden wi (List.mem_cons_self _ _)
          rw [e1] at e
          cases e
          exact r)
      by_cases hf : (F s.scene (.mel "rename"
          [q wi.fullPath, q (":" ++ wi.desiredBare)])).1.fault = true
      · rw [if_pos hf]
        exact ⟨K1, rfl, (fun r e => nomatch e)⟩
      · rw [if_neg hf]
        simp only []
        rw [M.pure_bind, M.pure_bind]
        refine wp_mono (ih _ K1 hd hs1.2 (fun x hx => hdep x (List.mem_cons_of_mem _ hx))
          hnd1.2 (fun x hx => ?_)) ?_
        · obtain ⟨h, e, r⟩ := hden x (List.mem_cons_of_mem _ hx)
          refine ⟨h, hN.renameKeeps s.scene wi.fullPath _ x.fullPath h e ?_ ?_, r⟩
          · intro e1
            have hm := List.mem_map_of_mem (fun wi => wi.fullPath) hx
            simp only [] at hm
            rw [e1] at hm
            exact hnd1.1 hm
          · intro hpre
            have h1 := depth_of_below _ _ hpre
            have h2 := hs1.1 x hx
            rw [hdep wi (List.mem_cons_self _ _), hdep x (List.mem_cons_of_mem _ hx)] at h2
            have h3 : x.fullPath.data.count '|' ≤ wi.fullPath.data.count '|' := by
              exact_mod_cast h2
            omega
        · rintro o s2 ⟨k1, k2, k3⟩
          exact ⟨k1, k2, k3⟩

/-- The work list of the in-place rename, ordered: what the rename loop needs of it. -/
theorem inPlaceWork_ready (paths : List String) (root : String) (hnd : paths.Nodup) :
    (sortDeepestFirst (inPlaceWorkList paths root)).Pairwise (fun a b => a.depth ≥ b.depth)
    ∧ (∀ wi ∈ sortDeepestFirst (inPlaceWorkList paths root),
        wi.depth = (wi.fullPath.data.count '|' : Nat))
    ∧ ((sortDeepestFirst (inPlaceWorkList paths root)).map fun wi => wi.fullPath).Nodup
    ∧ (∀ wi ∈ sortDeepestFirst (inPlaceWorkList paths root), wi.fullPath ∈ paths) := by
  have hmap : (inPlaceWorkList paths root).map (fun wi => wi.fullPath) = paths := by
    unfold inPlaceWorkList
    rw [List.map_map]
    exact List.map_id _
  refine ⟨sortDeepestFirst_sorted _, fun wi h => ?_, ?_, fun wi h => ?_⟩
  · exact (inPlaceWorkList_wf paths root wi ((mem_sortDeepestFirst _ _).1 h)).1
  · have hp : ((sortDeepestFirst (inPlaceWorkList paths root)).map fun wi => wi.fullPath).Perm
        ((inPlaceWorkList paths root).map fun wi => wi.fullPath) :=
      (List.perm_insertionSort _ _).map _
    rw [hp.nodup_iff, hmap]
    exact hnd
  · have := List.mem_map_of_mem (fun wi => wi.fullPath) ((mem_sortDeepestFirst _ _).1 h)
    rw [hmap] at this
    exact this

end NameLoops

section NameSteps
variable {σ : Type} {F : Facade σ} {name : σ → Nat → String}
  {denote : σ → String → Option Nat}

theorem mem_zip_of_length_le {α β : Type} :
    ∀ (xs : List α) (ys : List β), xs.length ≤ ys.length →
      ∀ x ∈ xs, ∃ y, (x, y) ∈ xs.zip ys := by
  intro xs
  induction xs with
  | nil => intro ys _ x hx; exact nomatch hx
  | cons a xs ih =>
    intro ys hl x hx
    cases ys with
    | nil => simp at hl
    | cons b ys =>
      rcases List.mem_cons.1 hx with rfl | h
      · exact ⟨b, List.mem_cons_self _ _⟩
      · obtain ⟨y, hy⟩ := ih ys (Nat.le_of_succ_le_succ hl) x h
        exact ⟨y, List.mem_cons_of_mem _ hy⟩

/-- The selection of the joints inside `try`. -/
theorem wp_keptSel {ρ β : Type} {names : List String}
    {f : List MObject → M σ SkelLocals ρ β} {name0 : Nat → String} {s : Run σ SkelLocals}
    (hN : NamingLaws F name denote) (K : Kept name0 name s)
    (h : ∀ sel s1, Extends F (OfKinds inPlaceKinds) keepRecs s s1 → Kept name0 name s1 →
      sel.length ≤ names.length →
      (∀ p ∈ names, ∀ h, denote s.scene p = some h → some h ∈ sel) →
      wp F (f sel) (restored name0 name) s1) :
    wp F (M.bind (buildSelection names) f) (restored name0 name) s := by
  rw [wp_bind]
  have h0 := buildSelection_handles (ρ := ρ) hN names s
  unfold wp at h0 ⊢
  have h1 : Extends F (OfKinds inPlaceKinds) keepRecs s _ :=
    extends_mono (ofKinds_mono (by decide)) ((quiet_buildSelection (ρ := ρ) names).ext F s)
  have h2 := (quiet_buildSelection (R := keepRecs) (ρ := ρ) names).noRet F s
  generalize (buildSelection names : M σ SkelLocals ρ (List MObject)).run F s = o at h0 h1 h2
  rcases o with ⟨(a | r | _), s1⟩
  · exact h a s1 h1 (kept_extends hN K h1) (h0 a rfl).1 (h0 a rfl).2
  · exact absurd rfl (h2 r)
  · exact kept_extends hN K h1

theorem runFnAfter_scene {L r0 : Type} (m : M σ L r0 Empty) (l0 : L) (sc : σ)
    (pre : List (Cmd × Resp)) :
    (runFnAfter m l0 F sc pre).scene
      = (m.run F { scene := sc, trace := pre, loc := l0 }).2.scene := by
  unfold runFnAfter
  generalize m.run F { scene := sc, trace := pre, loc := l0 } = p
  rcases p with ⟨(a | r | _), s1⟩
  · exact nomatch a
  · rfl
  · rfl

/-- The hand-over to the duplicate strategy with the first names in place. -/
theorem delegate_names (hD : DuplicateKeepsNames F name) {name0 : Nat → String}
    (root out : String) (a b : Int) (opts : FbxExportOptions) (s : Run σ SkelLocals)
    (K : Kept name0 name s) (hc : name s.scene = name0) :
    wp F (delegateToDuplicate root out a b opts) (restored name0 name) s := by
  unfold delegateToDuplicate
  simp only [M.bind_def, M.pure_def]
  rw [wp_bind]
  unfold wp
  rw [M.run_callFn]
  have h := hD root out a b opts s.scene s.trace
  rw [runFnAfter_scene] at h
  generalize (exportSkeletonFbxViaDuplicate root out a b opts).run F
    { scene := s.scene, trace := s.trace, loc := {} } = p at h
  rcases p with ⟨(x | r | _), s1⟩
  · exact nomatch x
  · simp only []
    rw [M.run_bind, M.run_getL]
    simp only []
    rw [M.run_ret]
    exact h.trans hc
  · exact kept_of_names K h rfl rfl

/-- The residual-namespace fallback: restore, refresh the root path, hand over. -/
theorem fallback_names (hN : NamingLaws F name denote) (hD : DuplicateKeepsNames F name)
    {name0 : Nat → String} (rootObj : MObject) (rootJoint out : String) (a b : Int)
    (opts : FbxExportOptions) (s : Run σ SkelLocals) (K : Kept name0 name s) :
    wp F (M.bind M.getL fun l =>
        M.bind (M.when l.didRename (M.bind (restoreNames l.jointRecs) fun _ =>
          M.modifyL fun l =>
            { warnings := l.warnings, jointRecs := l.jointRecs, didRename := false }))
        fun _ =>
          M.bind (if rootObj.isSome = true then fullPathName rootObj else M.pure rootJoint)
            fun root => delegateToDuplicate root out a b opts)
      (restored name0 name) s := by
  rw [wp_bind, wp_getL]
  simp only []
  have key : ∀ s1 : Run σ SkelLocals, Kept name0 name s1 → name s1.scene = name0 →
      wp F (M.bind (if rootObj.isSome = true then fullPathName rootObj else M.pure rootJoint)
        fun root => delegateToDuplicate root out a b opts) (restored name0 name) s1 := by
    intro s1 K1 hc1
    refine wp_keptQ (quiet_ite (quiet_fullPathName _) (quiet_pure _)) (by decide) hN K1
      (fun root s2 E2 K2 => ?_)
    exact delegate_names hD root out a b opts s2 K2 ((names_extends hN E2).1.trans hc1)
  rw [wp_bind, wp_when]
  cases hd : s.loc.didRename with
  | false =>
    simp only [Bool.false_eq_true, if_false]
    exact key s K (K.clean hd)
  | true =>
    simp only [if_true]
    rw [wp_bind]
    refine wp_mono (restoreNames_names hN s.loc.jointRecs s K.recs K.names) ?_
    rintro o s1 ⟨rfl, hc1, hl1⟩
    simp only []
    rw [wp_modifyL]
    simp only []
    refine key _ ⟨?_, fun h => Or.inl (congrFun hc1 h), fun _ => hc1⟩ hc1
    show ∀ r ∈ s1.loc.jointRecs, _
    rw [hl1]
    exact K.recs

end NameSteps

section NameSteps
variable {σ : Type} {F : Facade σ} {name : σ → Nat → String}
  {denote : σ → String → Option Nat}

/-- Quiet code of an export in place inside `try`, with the kinds fixed. -/
theorem wp_keptI {ρ α β : Type} {m : M σ SkelLocals ρ α}
    {f : α → M σ SkelLocals ρ β} {name0 : Nat → String} {s : Run σ SkelLocals}
    (hq : Quiet (OfKinds inPlaceKinds) keepRecs m)
    (hN : NamingLaws F name denote) (K : Kept name0 name s)
    (h : ∀ a s1, Extends F (OfKinds inPlaceKinds) keepRecs s s1 → Kept name0 name s1 →
      wp F (f a) (restored name0 name) s1) :
    wp F (M.bind m f) (restored name0 name) s :=
  wp_keptQ hq (fun _ h => h) hN K h

/-- The statement `if (didRename) { restore loop }` inside `try`: after it every node has its
first name. -/
theorem wp_keptRestore {ρ β : Type} {f : Unit → M σ SkelLocals ρ β} {name0 : Nat → String}
    {s : Run σ SkelLocals} (hN : NamingLaws F name denote) (K : Kept name0 name s)
    (h : ∀ s1, Kept name0 name s1 → name s1.scene = name0 →
      wp F (f ()) (restored name0 name) s1) :
    wp F (M.bind restoreIfRenamed f) (restored name0 name) s := by
  unfold restoreIfRenamed
  simp only [M.bind_def]
  rw [M.bind_assoc, wp_bind, wp_getL]
  simp only []
  rw [wp_bind, wp_when]
  cases hd : s.loc.didRename with
  | false =>
    simp only [Bool.false_eq_true, if_false]
    exact h s K (K.clean hd)
  | true =>
    simp only [if_true]
    refine wp_mono (restoreNames_names hN s.loc.jointRecs s K.recs K.names) ?_
    rintro o s1 ⟨rfl, hc1, hl1⟩
    simp only []
    refine h s1 ⟨?_, fun x => Or.inl (congrFun hc1 x), fun _ => hc1⟩ hc1
    rw [hl1]
    exact K.recs

/-- The residual-namespace check and what follows it. -/
theorem residual_names (hN : NamingLaws F name denote) (hD : DuplicateKeepsNames F name)
    {name0 : Nat → String} (out : String) (a b : Int) (opts : FbxExportOptions)
    (rootObj : MObject) (rootJoint : String)
    (elseB : List String → M σ SkelLocals ExportResult Empty)
    (helse : ∀ allDesc s1, Kept name0 name s1 →
      wp F (elseB allDesc) (restored name0 name) s1)
    (s : Run σ SkelLocals) (K : Kept name0 name s) :
    wp F (M.bind (melQueryStringArray "listRelatives"
        ["-allDescendents", "-type", "\"joint\"", "-fullPath", q rootJoint]) fun allDesc =>
        if namespacedCount (allDesc ++ [rootJoint]) > 0 then
          M.bind M.getL fun l =>
            M.bind (M.when l.didRename (M.bind (restoreNames l.jointRecs) fun _ =>
              M.modifyL fun l =>
                { warnings := l.warnings, jointRecs := l.jointRecs, didRename := false }))
            fun _ =>
              M.bind (if rootObj.isSome = true then fullPathName rootObj else M.pure rootJoint)
                fun root => delegateToDuplicate root out a b opts
        else elseB allDesc)
      (restored name0 name) s := by
  refine wp_keptQ (quiet_melQueryStringArray .query _ _ rfl) (by decide) hN K
    (fun allDesc s1 E1 K1 => ?_)
  split
  · exact fallback_names hN hD rootObj rootJoint out a b opts s1 K1
  · exact helse allDesc s1 K1

/-- The rename phase: the flag, the renames, the new path of the root. -/
theorem renamePhase_names (hN : NamingLaws F name denote) {name0 : Nat → String}
    (dr : Bool) (work : List WorkItem) (rootObj : MObject) (rootJoint0 : String)
    (tail : String → M σ SkelLocals ExportResult Empty) (s : Run σ SkelLocals)
    (K : Kept name0 name s) (hc : name s.scene = name0)
    (hs : work.Pairwise (fun a b => a.depth ≥ b.depth))
    (hdep : ∀ wi ∈ work, wi.depth = (wi.fullPath.data.count '|' : Nat))
    (hnd : (work.map fun wi => wi.fullPath).Nodup)
    (hden : ∀ wi ∈ work, ∃ h, denote s.scene wi.fullPath = some h
      ∧ ∃ r ∈ s.loc.jointRecs, r.obj = some h)
    (htail : ∀ rootJoint s1, Kept name0 name s1 →
      wp F (tail rootJoint) (restored name0 name) s1) :
    wp F (M.bind (M.when dr (M.modifyL fun l =>
        { warnings := l.warnings, jointRecs := l.jointRecs, didRename := true })) fun _ =>
      M.bind (if dr = true then
          M.bind (renameWork work) fun _ =>
            if rootObj.isSome = true then fullPathName rootObj else M.pure rootJoint0
        else M.pure rootJoint0) tail) (restored name0 name) s := by
  cases dr
  · rw [wp_bind, wp_when]
    simp only [Bool.false_eq_true, if_false]
    rw [M.pure_bind]
    exact htail rootJoint0 s K
  · rw [wp_bind, wp_when]
    simp only [if_true]
    rw [wp_modifyL]
    simp only []
    rw [M.bind_assoc, wp_bind]
    have K1 : Kept name0 name (Run.mk s.scene s.trace
        (SkelLocals.mk s.loc.warnings s.loc.jointRecs true)) :=
      ⟨K.recs, fun h => Or.inl (congrFun hc h), fun e => nomatch e⟩
    refine wp_mono (renameWork_names hN work _ K1 rfl hs hdep hnd hden) ?_
    rintro o s2 ⟨K2, _, hnr⟩
    cases o with
    | val x =>
      simp only []
      exact wp_keptQ (quiet_ite (quiet_fullPathName _) (quiet_pure _)) (by decide) hN K2
        (fun rootJoint s3 _ K3 => htail rootJoint s3 K3)
    | ret r => exact absurd rfl (hnr r)
    | exc => exact K2

end NameSteps

section NameSteps
variable {σ : Type} {F : Facade σ} {name : σ → Nat → String}
  {denote : σ → String → Option Nat}

/-- A failure check inside `try`: `if (c) return failure`. -/
theorem wp_keptWhenRet {ρ β : Type} {c : Bool} {g : SkelLocals → ρ}
    {f : Unit → M σ SkelLocals ρ β} {name0 : Nat → String} {s : Run σ SkelLocals}
    (hc : c = true → name s.scene = name0)
    (h : c = false → wp F (f ()) (restored name0 name) s) :
    wp F (M.bind (M.when c (M.bind M.getL fun l => M.ret (g l))) f)
      (restored name0 name) s := by
  rw [wp_bind, wp_when]
  cases c with
  | false =>
    simp only [Bool.false_eq_true, if_false]
    exact h rfl
  | true =>
    simp only [if_true]
    rw [wp_bind, wp_getL]
    simp only []
    rw [wp_ret]
    exact hc rfl

set_option maxHeartbeats 2000000 in
/-- The in-place rename strategy on a writable root: a `return` is reached with the first
names in place, and an exception in a state from which the restore loop puts them in place. -/
theorem exportWritableBranch_names (hN : NamingLaws F name denote)
    (hD : DuplicateKeepsNames F name) {name0 : Nat → String}
    (rootObj0 : MObject) (rootJoint0 out : String) (a b : Int) (opts : FbxExportOptions)
    (t0 : Int) (s : Run σ SkelLocals) (K : Kept name0 name s)
    (hd : s.loc.didRename = false) :
    wp F (exportWritableBranch rootObj0 rootJoint0 out a b opts t0)
      (restored name0 name) s := by
  unfold exportWritableBranch buildJointRecs fallbackToDuplicate
  simp only [M.bind_def, M.pure_def]
  refine wp_keptQ (quiet_melQueryStringArray .query _ _ rfl) (by decide) hN K
    (fun parents s1 E1 K1 => ?_)
  have hd1 : s1.loc.didRename = false := E1.loc.2.trans hd
  -- the type of the root
  have hq : (melQueryString "nodeType" [q rootJoint0] : M σ SkelLocals ExportResult String)
      = M.bind (M.call (.mel "nodeType" [q rootJoint0])) (fun r => M.pure r.str) := rfl
  rw [hq, M.bind_assoc]
  refine wp_keptC (ofKinds_of_kind .query rfl (by decide)) hN K1 (fun K2 => ?_)
  rw [M.pure_bind]
  have hty := hN.typed s1.scene rootJoint0
  have hfr2 := (hN.frame s1.scene (.mel "nodeType" [q rootJoint0])
    (ofKinds_of_kind .query rfl (by decide))).2
  generalize (F s1.scene (.mel "nodeType" [q rootJoint0])).1 = ans at hty K2 ⊢
  generalize hsc2 : (F s1.scene (.mel "nodeType" [q rootJoint0])).2 = sc2 at hfr2 K2 ⊢
  generalize s1.trace ++ [(Cmd.mel "nodeType" [q rootJoint0], ans)] = tr2 at K2 ⊢
  refine wp_keptWhenRet (fun _ => K2.clean hd1) (fun hj => ?_)
  have hroot : (denote sc2 rootJoint0).isSome = true := by
    rw [hfr2]
    exact hty (by simpa using hj)
  -- the joints below the root
  have hq2 : (melQueryStringArray "listRelatives"
      ["-allDescendents", "-type", "\"joint\"", "-fullPath", q rootJoint0] :
        M σ SkelLocals ExportResult (List String))
      = M.bind (M.call (.mel "listRelatives"
          ["-allDescendents", "-type", "\"joint\"", "-fullPath", q rootJoint0]))
          (fun r => M.pure r.arr) := rfl
  rw [hq2, M.bind_assoc]
  refine wp_keptC (ofKinds_of_kind .query rfl (by decide)) hN K2 (fun K3 => ?_)
  rw [M.pure_bind]
  have hli := hN.listed sc2 rootJoint0
  have hfr3 := (hN.frame sc2 (.mel "listRelatives"
    ["-allDescendents", "-type", "\"joint\"", "-fullPath", q rootJoint0])
    (ofKinds_of_kind .query rfl (by decide))).2
  simp only [] at K3 hli hfr3 ⊢
  generalize (F sc2 (.mel "listRelatives"
    ["-allDescendents", "-type", "\"joint\"", "-fullPath", q rootJoint0])).1 = ans3
    at hli K3 ⊢
  generalize (F sc2 (.mel "listRelatives"
    ["-allDescendents", "-type", "\"joint\"", "-fullPath", q rootJoint0])).2 = sc3
    at hfr3 K3 ⊢
  generalize tr2 ++ [(Cmd.mel "listRelatives"
    ["-allDescendents", "-type", "\"joint\"", "-fullPath", q rootJoint0], ans3)] = tr3
    at K3 ⊢
  have hnd : (ans3.arr ++ [rootJoint0]).Nodup := by
    rw [List.nodup_append]
    refine ⟨hli.1, List.nodup_singleton _, ?_⟩
    intro x hx hx1
    exact (hli.2 x hx).1 (List.mem_singleton.1 hx1)
  have hall : ∀ p ∈ ans3.arr ++ [rootJoint0], (denote sc3 p).isSome = true := by
    intro p hp
    rw [hfr3]
    rcases List.mem_append.1 hp with h1 | h1
    · exact (hli.2 p h1).2
    · rw [List.mem_singleton.1 h1]; exact hroot
  refine wp_keptWhenRet (fun _ => K3.clean hd1) (fun _ => ?_)
  refine wp_keptQ (quiet_debugJointMotionSample _ _ _) (by decide) hN K3
    (fun _ s4 E4 K4 => ?_)
  refine wp_keptSel hN K4 (fun sel s5 E5 K5 hlen hsel => ?_)
  have hd5 : s5.loc.didRename = false := E5.loc.2.trans (E4.loc.2.trans hd1)
  have hden4 : denote s4.scene = denote sc3 := (names_extends hN E4).2
  have hden5 : denote s5.scene = denote s4.scene := (names_extends hN E5).2
  rw [wp_bind]
  refine wp_mono (buildJointRecs_names hN rootJoint0 _ rootObj0 s5 K5 (K5.clean hd5)) ?_
  rintro o s6 ⟨K6, hc6, hden6, hd6, _, hnr, hcov⟩
  cases o with
  | ret r => exact absurd rfl (hnr r)
  | exc => exact K6
  | val rootObj =>
    simp only []
    obtain ⟨w1, w2, w3, w4⟩ := inPlaceWork_ready (ans3.arr ++ [rootJoint0]) rootJoint0 hnd
    refine renamePhase_names hN _ _ rootObj rootJoint0 _ s6 K6 hc6 w1 w2 w3 ?_
      (fun rootJoint s7 K7 => ?_)
    · intro wi hwi
      have hp := w4 wi hwi
      have h1 := hall _ hp
      obtain ⟨h, e⟩ := Option.isSome_iff_exists.1 h1
      refine ⟨h, by rw [hden6, hden5, hden4]; exact e, ?_⟩
      obtain ⟨y, hy⟩ := mem_zip_of_length_le sel _ hlen (some h)
        (hsel _ hp h (by rw [hden4]; exact e))
      obtain ⟨r, hr, er⟩ := hcov rootObj rfl _ hy
      exact ⟨r, hr, er⟩
    · refine residual_names hN hD out a b opts rootObj rootJoint _ ?_ s7 K7
      intro allDesc s8 K8
      repeat
        refine wp_keptI ?_ hN (by assumption) (fun _ _ _ _ => ?_)
        · first
          | exact quiet_mono (ofKinds_mono (by decide)) (quiet_buildSelection _)
          | exact quiet_mono (ofKinds_mono (by decide)) (quiet_debugWorldSpacePosition _ _)
          | (try simp only [melExec, melQueryStringArray, melQueryString, skelWarn,
              debugSelectionSnapshot, setFbxExportDefaults, setFbxBakeRange, fbxExport,
              scanFbxContent, collectSkinnedMeshTransformsForJoints, skinClustersOfJoints,
              meshTransformsOfSkin, parentsOfShapes, collectMeshTransformsUnderNode,
              debugJointMotionSample, queryAttrAtTime, M.bind_def, M.pure_def]
             repeat' first
              | apply quiet_bind | apply quiet_pure | apply quiet_when
              | apply quiet_ite | apply quiet_forEach | apply quiet_foldM
              | intro _
              | (apply quiet_callK; rfl)
              | (apply quiet_modifyL; intro _; exact ⟨rfl, rfl⟩)
              | split)
      refine wp_keptRestore hN (by assumption) (fun s9 K9 hc9 => ?_)
      refine wp_keptQ quiet_now (by decide) hN K9 (fun now1 s10 E10 K10 => ?_)
      refine wp_keptQ (quiet_fileSizeOrZero _) (by decide) hN K10 (fun fs s11 E11 K11 => ?_)
      have hc11 : name s11.scene = name0 :=
        (names_extends hN E11).1.trans ((names_extends hN E10).1.trans hc9)
      rw [wp_bind, wp_getL]
      simp only []
      repeat' first
        | exact wp_keptRet hc11
        | split

end NameSteps

section NameSteps
variable {σ : Type} {F : Facade σ} {name : σ → Nat → String}
  {denote : σ → String → Option Nat}

/-- Calm code of an export in place as the last statement inside `try`. -/
theorem wp_keptCalm {ρ : Type} {m : M σ SkelLocals ρ Empty} {name0 : Nat → String}
    {s : Run σ SkelLocals} (hc : Calm (OfKinds inPlaceKinds) keepRecs m)
    (hN : NamingLaws F name denote) (K : Kept name0 name s) (hcl : name s.scene = name0) :
    wp F m (restored name0 name) s := by
  unfold wp
  have h1 := hc.ext F s
  generalize m.run F s = o at h1
  rcases o with ⟨(a | r | _), s1⟩
  · exact nomatch a
  · exact (names_extends hN h1).1.trans hcl
  · exact kept_extends hN K h1

theorem quiet_isReferencedNode {L ρ : Type} {R : LocRel L} (obj : MObject) :
    Quiet (OfKinds [.query]) R (isReferencedNode obj : M σ L ρ Bool) := by
  unfold isReferencedNode
  cases obj with
  | none => exact quiet_pure _
  | some h =>
    simp only [M.bind_def, M.pure_def]
    exact quiet_bind (quiet_callK rfl) (fun _ => quiet_pure _)

/-- The body of `exportSkeletonFbx` inside `try`. -/
theorem exportSkeletonFbxBody_names (hN : NamingLaws F name denote)
    (hD : DuplicateKeepsNames F name) {name0 : Nat → String}
    (root out : String) (a b : Int) (opts : FbxExportOptions) (t0 : Int)
    (s : Run σ SkelLocals) (K : Kept name0 name s) (hd : s.loc.didRename = false) :
    wp F (exportSkeletonFbxBody root out a b opts t0) (restored name0 name) s := by
  unfold exportSkeletonFbxBody
  simp only [M.bind_def, M.pure_def]
  refine wp_keptQ (quiet_ensureOutDir _) (by decide) hN K (fun _ s1 E1 K1 => ?_)
  refine wp_keptQ (quiet_findRootJoint _) (by decide) hN K1 (fun found s2 E2 K2 => ?_)
  have hd2 : s2.loc.didRename = false := E2.loc.2.trans (E1.loc.2.trans hd)
  cases found with
  | none =>
    simp only []
    exact wp_keptRet (K2.clean hd2)
  | some pw =>
    obtain ⟨picked, warns⟩ := pw
    simp only []
    rw [wp_bind, wp_modifyL]
    simp only []
    have K3 : Kept name0 name (Run.mk s2.scene s2.trace
        (SkelLocals.mk (s2.loc.warnings ++ warns) s2.loc.jointRecs s2.loc.didRename)) :=
      kept_of_names K2 rfl rfl rfl
    refine wp_keptQ (quiet_getDependNode _) (by decide) hN K3 (fun rootObj s4 E4 K4 => ?_)
    refine wp_keptQ (quiet_fullPathName _) (by decide) hN K4 (fun rootJoint s5 E5 K5 => ?_)
    refine wp_keptQ (quiet_isReferencedNode _) (by decide) hN K5 (fun refd s6 E6 K6 => ?_)
    have hd6 : s6.loc.didRename = false :=
      E6.loc.2.trans (E5.loc.2.trans (E4.loc.2.trans hd2))
    split
    · exact wp_keptCalm (calm_exportReferencedBranch_keep _ _ _ _ _ _) hN K6 (K6.clean hd6)
    · split
      · refine wp_keptW K6 (fun s7 e1 _ _ e4 K7 => ?_)
        exact delegate_names hD _ _ _ _ _ s7 K7 (by rw [e1]; exact K6.clean hd6)
      · exact exportWritableBranch_names hN hD _ _ _ _ _ _ _ s6 K6 hd6

/-- The `catch` block of `exportSkeletonFbx`: however it ends, every node has its first
name. -/
theorem catchBlock_names (hN : NamingLaws F name denote) {name0 : Nat → String}
    (out : String) (t0 : Int) (s : Run σ SkelLocals) (K : Kept name0 name s) :
    wp F (M.bind (M.tryCatch restoreIfRenamed (M.pure ())) fun _ =>
        M.bind now fun t => M.bind M.getL fun l =>
          (M.ret (makeResult false out 0 (t - t0) l.warnings
            ["Skeleton export failed: unknown exception"]) :
              M σ SkelLocals ExportResult Empty))
      (fun _ s1 => name s1.scene = name0) s := by
  have hclean : wp F (restoreIfRenamed : M σ SkelLocals ExportResult Unit)
      (fun o s1 => o = .val () ∧ name s1.scene = name0) s := by
    unfold restoreIfRenamed
    simp only [M.bind_def]
    rw [wp_bind, wp_getL]
    simp only []
    rw [wp_when]
    cases hd : s.loc.didRename with
    | false =>
      rw [if_neg Bool.false_ne_true]
      exact ⟨rfl, K.clean hd⟩
    | true =>
      simp only [if_true]
      refine wp_mono (restoreNames_names hN s.loc.jointRecs s K.recs K.names) ?_
      rintro o s1 ⟨e, hc1, _⟩
      exact ⟨e, hc1⟩
  rw [wp_bind, wp_tryCatch]
  refine wp_mono hclean ?_
  rintro o s1 ⟨rfl, hc1⟩
  simp only []
  unfold now
  simp only [M.bind_def, M.pure_def]
  rw [M.bind_assoc, wp_bind, wp_call]
  have hfr := (hN.frame s1.scene .time (by decide)).1
  by_cases hf : (F s1.scene .time).1.fault = true
  · rw [if_pos hf]
    exact hfr.trans hc1
  · rw [if_neg hf]
    simp only []
    rw [M.pure_bind, wp_bind, wp_getL]
    simp only []
    rw [wp_ret]
    exact hfr.trans hc1

/-- Quiet code of an export in place before `try`. -/
theorem wp_cleanQ {ρ α β : Type} {ks : List Kind} {m : M σ SkelLocals ρ α}
    {f : α → M σ SkelLocals ρ β} {name0 : Nat → String} {s : Run σ SkelLocals}
    (hq : Quiet (OfKinds ks) keepRecs m) (hk : ∀ k ∈ ks, k ∈ inPlaceKinds)
    (hN : NamingLaws F name denote) (K : Kept name0 name s) (hd : s.loc.didRename = false)
    (h : ∀ a s1, Kept name0 name s1 → s1.loc.didRename = false →
      wp F (f a) (fun _ s2 => name s2.scene = name0) s1) :
    wp F (M.bind m f) (fun _ s2 => name s2.scene = name0) s := by
  rw [wp_bind]
  unfold wp
  have h1 := extends_mono (ofKinds_mono hk) (hq.ext F s)
  have h2 := hq.noRet F s
  generalize m.run F s = o at h1 h2
  have K1 := kept_extends hN K h1
  have hd1 := h1.loc.2.trans hd
  rcases o with ⟨(a | r | _), s1⟩
  · exact h a s1 K1 hd1
  · exact absurd rfl (h2 r)
  · exact K1.clean hd1

/-- The function `exportSkeletonFbx`: however the call ends, every node has its first name. -/
theorem exportSkeletonFbx_names (hN : NamingLaws F name denote)
    (hD : DuplicateKeepsNames F name) (root out : String) (a b : Int)
    (opts : FbxExportOptions) (sc : σ) :
    wp F (exportSkeletonFbx root out a b opts) (fun _ s1 => name s1.scene = name sc)
      { scene := sc, trace := [], loc := {} } := by
  unfold exportSkeletonFbx
  simp only [M.bind_def, M.pure_def]
  have K0 : Kept (name sc) name (Run.mk sc [] ({} : SkelLocals)) :=
    ⟨(fun r hr => nomatch hr), fun h => Or.inl rfl, fun _ => rfl⟩
  refine wp_cleanQ quiet_now (by decide) hN K0 rfl (fun t0 s1 K1 hd1 => ?_)
  refine wp_cleanQ quiet_ensureFbxPlugin (by decide) hN K1 hd1 (fun plugin s2 K2 hd2 => ?_)
  rw [wp_bind, wp_when]
  split
  · rw [wp_ret]
    exact K2.clean hd2
  refine wp_cleanQ (quiet_nodeExists _) (by decide) hN K2 hd2 (fun e s3 K3 hd3 => ?_)
  rw [wp_bind, wp_when]
  split
  · rw [wp_ret]
    exact K3.clean hd3
  rw [wp_tryCatch]
  refine wp_mono (exportSkeletonFbxBody_names hN hD root out a b opts t0 s3 K3 hd3) ?_
  intro o s4 h
  cases o with
  | val x => exact nomatch x
  | ret r => exact h
  | exc => exact catchBlock_names hN out t0 s4 h

theorem runFn_scene {L r0 : Type} (m : M σ L r0 Empty) (l0 : L) (sc : σ) :
    (runFn m l0 F sc).scene = (m.run F { scene := sc, trace := [], loc := l0 }).2.scene := by
  unfold runFn
  generalize m.run F { scene := sc, trace := [], loc := l0 } = p
  rcases p with ⟨(a | r | _), s1⟩
  · exact nomatch a
  · rfl
  · rfl

end NameSteps

section NamedRig

theorem q_injective {x y : String} (h : q x = q y) : x = y := by
  have h1 := congrArg String.data h
  unfold q at h1
  simp only [String.data_append] at h1
  have h2 := List.append_cancel_left (List.append_cancel_right h1)
  exact String.ext h2

theorem namedRigScene_noFault : NoFault namedRigScene := by
  intro sc c
  unfold namedRigScene
  split <;> first | rfl | (split <;> rfl)

theorem namedRigScene_frame (sc : Nat → String) (c : Cmd) (hc : c.kind ∈ inPlaceKinds) :
    (namedRigScene sc c).2 = sc := by
  unfold namedRigScene
  split
  · rfl
  · rename_i h n
    have hk : (Cmd.setName (some h) n).kind = Kind.rename := rfl
    rw [hk] at hc
    exact absurd hc (by decide)
  · rfl
  · rfl
  · rfl
  · rfl
  · rename_i x y
    have hk : (Cmd.mel "rename" [x, y]).kind = Kind.rename := rfl
    rw [hk] at hc
    exact absurd hc (by decide)
  · rfl

theorem namedRigScene_rename (sc : Nat → String) (p n : String) :
    namedRigScene sc (.mel "rename" [q p, n])
      = if q p = q ("|" ++ sc 0) then
          ({ str := renamedTo n }, fun k => if k = 0 then renamedTo n else sc k)
        else ({ ok := false }, sc) := rfl

theorem namedRigScene_laws : NamingLaws namedRigScene (fun sc h => sc h) rigDenote := by
  refine ⟨?_, ?_, ?_, ?_, ?_, ?_, ?_, ?_⟩
  · intro sc c hc
    rw [namedRigScene_frame sc c hc]
    exact ⟨rfl, rfl⟩
  · intro sc p
    show (if (if p = "|" ++ sc 0 then ({ obj := some 0 } : Resp) else { ok := false }).ok
      then (if p = "|" ++ sc 0 then ({ obj := some 0 } : Resp) else { ok := false }).obj
      else none) = rigDenote sc p
    unfold rigDenote
    by_cases e : p = "|" ++ sc 0
    · rw [if_pos e, if_pos e]; rfl
    · rw [if_neg e, if_neg e]; rfl
  · intro sc h
    rfl
  · intro sc o n
    cases o with
    | none => exact ⟨rfl, fun h => by simp [namedRigScene]⟩
    | some k =>
      refine ⟨rfl, fun h => ?_⟩
      show (if h = k then n else sc h) = _
      by_cases e : h = k
      · rw [if_pos e, if_pos (by rw [e])]
      · rw [if_neg e, if_neg (fun e1 => e (Option.some.inj e1).symm)]
  · intro sc p n h hd
    rw [namedRigScene_rename]
    by_cases e : q p = q ("|" ++ sc 0)
    · rw [if_pos e]
      have hp : p = "|" ++ sc 0 := q_injective e
      have h0 : h ≠ 0 := by
        intro e0
        apply hd
        unfold rigDenote
        rw [if_pos hp, e0]
      show (if h = 0 then renamedTo n else sc h) = sc h
      rw [if_neg h0]
    · rw [if_neg e]
  · intro sc p n p2 h hd hne _
    rw [namedRigScene_rename]
    have hp2 : p2 = "|" ++ sc 0 := by
      unfold rigDenote at hd
      by_cases e : p2 = "|" ++ sc 0
      · exact e
      · rw [if_neg e] at hd; exact nomatch hd
    have e : ¬ q p = q ("|" ++ sc 0) := fun e => hne (hp2.trans (q_injective e).symm)
    rw [if_neg e]
    exact hd
  · intro sc p
    exact ⟨List.nodup_nil, fun x hx => nomatch hx⟩
  · intro sc p h
    have e : (namedRigScene sc (.mel "nodeType" [q p])).1
        = if q p = q ("|" ++ sc 0) then ({ str := "joint" } : Resp) else {} := rfl
    rw [e] at h
    by_cases e1 : q p = q ("|" ++ sc 0)
    · unfold rigDenote
      rw [if_pos (q_injective e1)]
      rfl
    · rw [if_neg e1] at h
      exact absurd h (by decide)

end NamedRig

section NamedRig

/-- On `namedRigScene` a run of the duplicate strategy ends at the failed `duplicate` and
changes no name. -/
theorem namedRigScene_dup : DuplicateKeepsNames namedRigScene (fun sc h => sc h) := by
  intro root out a b opts sc pre
  rw [runFnAfter_scene]
  have hF := namedRigScene_noFault
  have hN := namedRigScene_laws
  have key : wp namedRigScene (exportSkeletonFbxViaDuplicate root out a b opts)
      (fun _ s1 => s1.scene = sc) (Run.mk sc pre ({} : DupLocals)) := by
    unfold exportSkeletonFbxViaDuplicate exportSkeletonFbxViaDuplicateBody
    simp only [M.bind_def, M.pure_def, melQueryStringArrayChecked]
    refine wp_bind_quietN (quiet_now : Quiet _ (LocRel.any DupLocals) _) hF
      (fun t0 s1 E1 => ?_)
    have h1 : s1.scene = sc :=
      (names_extends hN (extends_mono (ofKinds_mono (by decide)) E1)).1
    rw [wp_tryCatch]
    refine wp_bind_quietN (quiet_ensureOutDir out : Quiet _ (LocRel.any DupLocals) _) hF
      (fun _ s2 E2 => ?_)
    have h2 : s2.scene = sc :=
      ((names_extends hN (extends_mono (ofKinds_mono (by decide)) E2)).1).trans h1
    rw [M.bind_assoc]
    refine wp_bind_callN hF ?_
    rw [M.pure_bind]
    have hdup : ∀ (s : Nat → String) (args : List String),
        namedRigScene s (.mel "duplicate" args) = ({}, s) := fun _ _ => rfl
    simp only [hdup, Bool.not_true, Bool.false_or, List.isEmpty_nil, if_true]
    rw [M.bind_assoc, M.bind_assoc]
    refine wp_bind_callN hF ?_
    simp only [hdup]
    rw [M.pure_bind, M.pure_bind]
    simp only []
    rw [wp_bind, wp_getL]
    simp only []
    rw [wp_ret]
    exact h2
  exact congrArg (fun (s : Nat → String) (h : Nat) => s h) key

set_option maxRecDepth 1000000 in
/-- On `namedRigScene` the call renames the joint and restores its name through the handle. -/
theorem namedRigScene_run :
    Cmd.mel "rename" ["\"|rig:Root\"", "\":Root\""]
        ∈ requests (runFn (exportSkeletonFbx "|rig:Root" "out/rig.fbx" 1 10 {}) {}
            namedRigScene rigNames).trace
    ∧ Cmd.setName (some 0) "rig:Root"
        ∈ requests (runFn (exportSkeletonFbx "|rig:Root" "out/rig.fbx" 1 10 {}) {}
            namedRigScene rigNames).trace := by
  decide!

end NamedRig

section NamesRestored
variable {σ : Type}

/-- The restore of the in-place strategy, relative to the duplicate strategy: for every host
that obeys the naming laws (requests of an export in place rename and move nothing, `setName`
through a handle sets that name and does not throw, `name` answers the name, the MEL `rename`
of a path renames the node at the path and moves only it and the nodes below it, the joints
listed below a node exist, are listed once and exclude the node, only an existing node has
the type `joint`, a path is selected as the node it denotes), every call of
`exportSkeletonFbx` that does not hand over to `exportSkeletonFbxViaDuplicate` ends with
every node named as before the call, whether it returns a success or a failure or is left by
an exception of the host (thrown at any request but `setName`); and a call that hands over
does so with every node named as before the call, so that it ends with these names on a host
on which the run of the duplicate strategy leaves the names as they are (`hD`). What the
duplicate strategy does to the names is not derived here. -/
theorem names_restored (F : Facade σ) (name : σ → Nat → String)
    (denote : σ → String → Option Nat) (hN : NamingLaws F name denote)
    (hD : DuplicateKeepsNames F name) (root out : String) (a b : Int)
    (opts : FbxExportOptions) (sc : σ) (h : Nat) :
    name (runFn (exportSkeletonFbx root out a b opts) {} F sc).scene h = name sc h := by
  rw [runFn_scene]
  exact congrFun (exportSkeletonFbx_names hN hD root out a b opts sc) h

theorem names_restored_witness :
    NamingLaws namedRigScene (fun sc h => sc h) rigDenote
    ∧ DuplicateKeepsNames namedRigScene (fun sc h => sc h)
    ∧ Cmd.mel "rename" ["\"|rig:Root\"", "\":Root\""]
        ∈ requests (runFn (exportSkeletonFbx "|rig:Root" "out/rig.fbx" 1 10 {}) {}
            namedRigScene rigNames).trace
    ∧ (runFn (exportSkeletonFbx "|rig:Root" "out/rig.fbx" 1 10 {}) {} namedRigScene
        rigNames).scene 0 = rigNames 0 :=
  ⟨namedRigScene_laws, namedRigScene_dup, namedRigScene_run.1,
    names_restored namedRigScene (fun sc h => sc h) rigDenote namedRigScene_laws
      namedRigScene_dup "|rig:Root" "out/rig.fbx" 1 10 {} rigNames 0⟩

end NamesRestored

/-! ## Restore in the combined pipeline (C15) -/

set_option maxRecDepth 1000000 in
/-- C15, `exportSkeletonBlendShapeFbx` at a failing run: on `meshRigScene true` the joint
`rig:Root` and the mesh transform `rig:body` both get a record, both are renamed, and the host
throws out of the `rename` of the mesh transform after it took effect. The flag
`didRenameMeshes` is still unset then, so the `catch` block restores the joint only: the call
returns `Skeleton+BlendShape export failed: unknown exception`, no `setName` is sent through
the handle of the mesh transform, and the mesh transform keeps the name `body`. On
`meshRigScene false`, where the same `rename` does not throw, both names are restored. -/
theorem mesh_not_restored_after_exception :
    ((runFn (exportSkeletonBlendShapeFbx "|rig:Root" ["|rig:body"] [] "out/rig.fbx" 1 10 {}) {}
        (meshRigScene true) meshRigNames).result.map fun r => r.errors)
      = some ["Skeleton+BlendShape export failed: unknown exception"]
    ∧ Cmd.nodeName (some 1)
        ∈ requests (runFn (exportSkeletonBlendShapeFbx "|rig:Root" ["|rig:body"] []
            "out/rig.fbx" 1 10 {}) {} (meshRigScene true) meshRigNames).trace
    ∧ Cmd.mel "rename" ["\"|rig:body\"", "\":body\""]
        ∈ requests (runFn (exportSkeletonBlendShapeFbx "|rig:Root" ["|rig:body"] []
            "out/rig.fbx" 1 10 {}) {} (meshRigScene true) meshRigNames).trace
    ∧ Cmd.setName (some 0) "rig:Root"
        ∈ requests (runFn (exportSkeletonBlendShapeFbx "|rig:Root" ["|rig:body"] []
            "out/rig.fbx" 1 10 {}) {} (meshRigScene true) meshRigNames).trace
    ∧ (requests (runFn (exportSkeletonBlendShapeFbx "|rig:Root" ["|rig:body"] []
          "out/rig.fbx" 1 10 {}) {} (meshRigScene true) meshRigNames).trace).filter
        (setsNameOf 1) = []
    ∧ (runFn (exportSkeletonBlendShapeFbx "|rig:Root" ["|rig:body"] [] "out/rig.fbx" 1 10 {}) {}
        (meshRigScene true) meshRigNames).scene 0 = meshRigNames 0
    ∧ (runFn (exportSkeletonBlendShapeFbx "|rig:Root" ["|rig:body"] [] "out/rig.fbx" 1 10 {}) {}
        (meshRigScene true) meshRigNames).scene 1 = "body"
    ∧ meshRigNames 1 = "rig:body"
    ∧ (runFn (exportSkeletonBlendShapeFbx "|rig:Root" ["|rig:body"] [] "out/rig.fbx" 1 10 {}) {}
        (meshRigScene false) meshRigNames).scene 0 = meshRigNames 0
    ∧ (runFn (exportSkeletonBlendShapeFbx "|rig:Root" ["|rig:body"] [] "out/rig.fbx" 1 10 {}) {}
        (meshRigScene false) meshRigNames).scene 1 = meshRigNames 1 := by
  decide!

set_option maxRecDepth 100000 in
/-- C12, a run in which the error does not name the node: the node `|cam` does not exist and
the host throws nothing, but the FBX plugin cannot be loaded. Every entry point makes the
plugin check first and returns `success = false` with the one error
"fbxmaya plugin load failed"; the existence of the node is never asked. -/
theorem plugin_failure_hides_missing_node :
    NoFault noPluginScene ∧ Missing noPluginScene "|cam"
    ∧ (runFn (exportCameraFbx "|cam" "out/a.fbx" 1 10 {}) {} noPluginScene ()).result
        = some (makeResult false "out/a.fbx" 0 0 [] ["fbxmaya plugin load failed"])
    ∧ (runFn (exportSkeletonFbx "|cam" "out/a.fbx" 1 10 {}) {} noPluginScene ()).result
        = some (makeResult false "out/a.fbx" 0 0 [] ["fbxmaya plugin load failed"])
    ∧ (runFn (exportBlendShapeFbx "|cam" "out/a.fbx" 1 10 {}) {} noPluginScene ()).result
        = some (makeResult false "out/a.fbx" 0 0 [] ["fbxmaya plugin load failed"])
    ∧ (runFn (exportSkeletonBlendShapeFbx "|cam" [] [] "out/a.fbx" 1 10 {}) {}
          noPluginScene ()).result
        = some (makeResult false "out/a.fbx" 0 0 [] ["fbxmaya plugin load failed"])
    ∧ Cmd.mel "objExists" [q "|cam"]
        ∉ requests (runFn (exportCameraFbx "|cam" "out/a.fbx" 1 10 {}) {} noPluginScene ()).trace :=
  ⟨by intro sc c; unfold noPluginScene; split <;> rfl, fun _ => rfl,
    by decide!, by decide!, by decide!, by decide!, by decide!⟩

section Residual
variable {σ : Type}

/-- The warnings of `exportSkeletonBlendShapeFbx` only grow. -/
theorem sbsGrow_refl (l : SkelBsLocals) : ∀ w ∈ l.warnings, w ∈ l.warnings := fun _ h => h

/-- `buildSelection` sends one `sel.add` for every name, and nothing else. -/
theorem buildSelection_sent {L ρ : Type} (F : Facade σ) (hF : NoFault F) (names : List String) :
    ∀ (s : Run σ L),
      wp F (buildSelection names : M σ L ρ (List MObject))
        (fun o s1 => ∃ sel t, o = .val sel ∧ s1.trace = s.trace ++ t ∧ s1.loc = s.loc
          ∧ (∀ x ∈ t, ∃ n ∈ names, x.1 = .selAdd n)
          ∧ (∀ n ∈ names, ∃ x ∈ t, x.1 = .selAdd n)) s := by
  induction names with
  | nil =>
    intro s
    show wp F (M.pure []) _ s
    rw [wp_pure]
    exact ⟨[], [], rfl, (List.append_nil _).symm, rfl,
      (fun _ h => absurd h (List.not_mem_nil _)), (fun _ h => absurd h (List.not_mem_nil _))⟩
  | cons n rest ih =>
    intro s
    show wp F (M.bind (M.call (.selAdd n)) fun r =>
      M.bind (buildSelection rest) fun tail => M.pure (if r.ok then r.obj :: tail else tail)) _ s
    refine wp_bind_callN hF ?_
    rw [wp_bind]
    refine wp_mono (ih _) ?_
    rintro o s1 ⟨sel, t, rfl, e1, e2, h1, h2⟩
    simp only []
    rw [wp_pure]
    refine ⟨_, (Cmd.selAdd n, (F s.scene (.selAdd n)).1) :: t, rfl, ?_, e2, ?_, ?_⟩
    · rw [e1]
      show s.trace ++ [_] ++ t = _
      rw [List.append_assoc]
      rfl
    · intro x hx
      rcases List.mem_cons.1 hx with h | h
      · exact ⟨n, List.mem_cons_self _ _, by rw [h]⟩
      · obtain ⟨m, hm, e⟩ := h1 x h
        exact ⟨m, List.mem_cons_of_mem _ hm, e⟩
    · intro m hm
      rcases List.mem_cons.1 hm with h | h
      · exact ⟨_, List.mem_cons_self _ _, by rw [h]⟩
      · obtain ⟨x, hx, e⟩ := h2 m h
        exact ⟨x, List.mem_cons_of_mem _ hx, e⟩

/-- The end of a function body that is calm, carries the warnings and sends the request:
it returns a result that holds the warnings gathered before, and the requests it has added
hold the request. -/
theorem wp_tail {C : Cmd → Prop} {p : Cmd → Prop} {F : Facade σ}
    {m : M σ SkelBsLocals ExportResult Empty}
    (hc : Calm C (LocRel.any SkelBsLocals) m) (hw : Carry SkelBsLocals.warnings m)
    (hs : Sends p m) (hF : NoFault F) (s : Run σ SkelBsLocals) :
    wp F m (fun o s1 => ∃ r t, o = .ret r ∧ s1.trace = s.trace ++ t ∧ (∀ x ∈ t, C x.1)
      ∧ (∃ x ∈ t, p x.1) ∧ ∀ w ∈ s.loc.warnings, w ∈ r.warnings) s := by
  have h1 := wp_of_calm_sends hc hs hF s
  have h2 := hw.out F s
  unfold wp at h1 ⊢
  obtain ⟨⟨r, hr⟩, E, t, et, hx⟩ := h1
  obtain ⟨_, t2, e2, hk, _, _⟩ := E
  have ht : t = t2 := List.append_cancel_left (et.symm.trans e2)
  exact ⟨r, t2, hr, e2, hk, ht ▸ hx, h2 r hr⟩

end Residual

section Residual
variable {σ : Type}

theorem afterCheck_of_selectPhase (c : Cmd) (h : isSelectPhase c = true) :
    isAfterCheck c = true ∧ c.kind ≠ .export := by
  unfold isSelectPhase at h
  rw [Bool.and_eq_true] at h
  exact ⟨h.1, by simpa using h.2⟩

theorem afterCheck_spec (c : Cmd) (h : isAfterCheck c = true) :
    c.kind ∈ combinedKinds ∧ isJointQuery c = false := by
  unfold isAfterCheck at h
  rw [Bool.and_eq_true] at h
  exact ⟨List.mem_of_elem_eq_true h.1, by simpa using h.2⟩

/-- The steps between the residual-namespace check and the selection: queries and the renames
of the mesh transforms; the warnings only grow. -/
theorem quiet_sel_collect (joints : List String) :
    Quiet (fun c => isSelectPhase c = true) SbsGrow
      (collectSkinnedMeshTransformsForJoints joints :
        M σ SkelBsLocals ExportResult (List String)) := by
  unfold collectSkinnedMeshTransformsForJoints skinClustersOfJoints meshTransformsOfSkin
  simp only [M.bind_def, M.pure_def, melQueryStringArray, melQueryString]
  repeat' first
    | apply quiet_bind | apply quiet_pure | apply quiet_ite | apply quiet_foldM
    | intro _
    | (apply quiet_call; rfl)
    | split

theorem quiet_sel_reAdd (rootJoint : String) (skinned bsMeshes : List String) :
    Quiet (fun c => isSelectPhase c = true) SbsGrow
      (reAddBsMeshes rootJoint skinned bsMeshes :
        M σ SkelBsLocals ExportResult (List String)) := by
  unfold reAddBsMeshes acceptResolved nodeExists melQueryInt
  simp only [M.bind_def, M.pure_def, melQueryStringArray, melQueryString]
  repeat' first
    | apply quiet_bind | apply quiet_pure | apply quiet_ite | apply quiet_foldM
    | intro _
    | (apply quiet_call; rfl)
    | split

theorem quiet_sel_renameMeshes (skinned : List String) :
    Quiet (fun c => isSelectPhase c = true) SbsGrow
      (renameMeshes skinned : M σ SkelBsLocals ExportResult Unit) := by
  unfold renameMeshes
  simp only [M.bind_def, M.pure_def, melQueryStringArray, melQueryString]
  repeat' first
    | apply quiet_bind | apply quiet_pure | apply quiet_ite | apply quiet_forEach
    | apply quiet_when
    | intro _
    | (apply quiet_call; rfl)
    | (apply quiet_modifyL; intro _ _ hw; exact hw)
    | split

end Residual

section Residual
variable {σ : Type}

/-- A quiet step before the residual-namespace check. -/
theorem wp_preQ {α β : Type} {ks : List Kind} {F : Facade σ}
    {m : M σ SkelBsLocals ExportResult α} {f : α → M σ SkelBsLocals ExportResult β}
    {post : Out ExportResult β → Run σ SkelBsLocals → Prop} {s0 s : Run σ SkelBsLocals}
    (hq : Quiet (OfKinds ks) (LocRel.any SkelBsLocals) m) (hk : ∀ k ∈ ks, k ∈ beforeCheckKinds)
    (hF : NoFault F)
    (E : Extends F (OfKinds beforeCheckKinds) (LocRel.any SkelBsLocals) s0 s)
    (h : ∀ x s1, Extends F (OfKinds beforeCheckKinds) (LocRel.any SkelBsLocals) s0 s1 →
      wp F (f x) post s1) :
    wp F (M.bind m f) post s :=
  wp_stepQ hq (ofKinds_mono hk) hF E (fun x s1 E1 _ => h x s1 E1)

/-- A quiet step between the check and the selection. -/
theorem wp_selQ {α β : Type} {F : Facade σ}
    {m : M σ SkelBsLocals ExportResult α} {f : α → M σ SkelBsLocals ExportResult β}
    {post : Out ExportResult β → Run σ SkelBsLocals → Prop} {s0 s : Run σ SkelBsLocals}
    (hq : Quiet (fun c => isSelectPhase c = true) SbsGrow m) (hF : NoFault F)
    (E : Extends F (fun c => isSelectPhase c = true) SbsGrow s0 s)
    (h : ∀ x s1, Extends F (fun c => isSelectPhase c = true) SbsGrow s0 s1 →
      wp F (f x) post s1) :
    wp F (M.bind m f) post s :=
  wp_bind_quietN hq hF (fun x s1 he => h x s1 (extends_trans E he))

/-- The search for the root joint on a node that is a joint: one `nodeType` query, and the
node itself is the root. -/
theorem findRootJoint_joint {β : Type} (F : Facade σ) (hF : NoFault F) (root : String)
    (hj : IsJoint F root)
    (f : Option (String × List String) → M σ SkelBsLocals ExportResult β)
    (post : Out ExportResult β → Run σ SkelBsLocals → Prop) (s0 s : Run σ SkelBsLocals)
    (E : Extends F (OfKinds beforeCheckKinds) (LocRel.any SkelBsLocals) s0 s)
    (h : ∀ s1, Extends F (OfKinds beforeCheckKinds) (LocRel.any SkelBsLocals) s0 s1 →
      wp F (f (some (root, []))) post s1) :
    wp F (M.bind (findRootJoint root) f) post s := by
  unfold findRootJoint
  simp only [M.bind_def, M.pure_def, melQueryString, M.bind_assoc, M.pure_bind]
  refine wp_stepC hF (ofKinds_of_kind .query rfl (by decide)) E (fun s1 E1 _ _ => ?_)
  rw [hj]
  simp only [ne_eq, not_true_eq_false, if_false, M.pure_bind]
  exact h s1 E1

end Residual

section Residual
variable {σ : Type}

theorem beforeCheck_combined (k : Kind) (h : k ∈ beforeCheckKinds) : k ∈ combinedKinds := by
  revert k
  decide

theorem carry_getL_ite_ret {L α : Type} {w : L → List String} {c : L → Prop}
    [∀ l, Decidable (c l)] {f g : L → ExportResult}
    (hf : ∀ l, ∀ x ∈ w l, x ∈ (f l).warnings) (hg : ∀ l, ∀ x ∈ w l, x ∈ (g l).warnings) :
    Carry w (M.bind M.getL (fun l =>
      if c l then (M.ret (f l) : M σ L ExportResult α) else M.ret (g l))) := by
  constructor
  · intro F s
    rw [M.run_bind, M.run_getL]
    simp only []
    split <;> rw [M.run_ret] <;> exact fun _ hx => hx
  · intro F s r hr
    rw [M.run_bind, M.run_getL] at hr
    simp only [] at hr
    split at hr <;> rw [M.run_ret] at hr <;> cases hr
    · exact hf _
    · exact hg _

theorem exportSkeletonBlendShapeFbxBody_residual (F : Facade σ) (hF : NoFault F)
    (root : String) (hj : IsJoint F root) (bsMeshes bsWeightAttrs : List String) (out : String)
    (a b : Int) (opts : FbxExportOptions) (t0 : Int) (s0 s : Run σ SkelBsLocals)
    (h0 : s0.trace = [])
    (E : Extends F (OfKinds beforeCheckKinds) (LocRel.any SkelBsLocals) s0 s) :
    wp F (exportSkeletonBlendShapeFbxBody root bsMeshes bsWeightAttrs out a b opts t0)
      (fun o s1 => ∃ r, o = .ret r ∧ ResidualExported out
        { result := some r, scene := s1.scene, trace := s1.trace }) s := by
  unfold exportSkeletonBlendShapeFbxBody
  simp only [M.bind_def, M.pure_def, isEmpty_concat, when_false]
  refine findRootJoint_joint F hF root hj _ _ s0 s E (fun s1 E1 => ?_)
  simp only []
  refine wp_stepL E1 (fun s2 E2 _ _ => ?_)
  refine wp_preQ (quiet_getDependNode _) (by decide) hF E2 (fun rootObj s3 E3 => ?_)
  refine wp_preQ (quiet_fullPathName _) (by decide) hF E3 (fun rootJoint0 s4 E4 => ?_)
  refine wp_preQ (quiet_isReferencedNode _) (by decide) hF E4 (fun _ s5 E5 => ?_)
  refine wp_preQ (quiet_melQueryStringArray .query _ _ rfl) (by decide) hF E5
    (fun desc s6 E6 => ?_)
  refine wp_preQ (quiet_collectSkinnedMeshTransformsForJoints _) (by decide) hF E6
    (fun skinned0 s7 E7 => ?_)
  refine wp_preQ (?_ : Quiet (OfKinds [.query]) (LocRel.any SkelBsLocals) _) (by decide) hF E7 (fun skinned1 s8 E8 => ?_)
  · unfold addBsMeshes nodeExists melQueryInt sbsWarn
    simp only [M.bind_def, M.pure_def]
    repeat' first
      | apply quiet_bind | apply quiet_pure | apply quiet_ite | apply quiet_foldM
      | intro _
      | (apply quiet_callK; rfl)
      | (apply quiet_modifyL; intro _; trivial)
      | split
  rw [M.pure_bind]
  refine wp_preQ (?_ : Quiet (OfKinds [.query]) (LocRel.any SkelBsLocals) _) (by decide) hF E8 (fun keyed s9 E9 => ?_)
  · unfold countKeyed melQueryInt
    simp only [M.bind_def, M.pure_def]
    repeat' first
      | apply quiet_bind | apply quiet_pure | apply quiet_foldM
      | intro _
      | (apply quiet_callK; rfl)
  refine wp_preQ (quiet_when (quiet_modifyL (fun _ => trivial)) :
      Quiet (OfKinds [.query]) (LocRel.any SkelBsLocals) _) (by decide)
    hF E9 (fun _ s10 E10 => ?_)
  refine wp_preQ (quiet_buildSelection _) (by decide) hF E10 (fun jSel s11 E11 => ?_)
  refine wp_preQ (?_ : Quiet (OfKinds [.query]) (LocRel.any SkelBsLocals) _) (by decide) hF E11 (fun _ s12 E12 => ?_)
  · unfold buildNodeRecs
    simp only [M.bind_def, M.pure_def]
    repeat' first
      | apply quiet_bind | apply quiet_pure | apply quiet_forEach
      | intro _
      | (apply quiet_callK; rfl)
      | (apply quiet_modifyL; intro _; trivial)
  refine wp_preQ (quiet_buildSelection _) (by decide) hF E12 (fun mSel s13 E13 => ?_)
  refine wp_preQ (?_ : Quiet (OfKinds [.query]) (LocRel.any SkelBsLocals) _) (by decide) hF E13 (fun _ s14 E14 => ?_)
  · unfold buildNodeRecs
    simp only [M.bind_def, M.pure_def]
    repeat' first
      | apply quiet_bind | apply quiet_pure | apply quiet_forEach
      | intro _
      | (apply quiet_callK; rfl)
      | (apply quiet_modifyL; intro _; trivial)
  refine wp_preQ (quiet_when (quiet_modifyL (fun _ => trivial)) :
      Quiet (OfKinds [.query]) (LocRel.any SkelBsLocals) _) (by decide)
    hF E14 (fun _ s15 E15 => ?_)
  refine wp_preQ (?_ : Quiet (OfKinds [.query, .rename]) (LocRel.any SkelBsLocals) _) (by decide) hF E15 (fun rootJoint s16 E16 => ?_)
  · unfold renameJoints sbsWarn fullPathName
    simp only [M.bind_def, M.pure_def, melQueryString]
    repeat' first
      | apply quiet_bind | apply quiet_pure | apply quiet_ite | apply quiet_foldM
      | apply quiet_when
      | intro _
      | (apply quiet_callK; rfl)
      | (apply quiet_modifyL; intro _; trivial)
      | split
  -- the residual-namespace check
  have hjq : (melQueryStringArray "listRelatives"
      ["-allDescendents", "-type", "\"joint\"", "-fullPath", q rootJoint] :
        M σ SkelBsLocals ExportResult (List String))
      = M.bind (M.call (jointQuery rootJoint)) (fun r => M.pure r.arr) := rfl
  rw [hjq, M.bind_assoc]
  refine wp_bind_callN hF ?_
  rw [M.pure_bind]
  generalize (F s16.scene (jointQuery rootJoint)).1 = ans
  generalize (F s16.scene (jointQuery rootJoint)).2 = sc17
  have hpre : ∀ x ∈ s16.trace, x.1.kind ∈ beforeCheckKinds := kinds_of_extends h0 E16
  generalize hW : residualWarning (namespacedCount (ans.arr ++ [rootJoint])) = W
  have hWs : toString (namespacedCount (ans.arr ++ [rootJoint]))
      ++ " joint(s) still have namespace prefixes after rename" = W := hW
  rw [hWs]
  -- the warning
  have hwarn : ∀ {β : Type} (f : Unit → M σ SkelBsLocals ExportResult β)
      (post : Out ExportResult β → Run σ SkelBsLocals → Prop) (s : Run σ SkelBsLocals)
      (c : Bool),
      (∀ s1 : Run σ SkelBsLocals, s1.trace = s.trace → (c = true → W ∈ s1.loc.warnings) →
        wp F (f ()) post s1) →
      wp F (M.bind (M.when c (sbsWarn W)) f) post s := by
    intro β f post s c h
    rw [wp_bind, wp_when]
    cases c
    · simp only [Bool.false_eq_true, if_false]
      exact h s rfl (fun hc => Bool.noConfusion hc)
    · simp only [if_true]
      unfold sbsWarn
      rw [wp_modifyL]
      exact h _ rfl (fun _ => List.mem_append_right _ (List.mem_singleton.2 rfl))
  refine hwarn _ _ _ _ (fun s18 e18 hw18 => ?_)
  have E18 : Extends F (fun c => isSelectPhase c = true) SbsGrow s18 s18 :=
    extends_refl F _ _ s18
  refine wp_selQ (quiet_sel_collect _) hF E18 (fun skinned2 s19 E19 => ?_)
  refine wp_selQ (quiet_sel_reAdd _ _ _) hF E19 (fun skinned3 s20 E20 => ?_)
  refine wp_selQ (quiet_sel_renameMeshes _) hF E20 (fun _ s21 E21 => ?_)
  refine wp_selQ quiet_getL hF E21 (fun l21 s22 E22 => ?_)
  refine wp_selQ (quiet_ite (quiet_sel_collect _) (quiet_pure _)) hF E22
    (fun skinned s23 E23 => ?_)
  refine wp_selQ (quiet_when (quiet_modifyL (fun _ w hw => List.mem_append_left _ hw)) :
    Quiet (fun c => isSelectPhase c = true) SbsGrow (M.when _ (sbsWarn _))) hF E23
    (fun _ s24 E24 => ?_)
  rw [wp_bind]
  refine wp_mono (buildSelection_sent F hF _ s24) ?_
  rintro o s25 ⟨sel, tb, rfl, e25, l25, hb1, hb2⟩
  simp only []
  refine wp_mono (wp_tail (C := fun c => isAfterCheck c = true)
    (p := fun c => c = fbxExportCmd out) ?_ ?_ ?_ hF s25) ?_
  · simp only [melExec, sbsWarn, debugSelectionSnapshot, setFbxExportDefaults, setFbxBakeRange,
      fbxExport, now, fileSizeOrZero, fileExistsOnDisk, getFileSize, scanFbxContent,
      restoreAfterExport, restoreChanged, residueCheck, melQueryStringArray,
      M.bind_def, M.pure_def]
    repeat' first
      | apply calm_bind
      | apply calm_ret
      | apply calm_when
      | apply calm_ite
      | intro _
      | exact calm_of_quiet (quiet_pure _)
      | exact calm_of_quiet quiet_getL
      | exact calm_of_quiet (quiet_call rfl)
      | exact calm_of_quiet (quiet_modifyL (fun _ => trivial))
      | (apply calm_of_quiet
         apply quiet_forEach
         (repeat' first
            | apply quiet_bind | apply quiet_pure | apply quiet_when
            | intro _
            | (apply quiet_call; rfl))
         done)
      | split
  · simp only [melExec, sbsWarn, debugSelectionSnapshot, setFbxExportDefaults, setFbxBakeRange,
      fbxExport, now, fileSizeOrZero, fileExistsOnDisk, getFileSize, scanFbxContent,
      restoreAfterExport, restoreChanged, residueCheck, melQueryStringArray,
      M.bind_def, M.pure_def]
    repeat' first
      | (apply carry_getL_ite_ret <;> (intro l x hx; exact hx))
      | (apply carry_getL_ret; intro l x hx; exact hx)
      | apply carry_bind
      | apply carry_when
      | apply carry_ite
      | apply carry_forEach
      | intro _
      | exact carry_pure _
      | exact carry_getL
      | exact carry_call _
      | (apply carry_modifyL; intro l x hx
         first | exact hx | exact List.mem_append_left _ hx)
      | split
  · repeat' first
      | (refine sends_bind_left (C := fun _ => True) (R := LocRel.any SkelBsLocals)
          (sends_fbxExport out) (fun _ => ?_)
         simp only [now, fileSizeOrZero, fileExistsOnDisk, getFileSize, sbsWarn,
           restoreAfterExport, restoreChanged, residueCheck, scanFbxContent,
           M.bind_def, M.pure_def]
         repeat' first
          | apply calm_bind
          | apply calm_ret
          | apply calm_ite
          | apply calm_when
          | intro _
          | exact calm_of_quiet (quiet_pure _)
          | exact calm_of_quiet quiet_getL
          | exact calm_of_quiet (quiet_call trivial)
          | exact calm_of_quiet (quiet_modifyL (fun _ => trivial))
          | (apply calm_of_quiet
             apply quiet_forEach
             (repeat' first
                | apply quiet_bind | apply quiet_pure | apply quiet_when
                | intro _
                | (apply quiet_call; trivial))
             done)
          | split)
      | (refine sends_bind_right (C := fun _ => True) (R := LocRel.any SkelBsLocals) ?_
          (fun _ => ?_)
         · repeat' first
            | exact quiet_mono (fun _ _ => trivial) quiet_debugSelectionSnapshot
            | exact quiet_mono (fun _ _ => trivial) quiet_setFbxExportDefaults
            | exact quiet_mono (fun _ _ => trivial) (quiet_setFbxBakeRange _ _)
            | exact quiet_mono (fun _ _ => trivial) (quiet_melExec _ _ _ rfl)
            | apply quiet_bind | apply quiet_pure | apply quiet_getL | apply quiet_when
            | apply quiet_ite
            | intro _
            | (apply quiet_call; trivial)
            | (apply quiet_modifyL; intro _; trivial))
  · rintro o s26 ⟨r, t, rfl, e26, hk, hx, hw⟩
    obtain ⟨tm, e24, hm, -, -⟩ := E24.steps
    have hL := E24.loc
    have htr : s26.trace = s16.trace ++ (jointQuery rootJoint, ans) :: ((tm ++ tb) ++ t) := by
      rw [e26, e25, e24, e18]
      simp only [List.append_assoc, List.singleton_append, List.cons_append, List.nil_append]
    refine ⟨r, rfl, r, s16.trace, rootJoint, ans, tm ++ tb, t, rfl, htr, ?_, ?_, ?_, ?_, ?_, hx,
      ?_⟩
    · intro x hx1
      simp only [] at hx1
      rw [htr] at hx1
      rcases List.mem_append.1 hx1 with h | h
      · exact beforeCheck_combined _ (hpre x h)
      rcases List.mem_cons.1 h with h | h
      · rw [h]
        exact ofKinds_of_kind .query rfl (by decide)
      rcases List.mem_append.1 h with h | h
      · rcases List.mem_append.1 h with h | h
        · exact (afterCheck_spec _ (afterCheck_of_selectPhase _ (hm x h)).1).1
        · obtain ⟨n, -, e⟩ := hb1 x h
          rw [e]
          exact ofKinds_of_kind .query rfl (by decide)
      · exact (afterCheck_spec _ (hk x h)).1
    · intro x hx1 e
      have := hpre x hx1
      rw [e] at this
      revert this
      decide
    · intro x hx1
      rcases List.mem_append.1 hx1 with h | h
      · rcases List.mem_append.1 h with h | h
        · exact (afterCheck_spec _ (afterCheck_of_selectPhase _ (hm x h)).1).2
        · obtain ⟨n, -, e⟩ := hb1 x h
          rw [e]
          rfl
      · exact (afterCheck_spec _ (hk x h)).2
    · intro x hx1
      rcases List.mem_append.1 hx1 with h | h
      · exact (afterCheck_of_selectPhase _ (hm x h)).2
      · obtain ⟨n, -, e⟩ := hb1 x h
        rw [e]
        exact fun e1 => nomatch e1
    · intro j hj1
      obtain ⟨x, hx1, e⟩ := hb2 j (List.mem_append_left _ hj1)
      exact ⟨x, List.mem_append_right _ hx1, e⟩
    · intro hpos
      rw [hW]
      apply hw
      rw [l25]
      exact hL _ (hw18 (decide_eq_true hpos))

end Residual

section Residual
variable {σ : Type}

theorem exportSkeletonBlendShapeFbx_spec (F : Facade σ) (hF : NoFault F) (hp : PluginReady F)
    (root : String) (hn : Present F root) (hj : IsJoint F root)
    (bsMeshes bsWeightAttrs : List String) (out : String) (a b : Int) (opts : FbxExportOptions)
    (sc : σ) :
    wp F (exportSkeletonBlendShapeFbx root bsMeshes bsWeightAttrs out a b opts)
      (fun o s1 => ∃ r, o = .ret r ∧ ResidualExported out
        { result := some r, scene := s1.scene, trace := s1.trace })
      { scene := sc, trace := [], loc := {} } := by
  unfold exportSkeletonBlendShapeFbx
  simp only [M.bind_def, M.pure_def]
  refine precheck_present F hF hp root out _ hn _ _ _ (fun t0 s1 E1 _ => ?_)
  have E1b : Extends F (OfKinds beforeCheckKinds) (LocRel.any SkelBsLocals)
      (Run.mk sc [] ({} : SkelBsLocals)) s1 :=
    extends_mono (ofKinds_mono (by decide)) E1
  refine wp_preQ (quiet_ensureOutDir out) (by decide) hF E1b (fun _ s2 E2 => ?_)
  rw [wp_tryCatch]
  refine wp_mono (exportSkeletonBlendShapeFbxBody_residual F hF root hj bsMeshes bsWeightAttrs
    out a b opts t0 _ s2 rfl E2) ?_
  rintro o s3 ⟨r, rfl, h⟩
  exact ⟨r, rfl, h⟩

/-- C16, as the code has it: against a host that throws nothing, with the plugin loaded or
loadable and a root that exists and is a joint, every call of `exportSkeletonBlendShapeFbx`
returns, and no request creates, deletes, reparents or constrains a node, so the duplicate
strategy is never run. The requests split at the last listing of the joints, which is the
residual-namespace check: nothing is exported before it; after it every listed joint and the
root are added to the selection list and then `FBXExport` is sent for the output path; and
when the leaf of a listed joint still holds a namespace, the call only adds the warning
`<n> joint(s) still have namespace prefixes after rename` to its result. -/
theorem residual_namespaces_warn_and_export (F : Facade σ) (hF : NoFault F)
    (hp : PluginReady F) (root : String) (hn : Present F root) (hj : IsJoint F root)
    (bsMeshes bsWeightAttrs : List String) (out : String) (a b : Int) (opts : FbxExportOptions)
    (sc : σ) :
    ResidualExported out
      (runFn (exportSkeletonBlendShapeFbx root bsMeshes bsWeightAttrs out a b opts) {} F sc) :=
  runFn_of_wp (exportSkeletonBlendShapeFbx_spec F hF hp root hn hj bsMeshes bsWeightAttrs
    out a b opts sc)

end Residual

set_option maxRecDepth 1000000 in
/-- The combined pipeline on the rig whose joints keep their namespace: the hypotheses hold,
the only requests that rename, create or export are the two failed renames and one
`FBXExport`, and the call returns `success = true`. -/
theorem residual_namespaces_warn_and_export_witness :
    (PluginReady lockedRigScene ∧ Present lockedRigScene "|ns:Root"
      ∧ IsJoint lockedRigScene "|ns:Root"
      ∧ strategySteps (runFn (exportSkeletonBlendShapeFbx "|ns:Root" [] [] "out/rig.fbx" 1 24 {})
          {} lockedRigScene ()).trace
        = [.mel "rename" ["\"|ns:Root|ns:spine\"", "\":spine\""],
           .mel "rename" ["\"|ns:Root\"", "\":Root\""],
           fbxExportCmd "out/rig.fbx"]
      ∧ ((runFn (exportSkeletonBlendShapeFbx "|ns:Root" [] [] "out/rig.fbx" 1 24 {})
          {} lockedRigScene ()).result.map fun r => (r.success, r.warnings.take 2))
        = some (true,
            ["Failed to rename 2 joint(s) — exported bone names may contain namespace prefixes",
             "2 joint(s) still have namespace prefixes after rename"]))
    ∧ ResidualExported "out/rig.fbx"
        (runFn (exportSkeletonBlendShapeFbx "|ns:Root" [] [] "out/rig.fbx" 1 24 {}) {}
          lockedRigScene ()) :=
  ⟨⟨fun | () => Or.inl (by decide), fun | () => by decide, fun _ => rfl, by decide!, by decide!⟩,
    residual_namespaces_warn_and_export lockedRigScene lockedRigScene_noFault
      (fun | () => Or.inl (by decide)) "|ns:Root" (fun | () => by decide) (fun _ => rfl) [] []
      "out/rig.fbx" 1 24 {} ()⟩

/-! ## Root bone name -/

/-- C5: a name whose ASCII-lowercased form is `root` is returned unchanged by
`normalizeRootBoneName`. -/
theorem normalizeRootBoneName_keeps_root (s : String)
    (h : String.mk (s.data.map tolower) = "root") : normalizeRootBoneName s = s := by
  unfold normalizeRootBoneName
  split
  · rfl
  · simp [h]

/-- C5 at `Root`, `root` and `ROOT`. -/
theorem normalizeRootBoneName_keeps_root_witness :
    (String.mk (("Root" : String).data.map tolower) = "root" ∧ normalizeRootBoneName "Root" = "Root")
    ∧ normalizeRootBoneName "root" = "root" ∧ normalizeRootBoneName "ROOT" = "ROOT" :=
  ⟨⟨by decide, normalizeRootBoneName_keeps_root "Root" (by decide)⟩, by decide, by decide⟩

/-- C6 fails at the empty name: `normalizeRootBoneName ""` is `""`, not `Root`, although the
lowercased empty name is not `root`. -/
theorem normalizeRootBoneName_empty_not_Root :
    String.mk (("" : String).data.map tolower) ≠ "root" ∧ normalizeRootBoneName "" ≠ "Root" := by
  decide

/-- C6 amended: a non-empty name whose ASCII-lowercased form is not `root` is mapped to
`Root`, and the empty name is returned unchanged. -/
theorem normalizeRootBoneName_other (s : String) :
    (s.data ≠ [] → String.mk (s.data.map tolower) ≠ "root" → normalizeRootBoneName s = "Root")
    ∧ normalizeRootBoneName "" = "" := by
  refine ⟨fun hne hlow => ?_, by decide⟩
  unfold normalizeRootBoneName
  simp [hne, hlow]

/-- C6 amended at `Pelvis`. -/
theorem normalizeRootBoneName_other_witness :
    ("Pelvis" : String).data ≠ [] ∧ String.mk (("Pelvis" : String).data.map tolower) ≠ "root"
    ∧ normalizeRootBoneName "Pelvis" = "Root" :=
  ⟨by decide, by decide, (normalizeRootBoneName_other "Pelvis").1 (by decide) (by decide)⟩

end AnimExporter
